import Mathlib

/-!
# BitParser: bit-stream cursor, scalar codecs and record codec

A shallow embedding of `src/Stream.c`, `src/UParser.c` and `src/BitParser.c`.

Conventions of the embedding.

* A byte is a natural number; every `(uint8_t)` cast of the source is an explicit `% 256`.
* `size_t` quantities are natural numbers.  The source only subtracts them where the minuend is
  the larger one as long as the cursor invariant `bit_index ≤ bit_len` holds.  Where the source
  adds or multiplies a value of the caller before any bounds check (the length of an array in
  bits, the target of a `PAD`, the total of `BitParser_GetLengthBit`), the result is reduced
  `% 2 ^ 64`: `size_t` has 64 bits.
* `uint64_t` values are natural numbers reduced `% 2 ^ 64`, `int64_t` values are integers.
* A pointer to a byte array is the list of bytes it points to; `p + k` is `List.drop k`.
  An in/out pointer argument is passed as its old content and returned as its new content.
* The host is little-endian (the byte-wise `memcpy` between integers in `UParser.c` keeps the
  low-order bytes, which is what the unit tests of the repository rely on).
* The two `for` loops of `Stream.c` whose trip count is not syntactically bounded carry a fuel
  argument; running out of fuel is `none`.
* A definition whose name ends in `_trace` is the code of the function named before it,
  returning in addition the iterations of the fragment loop or the indices of the accesses to a
  local array; each is proved to be the plain function once that record is dropped.
-/

namespace BitParser

/-! ## Stream.h -/

/-- The macro `MIN(x, y)` of `Stream.h`. -/
def MIN (x y : Nat) : Nat := if x < y then x else y

/-- The constant `BITS_IN_BYTE` of `Stream.h`. -/
def BITS_IN_BYTE : Nat := 8

/-- Stream mode type of `Stream.h`. -/
inductive Stream_Mode_T where
  | BIG
  | LITTLE
deriving DecidableEq, Repr

/-- Modelled from the spec: the header `BitParserError.h` is absent; these are the status values
the sources under `src/` use (section 7 of the specification: success, buffer too short,
cursor not aligned). -/
inductive Status_T where
  | STATUS_SUCCESS
  | ERROR_STREAM_TOO_SHORT
  | ERROR_STREAM_NOT_ALIGNED
deriving DecidableEq, Repr

/-- The structure `Stream_T` of `Stream.h`. -/
structure Stream_T where
  p_buffer : List Nat
  bit_len : Nat
  bit_index : Nat
  mode : Stream_Mode_T
deriving DecidableEq, Repr

open Stream_Mode_T Status_T

/-! ## Memory helpers -/

/-- Read of `p[i]`. -/
def byteAt (p : List Nat) (i : Nat) : Nat := p.getD i 0

/-- The library call `memcpy(dst + off, src, len)` on byte arrays. -/
def memcpy (dst : List Nat) (off : Nat) (src : List Nat) (len : Nat) : List Nat :=
  dst.take off ++ src.take len ++ dst.drop (off + len)

/-! ## Stream.c -/

/-- The macro `BYTE_INDEX(x)`. -/
def BYTE_INDEX (x : Nat) : Nat := x / BITS_IN_BYTE

/-- The macro `BIT_IN_BYTE(x)`. -/
def BIT_IN_BYTE (x : Nat) : Nat := x % BITS_IN_BYTE

def Stream_Init (p_buffer : List Nat) (len : Nat) (mode : Stream_Mode_T) : Stream_T :=
  { p_buffer := p_buffer, bit_len := len * BITS_IN_BYTE, bit_index := 0, mode := mode }

def Stream_GetMode (p_self : Stream_T) : Stream_Mode_T := p_self.mode

def Stream_GetSize (p_self : Stream_T) : Nat := p_self.bit_len / BITS_IN_BYTE

def Stream_GetSizeBits (p_self : Stream_T) : Nat := p_self.bit_len

def Stream_GetLeft (p_self : Stream_T) : Nat :=
  (p_self.bit_len - p_self.bit_index) / BITS_IN_BYTE

def Stream_GetLeftBits (p_self : Stream_T) : Nat := p_self.bit_len - p_self.bit_index

def Stream_GetLeftBitsInByte (p_self : Stream_T) : Nat :=
  Stream_GetLeftBits p_self % BITS_IN_BYTE

def Stream_Tell (p_self : Stream_T) : Nat := BYTE_INDEX p_self.bit_index

def Stream_TellBit (p_self : Stream_T) : Nat := p_self.bit_index

def Stream_TellBitInByte (p_self : Stream_T) : Nat := BIT_IN_BYTE p_self.bit_index

def Stream_SetMode (p_self : Stream_T) (mode : Stream_Mode_T) : Status_T × Stream_T :=
  if p_self.mode = mode then (STATUS_SUCCESS, p_self)
  else if Stream_TellBitInByte p_self ≠ 0 then (ERROR_STREAM_NOT_ALIGNED, p_self)
  else (STATUS_SUCCESS, { p_self with mode := mode })

def Stream_Seek (p_self : Stream_T) (index : Nat) : Status_T × Stream_T :=
  if index ≥ Stream_GetSize p_self then (ERROR_STREAM_TOO_SHORT, p_self)
  else (STATUS_SUCCESS, { p_self with bit_index := index * BITS_IN_BYTE })

def Stream_SeekBit (p_self : Stream_T) (bit_index : Nat) : Status_T × Stream_T :=
  if bit_index > Stream_GetSizeBits p_self then (ERROR_STREAM_TOO_SHORT, p_self)
  else (STATUS_SUCCESS, { p_self with bit_index := bit_index })

def Stream_SeekBitInByte (p_self : Stream_T) (bit_index : Nat) : Status_T × Stream_T :=
  (STATUS_SUCCESS, { p_self with bit_index := Stream_Tell p_self * BITS_IN_BYTE + bit_index })

def Stream_Align (p_self : Stream_T) : Stream_T :=
  let bit_in_byte := Stream_TellBitInByte p_self
  { p_self with
    bit_index := p_self.bit_index + (if bit_in_byte ≠ 0 then BITS_IN_BYTE - bit_in_byte else 0) }

/-- The 8-bit mask that the source computes: the bits from `start` (included) to `stop`
(excluded) set.  The source asserts `start <= stop`; it shifts the `int` constant `0xFF` left
by `start` and right by `BITS_IN_BYTE - stop`, so the definition is the source for
`start ≤ stop ≤ 8`, the arguments that `Stream_WritePartByte` and `Stream_ReadPartByte` pass,
and says nothing about other arguments. -/
def Stream_GetMask (start stop : Nat) : Nat :=
  let lower_mask := (0xFF <<< start) % 256
  let upper_mask := (0xFF >>> (BITS_IN_BYTE - stop)) % 256
  lower_mask &&& upper_mask

/-- The new content of `*p_dst`. -/
def Stream_WritePartByte (p_dst value index bit_count : Nat) (mode : Stream_Mode_T) : Nat :=
  let index := index % BITS_IN_BYTE
  let start_index := if mode = LITTLE then index else BITS_IN_BYTE - index - bit_count
  let end_index := if mode = LITTLE then index + bit_count else BITS_IN_BYTE - index
  let mask := Stream_GetMask start_index end_index
  let p_dst := p_dst &&& ((0xFF ^^^ mask) % 256)
  p_dst ||| ((value <<< BIT_IN_BYTE start_index) % 256)

def Stream_ReadPartByte (value index bit_count : Nat) (mode : Stream_Mode_T) : Nat :=
  let index := index % BITS_IN_BYTE
  let start_index := if mode = LITTLE then index else BITS_IN_BYTE - index - bit_count
  let end_index := if mode = LITTLE then index + bit_count else BITS_IN_BYTE - index
  let mask := Stream_GetMask start_index end_index
  ((value &&& mask) >>> BIT_IN_BYTE start_index) % 256

def Stream_Write (p_self : Stream_T) (p_data : List Nat) (len : Nat) : Status_T × Stream_T :=
  if Stream_GetLeft p_self < len then (ERROR_STREAM_TOO_SHORT, p_self)
  else
    let p_self := Stream_Align p_self
    let p_self := { p_self with p_buffer := memcpy p_self.p_buffer (Stream_Tell p_self) p_data len }
    (STATUS_SUCCESS, { p_self with bit_index := p_self.bit_index + len * BITS_IN_BYTE })

/-- The `for` loop of `Stream_WriteBit`; `stop` is `bit_len + offset`. -/
def Stream_WriteBit_loop : Nat → Stream_T → List Nat → Nat → Nat → Option Stream_T
  | 0, p_self, _, stop, foreign_index => if foreign_index < stop then none else some p_self
  | fuel + 1, p_self, p_data, stop, foreign_index =>
    if foreign_index < stop then
      let foreign_size := MIN (BITS_IN_BYTE - BIT_IN_BYTE foreign_index) (stop - foreign_index)
      let own_size := MIN (BITS_IN_BYTE - Stream_TellBitInByte p_self) (Stream_GetLeftBits p_self)
      let move_size := MIN foreign_size own_size
      let input := byteAt p_data (BYTE_INDEX foreign_index)
      let output := byteAt p_self.p_buffer (Stream_Tell p_self)
      let data_to_write := Stream_ReadPartByte input foreign_index move_size p_self.mode
      let output := Stream_WritePartByte output data_to_write p_self.bit_index move_size p_self.mode
      let p_self := { p_self with
        p_buffer := p_self.p_buffer.set (Stream_Tell p_self) output,
        bit_index := p_self.bit_index + move_size }
      Stream_WriteBit_loop fuel p_self p_data stop (foreign_index + move_size)
    else some p_self

def Stream_WriteBit (p_self : Stream_T) (p_data : List Nat) (bit_len : Nat) :
    Option (Status_T × Stream_T) :=
  if Stream_GetLeftBits p_self < bit_len then some (ERROR_STREAM_TOO_SHORT, p_self)
  else
    let offset :=
      if bit_len % BITS_IN_BYTE ≠ 0 ∧ p_self.mode = BIG then
        BITS_IN_BYTE - (bit_len % BITS_IN_BYTE)
      else 0
    (Stream_WriteBit_loop bit_len p_self p_data (bit_len + offset) offset).map
      (fun p_self => (STATUS_SUCCESS, p_self))

/-- The new content of `p_data` comes second. -/
def Stream_Read (p_self : Stream_T) (p_data : List Nat) (len : Nat) :
    Status_T × List Nat × Stream_T :=
  if Stream_GetLeft p_self < len then (ERROR_STREAM_TOO_SHORT, p_data, p_self)
  else
    let p_self := Stream_Align p_self
    let p_data := memcpy p_data 0 (p_self.p_buffer.drop (Stream_Tell p_self)) len
    (STATUS_SUCCESS, p_data, { p_self with bit_index := p_self.bit_index + len * BITS_IN_BYTE })

/-- The `for` loop of `Stream_ReadBit`; `stop` is `bit_len + offset`. -/
def Stream_ReadBit_loop : Nat → Stream_T → List Nat → Nat → Nat → Option (List Nat × Stream_T)
  | 0, p_self, p_data, stop, foreign_index =>
    if foreign_index < stop then none else some (p_data, p_self)
  | fuel + 1, p_self, p_data, stop, foreign_index =>
    if foreign_index < stop then
      let foreign_size := MIN (BITS_IN_BYTE - BIT_IN_BYTE foreign_index) (stop - foreign_index)
      let own_size := MIN (BITS_IN_BYTE - Stream_TellBitInByte p_self) (Stream_GetLeftBits p_self)
      let move_size := MIN foreign_size own_size
      let output := byteAt p_data (BYTE_INDEX foreign_index)
      let input := byteAt p_self.p_buffer (Stream_Tell p_self)
      let data_to_write := Stream_ReadPartByte input p_self.bit_index move_size p_self.mode
      let output := Stream_WritePartByte output data_to_write foreign_index move_size p_self.mode
      let p_data := p_data.set (BYTE_INDEX foreign_index) output
      let p_self := { p_self with bit_index := p_self.bit_index + move_size }
      Stream_ReadBit_loop fuel p_self p_data stop (foreign_index + move_size)
    else some (p_data, p_self)

/-- The new content of `p_data` comes second. -/
def Stream_ReadBit (p_self : Stream_T) (p_data : List Nat) (bit_len : Nat) :
    Option (Status_T × List Nat × Stream_T) :=
  if Stream_GetLeftBits p_self < bit_len then some (ERROR_STREAM_TOO_SHORT, p_data, p_self)
  else
    let offset :=
      if bit_len % BITS_IN_BYTE ≠ 0 ∧ p_self.mode = BIG then
        BITS_IN_BYTE - (bit_len % BITS_IN_BYTE)
      else 0
    (Stream_ReadBit_loop bit_len p_self p_data (bit_len + offset) offset).map
      (fun r => (STATUS_SUCCESS, r.1, r.2))

/-! ## UParser.c: integer conversions -/

/-- Conversion of a signed integer to `uint64_t`. -/
def to_uint64 (v : Int) : Nat := (v % 2 ^ 64).toNat

/-- Conversion (or reinterpretation) of an integer to the signed type of `bits` bits. -/
def to_int (bits : Nat) (v : Int) : Int :=
  if v % 2 ^ bits < 2 ^ (bits - 1) then v % 2 ^ bits else v % 2 ^ bits - 2 ^ bits

/-- The expression `1 << k` on the 32-bit type `int`.  For `k < 31` the value is `2 ^ k`.  For
`k = 31` the source relies on the wrap to `INT_MIN`, and for `k ≥ 32`, where C leaves the
result undefined, the embedding takes the count modulo 32 as x86-64 does. -/
def int_one_shl (k : Nat) : Int := to_int 32 (2 ^ (k % 32))

/-- The call `memcpy(p_output, &x, byte_count)` with `int64_t * p_output` and `uint64_t x` on a
little-endian host: the low `byte_count` bytes come from `x`, the others keep their content. -/
def memcpy_int64 (p_output : Int) (x : Nat) (byte_count : Nat) : Int :=
  to_int 64 ((to_uint64 p_output / 2 ^ (8 * byte_count)) * 2 ^ (8 * byte_count)
    + x % 2 ^ (8 * byte_count) : Nat)

/-- The macro `GET_BYTE(data, i)`. -/
def GET_BYTE (data i : Nat) : Nat := (data >>> (i * 8)) % 256

/-- The macro `CREATE_BYTE(data, i)`. -/
def CREATE_BYTE (data i : Nat) : Nat := (data <<< (i * 8)) % 2 ^ 64

/-! ## UParser.c: local functions -/

def SerializeBE (value byte_count : Nat) (p_stream : Stream_T) : Status_T × Stream_T :=
  let data := (List.range byte_count).map (fun i => GET_BYTE value (byte_count - i - 1))
  Stream_Write p_stream data byte_count

def SerializeLE (value byte_count : Nat) (p_stream : Stream_T) : Status_T × Stream_T :=
  let data := (List.range byte_count).map (fun i => GET_BYTE value i)
  Stream_Write p_stream data byte_count

def Serialize (value byte_count : Nat) (p_stream : Stream_T) : Status_T × Stream_T :=
  if Stream_GetMode p_stream = LITTLE then SerializeLE value byte_count p_stream
  else SerializeBE value byte_count p_stream

def ISerialize (value : Int) (byte_count : Nat) (p_stream : Stream_T) : Status_T × Stream_T :=
  let x := to_uint64 value
  Serialize x byte_count p_stream

def SSerialize (value : Int) (byte_count : Nat) (p_stream : Stream_T) : Status_T × Stream_T :=
  let x :=
    if value < 0 then
      to_uint64 (value * -1) ||| to_uint64 (int_one_shl (BITS_IN_BYTE * byte_count - 1))
    else to_uint64 value
  Serialize x byte_count p_stream

def SerializeBitLE (value byte_count bit_width : Nat) (p_stream : Stream_T) :
    Option (Status_T × Stream_T) :=
  let data := (List.range byte_count).map (fun i => GET_BYTE value i)
  if Stream_GetLeftBits p_stream < bit_width then some (ERROR_STREAM_TOO_SHORT, p_stream)
  else
    let bit_to_be_written := MIN bit_width (BITS_IN_BYTE * byte_count)
    match Stream_WriteBit p_stream data bit_to_be_written with
    | none => none
    | some (result, p_stream) =>
      if result ≠ STATUS_SUCCESS then some (result, p_stream)
      else if bit_width > BITS_IN_BYTE * byte_count then
        some (Stream_SeekBit p_stream
          (Stream_TellBit p_stream + bit_width - BITS_IN_BYTE * byte_count))
      else some (result, p_stream)

def SerializeBitBE (value byte_count bit_width : Nat) (p_stream : Stream_T) :
    Option (Status_T × Stream_T) :=
  let data := (List.range byte_count).map (fun i => GET_BYTE value (byte_count - i - 1))
  if Stream_GetLeftBits p_stream < bit_width then some (ERROR_STREAM_TOO_SHORT, p_stream)
  else
    let (result, p_stream) :=
      if bit_width > BITS_IN_BYTE * byte_count then
        Stream_SeekBit p_stream (Stream_TellBit p_stream + bit_width - BITS_IN_BYTE * byte_count)
      else (STATUS_SUCCESS, p_stream)
    if result ≠ STATUS_SUCCESS then some (result, p_stream)
    else
      let offset :=
        if bit_width ≤ (byte_count - 1) * BITS_IN_BYTE then
          byte_count - (bit_width / BITS_IN_BYTE) - (if bit_width % BITS_IN_BYTE ≠ 0 then 1 else 0)
        else 0
      let bit_to_be_written := MIN bit_width (BITS_IN_BYTE * byte_count)
      Stream_WriteBit p_stream (data.drop offset) bit_to_be_written

def SerializeBit (value byte_count bit_width : Nat) (p_stream : Stream_T) :
    Option (Status_T × Stream_T) :=
  if Stream_GetMode p_stream = LITTLE then SerializeBitLE value byte_count bit_width p_stream
  else SerializeBitBE value byte_count bit_width p_stream

def ISerializeBit (value : Int) (byte_count bit_width : Nat) (p_stream : Stream_T) :
    Option (Status_T × Stream_T) :=
  let x := to_uint64 value
  SerializeBit x byte_count bit_width p_stream

def SSerializeBit (value : Int) (byte_count bit_width : Nat) (p_stream : Stream_T) :
    Option (Status_T × Stream_T) :=
  let x :=
    if value < 0 then to_uint64 (value * -1) ||| to_uint64 (int_one_shl (bit_width - 1))
    else to_uint64 value
  SerializeBit x byte_count bit_width p_stream

/-- The new content of `*p_output` comes second. -/
def DeserializeBE (p_output byte_count : Nat) (p_stream : Stream_T) :
    Status_T × Nat × Stream_T :=
  let data := List.replicate byte_count 0
  let (result, data, p_stream) := Stream_Read p_stream data byte_count
  if result ≠ STATUS_SUCCESS then (result, p_output, p_stream)
  else
    let p_output := (List.range byte_count).foldl
      (fun acc i => acc ||| CREATE_BYTE (byteAt data (byte_count - i - 1)) i) 0
    (STATUS_SUCCESS, p_output, p_stream)

/-- The new content of `*p_output` comes second. -/
def DeserializeLE (p_output byte_count : Nat) (p_stream : Stream_T) :
    Status_T × Nat × Stream_T :=
  let data := List.replicate byte_count 0
  let (result, data, p_stream) := Stream_Read p_stream data byte_count
  if result ≠ STATUS_SUCCESS then (result, p_output, p_stream)
  else
    let p_output := (List.range byte_count).foldl
      (fun acc i => acc ||| CREATE_BYTE (byteAt data i) i) 0
    (STATUS_SUCCESS, p_output, p_stream)

def Deserialize (p_output byte_count : Nat) (p_stream : Stream_T) : Status_T × Nat × Stream_T :=
  if Stream_GetMode p_stream = LITTLE then DeserializeLE p_output byte_count p_stream
  else DeserializeBE p_output byte_count p_stream

/-- The local `x` is assigned by `Deserialize` before it is read. -/
def IDeserialize (p_output : Int) (byte_count : Nat) (p_stream : Stream_T) :
    Status_T × Int × Stream_T :=
  let (result, x, p_stream) := Deserialize 0 byte_count p_stream
  if result ≠ STATUS_SUCCESS then (result, p_output, p_stream)
  else (STATUS_SUCCESS, memcpy_int64 p_output x byte_count, p_stream)

def SDeserialize (p_output : Int) (byte_count : Nat) (p_stream : Stream_T) :
    Status_T × Int × Stream_T :=
  let (result, x, p_stream) := Deserialize 0 byte_count p_stream
  if result ≠ STATUS_SUCCESS then (result, p_output, p_stream)
  else
    let mask := (1 <<< (byte_count * BITS_IN_BYTE - 1)) % 2 ^ 64
    let p_output := to_int 64 (x &&& ((2 ^ 64 - 1) ^^^ mask) : Nat)
    let p_output := if x &&& mask ≠ 0 then to_int 64 (p_output * -1) else p_output
    (STATUS_SUCCESS, p_output, p_stream)

/-- The new content of `*p_data` comes second. -/
def DeserializeBitLE (p_data byte_count bit_width : Nat) (p_stream : Stream_T) :
    Option (Status_T × Nat × Stream_T) :=
  let data := List.replicate byte_count 0
  if Stream_GetLeftBits p_stream < bit_width then some (ERROR_STREAM_TOO_SHORT, p_data, p_stream)
  else
    let bit_to_be_read := MIN bit_width (BITS_IN_BYTE * byte_count)
    match Stream_ReadBit p_stream data bit_to_be_read with
    | none => none
    | some (result, data, p_stream) =>
      if result ≠ STATUS_SUCCESS then some (result, p_data, p_stream)
      else
        let (result, p_stream) :=
          if bit_width > BITS_IN_BYTE * byte_count then
            Stream_SeekBit p_stream
              (Stream_TellBit p_stream + bit_width - BITS_IN_BYTE * byte_count)
          else (result, p_stream)
        if result ≠ STATUS_SUCCESS then some (result, p_data, p_stream)
        else
          let p_data := (List.range byte_count).foldl
            (fun acc i => acc ||| CREATE_BYTE (byteAt data i) i) 0
          some (STATUS_SUCCESS, p_data, p_stream)

/-- The new content of `*p_data` comes second. -/
def DeserializeBitBE (p_data byte_count bit_width : Nat) (p_stream : Stream_T) :
    Option (Status_T × Nat × Stream_T) :=
  let data := List.replicate byte_count 0
  if Stream_GetLeftBits p_stream < bit_width then some (ERROR_STREAM_TOO_SHORT, p_data, p_stream)
  else
    let (result, p_stream) :=
      if bit_width > BITS_IN_BYTE * byte_count then
        Stream_SeekBit p_stream (Stream_TellBit p_stream + bit_width - BITS_IN_BYTE * byte_count)
      else (STATUS_SUCCESS, p_stream)
    if result ≠ STATUS_SUCCESS then some (result, p_data, p_stream)
    else
      let bit_to_be_read := MIN bit_width (BITS_IN_BYTE * byte_count)
      match Stream_ReadBit p_stream data bit_to_be_read with
      | none => none
      | some (result, data, p_stream) =>
        if result ≠ STATUS_SUCCESS then some (result, p_data, p_stream)
        else
          let offset :=
            if bit_width < byte_count * BITS_IN_BYTE then
              (byte_count * BITS_IN_BYTE - bit_width) / BITS_IN_BYTE
            else 0
          let p_data := (List.range (byte_count - offset)).foldl
            (fun acc i => acc ||| CREATE_BYTE (byteAt data (byte_count - i - 1 - offset)) i) 0
          some (STATUS_SUCCESS, p_data, p_stream)

def DeserializeBit (p_data byte_count bit_width : Nat) (p_stream : Stream_T) :
    Option (Status_T × Nat × Stream_T) :=
  if Stream_GetMode p_stream = LITTLE then DeserializeBitLE p_data byte_count bit_width p_stream
  else DeserializeBitBE p_data byte_count bit_width p_stream

/-- The local `x` is assigned by `DeserializeBit` before it is read. -/
def IDeserializeBit (p_data : Int) (byte_count bit_width : Nat) (p_stream : Stream_T) :
    Option (Status_T × Int × Stream_T) :=
  match DeserializeBit 0 byte_count bit_width p_stream with
  | none => none
  | some (result, x, p_stream) =>
    if result ≠ STATUS_SUCCESS then some (result, p_data, p_stream)
    else
      let mask := (1 <<< (bit_width - 1)) % 2 ^ 64
      let x := if x &&& mask ≠ 0 then x ||| ((0xFF <<< bit_width) % 2 ^ 64) else x
      some (STATUS_SUCCESS, memcpy_int64 p_data x byte_count, p_stream)

def SDeserializeBit (p_data : Int) (byte_count bit_width : Nat) (p_stream : Stream_T) :
    Option (Status_T × Int × Stream_T) :=
  match DeserializeBit 0 byte_count bit_width p_stream with
  | none => none
  | some (result, x, p_stream) =>
    if result ≠ STATUS_SUCCESS then some (result, p_data, p_stream)
    else
      let mask := (1 <<< (bit_width - 1)) % 2 ^ 64
      let p_data := to_int 64 (x &&& ((2 ^ 64 - 1) ^^^ mask) : Nat)
      let p_data := if x &&& mask ≠ 0 then to_int 64 (p_data * -1) else p_data
      some (STATUS_SUCCESS, p_data, p_stream)

/-! ## UParser.c: the public codecs

An uninitialised local of a wrapper is passed as `0` where the callee assigns it before reading
it, and is an argument of the wrapper (`data`, `value`) where the callee overwrites only part
of it. -/

def U8_Serialize (p_data : Nat) (p_stream : Stream_T) : Status_T × Stream_T :=
  Serialize p_data 1 p_stream

def I8_Serialize (p_data : Int) (p_stream : Stream_T) : Status_T × Stream_T :=
  ISerialize p_data 1 p_stream

def S8_Serialize (p_data : Int) (p_stream : Stream_T) : Status_T × Stream_T :=
  SSerialize p_data 1 p_stream

def U16_Serialize (p_data : Nat) (p_stream : Stream_T) : Status_T × Stream_T :=
  Serialize p_data 2 p_stream

def I16_Serialize (p_data : Int) (p_stream : Stream_T) : Status_T × Stream_T :=
  ISerialize p_data 2 p_stream

def S16_Serialize (p_data : Int) (p_stream : Stream_T) : Status_T × Stream_T :=
  SSerialize p_data 2 p_stream

def U32_Serialize (p_data : Nat) (p_stream : Stream_T) : Status_T × Stream_T :=
  Serialize p_data 4 p_stream

def I32_Serialize (p_data : Int) (p_stream : Stream_T) : Status_T × Stream_T :=
  ISerialize p_data 4 p_stream

def S32_Serialize (p_data : Int) (p_stream : Stream_T) : Status_T × Stream_T :=
  SSerialize p_data 4 p_stream

def U64_Serialize (p_data : Nat) (p_stream : Stream_T) : Status_T × Stream_T :=
  Serialize p_data 8 p_stream

def I64_Serialize (p_data : Int) (p_stream : Stream_T) : Status_T × Stream_T :=
  ISerialize p_data 8 p_stream

def S64_Serialize (p_data : Int) (p_stream : Stream_T) : Status_T × Stream_T :=
  SSerialize p_data 8 p_stream

def U8_SerializeBit (p_data bit_width : Nat) (p_stream : Stream_T) :
    Option (Status_T × Stream_T) :=
  SerializeBit p_data 1 bit_width p_stream

def I8_SerializeBit (p_data : Int) (bit_width : Nat) (p_stream : Stream_T) :
    Option (Status_T × Stream_T) :=
  ISerializeBit p_data 1 bit_width p_stream

def S8_SerializeBit (p_data : Int) (bit_width : Nat) (p_stream : Stream_T) :
    Option (Status_T × Stream_T) :=
  SSerializeBit p_data 1 bit_width p_stream

def U16_SerializeBit (p_data bit_width : Nat) (p_stream : Stream_T) :
    Option (Status_T × Stream_T) :=
  SerializeBit p_data 2 bit_width p_stream

def I16_SerializeBit (p_data : Int) (bit_width : Nat) (p_stream : Stream_T) :
    Option (Status_T × Stream_T) :=
  ISerializeBit p_data 2 bit_width p_stream

def S16_SerializeBit (p_data : Int) (bit_width : Nat) (p_stream : Stream_T) :
    Option (Status_T × Stream_T) :=
  SSerializeBit p_data 2 bit_width p_stream

def U32_SerializeBit (p_data bit_width : Nat) (p_stream : Stream_T) :
    Option (Status_T × Stream_T) :=
  SerializeBit p_data 4 bit_width p_stream

def I32_SerializeBit (p_data : Int) (bit_width : Nat) (p_stream : Stream_T) :
    Option (Status_T × Stream_T) :=
  ISerializeBit p_data 4 bit_width p_stream

def S32_SerializeBit (p_data : Int) (bit_width : Nat) (p_stream : Stream_T) :
    Option (Status_T × Stream_T) :=
  SSerializeBit p_data 4 bit_width p_stream

def U64_SerializeBit (p_data bit_width : Nat) (p_stream : Stream_T) :
    Option (Status_T × Stream_T) :=
  SerializeBit p_data 8 bit_width p_stream

def I64_SerializeBit (p_data : Int) (bit_width : Nat) (p_stream : Stream_T) :
    Option (Status_T × Stream_T) :=
  ISerializeBit p_data 8 bit_width p_stream

def S64_SerializeBit (p_data : Int) (bit_width : Nat) (p_stream : Stream_T) :
    Option (Status_T × Stream_T) :=
  SSerializeBit p_data 8 bit_width p_stream

def U8_Deserialize (p_data : Nat) (p_stream : Stream_T) : Status_T × Nat × Stream_T :=
  let (result, data, p_stream) := Stream_Read p_stream [p_data] 1
  (result, byteAt data 0, p_stream)

def I8_Deserialize (p_data : Int) (p_stream : Stream_T) : Status_T × Int × Stream_T :=
  let (result, data, p_stream) := Stream_Read p_stream [(p_data % 256).toNat] 1
  (result, to_int 8 (byteAt data 0), p_stream)

def S8_Deserialize (p_data : Int) (p_stream : Stream_T) : Status_T × Int × Stream_T :=
  let (result, data, p_stream) := SDeserialize 0 1 p_stream
  if result ≠ STATUS_SUCCESS then (result, p_data, p_stream)
  else (STATUS_SUCCESS, to_int 8 data, p_stream)

def U16_Deserialize (p_data : Nat) (p_stream : Stream_T) : Status_T × Nat × Stream_T :=
  let (result, data, p_stream) := Deserialize 0 2 p_stream
  if result ≠ STATUS_SUCCESS then (result, p_data, p_stream)
  else (STATUS_SUCCESS, data % 2 ^ 16, p_stream)

def I16_Deserialize (p_data data : Int) (p_stream : Stream_T) : Status_T × Int × Stream_T :=
  let (result, data, p_stream) := IDeserialize data 2 p_stream
  if result ≠ STATUS_SUCCESS then (result, p_data, p_stream)
  else (STATUS_SUCCESS, to_int 16 data, p_stream)

def S16_Deserialize (p_data : Int) (p_stream : Stream_T) : Status_T × Int × Stream_T :=
  let (result, data, p_stream) := SDeserialize 0 2 p_stream
  if result ≠ STATUS_SUCCESS then (result, p_data, p_stream)
  else (STATUS_SUCCESS, to_int 16 data, p_stream)

def U32_Deserialize (p_data : Nat) (p_stream : Stream_T) : Status_T × Nat × Stream_T :=
  let (result, data, p_stream) := Deserialize 0 4 p_stream
  if result ≠ STATUS_SUCCESS then (result, p_data, p_stream)
  else (STATUS_SUCCESS, data % 2 ^ 32, p_stream)

def I32_Deserialize (p_data data : Int) (p_stream : Stream_T) : Status_T × Int × Stream_T :=
  let (result, data, p_stream) := IDeserialize data 4 p_stream
  if result ≠ STATUS_SUCCESS then (result, p_data, p_stream)
  else (STATUS_SUCCESS, to_int 32 data, p_stream)

def S32_Deserialize (p_data : Int) (p_stream : Stream_T) : Status_T × Int × Stream_T :=
  let (result, data, p_stream) := SDeserialize 0 4 p_stream
  if result ≠ STATUS_SUCCESS then (result, p_data, p_stream)
  else (STATUS_SUCCESS, to_int 32 data, p_stream)

def U64_Deserialize (p_data : Nat) (p_stream : Stream_T) : Status_T × Nat × Stream_T :=
  Deserialize p_data 8 p_stream

def I64_Deserialize (p_data : Int) (p_stream : Stream_T) : Status_T × Int × Stream_T :=
  IDeserialize p_data 8 p_stream

def S64_Deserialize (p_data : Int) (p_stream : Stream_T) : Status_T × Int × Stream_T :=
  SDeserialize p_data 8 p_stream

def U8_DeserializeBit (p_data bit_width : Nat) (p_stream : Stream_T) :
    Option (Status_T × Nat × Stream_T) :=
  match DeserializeBit 0 1 bit_width p_stream with
  | none => none
  | some (result, value, p_stream) =>
    if result ≠ STATUS_SUCCESS then some (result, p_data, p_stream)
    else some (STATUS_SUCCESS, value % 2 ^ 8, p_stream)

def I8_DeserializeBit (p_data value : Int) (bit_width : Nat) (p_stream : Stream_T) :
    Option (Status_T × Int × Stream_T) :=
  match IDeserializeBit value 1 bit_width p_stream with
  | none => none
  | some (result, value, p_stream) =>
    if result ≠ STATUS_SUCCESS then some (result, p_data, p_stream)
    else some (STATUS_SUCCESS, to_int 8 value, p_stream)

def S8_DeserializeBit (p_data : Int) (bit_width : Nat) (p_stream : Stream_T) :
    Option (Status_T × Int × Stream_T) :=
  match SDeserializeBit 0 1 bit_width p_stream with
  | none => none
  | some (result, value, p_stream) =>
    if result ≠ STATUS_SUCCESS then some (result, p_data, p_stream)
    else some (STATUS_SUCCESS, to_int 8 value, p_stream)

def U16_DeserializeBit (p_data bit_width : Nat) (p_stream : Stream_T) :
    Option (Status_T × Nat × Stream_T) :=
  match DeserializeBit 0 2 bit_width p_stream with
  | none => none
  | some (result, value, p_stream) =>
    if result ≠ STATUS_SUCCESS then some (result, p_data, p_stream)
    else some (STATUS_SUCCESS, value % 2 ^ 16, p_stream)

def I16_DeserializeBit (p_data value : Int) (bit_width : Nat) (p_stream : Stream_T) :
    Option (Status_T × Int × Stream_T) :=
  match IDeserializeBit value 2 bit_width p_stream with
  | none => none
  | some (result, value, p_stream) =>
    if result ≠ STATUS_SUCCESS then some (result, p_data, p_stream)
    else some (STATUS_SUCCESS, to_int 16 value, p_stream)

def S16_DeserializeBit (p_data : Int) (bit_width : Nat) (p_stream : Stream_T) :
    Option (Status_T × Int × Stream_T) :=
  match SDeserializeBit 0 2 bit_width p_stream with
  | none => none
  | some (result, value, p_stream) =>
    if result ≠ STATUS_SUCCESS then some (result, p_data, p_stream)
    else some (STATUS_SUCCESS, to_int 16 value, p_stream)

def U32_DeserializeBit (p_data bit_width : Nat) (p_stream : Stream_T) :
    Option (Status_T × Nat × Stream_T) :=
  match DeserializeBit 0 4 bit_width p_stream with
  | none => none
  | some (result, value, p_stream) =>
    if result ≠ STATUS_SUCCESS then some (result, p_data, p_stream)
    else some (STATUS_SUCCESS, value % 2 ^ 32, p_stream)

def I32_DeserializeBit (p_data value : Int) (bit_width : Nat) (p_stream : Stream_T) :
    Option (Status_T × Int × Stream_T) :=
  match IDeserializeBit value 4 bit_width p_stream with
  | none => none
  | some (result, value, p_stream) =>
    if result ≠ STATUS_SUCCESS then some (result, p_data, p_stream)
    else some (STATUS_SUCCESS, to_int 32 value, p_stream)

def S32_DeserializeBit (p_data : Int) (bit_width : Nat) (p_stream : Stream_T) :
    Option (Status_T × Int × Stream_T) :=
  match SDeserializeBit 0 4 bit_width p_stream with
  | none => none
  | some (result, value, p_stream) =>
    if result ≠ STATUS_SUCCESS then some (result, p_data, p_stream)
    else some (STATUS_SUCCESS, to_int 32 value, p_stream)

def U64_DeserializeBit (p_data bit_width : Nat) (p_stream : Stream_T) :
    Option (Status_T × Nat × Stream_T) :=
  DeserializeBit p_data 8 bit_width p_stream

def I64_DeserializeBit (p_data : Int) (bit_width : Nat) (p_stream : Stream_T) :
    Option (Status_T × Int × Stream_T) :=
  IDeserializeBit p_data 8 bit_width p_stream

def S64_DeserializeBit (p_data : Int) (bit_width : Nat) (p_stream : Stream_T) :
    Option (Status_T × Int × Stream_T) :=
  SDeserializeBit p_data 8 bit_width p_stream

/-! ## The four native widths

The codecs come in four copies that differ in `sizeof(*p_data)` only; `Width` selects one. -/

/-- A native width: 8, 16, 32 or 64 bits. -/
inductive Width where
  | W8
  | W16
  | W32
  | W64
deriving DecidableEq, Repr

/-- The value of `sizeof(*p_data)`. -/
def Width.byte_count : Width → Nat
  | .W8 => 1
  | .W16 => 2
  | .W32 => 4
  | .W64 => 8

/-- The native width in bits. -/
def Width.bits (k : Width) : Nat := 8 * k.byte_count

/-- The codec `U8_Serialize`, `U16_Serialize`, `U32_Serialize` or `U64_Serialize`. -/
def U_Serialize : Width → Nat → Stream_T → Status_T × Stream_T
  | .W8 => U8_Serialize
  | .W16 => U16_Serialize
  | .W32 => U32_Serialize
  | .W64 => U64_Serialize

/-- The codec `I8_Serialize`, `I16_Serialize`, `I32_Serialize` or `I64_Serialize`. -/
def I_Serialize : Width → Int → Stream_T → Status_T × Stream_T
  | .W8 => I8_Serialize
  | .W16 => I16_Serialize
  | .W32 => I32_Serialize
  | .W64 => I64_Serialize

/-- The codec `S8_Serialize`, `S16_Serialize`, `S32_Serialize` or `S64_Serialize`. -/
def S_Serialize : Width → Int → Stream_T → Status_T × Stream_T
  | .W8 => S8_Serialize
  | .W16 => S16_Serialize
  | .W32 => S32_Serialize
  | .W64 => S64_Serialize

/-- The codec `U8_SerializeBit`, `U16_SerializeBit`, `U32_SerializeBit` or `U64_SerializeBit`. -/
def U_SerializeBit : Width → Nat → Nat → Stream_T → Option (Status_T × Stream_T)
  | .W8 => U8_SerializeBit
  | .W16 => U16_SerializeBit
  | .W32 => U32_SerializeBit
  | .W64 => U64_SerializeBit

/-- The codec `I8_SerializeBit`, `I16_SerializeBit`, `I32_SerializeBit` or `I64_SerializeBit`. -/
def I_SerializeBit : Width → Int → Nat → Stream_T → Option (Status_T × Stream_T)
  | .W8 => I8_SerializeBit
  | .W16 => I16_SerializeBit
  | .W32 => I32_SerializeBit
  | .W64 => I64_SerializeBit

/-- The codec `S8_SerializeBit`, `S16_SerializeBit`, `S32_SerializeBit` or `S64_SerializeBit`. -/
def S_SerializeBit : Width → Int → Nat → Stream_T → Option (Status_T × Stream_T)
  | .W8 => S8_SerializeBit
  | .W16 => S16_SerializeBit
  | .W32 => S32_SerializeBit
  | .W64 => S64_SerializeBit

/-- The codec `U8_Deserialize`, `U16_Deserialize`, `U32_Deserialize` or `U64_Deserialize`. -/
def U_Deserialize : Width → Nat → Stream_T → Status_T × Nat × Stream_T
  | .W8 => U8_Deserialize
  | .W16 => U16_Deserialize
  | .W32 => U32_Deserialize
  | .W64 => U64_Deserialize

/-- The codec `S8_Deserialize`, `S16_Deserialize`, `S32_Deserialize` or `S64_Deserialize`. -/
def S_Deserialize : Width → Int → Stream_T → Status_T × Int × Stream_T
  | .W8 => S8_Deserialize
  | .W16 => S16_Deserialize
  | .W32 => S32_Deserialize
  | .W64 => S64_Deserialize

/-- The codec `U8_DeserializeBit`, `U16_DeserializeBit`, `U32_DeserializeBit` or `U64_DeserializeBit`. -/
def U_DeserializeBit : Width → Nat → Nat → Stream_T → Option (Status_T × Nat × Stream_T)
  | .W8 => U8_DeserializeBit
  | .W16 => U16_DeserializeBit
  | .W32 => U32_DeserializeBit
  | .W64 => U64_DeserializeBit

/-- The codec `S8_DeserializeBit`, `S16_DeserializeBit`, `S32_DeserializeBit` or `S64_DeserializeBit`. -/
def S_DeserializeBit : Width → Int → Nat → Stream_T → Option (Status_T × Int × Stream_T)
  | .W8 => S8_DeserializeBit
  | .W16 => S16_DeserializeBit
  | .W32 => S32_DeserializeBit
  | .W64 => S64_DeserializeBit

/-- The codec `I8_Deserialize`, `I16_Deserialize`, `I32_Deserialize` or `I64_Deserialize`; `data` is the
indeterminate content of the local of the 16 and 32 bit wrappers. -/
def I_Deserialize : Width → Int → Int → Stream_T → Status_T × Int × Stream_T
  | .W8 => fun p_data _ => I8_Deserialize p_data
  | .W16 => I16_Deserialize
  | .W32 => I32_Deserialize
  | .W64 => fun p_data _ => I64_Deserialize p_data

/-- The codec `I8_DeserializeBit`, `I16_DeserializeBit`, `I32_DeserializeBit` or
`I64_DeserializeBit`; `value` is the indeterminate content of the local of the 8, 16 and 32 bit
wrappers. -/
def I_DeserializeBit : Width → Int → Int → Nat → Stream_T → Option (Status_T × Int × Stream_T)
  | .W8 => I8_DeserializeBit
  | .W16 => I16_DeserializeBit
  | .W32 => I32_DeserializeBit
  | .W64 => fun p_data _ => I64_DeserializeBit p_data

/-! ## Bit numbering of the wire -/

/-- Bit `t` of a byte in the numbering of the mode: most-significant-first in `BIG` (bit `7 - t`),
least-significant-first in `LITTLE` (bit `t`). -/
def bitOf (m : Stream_Mode_T) (byte t : Nat) : Bool :=
  byte.testBit (if m = LITTLE then t else 7 - t)

/-- Stream bit `k` of a byte array: in `BIG` mode bit `7 - (k mod 8)` of byte `k div 8`, in
`LITTLE` mode bit `k mod 8` of byte `k div 8`. -/
def streamBit (m : Stream_Mode_T) (p : List Nat) (k : Nat) : Bool :=
  bitOf m (byteAt p (k / 8)) (k % 8)

/-- The number of unused leading bits that `Stream_WriteBit` and `Stream_ReadBit` skip in the
first byte of the caller's array. -/
def bit_offset (m : Stream_Mode_T) (bit_len : Nat) : Nat :=
  if bit_len % 8 ≠ 0 ∧ m = BIG then 8 - bit_len % 8 else 0

/-! ## UParser.c: size, float and array codecs

`size_t` has 8 bytes.  A `float` or `double` is represented by its bit pattern, which is what
the casts `(uint32_t *) p_data` and `(uint64_t *) p_data` of the source read and write. -/

def Size_Serialize (p_data byte_size : Nat) (p_stream : Stream_T) : Status_T × Stream_T :=
  Serialize p_data byte_size p_stream

def Size_SerializeBit (p_data bit_width : Nat) (p_stream : Stream_T) :
    Option (Status_T × Stream_T) :=
  SerializeBit p_data 8 bit_width p_stream

def Size_Deserialize (p_data byte_size : Nat) (p_stream : Stream_T) :
    Status_T × Nat × Stream_T :=
  let (result, value, p_stream) := Deserialize 0 byte_size p_stream
  if result ≠ STATUS_SUCCESS then (result, p_data, p_stream)
  else (result, value % 2 ^ 64, p_stream)

def Size_DeserializeBit (p_data bit_width : Nat) (p_stream : Stream_T) :
    Option (Status_T × Nat × Stream_T) :=
  match DeserializeBit 0 8 bit_width p_stream with
  | none => none
  | some (result, value, p_stream) =>
    if result ≠ STATUS_SUCCESS then some (result, p_data, p_stream)
    else some (STATUS_SUCCESS, value % 2 ^ 64, p_stream)

def Float_Serialize (p_data : Nat) (p_stream : Stream_T) : Status_T × Stream_T :=
  U32_Serialize p_data p_stream

def Double_Serialize (p_data : Nat) (p_stream : Stream_T) : Status_T × Stream_T :=
  U64_Serialize p_data p_stream

def Float_SerializeBit (p_data : Nat) (p_stream : Stream_T) : Option (Status_T × Stream_T) :=
  U32_SerializeBit p_data (4 * BITS_IN_BYTE) p_stream

def Double_SerializeBit (p_data : Nat) (p_stream : Stream_T) : Option (Status_T × Stream_T) :=
  U64_SerializeBit p_data (8 * BITS_IN_BYTE) p_stream

def Float_Deserialize (p_data : Nat) (p_stream : Stream_T) : Status_T × Nat × Stream_T :=
  U32_Deserialize p_data p_stream

def Double_Deserialize (p_data : Nat) (p_stream : Stream_T) : Status_T × Nat × Stream_T :=
  U64_Deserialize p_data p_stream

def Float_DeserializeBit (p_data : Nat) (p_stream : Stream_T) :
    Option (Status_T × Nat × Stream_T) :=
  U32_DeserializeBit p_data (4 * BITS_IN_BYTE) p_stream

def Double_DeserializeBit (p_data : Nat) (p_stream : Stream_T) :
    Option (Status_T × Nat × Stream_T) :=
  U64_DeserializeBit p_data (8 * BITS_IN_BYTE) p_stream

def Array_Serialize (p_data : List Nat) (len : Nat) (p_stream : Stream_T) :
    Status_T × Stream_T :=
  let p_stream := Stream_Align p_stream
  Stream_Write p_stream p_data len

/-- The `for` loop of `Array_SerializeBit` over the indices still to do. -/
def Array_SerializeBit_loop (p_data : List Nat) :
    List Nat → Stream_T → Option (Status_T × Stream_T)
  | [], p_stream => some (STATUS_SUCCESS, p_stream)
  | i :: rest, p_stream =>
    match U8_SerializeBit (byteAt p_data i) BITS_IN_BYTE p_stream with
    | none => none
    | some (result, p_stream) =>
      if result ≠ STATUS_SUCCESS then some (result, p_stream)
      else Array_SerializeBit_loop p_data rest p_stream

/-- The product `data_len * BITS_IN_BYTE` is computed in `size_t` before the bounds check. -/
def Array_SerializeBit (p_data : List Nat) (data_len : Nat) (p_stream : Stream_T) :
    Option (Status_T × Stream_T) :=
  if Stream_GetLeftBits p_stream < (data_len * BITS_IN_BYTE) % 2 ^ 64 then
    some (ERROR_STREAM_TOO_SHORT, p_stream)
  else Array_SerializeBit_loop p_data (List.range data_len) p_stream

/-- The new content of `p_data` comes second. -/
def Array_Deserialize (p_data : List Nat) (len : Nat) (p_stream : Stream_T) :
    Status_T × List Nat × Stream_T :=
  Stream_Read p_stream p_data len

/-- The `for` loop of `Array_DeserializeBit` over the indices still to do.  The header that
gives the numeric values of `Status_T` is absent, so the operator `&` on two status values is
the argument `status_and`. -/
def Array_DeserializeBit_loop (status_and : Status_T → Status_T → Status_T) :
    List Nat → Status_T → List Nat → Stream_T → Option (Status_T × List Nat × Stream_T)
  | [], result, p_data, p_stream => some (result, p_data, p_stream)
  | i :: rest, result, p_data, p_stream =>
    match U8_DeserializeBit (byteAt p_data i) BITS_IN_BYTE p_stream with
    | none => none
    | some (r, value, p_stream) =>
      Array_DeserializeBit_loop status_and rest (status_and result r) (p_data.set i value)
        p_stream

/-- The new content of `p_data` comes second.  The product `data_len * BITS_IN_BYTE` is computed
in `size_t` before the bounds check. -/
def Array_DeserializeBit (status_and : Status_T → Status_T → Status_T) (p_data : List Nat)
    (data_len : Nat) (p_stream : Stream_T) : Option (Status_T × List Nat × Stream_T) :=
  if Stream_GetLeftBits p_stream < (data_len * BITS_IN_BYTE) % 2 ^ 64 then
    some (ERROR_STREAM_TOO_SHORT, p_data, p_stream)
  else
    Array_DeserializeBit_loop status_and (List.range data_len) STATUS_SUCCESS p_data p_stream

/-! ## BitParser.h -/

/-- The structure `BitField_T`: the field type together with the member of the union that the
macro `BIT_FIELD_...` of that type fills. -/
inductive BitField_T where
  | U8 (offset bit : Nat)
  | I8 (offset bit : Nat)
  | S8 (offset bit : Nat)
  | U16 (offset bit : Nat)
  | I16 (offset bit : Nat)
  | S16 (offset bit : Nat)
  | U32 (offset bit : Nat)
  | I32 (offset bit : Nat)
  | S32 (offset bit : Nat)
  | U64 (offset bit : Nat)
  | I64 (offset bit : Nat)
  | S64 (offset bit : Nat)
  | FLOAT (offset : Nat)
  | DOUBLE (offset : Nat)
  | LEN (offset bit : Nat)
  | ARRAY_FIXED (offset len : Nat)
  | ARRAY_VARIABLE (offset len_offset : Nat)
  | ALIGN
  | PAD (bit : Nat)
deriving DecidableEq, Repr

/-! ## Record memory

The record that `void * data` points to and the arrays that its pointer fields point to live in
one byte-addressed memory `mem`; `data` is the address of the record, `data + offset` the address
of a field.  A pointer has 8 bytes.  The byte buffer of the cursor is not part of `mem`. -/

/-- Read of the unsigned integer of `byte_count` bytes at address `addr` (little-endian host). -/
def load (mem : List Nat) (addr : Nat) : Nat → Nat
  | 0 => 0
  | byte_count + 1 => byteAt mem addr + 256 * load mem (addr + 1) byte_count

/-- Write of the unsigned integer `v` of `byte_count` bytes at address `addr`. -/
def store (mem : List Nat) (addr : Nat) : Nat → Nat → List Nat
  | 0, _ => mem
  | byte_count + 1, v => store (mem.set addr (v % 256)) (addr + 1) byte_count (v / 256)

/-- Read of the signed integer of `byte_count` bytes at address `addr`. -/
def load_int (mem : List Nat) (addr byte_count : Nat) : Int :=
  to_int (8 * byte_count) (load mem addr byte_count)

/-- Write of the signed integer `v` of `byte_count` bytes at address `addr`. -/
def store_int (mem : List Nat) (addr byte_count : Nat) (v : Int) : List Nat :=
  store mem addr byte_count (v % 2 ^ (8 * byte_count)).toNat

/-- The memory after a codec has written the unsigned value it returns to `addr`. -/
def store_result (mem : List Nat) (addr byte_count : Nat) :
    Option (Status_T × Nat × Stream_T) → Option (Status_T × List Nat × Stream_T)
  | none => none
  | some (result, v, p_stream) => some (result, store mem addr byte_count v, p_stream)

/-- The memory after a codec has written the signed value it returns to `addr`. -/
def store_int_result (mem : List Nat) (addr byte_count : Nat) :
    Option (Status_T × Int × Stream_T) → Option (Status_T × List Nat × Stream_T)
  | none => none
  | some (result, v, p_stream) => some (result, store_int mem addr byte_count v, p_stream)

/-- The memory after an array codec has written the bytes it returns to the array at `addr`. -/
def store_array_result (mem : List Nat) (addr : Nat) :
    Option (Status_T × List Nat × Stream_T) → Option (Status_T × List Nat × Stream_T)
  | none => none
  | some (result, p_data, p_stream) => some (result, mem.take addr ++ p_data, p_stream)

/-! ## BitParser.c -/

/-- The `switch` of `BitParser_Serialize` for the descriptor `p_fields[i]`; `result` is the
status before the descriptor, which `ALIGN` leaves as it is.  Every value of `BitFieldType_T`
is a constructor of `BitField_T`, so the `default` case, `ASSERT(false)`, has no counterpart. -/
def BitParser_Serialize_switch (data : Nat) (mem : List Nat) (result : Status_T)
    (p_stream : Stream_T) : BitField_T → Option (Status_T × Stream_T)
  | .U8 offset bit => U8_SerializeBit (load mem (data + offset) 1) bit p_stream
  | .I8 offset bit => I8_SerializeBit (load_int mem (data + offset) 1) bit p_stream
  | .S8 offset bit => S8_SerializeBit (load_int mem (data + offset) 1) bit p_stream
  | .U16 offset bit => U16_SerializeBit (load mem (data + offset) 2) bit p_stream
  | .I16 offset bit => I16_SerializeBit (load_int mem (data + offset) 2) bit p_stream
  | .S16 offset bit => S16_SerializeBit (load_int mem (data + offset) 2) bit p_stream
  | .U32 offset bit => U32_SerializeBit (load mem (data + offset) 4) bit p_stream
  | .I32 offset bit => I32_SerializeBit (load_int mem (data + offset) 4) bit p_stream
  | .S32 offset bit => S32_SerializeBit (load_int mem (data + offset) 4) bit p_stream
  | .U64 offset bit => U64_SerializeBit (load mem (data + offset) 8) bit p_stream
  | .I64 offset bit => I64_SerializeBit (load_int mem (data + offset) 8) bit p_stream
  | .S64 offset bit => S64_SerializeBit (load_int mem (data + offset) 8) bit p_stream
  | .FLOAT offset => Float_SerializeBit (load mem (data + offset) 4) p_stream
  | .DOUBLE offset => Double_SerializeBit (load mem (data + offset) 8) p_stream
  | .LEN offset bit => Size_SerializeBit (load mem (data + offset) 8) bit p_stream
  | .ARRAY_FIXED offset len =>
    Array_SerializeBit (mem.drop (load mem (data + offset) 8)) len p_stream
  | .ARRAY_VARIABLE offset len_offset =>
    Array_SerializeBit (mem.drop (load mem (data + offset) 8)) (load mem (data + len_offset) 8)
      p_stream
  | .ALIGN => some (result, Stream_Align p_stream)
  | .PAD bit => some (Stream_SeekBit p_stream ((Stream_TellBit p_stream + bit) % 2 ^ 64))

/-- The `for` loop of `BitParser_Serialize` over the descriptors still to do. -/
def BitParser_Serialize_loop (data : Nat) (mem : List Nat) :
    List BitField_T → Status_T → Stream_T → Option (Status_T × Stream_T)
  | [], result, p_stream => some (result, p_stream)
  | f :: rest, result, p_stream =>
    match BitParser_Serialize_switch data mem result p_stream f with
    | none => none
    | some (result, p_stream) =>
      if result ≠ STATUS_SUCCESS then some (result, p_stream)
      else BitParser_Serialize_loop data mem rest result p_stream

def BitParser_Serialize (p_fields : List BitField_T) (no_fields : Nat) (data : Nat)
    (mem : List Nat) (p_stream : Stream_T) : Option (Status_T × Stream_T) :=
  BitParser_Serialize_loop data mem (p_fields.take no_fields) STATUS_SUCCESS p_stream

/-- The `switch` of `BitParser_Deserialize` for the descriptor `p_fields[i]`; the new content of
the memory comes second.  The argument `value` is the indeterminate content of the local of the
8, 16 and 32 bit two's complement codecs, `status_and` the operator `&` on status values. -/
def BitParser_Deserialize_switch (status_and : Status_T → Status_T → Status_T) (value : Int)
    (data : Nat) (mem : List Nat) (result : Status_T) (p_stream : Stream_T) :
    BitField_T → Option (Status_T × List Nat × Stream_T)
  | .U8 offset bit => store_result mem (data + offset) 1
      (U8_DeserializeBit (load mem (data + offset) 1) bit p_stream)
  | .I8 offset bit => store_int_result mem (data + offset) 1
      (I8_DeserializeBit (load_int mem (data + offset) 1) value bit p_stream)
  | .S8 offset bit => store_int_result mem (data + offset) 1
      (S8_DeserializeBit (load_int mem (data + offset) 1) bit p_stream)
  | .U16 offset bit => store_result mem (data + offset) 2
      (U16_DeserializeBit (load mem (data + offset) 2) bit p_stream)
  | .I16 offset bit => store_int_result mem (data + offset) 2
      (I16_DeserializeBit (load_int mem (data + offset) 2) value bit p_stream)
  | .S16 offset bit => store_int_result mem (data + offset) 2
      (S16_DeserializeBit (load_int mem (data + offset) 2) bit p_stream)
  | .U32 offset bit => store_result mem (data + offset) 4
      (U32_DeserializeBit (load mem (data + offset) 4) bit p_stream)
  | .I32 offset bit => store_int_result mem (data + offset) 4
      (I32_DeserializeBit (load_int mem (data + offset) 4) value bit p_stream)
  | .S32 offset bit => store_int_result mem (data + offset) 4
      (S32_DeserializeBit (load_int mem (data + offset) 4) bit p_stream)
  | .U64 offset bit => store_result mem (data + offset) 8
      (U64_DeserializeBit (load mem (data + offset) 8) bit p_stream)
  | .I64 offset bit => store_int_result mem (data + offset) 8
      (I64_DeserializeBit (load_int mem (data + offset) 8) bit p_stream)
  | .S64 offset bit => store_int_result mem (data + offset) 8
      (S64_DeserializeBit (load_int mem (data + offset) 8) bit p_stream)
  | .FLOAT offset => store_result mem (data + offset) 4
      (Float_DeserializeBit (load mem (data + offset) 4) p_stream)
  | .DOUBLE offset => store_result mem (data + offset) 8
      (Double_DeserializeBit (load mem (data + offset) 8) p_stream)
  | .LEN offset bit => store_result mem (data + offset) 8
      (Size_DeserializeBit (load mem (data + offset) 8) bit p_stream)
  | .ARRAY_FIXED offset len => store_array_result mem (load mem (data + offset) 8)
      (Array_DeserializeBit status_and (mem.drop (load mem (data + offset) 8)) len p_stream)
  | .ARRAY_VARIABLE offset len_offset => store_array_result mem (load mem (data + offset) 8)
      (Array_DeserializeBit status_and (mem.drop (load mem (data + offset) 8))
        (load mem (data + len_offset) 8) p_stream)
  | .ALIGN => some (result, mem, Stream_Align p_stream)
  | .PAD bit =>
    let r := Stream_SeekBit p_stream ((Stream_TellBit p_stream + bit) % 2 ^ 64)
    some (r.1, mem, r.2)

/-- The `for` loop of `BitParser_Deserialize` over the descriptors still to do. -/
def BitParser_Deserialize_loop (status_and : Status_T → Status_T → Status_T) (value : Int)
    (data : Nat) : List BitField_T → Status_T → List Nat → Stream_T →
    Option (Status_T × List Nat × Stream_T)
  | [], result, mem, p_stream => some (result, mem, p_stream)
  | f :: rest, result, mem, p_stream =>
    match BitParser_Deserialize_switch status_and value data mem result p_stream f with
    | none => none
    | some (result, mem, p_stream) =>
      if result ≠ STATUS_SUCCESS then some (result, mem, p_stream)
      else BitParser_Deserialize_loop status_and value data rest result mem p_stream

/-- The new content of the memory comes second. -/
def BitParser_Deserialize (status_and : Status_T → Status_T → Status_T) (value : Int)
    (p_fields : List BitField_T) (no_fields : Nat) (data : Nat) (mem : List Nat)
    (p_stream : Stream_T) : Option (Status_T × List Nat × Stream_T) :=
  BitParser_Deserialize_loop status_and value data (p_fields.take no_fields) STATUS_SUCCESS mem
    p_stream

/-- The `switch` of `BitParser_GetLengthBit`: the new value of `result`. -/
def BitParser_GetLengthBit_switch (data : Nat) (mem : List Nat) (result : Nat) :
    BitField_T → Nat
  | .U8 _ bit => (result + bit) % 2 ^ 64
  | .I8 _ bit => (result + bit) % 2 ^ 64
  | .S8 _ bit => (result + bit) % 2 ^ 64
  | .U16 _ bit => (result + bit) % 2 ^ 64
  | .I16 _ bit => (result + bit) % 2 ^ 64
  | .S16 _ bit => (result + bit) % 2 ^ 64
  | .U32 _ bit => (result + bit) % 2 ^ 64
  | .I32 _ bit => (result + bit) % 2 ^ 64
  | .S32 _ bit => (result + bit) % 2 ^ 64
  | .U64 _ bit => (result + bit) % 2 ^ 64
  | .I64 _ bit => (result + bit) % 2 ^ 64
  | .S64 _ bit => (result + bit) % 2 ^ 64
  | .FLOAT _ => (result + 4) % 2 ^ 64
  | .DOUBLE _ => (result + 8) % 2 ^ 64
  | .LEN _ bit => (result + bit) % 2 ^ 64
  | .ARRAY_FIXED _ len => (result + len) % 2 ^ 64
  | .ARRAY_VARIABLE _ len_offset =>
    (result + (load mem (data + len_offset) 8 * BITS_IN_BYTE) % 2 ^ 64) % 2 ^ 64
  | .ALIGN => (result + (BITS_IN_BYTE - result % BITS_IN_BYTE)) % 2 ^ 64
  | .PAD bit => (result + bit) % 2 ^ 64

/-- The `for` loop of `BitParser_GetLengthBit` over the descriptors still to do. -/
def BitParser_GetLengthBit_loop (data : Nat) (mem : List Nat) : List BitField_T → Nat → Nat
  | [], result => result
  | f :: rest, result =>
    BitParser_GetLengthBit_loop data mem rest (BitParser_GetLengthBit_switch data mem result f)

def BitParser_GetLengthBit (p_fields : List BitField_T) (no_fields : Nat) (data : Nat)
    (mem : List Nat) : Nat :=
  BitParser_GetLengthBit_loop data mem (p_fields.take no_fields) 0

def BitParser_GetLength (p_fields : List BitField_T) (no_fields : Nat) (data : Nat)
    (mem : List Nat) : Nat :=
  let bit := BitParser_GetLengthBit p_fields no_fields data mem
  bit / BITS_IN_BYTE + (if bit % BITS_IN_BYTE ≠ 0 then 1 else 0)

/-! ## Notions used to state the properties of the record codec -/

/-- The address offset of the field of a descriptor within the record (0 for the descriptors
that have no field). -/
def BitField_T.field_offset : BitField_T → Nat
  | .U8 offset _ => offset
  | .I8 offset _ => offset
  | .S8 offset _ => offset
  | .U16 offset _ => offset
  | .I16 offset _ => offset
  | .S16 offset _ => offset
  | .U32 offset _ => offset
  | .I32 offset _ => offset
  | .S32 offset _ => offset
  | .U64 offset _ => offset
  | .I64 offset _ => offset
  | .S64 offset _ => offset
  | .FLOAT offset => offset
  | .DOUBLE offset => offset
  | .LEN offset _ => offset
  | .ARRAY_FIXED offset _ => offset
  | .ARRAY_VARIABLE offset _ => offset
  | .ALIGN => 0
  | .PAD _ => 0

/-- The number of bytes that the field of a descriptor occupies in the record: the size of the
integer, `float`, `double` or `size_t`, the size of the pointer for an array, 0 for the
descriptors that have no field. -/
def BitField_T.field_size : BitField_T → Nat
  | .U8 _ _ => 1
  | .I8 _ _ => 1
  | .S8 _ _ => 1
  | .U16 _ _ => 2
  | .I16 _ _ => 2
  | .S16 _ _ => 2
  | .U32 _ _ => 4
  | .I32 _ _ => 4
  | .S32 _ _ => 4
  | .U64 _ _ => 8
  | .I64 _ _ => 8
  | .S64 _ _ => 8
  | .FLOAT _ => 4
  | .DOUBLE _ => 8
  | .LEN _ _ => 8
  | .ARRAY_FIXED _ _ => 8
  | .ARRAY_VARIABLE _ _ => 8
  | .ALIGN => 0
  | .PAD _ => 0

/-- The content of the field of a descriptor in the record at `data`, as an unsigned number. -/
def field_value (data : Nat) (mem : List Nat) (f : BitField_T) : Nat :=
  load mem (data + f.field_offset) f.field_size

/-- The byte count of the array of an array descriptor, times 8, is below `2 ^ 64` (an array in
memory has fewer than `2 ^ 61` bytes). -/
def array_bits_fit (data : Nat) (mem : List Nat) : BitField_T → Bool
  | .ARRAY_FIXED _ len => decide (8 * len < 2 ^ 64)
  | .ARRAY_VARIABLE _ len_offset => decide (8 * load mem (data + len_offset) 8 < 2 ^ 64)
  | _ => true

/-- An unsigned field of 8, 16 or 32 bits whose bit width `w` is between 1 and the width of the
type and whose value in the record at `data` is below `2 ^ w`, or `ALIGN`, or `PAD`. -/
def unsigned_field_fits (data : Nat) (mem : List Nat) : BitField_T → Bool
  | .U8 offset bit => decide (1 ≤ bit ∧ bit ≤ 8 ∧ load mem (data + offset) 1 < 2 ^ bit)
  | .U16 offset bit => decide (1 ≤ bit ∧ bit ≤ 16 ∧ load mem (data + offset) 2 < 2 ^ bit)
  | .U32 offset bit => decide (1 ≤ bit ∧ bit ≤ 32 ∧ load mem (data + offset) 4 < 2 ^ bit)
  | .ALIGN => true
  | .PAD _ => true
  | _ => false

/-- The position of the cursor after a descriptor that is serialized from position `p` with
room in the buffer. -/
def position_after (data : Nat) (mem : List Nat) (p : Nat) : BitField_T → Nat
  | .U8 _ bit => p + bit
  | .I8 _ bit => p + bit
  | .S8 _ bit => p + bit
  | .U16 _ bit => p + bit
  | .I16 _ bit => p + bit
  | .S16 _ bit => p + bit
  | .U32 _ bit => p + bit
  | .I32 _ bit => p + bit
  | .S32 _ bit => p + bit
  | .U64 _ bit => p + bit
  | .I64 _ bit => p + bit
  | .S64 _ bit => p + bit
  | .FLOAT _ => p + 32
  | .DOUBLE _ => p + 64
  | .LEN _ bit => p + bit
  | .ARRAY_FIXED _ len => p + 8 * len
  | .ARRAY_VARIABLE _ len_offset => p + 8 * load mem (data + len_offset) 8
  | .ALIGN => p + (if p % 8 ≠ 0 then 8 - p % 8 else 0)
  | .PAD bit => p + bit

/-- The position of the cursor after a descriptor list that is serialized from position `p` with
room in the buffer: the number of bits that the record needs when `p` is 0. -/
def wire_end (data : Nat) (mem : List Nat) : List BitField_T → Nat → Nat
  | [], p => p
  | f :: rest, p => wire_end data mem rest (position_after data mem p f)

/-! ## Data of `test_simple_array` in `unittests/test_bit_parser.c` -/

/-- The memory of `test_simple_array`: the record `msg` at address 0 with `aaa = 8` at offset 0
and the pointer `bbb` at offset 8, and the array `arr` it points to at address 16. -/
def test_simple_array_msg : List Nat :=
  [8, 0, 0, 0, 0, 0, 0, 0, 16, 0, 0, 0, 0, 0, 0, 0, 1, 2, 3, 4, 5, 6, 7, 8]

/-- The same memory with `aaa` and the array zeroed, to deserialize into. -/
def test_simple_array_blank : List Nat :=
  [0, 0, 0, 0, 0, 0, 0, 0, 16, 0, 0, 0, 0, 0, 0, 0, 0, 0, 0, 0, 0, 0, 0, 0]

/-- The bytes that `test_simple_array` expects. -/
def test_simple_array_expected : List Nat := [8, 1, 2, 3, 4, 5, 6, 7, 8]

/-! ## Data of `test_modbus_deserialize` and `test_misc_decode` in `unittests/test_bit_parser.c` -/

/-- The descriptor `msg_desc` of `test_modbus_read_input_registers` and
`test_modbus_deserialize` for the record `ReadInputRegister_T`. -/
def test_modbus_desc : List BitField_T :=
  [.U8 0 8, .U8 1 8, .U16 2 16, .U16 4 16, .U16 6 16]

/-- The record `msg` of `test_modbus_read_input_registers`: slave address `01`, function `04`,
address `0000`, number of points `0002`, error check `CB71`. -/
def test_modbus_msg : List Nat := [0x01, 0x04, 0x00, 0x00, 0x02, 0x00, 0x71, 0xCB]

/-- The descriptor `msg_dsc` of `test_misc_decode` for the record `Misc_T`. -/
def test_misc_dsc : List BitField_T :=
  [.U32 0 32, .U16 4 12, .U16 6 12, .U16 8 12, .U16 10 12, .U8 12 1, .U8 13 1, .U8 14 2,
    .U8 15 2, .U8 16 2, .U8 17 2, .U8 18 1, .U8 19 1, .U8 20 3, .U8 21 3, .U8 22 3, .U8 23 3,
    .U8 24 1, .U8 25 4]

/-- The bytes `input` of `test_misc_decode`. -/
def test_misc_input : List Nat :=
  [0b01011100, 0b01111010, 0b11101110, 0b10001000, 0b01111101, 0b00010000, 0b00100011,
    0b00110111, 0b10000010, 0b11111010, 0b01011011, 0b00101110, 0b10011101, 0b00011010]

/-- The descriptors for which `BitParser_GetLengthBit` adds the number of bits that the
serializer writes: all but `FLOAT`, `DOUBLE`, `ARRAY_FIXED` and `ALIGN`. -/
def counted_in_bits : BitField_T → Bool
  | .FLOAT _ => false
  | .DOUBLE _ => false
  | .ARRAY_FIXED _ _ => false
  | .ALIGN => false
  | _ => true

/-! ## The fragment loops with a record of their iterations

The same code as `Stream_WriteBit`, `Stream_ReadBit` and the four local bit codecs of
`UParser.c`, returning in addition what each iteration of the fragment loop works on and at
which indices the local array `data` of a codec is accessed. -/

/-- One iteration of a fragment loop: the values of `foreign_index`, `p_self->bit_index` and
`move_size` in it.  The iteration accesses the byte `BYTE_INDEX(foreign_index)` of `p_data`
and the byte `Stream_Tell(p_self)` of the buffer of the cursor. -/
structure Fragment where
  foreign_index : Nat
  bit_index : Nat
  move_size : Nat
deriving DecidableEq, Repr

/-- The `for` loop of `Stream_WriteBit`; the iterations come first. -/
def Stream_WriteBit_loop_trace :
    Nat → Stream_T → List Nat → Nat → Nat → Option (List Fragment × Stream_T)
  | 0, p_self, _, stop, foreign_index =>
    if foreign_index < stop then none else some ([], p_self)
  | fuel + 1, p_self, p_data, stop, foreign_index =>
    if foreign_index < stop then
      let foreign_size := MIN (BITS_IN_BYTE - BIT_IN_BYTE foreign_index) (stop - foreign_index)
      let own_size := MIN (BITS_IN_BYTE - Stream_TellBitInByte p_self) (Stream_GetLeftBits p_self)
      let move_size := MIN foreign_size own_size
      let input := byteAt p_data (BYTE_INDEX foreign_index)
      let output := byteAt p_self.p_buffer (Stream_Tell p_self)
      let data_to_write := Stream_ReadPartByte input foreign_index move_size p_self.mode
      let output := Stream_WritePartByte output data_to_write p_self.bit_index move_size p_self.mode
      let p_next := { p_self with
        p_buffer := p_self.p_buffer.set (Stream_Tell p_self) output,
        bit_index := p_self.bit_index + move_size }
      match Stream_WriteBit_loop_trace fuel p_next p_data stop (foreign_index + move_size) with
      | none => none
      | some (rest, p_last) =>
        some (⟨foreign_index, p_self.bit_index, move_size⟩ :: rest, p_last)
    else some ([], p_self)

/-- The function `Stream_WriteBit`; the iterations of its loop come first. -/
def Stream_WriteBit_trace (p_self : Stream_T) (p_data : List Nat) (bit_len : Nat) :
    Option (List Fragment × Status_T × Stream_T) :=
  if Stream_GetLeftBits p_self < bit_len then some ([], ERROR_STREAM_TOO_SHORT, p_self)
  else
    let offset :=
      if bit_len % BITS_IN_BYTE ≠ 0 ∧ p_self.mode = BIG then
        BITS_IN_BYTE - (bit_len % BITS_IN_BYTE)
      else 0
    (Stream_WriteBit_loop_trace bit_len p_self p_data (bit_len + offset) offset).map
      (fun r => (r.1, STATUS_SUCCESS, r.2))

/-- The `for` loop of `Stream_ReadBit`; the iterations come first. -/
def Stream_ReadBit_loop_trace :
    Nat → Stream_T → List Nat → Nat → Nat → Option (List Fragment × List Nat × Stream_T)
  | 0, p_self, p_data, stop, foreign_index =>
    if foreign_index < stop then none else some ([], p_data, p_self)
  | fuel + 1, p_self, p_data, stop, foreign_index =>
    if foreign_index < stop then
      let foreign_size := MIN (BITS_IN_BYTE - BIT_IN_BYTE foreign_index) (stop - foreign_index)
      let own_size := MIN (BITS_IN_BYTE - Stream_TellBitInByte p_self) (Stream_GetLeftBits p_self)
      let move_size := MIN foreign_size own_size
      let output := byteAt p_data (BYTE_INDEX foreign_index)
      let input := byteAt p_self.p_buffer (Stream_Tell p_self)
      let data_to_write := Stream_ReadPartByte input p_self.bit_index move_size p_self.mode
      let output := Stream_WritePartByte output data_to_write foreign_index move_size p_self.mode
      let p_data := p_data.set (BYTE_INDEX foreign_index) output
      let p_next := { p_self with bit_index := p_self.bit_index + move_size }
      match Stream_ReadBit_loop_trace fuel p_next p_data stop (foreign_index + move_size) with
      | none => none
      | some (rest, r) => some (⟨foreign_index, p_self.bit_index, move_size⟩ :: rest, r)
    else some ([], p_data, p_self)

/-- The function `Stream_ReadBit`; the iterations of its loop come first. -/
def Stream_ReadBit_trace (p_self : Stream_T) (p_data : List Nat) (bit_len : Nat) :
    Option (List Fragment × Status_T × List Nat × Stream_T) :=
  if Stream_GetLeftBits p_self < bit_len then some ([], ERROR_STREAM_TOO_SHORT, p_data, p_self)
  else
    let offset :=
      if bit_len % BITS_IN_BYTE ≠ 0 ∧ p_self.mode = BIG then
        BITS_IN_BYTE - (bit_len % BITS_IN_BYTE)
      else 0
    (Stream_ReadBit_loop_trace bit_len p_self p_data (bit_len + offset) offset).map
      (fun r => (r.1, STATUS_SUCCESS, r.2.1, r.2.2))

/-- The function `SerializeBitLE`; the indices at which it accesses its array `data` come
first: those of the loop that fills the array, then those of `Stream_WriteBit`. -/
def SerializeBitLE_trace (value byte_count bit_width : Nat) (p_stream : Stream_T) :
    Option (List Nat × Status_T × Stream_T) :=
  let data := (List.range byte_count).map (fun i => GET_BYTE value i)
  let filled := List.range byte_count
  if Stream_GetLeftBits p_stream < bit_width then
    some (filled, ERROR_STREAM_TOO_SHORT, p_stream)
  else
    let bit_to_be_written := MIN bit_width (BITS_IN_BYTE * byte_count)
    match Stream_WriteBit_trace p_stream data bit_to_be_written with
    | none => none
    | some (fr, result, p_stream) =>
      let used := filled ++ fr.map (fun x => BYTE_INDEX x.foreign_index)
      if result ≠ STATUS_SUCCESS then some (used, result, p_stream)
      else if bit_width > BITS_IN_BYTE * byte_count then
        some (used, Stream_SeekBit p_stream
          (Stream_TellBit p_stream + bit_width - BITS_IN_BYTE * byte_count))
      else some (used, result, p_stream)

/-- The function `SerializeBitBE`; the indices at which it accesses its array `data` come
first: those of the loop that fills the array, then those of `Stream_WriteBit`, which works on
`data + offset`. -/
def SerializeBitBE_trace (value byte_count bit_width : Nat) (p_stream : Stream_T) :
    Option (List Nat × Status_T × Stream_T) :=
  let data := (List.range byte_count).map (fun i => GET_BYTE value (byte_count - i - 1))
  let filled := List.range byte_count
  if Stream_GetLeftBits p_stream < bit_width then
    some (filled, ERROR_STREAM_TOO_SHORT, p_stream)
  else
    let (result, p_stream) :=
      if bit_width > BITS_IN_BYTE * byte_count then
        Stream_SeekBit p_stream (Stream_TellBit p_stream + bit_width - BITS_IN_BYTE * byte_count)
      else (STATUS_SUCCESS, p_stream)
    if result ≠ STATUS_SUCCESS then some (filled, result, p_stream)
    else
      let offset :=
        if bit_width ≤ (byte_count - 1) * BITS_IN_BYTE then
          byte_count - (bit_width / BITS_IN_BYTE) - (if bit_width % BITS_IN_BYTE ≠ 0 then 1 else 0)
        else 0
      let bit_to_be_written := MIN bit_width (BITS_IN_BYTE * byte_count)
      match Stream_WriteBit_trace p_stream (data.drop offset) bit_to_be_written with
      | none => none
      | some (fr, r) =>
        some (filled ++ fr.map (fun x => offset + BYTE_INDEX x.foreign_index), r)

/-- The function `DeserializeBitLE`; the indices at which it accesses its array `data` come
first: those of `memset`, those of `Stream_ReadBit` and those of the loop that composes the
value. -/
def DeserializeBitLE_trace (p_data byte_count bit_width : Nat) (p_stream : Stream_T) :
    Option (List Nat × Status_T × Nat × Stream_T) :=
  let data := List.replicate byte_count 0
  let cleared := List.range byte_count
  if Stream_GetLeftBits p_stream < bit_width then
    some (cleared, ERROR_STREAM_TOO_SHORT, p_data, p_stream)
  else
    let bit_to_be_read := MIN bit_width (BITS_IN_BYTE * byte_count)
    match Stream_ReadBit_trace p_stream data bit_to_be_read with
    | none => none
    | some (fr, result, data, p_stream) =>
      let used := cleared ++ fr.map (fun x => BYTE_INDEX x.foreign_index)
      if result ≠ STATUS_SUCCESS then some (used, result, p_data, p_stream)
      else
        let (result, p_stream) :=
          if bit_width > BITS_IN_BYTE * byte_count then
            Stream_SeekBit p_stream
              (Stream_TellBit p_stream + bit_width - BITS_IN_BYTE * byte_count)
          else (result, p_stream)
        if result ≠ STATUS_SUCCESS then some (used, result, p_data, p_stream)
        else
          let p_data := (List.range byte_count).foldl
            (fun acc i => acc ||| CREATE_BYTE (byteAt data i) i) 0
          some (used ++ List.range byte_count, STATUS_SUCCESS, p_data, p_stream)

/-- The function `DeserializeBitBE`; the indices at which it accesses its array `data` come
first: those of `memset`, those of `Stream_ReadBit` and those of the loop that composes the
value, which reads `data[byte_count - i - 1 - offset]`. -/
def DeserializeBitBE_trace (p_data byte_count bit_width : Nat) (p_stream : Stream_T) :
    Option (List Nat × Status_T × Nat × Stream_T) :=
  let data := List.replicate byte_count 0
  let cleared := List.range byte_count
  if Stream_GetLeftBits p_stream < bit_width then
    some (cleared, ERROR_STREAM_TOO_SHORT, p_data, p_stream)
  else
    let (result, p_stream) :=
      if bit_width > BITS_IN_BYTE * byte_count then
        Stream_SeekBit p_stream (Stream_TellBit p_stream + bit_width - BITS_IN_BYTE * byte_count)
      else (STATUS_SUCCESS, p_stream)
    if result ≠ STATUS_SUCCESS then some (cleared, result, p_data, p_stream)
    else
      let bit_to_be_read := MIN bit_width (BITS_IN_BYTE * byte_count)
      match Stream_ReadBit_trace p_stream data bit_to_be_read with
      | none => none
      | some (fr, result, data, p_stream) =>
        let used := cleared ++ fr.map (fun x => BYTE_INDEX x.foreign_index)
        if result ≠ STATUS_SUCCESS then some (used, result, p_data, p_stream)
        else
          let offset :=
            if bit_width < byte_count * BITS_IN_BYTE then
              (byte_count * BITS_IN_BYTE - bit_width) / BITS_IN_BYTE
            else 0
          let p_data := (List.range (byte_count - offset)).foldl
            (fun acc i => acc ||| CREATE_BYTE (byteAt data (byte_count - i - 1 - offset)) i) 0
          some (used ++ (List.range (byte_count - offset)).map
              (fun i => byte_count - i - 1 - offset),
            STATUS_SUCCESS, p_data, p_stream)

/-! ## Notions used to compare the final position with the bit length -/

/-- The status and the cursor that a codec returns, without the value. -/
def status_and_cursor {α : Type} (r : Option (Status_T × α × Stream_T)) :
    Option (Status_T × Stream_T) :=
  r.map (fun x => (x.1, x.2.2))

/-- For an `ARRAY_VARIABLE` descriptor: the length that the record at `data` in `mem` holds is
the one that the record at `data` in `memr` holds. -/
def length_agrees (data : Nat) (mem memr : List Nat) : BitField_T → Bool
  | .ARRAY_VARIABLE _ len_offset =>
    decide (load mem (data + len_offset) 8 = load memr (data + len_offset) 8)
  | _ => true

/-- Along the walk of `BitParser_Deserialize` over the descriptors, from the memory `mem` and
the cursor `p_stream`: every `ARRAY_VARIABLE` descriptor that the walk reaches finds in the
record being filled the length that the record in `memr` holds. -/
def decoded_lengths_agree (status_and : Status_T → Status_T → Status_T) (value : Int)
    (data : Nat) (memr : List Nat) : List BitField_T → List Nat → Stream_T → Bool
  | [], _, _ => true
  | f :: rest, mem, p_stream =>
    length_agrees data mem memr f &&
    (match BitParser_Deserialize_switch status_and value data mem STATUS_SUCCESS p_stream f with
      | some (STATUS_SUCCESS, mem1, p_stream1) =>
        decoded_lengths_agree status_and value data memr rest mem1 p_stream1
      | _ => true)

/-! ## Notions used to state that a length field is kept until its array is read -/

end BitParser

namespace BitParser
open Stream_Mode_T Status_T

/-! ## Masks and byte fragments -/

theorem GetMask_testBit (start stop j : Nat) (h2 : stop ≤ 8) :
    (Stream_GetMask start stop).testBit j = (decide (start ≤ j) && decide (j < stop)) := by
  have e1 : (256 : Nat) = 2 ^ 8 := by norm_num
  have e2 : (255 : Nat) = 2 ^ 8 - 1 := by norm_num
  simp only [Stream_GetMask, BITS_IN_BYTE, e1, e2, Nat.testBit_and, Nat.testBit_mod_two_pow,
    Nat.testBit_shiftLeft, Nat.testBit_shiftRight, Nat.testBit_two_pow_sub_one]
  by_cases a : start ≤ j <;> by_cases b : j < stop <;> by_cases c : j < 8 <;>
    simp [a, b, c] <;> omega

theorem ReadPartByte_testBit (m : Stream_Mode_T) (value index cnt j : Nat)
    (h : index % 8 + cnt ≤ 8) :
    (Stream_ReadPartByte value index cnt m).testBit j =
      (decide (j < cnt) &&
        value.testBit ((if m = LITTLE then index % 8 else 8 - index % 8 - cnt) + j)) := by
  have e1 : (256 : Nat) = 2 ^ 8 := by norm_num
  cases m
  · have hs : (8 - index % 8 - cnt) % 8 = 8 - index % 8 - cnt ∨ (cnt = 0) := by omega
    simp only [Stream_ReadPartByte, BITS_IN_BYTE, BIT_IN_BYTE, e1, Nat.testBit_mod_two_pow,
      Nat.testBit_shiftRight, Nat.testBit_and, reduceCtorEq, if_false]
    rw [GetMask_testBit _ _ _ (by omega)]
    rcases hs with hs | hs
    · rw [hs]
      by_cases a : j < cnt <;> by_cases c : j < 8 <;> simp [a, c] <;> omega
    · subst hs
      simp
  · have hs : (index % 8) % 8 = index % 8 := by omega
    simp only [Stream_ReadPartByte, BITS_IN_BYTE, BIT_IN_BYTE, e1, Nat.testBit_mod_two_pow,
      Nat.testBit_shiftRight, Nat.testBit_and, if_true, hs]
    rw [GetMask_testBit _ _ _ (by omega)]
    by_cases a : j < cnt <;> by_cases c : j < 8 <;> simp [a, c]
    omega

theorem ReadPartByte_lt (m : Stream_Mode_T) (value index cnt : Nat) :
    Stream_ReadPartByte value index cnt m < 256 := by
  unfold Stream_ReadPartByte
  exact Nat.mod_lt _ (by norm_num)

theorem WritePartByte_lt (m : Stream_Mode_T) (dst value index cnt : Nat) (hd : dst < 256) :
    Stream_WritePartByte dst value index cnt m < 256 := by
  unfold Stream_WritePartByte
  have e1 : (256 : Nat) = 2 ^ 8 := by norm_num
  simp only [e1]
  apply Nat.or_lt_two_pow
  · exact lt_of_le_of_lt Nat.and_le_left (by simpa [e1] using hd)
  · exact Nat.mod_lt _ (by norm_num)

theorem WritePartByte_testBit (m : Stream_Mode_T) (dst value index cnt j : Nat)
    (h : index % 8 + cnt ≤ 8) (hv : ∀ i, cnt ≤ i → value.testBit i = false) (hj : j < 8) :
    (Stream_WritePartByte dst value index cnt m).testBit j =
      (if (if m = LITTLE then index % 8 else 8 - index % 8 - cnt) ≤ j ∧
          j < (if m = LITTLE then index % 8 else 8 - index % 8 - cnt) + cnt
       then value.testBit (j - (if m = LITTLE then index % 8 else 8 - index % 8 - cnt))
       else dst.testBit j) := by
  have e1 : (256 : Nat) = 2 ^ 8 := by norm_num
  have e2 : (255 : Nat) = 2 ^ 8 - 1 := by norm_num
  cases m
  · simp only [Stream_WritePartByte, BITS_IN_BYTE, BIT_IN_BYTE, e1, e2, Nat.testBit_mod_two_pow,
      Nat.testBit_shiftLeft, Nat.testBit_and, Nat.testBit_or, Nat.testBit_xor,
      Nat.testBit_two_pow_sub_one, reduceCtorEq, if_false]
    rw [GetMask_testBit _ _ _ (by omega)]
    have hs : (8 - index % 8 - cnt) % 8 = 8 - index % 8 - cnt ∨ (cnt = 0) := by omega
    rcases hs with hs | hs
    · rw [hs]
      by_cases a : 8 - index % 8 - cnt ≤ j
      · by_cases b : j < 8 - index % 8 - cnt + cnt
        · have b2 : j < 8 - index % 8 := by omega
          simp [a, b, b2, hj]
        · have b2 : ¬ j < 8 - index % 8 := by omega
          have := hv (j - (8 - index % 8 - cnt)) (by omega)
          simp [a, b, b2, hj, this]
      · simp [a, hj]
    · subst hs
      have hv0 := fun i => hv i (Nat.zero_le _)
      simp [hv0, hj, Bool.and_comm]
  · have hs : (index % 8) % 8 = index % 8 := by omega
    simp only [Stream_WritePartByte, BITS_IN_BYTE, BIT_IN_BYTE, e1, e2, Nat.testBit_mod_two_pow,
      Nat.testBit_shiftLeft, Nat.testBit_and, Nat.testBit_or, Nat.testBit_xor,
      Nat.testBit_two_pow_sub_one, if_true, hs]
    rw [GetMask_testBit _ _ _ (by omega)]
    by_cases a : index % 8 ≤ j
    · by_cases b : j < index % 8 + cnt
      · simp [a, b, hj]
      · have := hv (j - index % 8) (by omega)
        simp [a, b, hj, this]
    · simp [a, hj]

theorem byteAt_set (l : List Nat) (i b j : Nat) (hi : i < l.length) :
    byteAt (l.set i b) j = if j = i then b else byteAt l j := by
  unfold byteAt
  simp only [List.getD_eq_getElem?_getD, List.getElem?_set]
  by_cases h : i = j
  · subst h
    simp [hi]
  · have h2 : ¬ j = i := fun e => h e.symm
    simp [h, h2]

theorem move_bitOf (m : Stream_Mode_T) (dst src di si cnt t : Nat)
    (hd : di % 8 + cnt ≤ 8) (hs : si % 8 + cnt ≤ 8) (ht : t < 8) :
    bitOf m (Stream_WritePartByte dst (Stream_ReadPartByte src si cnt m) di cnt m) t =
      if di % 8 ≤ t ∧ t < di % 8 + cnt then bitOf m src (si % 8 + (t - di % 8))
      else bitOf m dst t := by
  have hv : ∀ i, cnt ≤ i → (Stream_ReadPartByte src si cnt m).testBit i = false := by
    intro i hi
    rw [ReadPartByte_testBit m src si cnt i hs]
    simp
    intro h
    omega
  unfold bitOf
  cases m
  · simp only [reduceCtorEq, if_false]
    rw [WritePartByte_testBit BIG dst _ di cnt (7 - t) hd hv (by omega)]
    simp only [reduceCtorEq, if_false]
    by_cases a : di % 8 ≤ t ∧ t < di % 8 + cnt
    · have a2 : 8 - di % 8 - cnt ≤ 7 - t ∧ 7 - t < 8 - di % 8 - cnt + cnt := by omega
      rw [if_pos a, if_pos a2, ReadPartByte_testBit BIG src si cnt _ hs]
      simp only [reduceCtorEq, if_false]
      have e : 8 - si % 8 - cnt + (7 - t - (8 - di % 8 - cnt)) = 7 - (si % 8 + (t - di % 8)) := by
        omega
      rw [e]
      have : 7 - t - (8 - di % 8 - cnt) < cnt := by omega
      simp [this]
    · have a2 : ¬ (8 - di % 8 - cnt ≤ 7 - t ∧ 7 - t < 8 - di % 8 - cnt + cnt) := by omega
      rw [if_neg a, if_neg a2]
  · simp only [if_true]
    rw [WritePartByte_testBit LITTLE dst _ di cnt t hd hv ht]
    simp only [if_true]
    by_cases a : di % 8 ≤ t ∧ t < di % 8 + cnt
    · rw [if_pos a, if_pos a, ReadPartByte_testBit LITTLE src si cnt _ hs]
      have : t - di % 8 < cnt := by omega
      simp [this]
    · rw [if_neg a, if_neg a]

/-- One iteration of the fragment loops: `cnt` stream bits move from position `si` of `src` to
position `di` of `dst`, every other stream bit of `dst` stays. -/
theorem step_streamBit (m : Stream_Mode_T) (dst src : List Nat) (di si cnt k : Nat)
    (hd : di % 8 + cnt ≤ 8) (hs : si % 8 + cnt ≤ 8) (hlen : di / 8 < dst.length) :
    streamBit m (dst.set (di / 8)
        (Stream_WritePartByte (byteAt dst (di / 8))
          (Stream_ReadPartByte (byteAt src (si / 8)) si cnt m) di cnt m)) k =
      if di ≤ k ∧ k < di + cnt then streamBit m src (si + (k - di)) else streamBit m dst k := by
  unfold streamBit
  rw [byteAt_set _ _ _ _ hlen]
  by_cases hk : k / 8 = di / 8
  · rw [if_pos hk, move_bitOf m _ _ di si cnt (k % 8) hd hs (Nat.mod_lt _ (by norm_num))]
    by_cases a : di ≤ k ∧ k < di + cnt
    · have a2 : di % 8 ≤ k % 8 ∧ k % 8 < di % 8 + cnt := by omega
      rw [if_pos a, if_pos a2]
      have e1 : (si + (k - di)) / 8 = si / 8 := by omega
      have e2 : (si + (k - di)) % 8 = si % 8 + (k % 8 - di % 8) := by omega
      rw [e1, e2]
    · have a2 : ¬ (di % 8 ≤ k % 8 ∧ k % 8 < di % 8 + cnt) := by omega
      rw [if_neg a, if_neg a2, hk]
  · have a : ¬ (di ≤ k ∧ k < di + cnt) := by omega
    rw [if_neg hk, if_neg a]

/-! ## The fragment loops -/

theorem move_size_bounds (fi stop bi bl : Nat) (h : fi < stop) (hr : bi + (stop - fi) ≤ bl) :
    1 ≤ MIN (MIN (8 - fi % 8) (stop - fi)) (MIN (8 - bi % 8) (bl - bi)) ∧
    MIN (MIN (8 - fi % 8) (stop - fi)) (MIN (8 - bi % 8) (bl - bi)) ≤ stop - fi ∧
    fi % 8 + MIN (MIN (8 - fi % 8) (stop - fi)) (MIN (8 - bi % 8) (bl - bi)) ≤ 8 ∧
    bi % 8 + MIN (MIN (8 - fi % 8) (stop - fi)) (MIN (8 - bi % 8) (bl - bi)) ≤ 8 := by
  simp only [MIN]
  split_ifs <;> omega

theorem WriteBit_loop_spec (fuel : Nat) : ∀ (s : Stream_T) (data : List Nat) (stop fi : Nat),
    stop - fi ≤ fuel → s.bit_index + (stop - fi) ≤ s.bit_len →
    s.bit_len ≤ 8 * s.p_buffer.length →
    ∃ s1, Stream_WriteBit_loop fuel s data stop fi = some s1 ∧
      s1.bit_index = s.bit_index + (stop - fi) ∧ s1.bit_len = s.bit_len ∧ s1.mode = s.mode ∧
      s1.p_buffer.length = s.p_buffer.length ∧
      ∀ k, streamBit s.mode s1.p_buffer k =
        if s.bit_index ≤ k ∧ k < s.bit_index + (stop - fi)
        then streamBit s.mode data (fi + (k - s.bit_index))
        else streamBit s.mode s.p_buffer k := by
  induction fuel with
  | zero =>
    intro s data stop fi hf _ _
    have h : ¬ fi < stop := by omega
    refine ⟨s, by simp [Stream_WriteBit_loop, h], by omega, rfl, rfl, rfl, ?_⟩
    intro k
    have : ¬ (s.bit_index ≤ k ∧ k < s.bit_index + (stop - fi)) := by omega
    rw [if_neg this]
  | succ n ih =>
    intro s data stop fi hf hr hl
    by_cases h : fi < stop
    · obtain ⟨m1, m2, m3, m4⟩ := move_size_bounds fi stop s.bit_index s.bit_len h hr
      generalize hmv : MIN (MIN (8 - fi % 8) (stop - fi))
        (MIN (8 - s.bit_index % 8) (s.bit_len - s.bit_index)) = mv at m1 m2 m3 m4
      have hin : s.bit_index / 8 < s.p_buffer.length := by omega
      obtain ⟨s1, e1, e2, e3, e4, e5, e6⟩ := ih
        { s with
          p_buffer := s.p_buffer.set (s.bit_index / 8)
            (Stream_WritePartByte (byteAt s.p_buffer (s.bit_index / 8))
              (Stream_ReadPartByte (byteAt data (fi / 8)) fi mv s.mode) s.bit_index mv s.mode),
          bit_index := s.bit_index + mv }
        data stop (fi + mv) (by omega) (by simp only []; omega) (by simpa using hl)
      refine ⟨s1, ?_, ?_, e3, e4, ?_, ?_⟩
      · rw [Stream_WriteBit_loop]
        simp only [h, if_true, BITS_IN_BYTE, BIT_IN_BYTE, BYTE_INDEX, Stream_TellBitInByte,
          Stream_GetLeftBits, Stream_Tell, hmv]
        exact e1
      · simp only [] at e2
        omega
      · simpa using e5
      · intro k
        have := e6 k
        simp only [] at this
        rw [this, step_streamBit s.mode s.p_buffer data s.bit_index fi mv k m4 m3 hin]
        by_cases a : s.bit_index + mv ≤ k ∧ k < s.bit_index + mv + (stop - (fi + mv))
        · have a2 : s.bit_index ≤ k ∧ k < s.bit_index + (stop - fi) := by omega
          rw [if_pos a, if_pos a2]
          congr 1
          omega
        · rw [if_neg a]
          by_cases b : s.bit_index ≤ k ∧ k < s.bit_index + mv
          · have a2 : s.bit_index ≤ k ∧ k < s.bit_index + (stop - fi) := by omega
            rw [if_pos b, if_pos a2]
          · have a2 : ¬ (s.bit_index ≤ k ∧ k < s.bit_index + (stop - fi)) := by omega
            rw [if_neg b, if_neg a2]
    · refine ⟨s, ?_, by omega, rfl, rfl, rfl, ?_⟩
      · rw [Stream_WriteBit_loop]
        simp [h]
      · intro k
        have : ¬ (s.bit_index ≤ k ∧ k < s.bit_index + (stop - fi)) := by omega
        rw [if_neg this]

theorem ReadBit_loop_spec (fuel : Nat) : ∀ (s : Stream_T) (data : List Nat) (stop fi : Nat),
    stop - fi ≤ fuel → s.bit_index + (stop - fi) ≤ s.bit_len → stop ≤ 8 * data.length →
    (∀ i, byteAt data i < 256) →
    ∃ d1 s1, Stream_ReadBit_loop fuel s data stop fi = some (d1, s1) ∧
      s1.bit_index = s.bit_index + (stop - fi) ∧ s1.bit_len = s.bit_len ∧ s1.mode = s.mode ∧
      s1.p_buffer = s.p_buffer ∧ d1.length = data.length ∧ (∀ i, byteAt d1 i < 256) ∧
      ∀ k, streamBit s.mode d1 k =
        if fi ≤ k ∧ k < stop
        then streamBit s.mode s.p_buffer (s.bit_index + (k - fi))
        else streamBit s.mode data k := by
  induction fuel with
  | zero =>
    intro s data stop fi hf _ _ hb
    have h : ¬ fi < stop := by omega
    refine ⟨data, s, by simp [Stream_ReadBit_loop, h], by omega, rfl, rfl, rfl, rfl, hb, ?_⟩
    intro k
    have : ¬ (fi ≤ k ∧ k < stop) := by omega
    rw [if_neg this]
  | succ n ih =>
    intro s data stop fi hf hr hl hb
    by_cases h : fi < stop
    · obtain ⟨m1, m2, m3, m4⟩ := move_size_bounds fi stop s.bit_index s.bit_len h hr
      generalize hmv : MIN (MIN (8 - fi % 8) (stop - fi))
        (MIN (8 - s.bit_index % 8) (s.bit_len - s.bit_index)) = mv at m1 m2 m3 m4
      have hin : fi / 8 < data.length := by omega
      have hb1 : ∀ i, byteAt (data.set (fi / 8)
          (Stream_WritePartByte (byteAt data (fi / 8))
            (Stream_ReadPartByte (byteAt s.p_buffer (s.bit_index / 8)) s.bit_index mv s.mode)
            fi mv s.mode)) i < 256 := by
        intro i
        rw [byteAt_set _ _ _ _ hin]
        split_ifs
        · exact WritePartByte_lt _ _ _ _ _ (hb _)
        · exact hb i
      obtain ⟨d1, s1, e1, e2, e3, e4, e5, e6, e7, e8⟩ := ih
        { s with bit_index := s.bit_index + mv }
        (data.set (fi / 8)
          (Stream_WritePartByte (byteAt data (fi / 8))
            (Stream_ReadPartByte (byteAt s.p_buffer (s.bit_index / 8)) s.bit_index mv s.mode)
            fi mv s.mode))
        stop (fi + mv) (by omega) (by simp only []; omega) (by simpa using hl) hb1
      refine ⟨d1, s1, ?_, ?_, e3, e4, e5, ?_, e7, ?_⟩
      · rw [Stream_ReadBit_loop]
        simp only [h, if_true, BITS_IN_BYTE, BIT_IN_BYTE, BYTE_INDEX, Stream_TellBitInByte,
          Stream_GetLeftBits, Stream_Tell, hmv]
        exact e1
      · simp only [] at e2
        omega
      · simpa using e6
      · intro k
        have := e8 k
        simp only [] at this
        rw [this, step_streamBit s.mode data s.p_buffer fi s.bit_index mv k m3 m4 hin]
        by_cases a : fi + mv ≤ k ∧ k < stop
        · have a2 : fi ≤ k ∧ k < stop := by omega
          rw [if_pos a, if_pos a2]
          congr 1
          omega
        · rw [if_neg a]
          by_cases b : fi ≤ k ∧ k < fi + mv
          · have a2 : fi ≤ k ∧ k < stop := by omega
            rw [if_pos b, if_pos a2]
          · have a2 : ¬ (fi ≤ k ∧ k < stop) := by omega
            rw [if_neg b, if_neg a2]
    · refine ⟨data, s, ?_, by omega, rfl, rfl, rfl, rfl, hb, ?_⟩
      · rw [Stream_ReadBit_loop]
        simp [h]
      · intro k
        have : ¬ (fi ≤ k ∧ k < stop) := by omega
        rw [if_neg this]

theorem Stream_WriteBit_spec (s : Stream_T) (data : List Nat) (n : Nat)
    (hr : s.bit_index + n ≤ s.bit_len) (hl : s.bit_len ≤ 8 * s.p_buffer.length) :
    ∃ s1, Stream_WriteBit s data n = some (STATUS_SUCCESS, s1) ∧
      s1.bit_index = s.bit_index + n ∧ s1.bit_len = s.bit_len ∧ s1.mode = s.mode ∧
      s1.p_buffer.length = s.p_buffer.length ∧
      ∀ k, streamBit s.mode s1.p_buffer k =
        if s.bit_index ≤ k ∧ k < s.bit_index + n
        then streamBit s.mode data (bit_offset s.mode n + (k - s.bit_index))
        else streamBit s.mode s.p_buffer k := by
  obtain ⟨s1, e1, e2, e3, e4, e5, e6⟩ := WriteBit_loop_spec n s data
    (n + bit_offset s.mode n) (bit_offset s.mode n) (by omega) (by omega) hl
  have hn : n + bit_offset s.mode n - bit_offset s.mode n = n := by omega
  rw [hn] at e2 e6
  refine ⟨s1, ?_, e2, e3, e4, e5, e6⟩
  have hlt : ¬ (Stream_GetLeftBits s < n) := by
    unfold Stream_GetLeftBits
    omega
  unfold Stream_WriteBit
  simp only [hlt, if_false, BITS_IN_BYTE]
  unfold bit_offset at e1
  rw [e1]
  rfl

theorem Stream_ReadBit_spec (s : Stream_T) (data : List Nat) (n : Nat)
    (hr : s.bit_index + n ≤ s.bit_len) (hl : n + bit_offset s.mode n ≤ 8 * data.length)
    (hb : ∀ i, byteAt data i < 256) :
    ∃ d1 s1, Stream_ReadBit s data n = some (STATUS_SUCCESS, d1, s1) ∧
      s1.bit_index = s.bit_index + n ∧ s1.bit_len = s.bit_len ∧ s1.mode = s.mode ∧
      s1.p_buffer = s.p_buffer ∧ d1.length = data.length ∧ (∀ i, byteAt d1 i < 256) ∧
      ∀ k, streamBit s.mode d1 k =
        if bit_offset s.mode n ≤ k ∧ k < n + bit_offset s.mode n
        then streamBit s.mode s.p_buffer (s.bit_index + (k - bit_offset s.mode n))
        else streamBit s.mode data k := by
  obtain ⟨d1, s1, e1, e2, e3, e4, e5, e6, e7, e8⟩ := ReadBit_loop_spec n s data
    (n + bit_offset s.mode n) (bit_offset s.mode n) (by omega) (by omega) hl hb
  have hn : n + bit_offset s.mode n - bit_offset s.mode n = n := by omega
  rw [hn] at e2
  refine ⟨d1, s1, ?_, e2, e3, e4, e5, e6, e7, e8⟩
  have hlt : ¬ (Stream_GetLeftBits s < n) := by
    unfold Stream_GetLeftBits
    omega
  unfold Stream_ReadBit
  simp only [hlt, if_false, BITS_IN_BYTE]
  unfold bit_offset at e1
  rw [e1]
  rfl

/-! ## Values and their byte arrays -/

theorem MIN_eq (a b : Nat) : MIN a b = min a b := by
  unfold MIN
  split_ifs <;> omega

theorem byteAt_map_range (f : Nat → Nat) (n i : Nat) :
    byteAt ((List.range n).map f) i = if i < n then f i else 0 := by
  unfold byteAt
  by_cases h : i < n
  · simp [List.getD_eq_getElem?_getD, List.getElem?_map, List.getElem?_range h, h]
  · have h2 : (List.range n)[i]? = none := by
      rw [List.getElem?_eq_none_iff]
      simpa using h
    simp [List.getD_eq_getElem?_getD, List.getElem?_map, h, h2]

theorem byteAt_drop (l : List Nat) (off i : Nat) : byteAt (l.drop off) i = byteAt l (off + i) := by
  unfold byteAt
  simp [List.getD_eq_getElem?_getD, List.getElem?_drop]

theorem byteAt_replicate_zero (n i : Nat) : byteAt (List.replicate n 0) i = 0 := by
  unfold byteAt
  by_cases h : i < n
  · simp [List.getD_eq_getElem?_getD, List.getElem?_replicate, h]
  · simp [List.getD_eq_getElem?_getD, List.getElem?_replicate, h]

theorem streamBit_drop (m : Stream_Mode_T) (l : List Nat) (off k : Nat) :
    streamBit m (l.drop off) k = streamBit m l (8 * off + k) := by
  unfold streamBit
  rw [byteAt_drop]
  have e1 : (8 * off + k) / 8 = off + k / 8 := by omega
  have e2 : (8 * off + k) % 8 = k % 8 := by omega
  rw [e1, e2]

theorem streamBit_replicate_zero (m : Stream_Mode_T) (n k : Nat) :
    streamBit m (List.replicate n 0) k = false := by
  unfold streamBit bitOf
  rw [byteAt_replicate_zero]
  simp

theorem GET_BYTE_testBit (v i j : Nat) :
    (GET_BYTE v i).testBit j = (decide (j < 8) && v.testBit (i * 8 + j)) := by
  have e1 : (256 : Nat) = 2 ^ 8 := by norm_num
  simp only [GET_BYTE, e1, Nat.testBit_mod_two_pow, Nat.testBit_shiftRight]

/-- The scratch array of `SerializeBitLE` and `SerializeLE`, read least-significant-first. -/
theorem streamBit_data_LE (v bc k : Nat) :
    streamBit LITTLE ((List.range bc).map (fun i => GET_BYTE v i)) k =
      (decide (k < 8 * bc) && v.testBit k) := by
  unfold streamBit bitOf
  rw [byteAt_map_range]
  simp only [if_true]
  by_cases h : k / 8 < bc
  · have h2 : k < 8 * bc := by omega
    have h3 : k % 8 < 8 := by omega
    have h4 : k / 8 * 8 + k % 8 = k := by omega
    simp [h, h2, h3, h4, GET_BYTE_testBit]
  · have h2 : ¬ k < 8 * bc := by omega
    simp [h, h2]

/-- The scratch array of `SerializeBitBE` and `SerializeBE`, read most-significant-first. -/
theorem streamBit_data_BE (v bc k : Nat) :
    streamBit BIG ((List.range bc).map (fun i => GET_BYTE v (bc - i - 1))) k =
      (decide (k < 8 * bc) && v.testBit (8 * bc - 1 - k)) := by
  unfold streamBit bitOf
  rw [byteAt_map_range]
  simp only [reduceCtorEq, if_false]
  by_cases h : k / 8 < bc
  · have h2 : k < 8 * bc := by omega
    have h3 : 7 - k % 8 < 8 := by omega
    have h4 : (bc - k / 8 - 1) * 8 + (7 - k % 8) = 8 * bc - 1 - k := by omega
    simp [h, h2, h3, h4, GET_BYTE_testBit]
  · have h2 : ¬ k < 8 * bc := by omega
    simp [h, h2]

theorem testBit_byte_high (b j : Nat) (hb : b < 256) (hj : 8 ≤ j) : b.testBit j = false := by
  apply Nat.testBit_lt_two_pow
  calc b < 2 ^ 8 := by simpa using hb
    _ ≤ 2 ^ j := Nat.pow_le_pow_right (by norm_num) hj

theorem CREATE_BYTE_testBit (b i k : Nat) (hb : b < 256) :
    (CREATE_BYTE b i).testBit k =
      (decide (k < 64) && decide (k / 8 = i) && b.testBit (k % 8)) := by
  simp only [CREATE_BYTE, Nat.testBit_mod_two_pow, Nat.testBit_shiftLeft]
  by_cases h : k / 8 = i
  · have h2 : k ≥ i * 8 := by omega
    have h3 : k - i * 8 = k % 8 := by omega
    simp [h, h2, h3]
  · by_cases h2 : k ≥ i * 8
    · have h3 : 8 ≤ k - i * 8 := by omega
      simp [h, h2, testBit_byte_high b _ hb h3]
    · simp [h, h2]

/-- The loops that assemble a `uint64_t` from bytes. -/
theorem foldl_CREATE_BYTE_testBit (f : Nat → Nat) (n k : Nat) (hf : ∀ i, i < n → f i < 256) :
    ((List.range n).foldl (fun acc i => acc ||| CREATE_BYTE (f i) i) 0).testBit k =
      (decide (k < 64) && decide (k / 8 < n) && (f (k / 8)).testBit (k % 8)) := by
  induction n with
  | zero => simp
  | succ n ih =>
    rw [List.range_succ, List.foldl_append]
    simp only [List.foldl_cons, List.foldl_nil, Nat.testBit_or,
      ih (fun i hi => hf i (Nat.lt_succ_of_lt hi)),
      CREATE_BYTE_testBit _ _ _ (hf n (Nat.lt_succ_self n))]
    by_cases h : k / 8 = n
    · have h2 : ¬ k / 8 < n := by omega
      have h3 : k / 8 < n + 1 := by omega
      simp [h, h2, h3]
    · by_cases h2 : k / 8 < n
      · have h3 : k / 8 < n + 1 := by omega
        simp [h, h2, h3]
      · have h3 : ¬ k / 8 < n + 1 := by omega
        simp [h, h2, h3]

/-! ## The bit codecs of unsigned values -/

theorem bit_offset_BIG (n : Nat) : bit_offset BIG n = if n % 8 = 0 then 0 else 8 - n % 8 := by
  unfold bit_offset
  split_ifs <;> simp_all

theorem bit_offset_LITTLE (n : Nat) : bit_offset LITTLE n = 0 := by
  simp [bit_offset]

theorem SerializeBitLE_spec (v bc w : Nat) (s : Stream_T) (hm : s.mode = LITTLE)
    (hr : s.bit_index + w ≤ s.bit_len) (hl : s.bit_len ≤ 8 * s.p_buffer.length) :
    ∃ s1, SerializeBitLE v bc w s = some (STATUS_SUCCESS, s1) ∧
      s1.bit_index = s.bit_index + w ∧ s1.bit_len = s.bit_len ∧ s1.mode = s.mode ∧
      s1.p_buffer.length = s.p_buffer.length ∧
      ∀ k, streamBit LITTLE s1.p_buffer k =
        if s.bit_index ≤ k ∧ k < s.bit_index + min w (8 * bc)
        then v.testBit (k - s.bit_index)
        else streamBit LITTLE s.p_buffer k := by
  obtain ⟨s1, e1, e2, e3, e4, e5, e6⟩ := Stream_WriteBit_spec s
    ((List.range bc).map (fun i => GET_BYTE v i)) (min w (8 * bc)) (by omega) hl
  have hlt : ¬ (Stream_GetLeftBits s < w) := by
    unfold Stream_GetLeftBits
    omega
  have hbits : ∀ k, streamBit LITTLE s1.p_buffer k =
      if s.bit_index ≤ k ∧ k < s.bit_index + min w (8 * bc)
      then v.testBit (k - s.bit_index)
      else streamBit LITTLE s.p_buffer k := by
    intro k
    have := e6 k
    rw [hm] at this
    rw [this]
    by_cases a : s.bit_index ≤ k ∧ k < s.bit_index + min w (8 * bc)
    · rw [if_pos a, if_pos a, streamBit_data_LE]
      have h0 : bit_offset LITTLE (min w (8 * bc)) = 0 := by simp [bit_offset]
      have h1 : k - s.bit_index < 8 * bc := by omega
      simp [h0, h1]
    · rw [if_neg a, if_neg a]
  unfold SerializeBitLE
  simp only [hlt, if_false, BITS_IN_BYTE, MIN_eq, e1]
  by_cases hw : w > 8 * bc
  · refine ⟨{ s1 with bit_index := s1.bit_index + w - 8 * bc }, ?_, ?_, e3, e4, e5, hbits⟩
    · have : ¬ (s1.bit_index + w - 8 * bc > s1.bit_len) := by omega
      simp [hw, Stream_SeekBit, Stream_TellBit, Stream_GetSizeBits, this]
    · simp only []
      omega
  · refine ⟨s1, ?_, ?_, e3, e4, e5, hbits⟩
    · simp [hw]
    · omega

theorem SerializeBitBE_spec (v bc w : Nat) (s : Stream_T) (hbc : 1 ≤ bc) (hm : s.mode = BIG)
    (hr : s.bit_index + w ≤ s.bit_len) (hl : s.bit_len ≤ 8 * s.p_buffer.length) :
    ∃ s1, SerializeBitBE v bc w s = some (STATUS_SUCCESS, s1) ∧
      s1.bit_index = s.bit_index + w ∧ s1.bit_len = s.bit_len ∧ s1.mode = s.mode ∧
      s1.p_buffer.length = s.p_buffer.length ∧
      ∀ k, streamBit BIG s1.p_buffer k =
        if s.bit_index + (w - min w (8 * bc)) ≤ k ∧ k < s.bit_index + w
        then v.testBit (s.bit_index + w - 1 - k)
        else streamBit BIG s.p_buffer k := by
  have hlt : ¬ (Stream_GetLeftBits s < w) := by
    unfold Stream_GetLeftBits
    omega
  have key : ∀ (s0 : Stream_T) (off : Nat), s0.mode = BIG → s0.p_buffer = s.p_buffer →
      s0.bit_len = s.bit_len → s0.bit_index = s.bit_index + (w - min w (8 * bc)) →
      8 * off + bit_offset BIG (min w (8 * bc)) = 8 * bc - min w (8 * bc) →
      ∃ s1, Stream_WriteBit s0 (((List.range bc).map
          (fun i => GET_BYTE v (bc - i - 1))).drop off) (min w (8 * bc)) =
          some (STATUS_SUCCESS, s1) ∧
        s1.bit_index = s.bit_index + w ∧ s1.bit_len = s.bit_len ∧ s1.mode = s.mode ∧
        s1.p_buffer.length = s.p_buffer.length ∧
        ∀ k, streamBit BIG s1.p_buffer k =
          if s.bit_index + (w - min w (8 * bc)) ≤ k ∧ k < s.bit_index + w
          then v.testBit (s.bit_index + w - 1 - k)
          else streamBit BIG s.p_buffer k := by
    intro s0 off h1 h2 h3 h4 h5
    obtain ⟨s1, e1, e2, e3, e4, e5, e6⟩ := Stream_WriteBit_spec s0
      (((List.range bc).map (fun i => GET_BYTE v (bc - i - 1))).drop off) (min w (8 * bc))
      (by omega) (by rw [h3, h2]; exact hl)
    refine ⟨s1, e1, by omega, by omega, by rw [e4, h1, hm], by rw [e5, h2], ?_⟩
    intro k
    have := e6 k
    rw [h1, h2, h4] at this
    rw [this]
    by_cases a : s.bit_index + (w - min w (8 * bc)) ≤ k ∧ k < s.bit_index + w
    · have a2 : s.bit_index + (w - min w (8 * bc)) ≤ k ∧
          k < s.bit_index + (w - min w (8 * bc)) + min w (8 * bc) := by omega
      rw [if_pos a, if_pos a2, streamBit_drop, streamBit_data_BE]
      have c1 : 8 * off + (bit_offset BIG (min w (8 * bc)) +
          (k - (s.bit_index + (w - min w (8 * bc))))) < 8 * bc := by omega
      have c2 : 8 * bc - 1 - (8 * off + (bit_offset BIG (min w (8 * bc)) +
          (k - (s.bit_index + (w - min w (8 * bc)))))) = s.bit_index + w - 1 - k := by omega
      simp [c1, c2]
    · have a2 : ¬ (s.bit_index + (w - min w (8 * bc)) ≤ k ∧
          k < s.bit_index + (w - min w (8 * bc)) + min w (8 * bc)) := by omega
      rw [if_neg a, if_neg a2]
  unfold SerializeBitBE
  simp only [hlt, if_false, BITS_IN_BYTE, MIN_eq]
  by_cases hw : w > 8 * bc
  · have hseek : ¬ (s.bit_index + w - 8 * bc > s.bit_len) := by omega
    have hoff : ¬ (w ≤ (bc - 1) * 8) := by omega
    simp only [hw, if_true, Stream_SeekBit, Stream_TellBit, Stream_GetSizeBits, hseek, if_false,
      hoff, ne_eq, not_true_eq_false]
    refine key _ 0 ?_ rfl rfl ?_ ?_
    · exact hm
    · simp only []
      omega
    · have : min w (8 * bc) % 8 = 0 := by omega
      simp only [bit_offset, this]
      simp
      omega
  · simp only [hw, if_false, ne_eq, not_true_eq_false]
    have hmin : min w (8 * bc) = w := by omega
    refine key _ _ hm rfl rfl ?_ ?_
    · omega
    · rw [hmin, bit_offset_BIG]
      split_ifs <;> omega

theorem DeserializeBitLE_spec (old bc w : Nat) (s : Stream_T) (hbc : bc ≤ 8)
    (hm : s.mode = LITTLE) (hr : s.bit_index + w ≤ s.bit_len) :
    ∃ x s1, DeserializeBitLE old bc w s = some (STATUS_SUCCESS, x, s1) ∧
      s1.bit_index = s.bit_index + w ∧ s1.bit_len = s.bit_len ∧ s1.mode = s.mode ∧
      s1.p_buffer = s.p_buffer ∧
      ∀ k, x.testBit k =
        (decide (k < min w (8 * bc)) && streamBit LITTLE s.p_buffer (s.bit_index + k)) := by
  have hlt : ¬ (Stream_GetLeftBits s < w) := by
    unfold Stream_GetLeftBits
    omega
  obtain ⟨d1, s1, e1, e2, e3, e4, e5, e6, e7, e8⟩ := Stream_ReadBit_spec s
    (List.replicate bc 0) (min w (8 * bc)) (by omega)
    (by rw [hm, bit_offset_LITTLE, List.length_replicate]; omega)
    (fun i => by rw [byteAt_replicate_zero]; norm_num)
  have hbits : ∀ k, ((List.range bc).foldl
      (fun acc i => acc ||| CREATE_BYTE (byteAt d1 i) i) 0).testBit k =
      (decide (k < min w (8 * bc)) && streamBit LITTLE s.p_buffer (s.bit_index + k)) := by
    intro k
    rw [foldl_CREATE_BYTE_testBit (fun i => byteAt d1 i) _ _ (fun i _ => e7 i)]
    have h1 := e8 k
    rw [hm, bit_offset_LITTLE, streamBit_replicate_zero] at h1
    have h2 : (byteAt d1 (k / 8)).testBit (k % 8) = streamBit LITTLE d1 k := by
      simp [streamBit, bitOf]
    simp only [h2, h1]
    by_cases a : k < min w (8 * bc)
    · have a1 : k < 64 := by omega
      have a2 : k / 8 < bc := by omega
      simp [a, a1, a2]
    · simp [a]
  unfold DeserializeBitLE
  simp only [hlt, if_false, BITS_IN_BYTE, MIN_eq, e1]
  by_cases hw : w > 8 * bc
  · refine ⟨_, { s1 with bit_index := s1.bit_index + w - 8 * bc }, ?_, ?_, e3, e4, e5, hbits⟩
    · have : ¬ (s1.bit_index + w - 8 * bc > s1.bit_len) := by omega
      simp [hw, Stream_SeekBit, Stream_TellBit, Stream_GetSizeBits, this]
    · simp only []
      omega
  · refine ⟨_, s1, ?_, ?_, e3, e4, e5, hbits⟩
    · simp [hw]
    · omega

theorem DeserializeBitBE_spec (old bc w : Nat) (s : Stream_T) (hbc1 : 1 ≤ bc) (hbc : bc ≤ 8)
    (hm : s.mode = BIG) (hr : s.bit_index + w ≤ s.bit_len) :
    ∃ x s1, DeserializeBitBE old bc w s = some (STATUS_SUCCESS, x, s1) ∧
      s1.bit_index = s.bit_index + w ∧ s1.bit_len = s.bit_len ∧ s1.mode = s.mode ∧
      s1.p_buffer = s.p_buffer ∧
      ∀ k, x.testBit k =
        (decide (k < min w (8 * bc)) && streamBit BIG s.p_buffer (s.bit_index + w - 1 - k)) := by
  have hlt : ¬ (Stream_GetLeftBits s < w) := by
    unfold Stream_GetLeftBits
    omega
  have key : ∀ (s0 : Stream_T) (off : Nat), s0.mode = BIG → s0.p_buffer = s.p_buffer →
      s0.bit_len = s.bit_len → s0.bit_index = s.bit_index + (w - min w (8 * bc)) →
      8 * (bc - off) = min w (8 * bc) + bit_offset BIG (min w (8 * bc)) →
      ∃ x s1,
        (match Stream_ReadBit s0 (List.replicate bc 0) (min w (8 * bc)) with
          | none => none
          | some (result, data, p_stream) =>
            if result ≠ STATUS_SUCCESS then some (result, old, p_stream)
            else some (STATUS_SUCCESS, (List.range (bc - off)).foldl
              (fun acc i => acc ||| CREATE_BYTE (byteAt data (bc - i - 1 - off)) i) 0,
              p_stream)) = some (STATUS_SUCCESS, x, s1) ∧
        s1.bit_index = s.bit_index + w ∧ s1.bit_len = s.bit_len ∧ s1.mode = s.mode ∧
        s1.p_buffer = s.p_buffer ∧
        ∀ k, x.testBit k = (decide (k < min w (8 * bc)) &&
          streamBit BIG s.p_buffer (s.bit_index + w - 1 - k)) := by
    intro s0 off h1 h2 h3 h4 h5
    obtain ⟨d1, s1, e1, e2, e3, e4, e5, e6, e7, e8⟩ := Stream_ReadBit_spec s0
      (List.replicate bc 0) (min w (8 * bc)) (by omega)
      (by rw [List.length_replicate]; rw [h1]; omega)
      (fun i => by rw [byteAt_replicate_zero]; norm_num)
    refine ⟨(List.range (bc - off)).foldl
        (fun acc i => acc ||| CREATE_BYTE (byteAt d1 (bc - i - 1 - off)) i) 0, s1,
      by rw [e1]; simp only [ne_eq, not_true_eq_false, if_false],
      by omega, by omega, by rw [e4, h1, hm], by rw [e5, h2], ?_⟩
    intro k
    rw [foldl_CREATE_BYTE_testBit (fun i => byteAt d1 (bc - i - 1 - off)) _ _ (fun i _ => e7 _)]
    by_cases a : k / 8 < bc - off
    · have h6 : (byteAt d1 (bc - k / 8 - 1 - off)).testBit (k % 8) =
          streamBit BIG d1 (8 * (bc - off) - 1 - k) := by
        have c1 : (8 * (bc - off) - 1 - k) / 8 = bc - k / 8 - 1 - off := by omega
        have c2 : 7 - (8 * (bc - off) - 1 - k) % 8 = k % 8 := by omega
        simp [streamBit, bitOf, c1, c2]
      have h7 := e8 (8 * (bc - off) - 1 - k)
      rw [h1, h2, streamBit_replicate_zero, h4] at h7
      simp only [h6, h7]
      have a1 : k < 64 := by omega
      by_cases b : k < min w (8 * bc)
      · have b2 : bit_offset BIG (min w (8 * bc)) ≤ 8 * (bc - off) - 1 - k ∧
            8 * (bc - off) - 1 - k < min w (8 * bc) + bit_offset BIG (min w (8 * bc)) := by
          omega
        have c3 : s.bit_index + (w - min w (8 * bc)) +
            (8 * (bc - off) - 1 - k - bit_offset BIG (min w (8 * bc))) =
            s.bit_index + w - 1 - k := by omega
        rw [if_pos b2, c3]
        simp [a, a1, b]
      · have b2 : ¬ (bit_offset BIG (min w (8 * bc)) ≤ 8 * (bc - off) - 1 - k ∧
            8 * (bc - off) - 1 - k < min w (8 * bc) + bit_offset BIG (min w (8 * bc))) := by
          omega
        rw [if_neg b2]
        simp [b]
    · have b : ¬ k < min w (8 * bc) := by omega
      simp [a, b]
  unfold DeserializeBitBE
  simp only [hlt, if_false, BITS_IN_BYTE, MIN_eq]
  by_cases hw : w > 8 * bc
  · have hseek : ¬ (s.bit_index + w - 8 * bc > s.bit_len) := by omega
    have hoff : ¬ (w < bc * 8) := by omega
    simp only [hw, if_true, Stream_SeekBit, Stream_TellBit, Stream_GetSizeBits, hseek, if_false,
      hoff, ne_eq, not_true_eq_false]
    refine key _ 0 ?_ rfl rfl ?_ ?_
    · exact hm
    · simp only []
      omega
    · have hmin : min w (8 * bc) = 8 * bc := by omega
      rw [hmin, bit_offset_BIG]
      split_ifs <;> omega
  · simp only [hw, if_false, ne_eq, not_true_eq_false]
    have hmin : min w (8 * bc) = w := by omega
    refine key _ _ hm rfl rfl ?_ ?_
    · omega
    · rw [hmin, bit_offset_BIG]
      split_ifs <;> omega

theorem eq_mod_two_pow_of_testBit (x v n : Nat)
    (h : ∀ k, x.testBit k = (decide (k < n) && v.testBit k)) : x = v % 2 ^ n := by
  apply Nat.eq_of_testBit_eq
  intro k
  rw [h k, Nat.testBit_mod_two_pow]

/-- What `SerializeBit` leaves in the buffer: the low `min w (8 * bc)` bits of the value, placed
at the end of the field in `BIG` mode (most significant bit first) and at its start in `LITTLE`
mode (least significant bit first); the rest of the buffer is as before. -/
theorem SerializeBit_spec (v bc w : Nat) (s : Stream_T) (hbc : 1 ≤ bc)
    (hr : s.bit_index + w ≤ s.bit_len) (hl : s.bit_len ≤ 8 * s.p_buffer.length) :
    ∃ s1, SerializeBit v bc w s = some (STATUS_SUCCESS, s1) ∧
      s1.bit_index = s.bit_index + w ∧ s1.bit_len = s.bit_len ∧ s1.mode = s.mode ∧
      s1.p_buffer.length = s.p_buffer.length ∧
      (s.mode = BIG → ∀ k, streamBit BIG s1.p_buffer k =
        if s.bit_index + (w - min w (8 * bc)) ≤ k ∧ k < s.bit_index + w
        then v.testBit (s.bit_index + w - 1 - k)
        else streamBit BIG s.p_buffer k) ∧
      (s.mode = LITTLE → ∀ k, streamBit LITTLE s1.p_buffer k =
        if s.bit_index ≤ k ∧ k < s.bit_index + min w (8 * bc)
        then v.testBit (k - s.bit_index)
        else streamBit LITTLE s.p_buffer k) := by
  unfold SerializeBit Stream_GetMode
  cases hm : s.mode
  · obtain ⟨s1, e1, e2, e3, e4, e5, e6⟩ := SerializeBitBE_spec v bc w s hbc hm hr hl
    rw [hm] at e4
    refine ⟨s1, by simpa using e1, e2, e3, e4, e5, fun _ => e6, fun h => by simp at h⟩
  · obtain ⟨s1, e1, e2, e3, e4, e5, e6⟩ := SerializeBitLE_spec v bc w s hm hr hl
    rw [hm] at e4
    refine ⟨s1, by simpa using e1, e2, e3, e4, e5, fun h => by simp at h, fun _ => e6⟩

/-- What `DeserializeBit` returns: the `min w (8 * bc)` value bits of the field, read in the
order of the mode. -/
theorem DeserializeBit_spec (old bc w : Nat) (s : Stream_T) (hbc1 : 1 ≤ bc) (hbc : bc ≤ 8)
    (hr : s.bit_index + w ≤ s.bit_len) :
    ∃ x s1, DeserializeBit old bc w s = some (STATUS_SUCCESS, x, s1) ∧
      s1.bit_index = s.bit_index + w ∧ s1.bit_len = s.bit_len ∧ s1.mode = s.mode ∧
      s1.p_buffer = s.p_buffer ∧
      (s.mode = BIG → ∀ k, x.testBit k =
        (decide (k < min w (8 * bc)) && streamBit BIG s.p_buffer (s.bit_index + w - 1 - k))) ∧
      (s.mode = LITTLE → ∀ k, x.testBit k =
        (decide (k < min w (8 * bc)) && streamBit LITTLE s.p_buffer (s.bit_index + k))) := by
  unfold DeserializeBit Stream_GetMode
  cases hm : s.mode
  · obtain ⟨x, s1, e1, e2, e3, e4, e5, e6⟩ := DeserializeBitBE_spec old bc w s hbc1 hbc hm hr
    rw [hm] at e4
    refine ⟨x, s1, by simpa using e1, e2, e3, e4, e5, fun _ => e6, fun h => by simp at h⟩
  · obtain ⟨x, s1, e1, e2, e3, e4, e5, e6⟩ := DeserializeBitLE_spec old bc w s hbc hm hr
    rw [hm] at e4
    refine ⟨x, s1, by simpa using e1, e2, e3, e4, e5, fun h => by simp at h, fun _ => e6⟩

/-- Writing a value with `SerializeBit` and reading the field back with `DeserializeBit` gives
the low `min w (8 * bc)` bits of the value. -/
theorem SerializeBit_DeserializeBit (v bc w : Nat) (s : Stream_T) (hbc1 : 1 ≤ bc)
    (hbc : bc ≤ 8) (hr : s.bit_index + w ≤ s.bit_len) (hl : s.bit_len ≤ 8 * s.p_buffer.length) :
    ∃ s1, SerializeBit v bc w s = some (STATUS_SUCCESS, s1) ∧
      s1.bit_index = s.bit_index + w ∧
      Stream_SeekBit s1 s.bit_index = (STATUS_SUCCESS, { s1 with bit_index := s.bit_index }) ∧
      ∀ old, ∃ s3, DeserializeBit old bc w { s1 with bit_index := s.bit_index } =
          some (STATUS_SUCCESS, v % 2 ^ min w (8 * bc), s3) ∧
        s3.bit_index = s.bit_index + w ∧ s3.p_buffer = s1.p_buffer := by
  obtain ⟨s1, e1, e2, e3, e4, e5, e6, e7⟩ := SerializeBit_spec v bc w s hbc1 hr hl
  refine ⟨s1, e1, e2, ?_, ?_⟩
  · have : ¬ (s.bit_index > s1.bit_len) := by omega
    simp [Stream_SeekBit, Stream_GetSizeBits, this]
  intro old
  obtain ⟨x, s3, f1, f2, f3, f4, f5, f6, f7⟩ := DeserializeBit_spec old bc w
    { s1 with bit_index := s.bit_index } hbc1 hbc (by simp only []; omega)
  have hx : x = v % 2 ^ min w (8 * bc) := by
    apply eq_mod_two_pow_of_testBit
    intro k
    cases hm : s.mode
    · rw [f6 (by simp only []; rw [e4, hm]) k]
      simp only []
      by_cases a : k < min w (8 * bc)
      · rw [e6 hm]
        have a2 : s.bit_index + (w - min w (8 * bc)) ≤ s.bit_index + w - 1 - k ∧
            s.bit_index + w - 1 - k < s.bit_index + w := by omega
        have a3 : s.bit_index + w - 1 - (s.bit_index + w - 1 - k) = k := by omega
        rw [if_pos a2, a3]
      · simp [a]
    · rw [f7 (by simp only []; rw [e4, hm]) k]
      simp only []
      by_cases a : k < min w (8 * bc)
      · rw [e7 hm]
        have a2 : s.bit_index ≤ s.bit_index + k ∧
            s.bit_index + k < s.bit_index + min w (8 * bc) := by omega
        have a3 : s.bit_index + k - s.bit_index = k := by omega
        rw [if_pos a2, a3]
      · simp [a]
  subst hx
  exact ⟨s3, f1, f2, f5⟩

theorem mod_min_mod (v w n : Nat) : v % 2 ^ min w n % 2 ^ n = v % 2 ^ min w n :=
  Nat.mod_eq_of_lt (lt_of_lt_of_le (Nat.mod_lt _ (Nat.two_pow_pos _))
    (Nat.pow_le_pow_right (by norm_num) (Nat.min_le_right _ _)))

/-! ## The byte-aligned path -/

theorem byteAt_memcpy (dst src : List Nat) (off len j : Nat) (h1 : off + len ≤ dst.length)
    (h2 : len ≤ src.length) :
    byteAt (memcpy dst off src len) j =
      if off ≤ j ∧ j < off + len then byteAt src (j - off) else byteAt dst j := by
  unfold byteAt memcpy
  simp only [List.getD_eq_getElem?_getD]
  have l1 : (dst.take off).length = off := by simp; omega
  have l2 : (src.take len).length = len := by simp; omega
  by_cases a : j < off
  · have c : ¬ (off ≤ j ∧ j < off + len) := by omega
    rw [if_neg c, List.append_assoc, List.getElem?_append_left (by omega), List.getElem?_take]
    simp [a]
  · rw [List.append_assoc, List.getElem?_append_right (by omega), l1]
    by_cases b : j < off + len
    · have c : off ≤ j ∧ j < off + len := by omega
      rw [if_pos c, List.getElem?_append_left (by omega), List.getElem?_take]
      have : j - off < len := by omega
      simp [this]
    · have c : ¬ (off ≤ j ∧ j < off + len) := by omega
      rw [if_neg c, List.getElem?_append_right (by omega), l2, List.getElem?_drop]
      congr 2
      omega

theorem memcpy_length (dst src : List Nat) (off len : Nat) (h1 : off + len ≤ dst.length)
    (h2 : len ≤ src.length) : (memcpy dst off src len).length = dst.length := by
  unfold memcpy
  simp
  omega

/-- The effect of `Stream_Write` when there is room: the bytes go to the next byte boundary. -/
theorem Stream_Write_spec (s : Stream_T) (data : List Nat) (len : Nat)
    (hroom : len ≤ Stream_GetLeft s) (hi : s.bit_index ≤ s.bit_len)
    (hl : s.bit_len ≤ 8 * s.p_buffer.length) (hd : len ≤ data.length) :
    ∃ s1, Stream_Write s data len = (STATUS_SUCCESS, s1) ∧
      s1.bit_index = 8 * ((s.bit_index + 7) / 8 + len) ∧ s1.bit_len = s.bit_len ∧
      s1.mode = s.mode ∧ s1.p_buffer.length = s.p_buffer.length ∧
      ∀ j, byteAt s1.p_buffer j =
        if (s.bit_index + 7) / 8 ≤ j ∧ j < (s.bit_index + 7) / 8 + len
        then byteAt data (j - (s.bit_index + 7) / 8)
        else byteAt s.p_buffer j := by
  have hlt : ¬ (Stream_GetLeft s < len) := by omega
  unfold Stream_GetLeft BITS_IN_BYTE at hroom
  have htell : Stream_Tell (Stream_Align s) = (s.bit_index + 7) / 8 := by
    simp only [Stream_Tell, Stream_Align, Stream_TellBitInByte, BIT_IN_BYTE, BYTE_INDEX,
      BITS_IN_BYTE]
    split_ifs <;> omega
  have hidx : (Stream_Align s).bit_index = 8 * ((s.bit_index + 7) / 8) := by
    simp only [Stream_Align, Stream_TellBitInByte, BIT_IN_BYTE, BITS_IN_BYTE]
    split_ifs <;> omega
  have hin : (s.bit_index + 7) / 8 + len ≤ s.p_buffer.length := by omega
  unfold Stream_Write
  simp only [hlt, if_false, htell]
  refine ⟨_, rfl, ?_, rfl, rfl, ?_, ?_⟩
  · simp only [hidx, BITS_IN_BYTE]
    omega
  · exact memcpy_length _ _ _ _ hin hd
  · intro j
    exact byteAt_memcpy _ _ _ _ j hin hd

/-- The effect of `Stream_Read` when there is room. -/
theorem Stream_Read_spec (s : Stream_T) (data : List Nat) (len : Nat)
    (hroom : len ≤ Stream_GetLeft s) (hi : s.bit_index ≤ s.bit_len)
    (hl : s.bit_len ≤ 8 * s.p_buffer.length) (hd : len ≤ data.length) :
    ∃ d1 s1, Stream_Read s data len = (STATUS_SUCCESS, d1, s1) ∧
      s1.bit_index = 8 * ((s.bit_index + 7) / 8 + len) ∧ s1.bit_len = s.bit_len ∧
      s1.mode = s.mode ∧ s1.p_buffer = s.p_buffer ∧
      ∀ j, byteAt d1 j =
        if j < len then byteAt s.p_buffer ((s.bit_index + 7) / 8 + j) else byteAt data j := by
  have hlt : ¬ (Stream_GetLeft s < len) := by omega
  unfold Stream_GetLeft BITS_IN_BYTE at hroom
  have htell : Stream_Tell (Stream_Align s) = (s.bit_index + 7) / 8 := by
    simp only [Stream_Tell, Stream_Align, Stream_TellBitInByte, BIT_IN_BYTE, BYTE_INDEX,
      BITS_IN_BYTE]
    split_ifs <;> omega
  have hidx : (Stream_Align s).bit_index = 8 * ((s.bit_index + 7) / 8) := by
    simp only [Stream_Align, Stream_TellBitInByte, BIT_IN_BYTE, BITS_IN_BYTE]
    split_ifs <;> omega
  have hin : (s.bit_index + 7) / 8 + len ≤ s.p_buffer.length := by omega
  unfold Stream_Read
  simp only [hlt, if_false, htell]
  refine ⟨_, _, rfl, ?_, rfl, rfl, rfl, ?_⟩
  · simp only [hidx, BITS_IN_BYTE]
    omega
  · intro j
    have hb : (Stream_Align s).p_buffer = s.p_buffer := rfl
    rw [byteAt_memcpy _ _ _ _ j (by omega) (by rw [List.length_drop, hb]; omega), hb]
    by_cases a : j < len
    · have c : 0 ≤ j ∧ j < 0 + len := by omega
      rw [if_pos c, if_pos a, byteAt_drop]
      rfl
    · have c : ¬ (0 ≤ j ∧ j < 0 + len) := by omega
      rw [if_neg c, if_neg a]

/-- The bytes that `Serialize` writes: the `bc` low-order bytes of the value, most significant
first in `BIG` mode and least significant first in `LITTLE` mode. -/
theorem Serialize_spec (v bc : Nat) (s : Stream_T) (hroom : bc ≤ Stream_GetLeft s)
    (hi : s.bit_index ≤ s.bit_len) (hl : s.bit_len ≤ 8 * s.p_buffer.length) :
    ∃ s1, Serialize v bc s = (STATUS_SUCCESS, s1) ∧
      s1.bit_index = 8 * ((s.bit_index + 7) / 8 + bc) ∧ s1.bit_len = s.bit_len ∧
      s1.mode = s.mode ∧ s1.p_buffer.length = s.p_buffer.length ∧
      ∀ j, byteAt s1.p_buffer j =
        if (s.bit_index + 7) / 8 ≤ j ∧ j < (s.bit_index + 7) / 8 + bc
        then (if s.mode = BIG then GET_BYTE v (bc - (j - (s.bit_index + 7) / 8) - 1)
              else GET_BYTE v (j - (s.bit_index + 7) / 8))
        else byteAt s.p_buffer j := by
  unfold Serialize Stream_GetMode
  cases hm : s.mode
  · obtain ⟨s1, e1, e2, e3, e4, e5, e6⟩ := Stream_Write_spec s
      ((List.range bc).map (fun i => GET_BYTE v (bc - i - 1))) bc hroom hi hl (by simp)
    rw [hm] at e4
    refine ⟨s1, by simpa [SerializeBE] using e1, e2, e3, e4, e5, ?_⟩
    intro j
    rw [e6 j, byteAt_map_range]
    by_cases c : (s.bit_index + 7) / 8 ≤ j ∧ j < (s.bit_index + 7) / 8 + bc
    · have c2 : j - (s.bit_index + 7) / 8 < bc := by omega
      simp [c, c2]
    · simp [c]
  · obtain ⟨s1, e1, e2, e3, e4, e5, e6⟩ := Stream_Write_spec s
      ((List.range bc).map (fun i => GET_BYTE v i)) bc hroom hi hl (by simp)
    rw [hm] at e4
    refine ⟨s1, by simpa [SerializeLE] using e1, e2, e3, e4, e5, ?_⟩
    intro j
    rw [e6 j, byteAt_map_range]
    by_cases c : (s.bit_index + 7) / 8 ≤ j ∧ j < (s.bit_index + 7) / 8 + bc
    · have c2 : j - (s.bit_index + 7) / 8 < bc := by omega
      simp [c, c2]
    · simp [c]

/-- The value that `Deserialize` assembles from the `bc` bytes at the next byte boundary. -/
theorem Deserialize_spec (old bc : Nat) (s : Stream_T) (hbc : bc ≤ 8)
    (hroom : bc ≤ Stream_GetLeft s) (hi : s.bit_index ≤ s.bit_len)
    (hl : s.bit_len ≤ 8 * s.p_buffer.length)
    (hb : ∀ j, j < bc → byteAt s.p_buffer ((s.bit_index + 7) / 8 + j) < 256) :
    ∃ x s1, Deserialize old bc s = (STATUS_SUCCESS, x, s1) ∧
      s1.bit_index = 8 * ((s.bit_index + 7) / 8 + bc) ∧ s1.bit_len = s.bit_len ∧
      s1.mode = s.mode ∧ s1.p_buffer = s.p_buffer ∧
      ∀ k, x.testBit k = (decide (k < 8 * bc) &&
        (byteAt s.p_buffer ((s.bit_index + 7) / 8 +
          (if s.mode = BIG then bc - k / 8 - 1 else k / 8))).testBit (k % 8)) := by
  obtain ⟨d1, s1, e1, e2, e3, e4, e5, e6⟩ := Stream_Read_spec s (List.replicate bc 0) bc
    hroom hi hl (by simp)
  unfold Deserialize Stream_GetMode
  cases hm : s.mode
  · refine ⟨_, s1, by simp [DeserializeBE, e1]; rfl, e2, e3, by rw [e4, hm], e5, ?_⟩
    intro k
    rw [foldl_CREATE_BYTE_testBit (fun i => byteAt d1 (bc - i - 1)) _ _
      (fun i hi => by show byteAt d1 _ < 256; rw [e6, if_pos (by omega)]; exact hb _ (by omega))]
    by_cases c : k < 8 * bc
    · have c1 : k < 64 := by omega
      have c2 : k / 8 < bc := by omega
      have c3 : bc - k / 8 - 1 < bc := by omega
      simp [c, c1, c2, e6, c3]
    · have c2 : ¬ k / 8 < bc := by omega
      simp [c, c2]
  · refine ⟨_, s1, by simp [DeserializeLE, e1]; rfl, e2, e3, by rw [e4, hm], e5, ?_⟩
    intro k
    rw [foldl_CREATE_BYTE_testBit (fun i => byteAt d1 i) _ _
      (fun i hi => by show byteAt d1 _ < 256; rw [e6, if_pos hi]; exact hb _ hi)]
    by_cases c : k < 8 * bc
    · have c1 : k < 64 := by omega
      have c2 : k / 8 < bc := by omega
      simp [c, c1, c2, e6]
    · have c2 : ¬ k / 8 < bc := by omega
      simp [c, c2]

theorem GET_BYTE_lt (v i : Nat) : GET_BYTE v i < 256 := by
  unfold GET_BYTE
  exact Nat.mod_lt _ (by norm_num)

/-- Writing a value with `Serialize`, seeking back to the byte where it starts and reading it
with `Deserialize` gives the value modulo `2 ^ (8 * bc)`. -/
theorem Serialize_Deserialize (v bc : Nat) (s : Stream_T) (hbc1 : 1 ≤ bc) (hbc : bc ≤ 8)
    (hroom : bc ≤ Stream_GetLeft s) (h8 : s.bit_len % 8 = 0)
    (hl : s.bit_len ≤ 8 * s.p_buffer.length) :
    ∃ s1, Serialize v bc s = (STATUS_SUCCESS, s1) ∧
      Stream_Seek s1 ((s.bit_index + 7) / 8) =
        (STATUS_SUCCESS, { s1 with bit_index := (s.bit_index + 7) / 8 * 8 }) ∧
      ∀ old, ∃ s3, Deserialize old bc { s1 with bit_index := (s.bit_index + 7) / 8 * 8 } =
        (STATUS_SUCCESS, v % 2 ^ (8 * bc), s3) := by
  have hroom2 := hroom
  unfold Stream_GetLeft BITS_IN_BYTE at hroom2
  have hi : s.bit_index ≤ s.bit_len := by omega
  obtain ⟨s1, e1, e2, e3, e4, e5, e6⟩ := Serialize_spec v bc s hroom hi hl
  refine ⟨s1, e1, ?_, ?_⟩
  · have : ¬ ((s.bit_index + 7) / 8 ≥ s1.bit_len / 8) := by omega
    simp [Stream_Seek, Stream_GetSize, BITS_IN_BYTE, this]
  intro old
  have ha : ((s.bit_index + 7) / 8 * 8 + 7) / 8 = (s.bit_index + 7) / 8 := by omega
  obtain ⟨x, s3, f1, _, _, _, _, f6⟩ := Deserialize_spec old bc
    { s1 with bit_index := (s.bit_index + 7) / 8 * 8 } hbc
    (by simp only [Stream_GetLeft, BITS_IN_BYTE]; omega) (by simp only []; omega)
    (by simp only []; omega)
    (by
      intro j hj
      dsimp only
      rw [ha, e6, if_pos (by omega)]
      split_ifs <;> exact GET_BYTE_lt _ _)
  dsimp only at f6
  rw [ha] at f6
  have hx : x = v % 2 ^ (8 * bc) := by
    apply eq_mod_two_pow_of_testBit
    intro k
    rw [f6 k]
    simp only [e4]
    by_cases c : k < 8 * bc
    · cases hm : s.mode
      · simp only [if_true]
        rw [e6, if_pos (by omega)]
        have c1 : bc - ((s.bit_index + 7) / 8 + (bc - k / 8 - 1) - (s.bit_index + 7) / 8) - 1 =
            k / 8 := by omega
        have c2 : k / 8 * 8 + k % 8 = k := by omega
        have c3 : k % 8 < 8 := by omega
        have c4 : (bc - (bc - k / 8 - 1) - 1) * 8 + k % 8 = k := by omega
        simp [hm, c, c1, c2, c3, c4, GET_BYTE_testBit]
      · simp only [reduceCtorEq, if_false]
        rw [e6, if_pos (by omega)]
        have c1 : (s.bit_index + 7) / 8 + k / 8 - (s.bit_index + 7) / 8 = k / 8 := by omega
        have c2 : k / 8 * 8 + k % 8 = k := by omega
        have c3 : k % 8 < 8 := by omega
        simp [hm, c, c1, c2, c3, GET_BYTE_testBit]
    · simp [c]
  subst hx
  exact ⟨s3, f1⟩

/-! ## Two's complement conversions -/

theorem to_int_16_memcpy (v data : Int) (h1 : -2 ^ 15 ≤ v) (h2 : v < 2 ^ 15) :
    to_int 16 (memcpy_int64 data (to_uint64 v % 2 ^ (8 * 2)) 2) = v := by
  unfold to_int memcpy_int64 to_int to_uint64
  norm_num at h1 h2 ⊢
  split_ifs <;> omega

theorem to_int_32_memcpy (v data : Int) (h1 : -2 ^ 31 ≤ v) (h2 : v < 2 ^ 31) :
    to_int 32 (memcpy_int64 data (to_uint64 v % 2 ^ (8 * 4)) 4) = v := by
  unfold to_int memcpy_int64 to_int to_uint64
  norm_num at h1 h2 ⊢
  split_ifs <;> omega

theorem to_int_64_memcpy (v data : Int) (h1 : -2 ^ 63 ≤ v) (h2 : v < 2 ^ 63) :
    memcpy_int64 data (to_uint64 v % 2 ^ (8 * 8)) 8 = v := by
  unfold memcpy_int64 to_int to_uint64
  norm_num at h1 h2 ⊢
  split_ifs <;> omega

theorem to_int_8_byte (v : Int) (h1 : -2 ^ 7 ≤ v) (h2 : v < 2 ^ 7) :
    to_int 8 ((to_uint64 v % 2 ^ (8 * 1) : Nat) : Int) = v := by
  unfold to_int to_uint64
  norm_num at h1 h2 ⊢
  split_ifs <;> omega

theorem IDeserialize_of (p_output : Int) (bc : Nat) (s s3 : Stream_T) (x : Nat)
    (h : Deserialize 0 bc s = (STATUS_SUCCESS, x, s3)) :
    IDeserialize p_output bc s = (STATUS_SUCCESS, memcpy_int64 p_output x bc, s3) := by
  unfold IDeserialize
  rw [h]
  dsimp only
  rw [if_neg (fun h => h rfl)]

/-! ## Sign and magnitude -/

/-- The sign-and-magnitude pattern of `v` with the sign at bit `n`. -/
theorem sm_or_eq_add (a n : Nat) (ha : a < 2 ^ n) : a ||| 2 ^ n = a + 2 ^ n := by
  have := Nat.mul_add_lt_is_or ha 1
  rw [Nat.mul_one] at this
  rw [Nat.lor_comm, ← this, Nat.add_comm]

theorem one_shl_mask (n : Nat) (hn : n < 64) : (1 <<< n) % 2 ^ 64 = 2 ^ n := by
  rw [Nat.shiftLeft_eq, Nat.one_mul]
  exact Nat.mod_eq_of_lt (Nat.pow_lt_pow_right (by norm_num) hn)

theorem testBit_of_lt (a n j : Nat) (ha : a < 2 ^ n) (hj : n ≤ j) : a.testBit j = false :=
  Nat.testBit_lt_two_pow (lt_of_lt_of_le ha (Nat.pow_le_pow_right (by norm_num) hj))

theorem sm_sign_set (a n : Nat) : (a ||| 2 ^ n) &&& 2 ^ n = 2 ^ n := by
  apply Nat.eq_of_testBit_eq
  intro j
  simp only [Nat.testBit_and, Nat.testBit_or, Nat.testBit_two_pow]
  by_cases h : n = j
  · simp [h]
  · simp [h]

theorem sm_magnitude (a n : Nat) (ha : a < 2 ^ n) (hn : n < 64) :
    (a ||| 2 ^ n) &&& ((2 ^ 64 - 1) ^^^ 2 ^ n) = a := by
  apply Nat.eq_of_testBit_eq
  intro j
  simp only [Nat.testBit_and, Nat.testBit_or, Nat.testBit_xor, Nat.testBit_two_pow,
    Nat.testBit_two_pow_sub_one]
  by_cases h : n = j
  · subst h
    simp [hn, testBit_of_lt a n n ha (le_refl _)]
  · by_cases h2 : j < 64
    · simp [h, h2]
    · simp [h, h2, testBit_of_lt a n j ha (by omega)]

theorem sm_sign_clear (a n : Nat) (ha : a < 2 ^ n) : a &&& 2 ^ n = 0 := by
  apply Nat.eq_of_testBit_eq
  intro j
  simp only [Nat.testBit_and, Nat.testBit_two_pow, Nat.zero_testBit]
  by_cases h : n = j
  · subst h
    simp [testBit_of_lt a n n ha (le_refl _)]
  · simp [h]

theorem sm_magnitude_pos (a n : Nat) (ha : a < 2 ^ n) (hn : n < 64) :
    a &&& ((2 ^ 64 - 1) ^^^ 2 ^ n) = a := by
  apply Nat.eq_of_testBit_eq
  intro j
  simp only [Nat.testBit_and, Nat.testBit_xor, Nat.testBit_two_pow,
    Nat.testBit_two_pow_sub_one]
  by_cases h : n = j
  · subst h
    simp [hn, testBit_of_lt a n n ha (le_refl _)]
  · by_cases h2 : j < 64
    · simp [h, h2]
    · simp [h, h2, testBit_of_lt a n j ha (by omega)]

theorem to_uint64_int_one_shl (n : Nat) (hn : n ≤ 30) : to_uint64 (int_one_shl n) = 2 ^ n := by
  interval_cases n <;> rfl

theorem IDeserializeBit_of (p_data : Int) (bc w : Nat) (s s3 : Stream_T) (x : Nat)
    (h : DeserializeBit 0 bc w s = some (STATUS_SUCCESS, x, s3)) :
    IDeserializeBit p_data bc w s = some (STATUS_SUCCESS,
      memcpy_int64 p_data
        (if x &&& (1 <<< (w - 1)) % 2 ^ 64 ≠ 0 then x ||| (0xFF <<< w) % 2 ^ 64 else x) bc,
      s3) := by
  unfold IDeserializeBit
  rw [h]
  dsimp only
  rw [if_neg (fun h => h rfl)]

theorem SDeserializeBit_of (p_data : Int) (bc w : Nat) (s s3 : Stream_T) (x : Nat)
    (h : DeserializeBit 0 bc w s = some (STATUS_SUCCESS, x, s3)) :
    SDeserializeBit p_data bc w s = some (STATUS_SUCCESS,
      (if x &&& (1 <<< (w - 1)) % 2 ^ 64 ≠ 0
        then to_int 64 (to_int 64 (x &&& ((2 ^ 64 - 1) ^^^ (1 <<< (w - 1)) % 2 ^ 64) : Nat) * -1)
        else to_int 64 (x &&& ((2 ^ 64 - 1) ^^^ (1 <<< (w - 1)) % 2 ^ 64) : Nat)),
      s3) := by
  unfold SDeserializeBit
  rw [h]
  dsimp only
  rw [if_neg (fun h => h rfl)]

/-- The value that `SSerializeBit` hands to `SerializeBit` when the sign bit fits an `int`
shift: the magnitude, plus `2 ^ (w - 1)` for a negative value. -/
theorem SSerializeBit_eq (v : Int) (bc w : Nat) (s : Stream_T) (hw31 : w ≤ 31)
    (hv : v.natAbs < 2 ^ (w - 1)) :
    SSerializeBit v bc w s =
      SerializeBit (if v < 0 then v.natAbs + 2 ^ (w - 1) else v.natAbs) bc w s := by
  have hp : 2 ^ (w - 1) ≤ 2 ^ 30 := Nat.pow_le_pow_right (by norm_num) (by omega)
  have hb : v.natAbs < 2 ^ 30 := lt_of_lt_of_le hv hp
  unfold SSerializeBit
  by_cases h : v < 0
  · have e1 : to_uint64 (v * -1) = v.natAbs := by
      unfold to_uint64
      omega
    rw [if_pos h, if_pos h, e1, to_uint64_int_one_shl _ (by omega), sm_or_eq_add _ _ hv]
  · have e1 : to_uint64 v = v.natAbs := by
      unfold to_uint64
      omega
    rw [if_neg h, if_neg h, e1]

theorem sm_decode_neg (a n : Nat) (ha : a < 2 ^ n) (hn : n ≤ 62) :
    (if (a + 2 ^ n) &&& (1 <<< n) % 2 ^ 64 ≠ 0
      then to_int 64 (to_int 64
        ((a + 2 ^ n) &&& ((2 ^ 64 - 1) ^^^ (1 <<< n) % 2 ^ 64) : Nat) * -1)
      else to_int 64 ((a + 2 ^ n) &&& ((2 ^ 64 - 1) ^^^ (1 <<< n) % 2 ^ 64) : Nat)) =
    -(a : Int) := by
  have hp : 2 ^ n ≤ 2 ^ 62 := Nat.pow_le_pow_right (by norm_num) hn
  have hp0 : 0 < 2 ^ n := Nat.two_pow_pos n
  rw [one_shl_mask n (by omega), ← sm_or_eq_add a n ha, sm_sign_set, sm_magnitude a n ha (by omega),
    if_pos (by omega)]
  unfold to_int
  norm_num
  split_ifs <;> omega

theorem sm_decode_pos (a n : Nat) (ha : a < 2 ^ n) (hn : n ≤ 62) :
    (if a &&& (1 <<< n) % 2 ^ 64 ≠ 0
      then to_int 64 (to_int 64 (a &&& ((2 ^ 64 - 1) ^^^ (1 <<< n) % 2 ^ 64) : Nat) * -1)
      else to_int 64 (a &&& ((2 ^ 64 - 1) ^^^ (1 <<< n) % 2 ^ 64) : Nat)) =
    (a : Int) := by
  have hp : 2 ^ n ≤ 2 ^ 62 := Nat.pow_le_pow_right (by norm_num) hn
  rw [one_shl_mask n (by omega), sm_sign_clear a n ha, sm_magnitude_pos a n ha (by omega),
    if_neg (by simp)]
  unfold to_int
  norm_num
  split_ifs <;> omega

/-- The sign-and-magnitude bit codec on a field that is not wider than the native type and not
wider than 31 bits: what is written, and that it reads back. -/
theorem SSerializeBit_SDeserializeBit (v : Int) (bc w : Nat) (s : Stream_T) (hbc1 : 1 ≤ bc)
    (hbc : bc ≤ 8) (hw1 : 1 ≤ w) (hw : w ≤ 8 * bc) (hw31 : w ≤ 31)
    (hv : v.natAbs < 2 ^ (w - 1))
    (hr : s.bit_index + w ≤ s.bit_len) (hl : s.bit_len ≤ 8 * s.p_buffer.length) :
    ∃ s1, SSerializeBit v bc w s = some (STATUS_SUCCESS, s1) ∧
      (∀ i, i < w →
        (byteAt s1.p_buffer ((s.bit_index + i) / 8)).testBit
            (if s.mode = BIG then 7 - (s.bit_index + i) % 8 else (s.bit_index + i) % 8) =
          (if v < 0 then v.natAbs + 2 ^ (w - 1) else v.natAbs).testBit
            (if s.mode = BIG then w - 1 - i else i)) ∧
      Stream_SeekBit s1 s.bit_index = (STATUS_SUCCESS, { s1 with bit_index := s.bit_index }) ∧
      ∀ old, ∃ s3, SDeserializeBit old bc w { s1 with bit_index := s.bit_index } =
        some (STATUS_SUCCESS, v, s3) := by
  have hmin : min w (8 * bc) = w := by omega
  have hpat : (if v < 0 then v.natAbs + 2 ^ (w - 1) else v.natAbs) < 2 ^ w := by
    have e : 2 ^ w = 2 ^ (w - 1) + 2 ^ (w - 1) := by
      have : w = (w - 1) + 1 := by omega
      rw [this, Nat.pow_succ]
      simp
      omega
    split_ifs <;> omega
  obtain ⟨s1, e1, e2, e3, e4⟩ := SerializeBit_DeserializeBit
    (if v < 0 then v.natAbs + 2 ^ (w - 1) else v.natAbs) bc w s hbc1 hbc hr hl
  obtain ⟨s0, g1, _, _, _, _, g6, g7⟩ := SerializeBit_spec
    (if v < 0 then v.natAbs + 2 ^ (w - 1) else v.natAbs) bc w s hbc1 hr hl
  rw [e1] at g1
  obtain rfl : s1 = s0 := (Prod.mk.inj (Option.some.inj g1)).2
  refine ⟨s1, by rw [SSerializeBit_eq v bc w s hw31 hv]; exact e1, ?_, e3, ?_⟩
  · intro i hi
    cases hm : s.mode
    · have h := g6 hm (s.bit_index + i)
      rw [if_pos (by omega)] at h
      have c : s.bit_index + w - 1 - (s.bit_index + i) = w - 1 - i := by omega
      rw [c] at h
      simpa [streamBit, bitOf] using h
    · have h := g7 hm (s.bit_index + i)
      rw [if_pos (by omega)] at h
      have c : s.bit_index + i - s.bit_index = i := by omega
      rw [c] at h
      simpa [streamBit, bitOf] using h
  · intro old
    obtain ⟨s3, f1, _, _⟩ := e4 0
    rw [hmin, Nat.mod_eq_of_lt hpat] at f1
    refine ⟨s3, ?_⟩
    rw [SDeserializeBit_of old bc w _ s3 _ f1]
    by_cases h : v < 0
    · simp only [if_pos h]
      rw [sm_decode_neg _ _ hv (by omega)]
      have : -(v.natAbs : Int) = v := by omega
      rw [this]
    · simp only [if_neg h]
      rw [sm_decode_pos _ _ hv (by omega)]
      have : (v.natAbs : Int) = v := by omega
      rw [this]

/-! ## Claims -/

/-- C1: for every unsigned kind, both modes, every bit-width, every value and every position
with at least `w` bits remaining, `U*_SerializeBit` succeeds and leaves the cursor at `p + w`,
the seek back to `p` succeeds, and `U*_DeserializeBit` succeeds, yields the value modulo
`2 ^ min w N` and leaves the cursor at `p + w`. -/
theorem C1_unsigned_bit_roundtrip (k : Width) (s : Stream_T) (v w old : Nat)
    (hr : s.bit_index + w ≤ s.bit_len) (hl : s.bit_len ≤ 8 * s.p_buffer.length) :
    ∃ s1 s2 s3, U_SerializeBit k v w s = some (STATUS_SUCCESS, s1) ∧
      Stream_TellBit s1 = s.bit_index + w ∧
      Stream_SeekBit s1 s.bit_index = (STATUS_SUCCESS, s2) ∧
      U_DeserializeBit k old w s2 = some (STATUS_SUCCESS, v % 2 ^ min w k.bits, s3) ∧
      Stream_TellBit s3 = s.bit_index + w := by
  obtain ⟨s1, e1, e2, e3, e4⟩ := SerializeBit_DeserializeBit v k.byte_count w s
    (by cases k <;> decide) (by cases k <;> decide) hr hl
  cases k
  · obtain ⟨s3, f1, f2, _⟩ := e4 0
    refine ⟨s1, _, s3, e1, e2, e3, ?_, f2⟩
    simp only [U_DeserializeBit, U8_DeserializeBit, Width.byte_count] at f1 ⊢
    rw [f1]
    simp only [ne_eq, not_true_eq_false, if_false, Width.bits, Width.byte_count]
    rw [mod_min_mod v w (8 * 1)]
  · obtain ⟨s3, f1, f2, _⟩ := e4 0
    refine ⟨s1, _, s3, e1, e2, e3, ?_, f2⟩
    simp only [U_DeserializeBit, U16_DeserializeBit, Width.byte_count] at f1 ⊢
    rw [f1]
    simp only [ne_eq, not_true_eq_false, if_false, Width.bits, Width.byte_count]
    rw [mod_min_mod v w (8 * 2)]
  · obtain ⟨s3, f1, f2, _⟩ := e4 0
    refine ⟨s1, _, s3, e1, e2, e3, ?_, f2⟩
    simp only [U_DeserializeBit, U32_DeserializeBit, Width.byte_count] at f1 ⊢
    rw [f1]
    simp only [ne_eq, not_true_eq_false, if_false, Width.bits, Width.byte_count]
    rw [mod_min_mod v w (8 * 4)]
  · obtain ⟨s3, f1, f2, _⟩ := e4 old
    exact ⟨s1, _, s3, e1, e2, e3, f1, f2⟩

theorem C1_unsigned_bit_roundtrip_witness :
    (4 + 12 ≤ 24 ∧ 24 ≤ 8 * [0, 0, 0].length) ∧
    ∃ s1 s2 s3, U_SerializeBit .W16 0xABC 12 ⟨[0, 0, 0], 24, 4, BIG⟩ = some (STATUS_SUCCESS, s1) ∧
      Stream_TellBit s1 = 4 + 12 ∧
      Stream_SeekBit s1 4 = (STATUS_SUCCESS, s2) ∧
      U_DeserializeBit .W16 0 12 s2 = some (STATUS_SUCCESS, 0xABC % 2 ^ min 12 16, s3) ∧
      Stream_TellBit s3 = 4 + 12 :=
  ⟨by decide, C1_unsigned_bit_roundtrip .W16 ⟨[0, 0, 0], 24, 4, BIG⟩ 0xABC 12 0
    (by decide) (by decide)⟩

/-- C2: in `BIG` mode, for every unsigned kind of native width `N`, every `w` with
`1 ≤ w ≤ N`, every value and every position `p` with at least `w` bits remaining,
`U*_SerializeBit(v, w)` succeeds and stream bit `p + i` of the buffer (bit `7 - (k mod 8)` of
byte `k div 8`) is bit `w - 1 - i` of the value, for every `i < w`; the 12-bit value `0xABC`
written at bit 0 puts `AB` in byte 0 and `C` in the high nibble of byte 1. -/
theorem C2_big_bit_layout (k : Width) (s : Stream_T) (v w : Nat) (hm : s.mode = BIG)
    (hw : w ≤ k.bits)
    (hr : s.bit_index + w ≤ s.bit_len) (hl : s.bit_len ≤ 8 * s.p_buffer.length) :
    (∃ s1, U_SerializeBit k v w s = some (STATUS_SUCCESS, s1) ∧
      ∀ i, i < w →
        (byteAt s1.p_buffer ((s.bit_index + i) / 8)).testBit (7 - (s.bit_index + i) % 8) =
          v.testBit (w - 1 - i)) ∧
    U16_SerializeBit 0xABC 12 ⟨[0x00, 0x05], 16, 0, BIG⟩ =
      some (STATUS_SUCCESS, ⟨[0xAB, 0xC5], 16, 12, BIG⟩) := by
  refine ⟨?_, by decide⟩
  obtain ⟨s1, e1, _, _, _, _, e6, _⟩ := SerializeBit_spec v k.byte_count w s
    (by cases k <;> decide) hr hl
  refine ⟨s1, by cases k <;> exact e1, ?_⟩
  intro i hi
  have h := e6 hm (s.bit_index + i)
  have hmin : min w (8 * k.byte_count) = w := by
    unfold Width.bits at hw
    omega
  have a : s.bit_index + (w - min w (8 * k.byte_count)) ≤ s.bit_index + i ∧
      s.bit_index + i < s.bit_index + w := by omega
  have e : s.bit_index + w - 1 - (s.bit_index + i) = w - 1 - i := by omega
  rw [if_pos a, e] at h
  simpa [streamBit, bitOf] using h

theorem C2_big_bit_layout_witness :
    (BIG = BIG ∧ 5 ≤ Width.W8.bits ∧ 6 + 5 ≤ 16 ∧ 16 ≤ 8 * [0xFF, 0xFF].length) ∧
    ((∃ s1, U_SerializeBit .W8 0x15 5 ⟨[0xFF, 0xFF], 16, 6, BIG⟩ = some (STATUS_SUCCESS, s1) ∧
      ∀ i, i < 5 →
        (byteAt s1.p_buffer ((6 + i) / 8)).testBit (7 - (6 + i) % 8) =
          (0x15).testBit (5 - 1 - i)) ∧
    U16_SerializeBit 0xABC 12 ⟨[0x00, 0x05], 16, 0, BIG⟩ =
      some (STATUS_SUCCESS, ⟨[0xAB, 0xC5], 16, 12, BIG⟩)) :=
  ⟨by decide, C2_big_bit_layout .W8 ⟨[0xFF, 0xFF], 16, 6, BIG⟩ 0x15 5 rfl (by decide)
    (by decide) (by decide)⟩

/-- C3: in `LITTLE` mode, for every unsigned kind of native width `N`, every `w` with
`1 ≤ w ≤ N`, every value and every position `p` with at least `w` bits remaining,
`U*_SerializeBit(v, w)` succeeds and stream bit `p + i` of the buffer (bit `k mod 8` of byte
`k div 8`) is bit `i` of the value, for every `i < w`; the 12-bit value `0xABC` written at bit 0
of a zeroed buffer gives the bytes `BC 0A`, and the two 4-bit fields `0xAB`, `0xCD` give the
single byte `0xDB`. -/
theorem C3_little_bit_layout (k : Width) (s : Stream_T) (v w : Nat) (hm : s.mode = LITTLE)
    (hw : w ≤ k.bits)
    (hr : s.bit_index + w ≤ s.bit_len) (hl : s.bit_len ≤ 8 * s.p_buffer.length) :
    (∃ s1, U_SerializeBit k v w s = some (STATUS_SUCCESS, s1) ∧
      ∀ i, i < w →
        (byteAt s1.p_buffer ((s.bit_index + i) / 8)).testBit ((s.bit_index + i) % 8) =
          v.testBit i) ∧
    U16_SerializeBit 0xABC 12 ⟨[0, 0], 16, 0, LITTLE⟩ =
      some (STATUS_SUCCESS, ⟨[0xBC, 0x0A], 16, 12, LITTLE⟩) ∧
    (U8_SerializeBit 0xAB 4 ⟨[0], 8, 0, LITTLE⟩).bind (fun r => U8_SerializeBit 0xCD 4 r.2) =
      some (STATUS_SUCCESS, ⟨[0xDB], 8, 8, LITTLE⟩) := by
  refine ⟨?_, by decide, by decide⟩
  obtain ⟨s1, e1, _, _, _, _, _, e7⟩ := SerializeBit_spec v k.byte_count w s
    (by cases k <;> decide) hr hl
  refine ⟨s1, by cases k <;> exact e1, ?_⟩
  intro i hi
  have h := e7 hm (s.bit_index + i)
  have hmin : min w (8 * k.byte_count) = w := by
    unfold Width.bits at hw
    omega
  have a : s.bit_index ≤ s.bit_index + i ∧
      s.bit_index + i < s.bit_index + min w (8 * k.byte_count) := by omega
  have e : s.bit_index + i - s.bit_index = i := by omega
  rw [if_pos a, e] at h
  simpa [streamBit, bitOf] using h

theorem C3_little_bit_layout_witness :
    (LITTLE = LITTLE ∧ 5 ≤ Width.W8.bits ∧ 6 + 5 ≤ 16 ∧
      16 ≤ 8 * [0xFF, 0xFF].length) ∧
    ((∃ s1, U_SerializeBit .W8 0x15 5 ⟨[0xFF, 0xFF], 16, 6, LITTLE⟩ =
        some (STATUS_SUCCESS, s1) ∧
      ∀ i, i < 5 →
        (byteAt s1.p_buffer ((6 + i) / 8)).testBit ((6 + i) % 8) = (0x15).testBit i) ∧
    U16_SerializeBit 0xABC 12 ⟨[0, 0], 16, 0, LITTLE⟩ =
      some (STATUS_SUCCESS, ⟨[0xBC, 0x0A], 16, 12, LITTLE⟩) ∧
    (U8_SerializeBit 0xAB 4 ⟨[0], 8, 0, LITTLE⟩).bind (fun r => U8_SerializeBit 0xCD 4 r.2) =
      some (STATUS_SUCCESS, ⟨[0xDB], 8, 8, LITTLE⟩)) :=
  ⟨by decide, C3_little_bit_layout .W8 ⟨[0xFF, 0xFF], 16, 6, LITTLE⟩ 0x15 5 rfl (by decide)
    (by decide) (by decide)⟩

theorem GET_BYTE_eq_and (v i : Nat) : GET_BYTE v i = (v >>> (8 * i)) &&& 0xFF := by
  have e : (0xFF : Nat) = 2 ^ 8 - 1 := by norm_num
  rw [e, Nat.and_pow_two_sub_one_eq_mod, Nat.mul_comm]
  rfl

/-- C4: for every unsigned kind of `k` bytes, every value and every cursor with enough room,
`U*_Serialize(v)` succeeds and writes, from the next byte boundary at or after the current
position, `k` bytes: in `BIG` mode byte `i` is `(v >> 8*(k-1-i)) & 0xFF`, in `LITTLE` mode it is
`(v >> 8*i) & 0xFF`; `0x11223344` gives `11 22 33 44` in `BIG` and `44 33 22 11` in `LITTLE`. -/
theorem C4_aligned_byte_order (k : Width) (s : Stream_T) (v : Nat)
    (hroom : k.byte_count ≤ Stream_GetLeft s) (hl : s.bit_len ≤ 8 * s.p_buffer.length) :
    (∃ s1, U_Serialize k v s = (STATUS_SUCCESS, s1) ∧
      ∀ i, i < k.byte_count →
        byteAt s1.p_buffer ((s.bit_index + 7) / 8 + i) =
          if s.mode = BIG then (v >>> (8 * (k.byte_count - 1 - i))) &&& 0xFF
          else (v >>> (8 * i)) &&& 0xFF) ∧
    U32_Serialize 0x11223344 ⟨[0, 0, 0, 0], 32, 0, BIG⟩ =
      (STATUS_SUCCESS, ⟨[0x11, 0x22, 0x33, 0x44], 32, 32, BIG⟩) ∧
    U32_Serialize 0x11223344 ⟨[0, 0, 0, 0], 32, 0, LITTLE⟩ =
      (STATUS_SUCCESS, ⟨[0x44, 0x33, 0x22, 0x11], 32, 32, LITTLE⟩) := by
  refine ⟨?_, by decide, by decide⟩
  have h1 : 1 ≤ k.byte_count := by cases k <;> decide
  have hroom2 := hroom
  unfold Stream_GetLeft BITS_IN_BYTE at hroom2
  obtain ⟨s1, e1, _, _, _, _, e6⟩ := Serialize_spec v k.byte_count s hroom (by omega) hl
  refine ⟨s1, by cases k <;> exact e1, ?_⟩
  intro i hi
  rw [e6, if_pos (by omega)]
  have c1 : (s.bit_index + 7) / 8 + i - (s.bit_index + 7) / 8 = i := by omega
  have c2 : k.byte_count - i - 1 = k.byte_count - 1 - i := by omega
  rw [c1, c2, GET_BYTE_eq_and, GET_BYTE_eq_and]

theorem C4_aligned_byte_order_witness :
    (Width.W16.byte_count ≤ Stream_GetLeft ⟨[1, 2, 3, 4], 32, 9, BIG⟩ ∧
      32 ≤ 8 * [1, 2, 3, 4].length) ∧
    ((∃ s1, U_Serialize .W16 0xBEEF ⟨[1, 2, 3, 4], 32, 9, BIG⟩ = (STATUS_SUCCESS, s1) ∧
      ∀ i, i < Width.W16.byte_count →
        byteAt s1.p_buffer ((9 + 7) / 8 + i) =
          if BIG = BIG then (0xBEEF >>> (8 * (Width.W16.byte_count - 1 - i))) &&& 0xFF
          else (0xBEEF >>> (8 * i)) &&& 0xFF) ∧
    U32_Serialize 0x11223344 ⟨[0, 0, 0, 0], 32, 0, BIG⟩ =
      (STATUS_SUCCESS, ⟨[0x11, 0x22, 0x33, 0x44], 32, 32, BIG⟩) ∧
    U32_Serialize 0x11223344 ⟨[0, 0, 0, 0], 32, 0, LITTLE⟩ =
      (STATUS_SUCCESS, ⟨[0x44, 0x33, 0x22, 0x11], 32, 32, LITTLE⟩)) :=
  ⟨by decide, C4_aligned_byte_order .W16 ⟨[1, 2, 3, 4], 32, 9, BIG⟩ 0xBEEF (by decide)
    (by decide)⟩

/-- C5: for every unsigned and every two's-complement kind, both modes, every value of the
native type (the most negative one included) and every cursor with enough room, the
byte-aligned `*_Serialize(v)` succeeds, the seek back to the byte where the value was written
succeeds, and the matching `*_Deserialize` succeeds and yields `v`. -/
theorem C5_aligned_roundtrip (k : Width) (s : Stream_T) (u oldu : Nat) (v old data : Int)
    (hroom : k.byte_count ≤ Stream_GetLeft s) (h8 : s.bit_len % 8 = 0)
    (hl : s.bit_len ≤ 8 * s.p_buffer.length)
    (hu : u < 2 ^ k.bits) (hv1 : -2 ^ (k.bits - 1) ≤ v) (hv2 : v < 2 ^ (k.bits - 1)) :
    (∃ s1 s2 s3, U_Serialize k u s = (STATUS_SUCCESS, s1) ∧
      Stream_Seek s1 ((s.bit_index + 7) / 8) = (STATUS_SUCCESS, s2) ∧
      U_Deserialize k oldu s2 = (STATUS_SUCCESS, u, s3)) ∧
    (∃ s1 s2 s3, I_Serialize k v s = (STATUS_SUCCESS, s1) ∧
      Stream_Seek s1 ((s.bit_index + 7) / 8) = (STATUS_SUCCESS, s2) ∧
      I_Deserialize k old data s2 = (STATUS_SUCCESS, v, s3)) := by
  have h1 : 1 ≤ k.byte_count := by cases k <;> decide
  have h2 : k.byte_count ≤ 8 := by cases k <;> decide
  have hroom2 := hroom
  unfold Stream_GetLeft BITS_IN_BYTE at hroom2
  have hi : s.bit_index ≤ s.bit_len := by omega
  have ha : ((s.bit_index + 7) / 8 * 8 + 7) / 8 = (s.bit_index + 7) / 8 := by omega
  -- the one-byte kinds read through `Stream_Read`
  have hbyte : ∀ (x : Nat) (s1 : Stream_T), Serialize x 1 s = (STATUS_SUCCESS, s1) →
      ∀ d, ∃ s3, Stream_Read { s1 with bit_index := (s.bit_index + 7) / 8 * 8 } [d] 1 =
        (STATUS_SUCCESS, [x % 256], s3) := by
    intro x s1 hs d
    have hk : (1 : Nat) ≤ Stream_GetLeft s := by cases k <;> exact le_trans (by decide) hroom
    obtain ⟨s0, e1, _, e3, _, e5, e6⟩ := Serialize_spec x 1 s hk hi hl
    rw [hs] at e1
    obtain rfl : s1 = s0 := (Prod.mk.inj e1).2
    have hk2 := hk
    unfold Stream_GetLeft BITS_IN_BYTE at hk2
    obtain ⟨d1, s3, f1, _, _, _, _, f6⟩ := Stream_Read_spec
      { s1 with bit_index := (s.bit_index + 7) / 8 * 8 } [d] 1
      (by simp only [Stream_GetLeft, BITS_IN_BYTE]; omega) (by simp only []; omega)
      (by simp only []; omega) (by simp)
    have hlen : (s1.p_buffer.drop ((s.bit_index + 7) / 8)).length ≠ 0 := by
      rw [List.length_drop]
      omega
    have hb : byteAt s1.p_buffer ((s.bit_index + 7) / 8) = x % 256 := by
      rw [e6, if_pos (by omega)]
      have : (s.bit_index + 7) / 8 - (s.bit_index + 7) / 8 = 0 := by omega
      simp only [this]
      split_ifs <;> rfl
    refine ⟨s3, ?_⟩
    rw [f1]
    have hd1 : d1 = [x % 256] := by
      have g := f1
      unfold Stream_Read at g
      rw [if_neg (by simp only [Stream_GetLeft, BITS_IN_BYTE]; omega)] at g
      have g1 := (Prod.mk.inj (Prod.mk.inj g).2).1
      rw [← g1, ← hb]
      have ht : Stream_Tell (Stream_Align
          { s1 with bit_index := (s.bit_index + 7) / 8 * 8 }) = (s.bit_index + 7) / 8 := by
        simp only [Stream_Tell, Stream_Align, Stream_TellBitInByte, BIT_IN_BYTE, BYTE_INDEX,
          BITS_IN_BYTE]
        split_ifs <;> omega
      rw [ht]
      show memcpy [d] 0 (s1.p_buffer.drop ((s.bit_index + 7) / 8)) 1 = _
      have hz : byteAt s1.p_buffer ((s.bit_index + 7) / 8) =
          byteAt (s1.p_buffer.drop ((s.bit_index + 7) / 8)) 0 := by
        rw [byteAt_drop]
        rfl
      rw [hz]
      generalize s1.p_buffer.drop ((s.bit_index + 7) / 8) = l at hlen
      cases l with
      | nil => simp at hlen
      | cons h t => simp [memcpy, byteAt]
    rw [hd1]
  constructor
  · obtain ⟨s1, e1, e2, e3⟩ := Serialize_Deserialize u k.byte_count s h1 h2 hroom h8 hl
    have hmod : u % 2 ^ (8 * k.byte_count) = u := Nat.mod_eq_of_lt hu
    cases k
    · obtain ⟨s3, f1⟩ := hbyte u s1 e1 oldu
      refine ⟨s1, _, s3, e1, e2, ?_⟩
      simp only [U_Deserialize, U8_Deserialize, f1, byteAt]
      have : u % 256 = u := hmod
      simp [this]
    · obtain ⟨s3, f1⟩ := e3 0
      refine ⟨s1, _, s3, e1, e2, ?_⟩
      have hu2 : u < 2 ^ (8 * 2) := hu
      have e : u % 2 ^ (8 * 2) % 2 ^ 16 = u := by omega
      simp only [U_Deserialize, U16_Deserialize, Width.byte_count] at f1 ⊢
      rw [f1]
      simp only [ne_eq, not_true_eq_false, if_false]
      rw [e]
    · obtain ⟨s3, f1⟩ := e3 0
      refine ⟨s1, _, s3, e1, e2, ?_⟩
      have hu2 : u < 2 ^ (8 * 4) := hu
      have e : u % 2 ^ (8 * 4) % 2 ^ 32 = u := by omega
      simp only [U_Deserialize, U32_Deserialize, Width.byte_count] at f1 ⊢
      rw [f1]
      simp only [ne_eq, not_true_eq_false, if_false]
      rw [e]
    · obtain ⟨s3, f1⟩ := e3 oldu
      refine ⟨s1, _, s3, e1, e2, ?_⟩
      rw [hmod] at f1
      exact f1
  · obtain ⟨s1, e1, e2, e3⟩ := Serialize_Deserialize (to_uint64 v) k.byte_count s h1 h2 hroom
      h8 hl
    cases k
    · obtain ⟨s3, f1⟩ := hbyte (to_uint64 v) s1 e1 (old % 256).toNat
      refine ⟨s1, _, s3, e1, e2, ?_⟩
      simp only [I_Deserialize, I8_Deserialize, f1, byteAt]
      have := to_int_8_byte v hv1 hv2
      simp at this ⊢
      exact this
    · obtain ⟨s3, f1⟩ := e3 0
      refine ⟨s1, _, s3, e1, e2, ?_⟩
      rw [← to_int_16_memcpy v data hv1 hv2]
      simp only [Width.byte_count] at f1
      show I16_Deserialize old data _ = _
      unfold I16_Deserialize
      rw [IDeserialize_of _ _ _ _ _ f1]
      dsimp only
      rw [if_neg (fun h => h rfl)]
    · obtain ⟨s3, f1⟩ := e3 0
      refine ⟨s1, _, s3, e1, e2, ?_⟩
      rw [← to_int_32_memcpy v data hv1 hv2]
      simp only [Width.byte_count] at f1
      show I32_Deserialize old data _ = _
      unfold I32_Deserialize
      rw [IDeserialize_of _ _ _ _ _ f1]
      dsimp only
      rw [if_neg (fun h => h rfl)]
    · obtain ⟨s3, f1⟩ := e3 0
      refine ⟨s1, _, s3, e1, e2, ?_⟩
      rw [← to_int_64_memcpy v old hv1 hv2]
      simp only [Width.byte_count] at f1
      show I64_Deserialize old _ = _
      unfold I64_Deserialize
      rw [IDeserialize_of _ _ _ _ _ f1]

theorem C5_aligned_roundtrip_witness :
    (Width.W16.byte_count ≤ Stream_GetLeft ⟨[1, 2, 3, 4], 32, 3, LITTLE⟩ ∧ 32 % 8 = 0 ∧
      32 ≤ 8 * [1, 2, 3, 4].length ∧ 0xBEEF < 2 ^ Width.W16.bits ∧
      -2 ^ (Width.W16.bits - 1) ≤ (-32768 : Int) ∧ (-32768 : Int) < 2 ^ (Width.W16.bits - 1)) ∧
    ((∃ s1 s2 s3, U_Serialize .W16 0xBEEF ⟨[1, 2, 3, 4], 32, 3, LITTLE⟩ = (STATUS_SUCCESS, s1) ∧
      Stream_Seek s1 ((3 + 7) / 8) = (STATUS_SUCCESS, s2) ∧
      U_Deserialize .W16 0 s2 = (STATUS_SUCCESS, 0xBEEF, s3)) ∧
    (∃ s1 s2 s3, I_Serialize .W16 (-32768) ⟨[1, 2, 3, 4], 32, 3, LITTLE⟩ =
        (STATUS_SUCCESS, s1) ∧
      Stream_Seek s1 ((3 + 7) / 8) = (STATUS_SUCCESS, s2) ∧
      I_Deserialize .W16 0 77 s2 = (STATUS_SUCCESS, -32768, s3))) :=
  ⟨by decide, C5_aligned_roundtrip .W16 ⟨[1, 2, 3, 4], 32, 3, LITTLE⟩ 0xBEEF 0 (-32768) 0 77
    (by decide) (by decide) (by decide) (by decide) (by decide) (by decide)⟩

/-- C6 (failing input): `I16_SerializeBit(-1, 4)` followed by `I16_DeserializeBit(4)` from the
same position yields `4095`, whatever the uninitialised local of the wrapper holds: the fill
`0xFF << 4` sets the bits 4 to 11 only. -/
theorem C6_I16_width4_yields_4095 (value : Int) :
    I16_SerializeBit (-1) 4 ⟨[0, 0], 16, 0, BIG⟩ =
      some (STATUS_SUCCESS, ⟨[0xF0, 0], 16, 4, BIG⟩) ∧
    Stream_SeekBit ⟨[0xF0, 0], 16, 4, BIG⟩ 0 = (STATUS_SUCCESS, ⟨[0xF0, 0], 16, 0, BIG⟩) ∧
    I16_DeserializeBit 0 value 4 ⟨[0xF0, 0], 16, 0, BIG⟩ =
      some (STATUS_SUCCESS, 4095, ⟨[0xF0, 0], 16, 4, BIG⟩) := by
  refine ⟨by decide, by decide, ?_⟩
  have h1 : DeserializeBit 0 2 4 ⟨[0xF0, 0], 16, 0, BIG⟩ =
      some (STATUS_SUCCESS, 15, ⟨[0xF0, 0], 16, 4, BIG⟩) := by decide
  have h2 : to_int 16 (memcpy_int64 value 4095 2) = 4095 := by
    unfold to_int memcpy_int64 to_int to_uint64
    norm_num
    split_ifs <;> omega
  have h3 : (if 15 &&& 1 <<< (4 - 1) % 2 ^ 64 ≠ 0 then 15 ||| 255 <<< 4 % 2 ^ 64 else 15) =
      4095 := by decide
  unfold I16_DeserializeBit
  rw [IDeserializeBit_of _ _ _ _ _ _ h1]
  dsimp only
  rw [if_neg (fun h => h rfl), h3, h2]

theorem to_int_of_small (N : Nat) (v : Int) (a : Nat) (hN : 1 ≤ N)
    (ha : v.natAbs < 2 ^ a) (haN : a ≤ N - 1) : to_int N v = v := by
  have h1 : (2 : Int) ^ N = 2 ^ (N - 1) + 2 ^ (N - 1) := by
    have : N = (N - 1) + 1 := by omega
    rw [this, pow_succ]
    simp
    ring
  have h2 : v.natAbs < 2 ^ (N - 1) :=
    lt_of_lt_of_le ha (Nat.pow_le_pow_right (by norm_num) haN)
  have h3 : ((2 ^ (N - 1) : Nat) : Int) = 2 ^ (N - 1) := by push_cast; rfl
  unfold to_int
  rw [h1]
  generalize (2 : Int) ^ (N - 1) = P at h3 ⊢
  generalize (2 : Nat) ^ (N - 1) = Q at h2 h3
  have hP : 0 < P := by omega
  by_cases hv : 0 ≤ v
  · have e : v % (P + P) = v := Int.emod_eq_of_lt hv (by omega)
    rw [e, if_pos (by omega)]
  · have e : v % (P + P) = v + (P + P) := by
      have := Int.add_mul_emod_self (a := v) (b := 1) (c := P + P)
      rw [one_mul] at this
      rw [← this]
      exact Int.emod_eq_of_lt (by omega) (by omega)
    rw [e, if_neg (by omega)]
    omega

/-- C7: for the sign-and-magnitude bit codecs `S8`, `S16` and `S32`, a bit-width
`1 ≤ w ≤ N` with `w ≤ 31`, both modes and every value with `|v| ≤ 2 ^ (w - 1) - 1`:
`S*_SerializeBit(v, w)` succeeds and writes the `w`-bit pattern `|v| + 2 ^ (w - 1)` for a
negative value and `v` otherwise (most significant bit first in `BIG` mode, least significant
bit first in `LITTLE` mode), and `S*_DeserializeBit(w)` from the same start position yields
`v`; `-4` in 4 bits is `1100`. -/
theorem C7_sign_magnitude_bit (k : Width) (s : Stream_T) (v old : Int) (w : Nat)
    (hk : k ≠ .W64) (hw1 : 1 ≤ w) (hw : w ≤ k.bits) (hw31 : w ≤ 31)
    (hv : v.natAbs ≤ 2 ^ (w - 1) - 1)
    (hr : s.bit_index + w ≤ s.bit_len) (hl : s.bit_len ≤ 8 * s.p_buffer.length) :
    (∃ s1 s2 s3, S_SerializeBit k v w s = some (STATUS_SUCCESS, s1) ∧
      (∀ i, i < w →
        (byteAt s1.p_buffer ((s.bit_index + i) / 8)).testBit
            (if s.mode = BIG then 7 - (s.bit_index + i) % 8 else (s.bit_index + i) % 8) =
          (if v < 0 then v.natAbs + 2 ^ (w - 1) else v.natAbs).testBit
            (if s.mode = BIG then w - 1 - i else i)) ∧
      Stream_SeekBit s1 s.bit_index = (STATUS_SUCCESS, s2) ∧
      S_DeserializeBit k old w s2 = some (STATUS_SUCCESS, v, s3)) ∧
    S8_SerializeBit (-4) 4 ⟨[0], 8, 0, BIG⟩ = some (STATUS_SUCCESS, ⟨[0xC0], 8, 4, BIG⟩) := by
  refine ⟨?_, by decide⟩
  have hv2 : v.natAbs < 2 ^ (w - 1) := by
    have := Nat.two_pow_pos (w - 1)
    omega
  unfold Width.bits at hw
  obtain ⟨s1, e1, e2, e3, e4⟩ := SSerializeBit_SDeserializeBit v k.byte_count w s
    (by cases k <;> decide) (by cases k <;> decide) hw1 hw hw31 hv2 hr hl
  obtain ⟨s3, f1⟩ := e4 0
  refine ⟨s1, _, s3, by cases k <;> exact e1, e2, e3, ?_⟩
  cases k
  · show S8_DeserializeBit old w _ = _
    unfold S8_DeserializeBit
    simp only [Width.byte_count] at f1 hw
    rw [f1]
    dsimp only
    rw [if_neg (fun h => h rfl), to_int_of_small 8 v (w - 1) (by norm_num) hv2 (by omega)]
  · show S16_DeserializeBit old w _ = _
    unfold S16_DeserializeBit
    simp only [Width.byte_count] at f1 hw
    rw [f1]
    dsimp only
    rw [if_neg (fun h => h rfl), to_int_of_small 16 v (w - 1) (by norm_num) hv2 (by omega)]
  · show S32_DeserializeBit old w _ = _
    unfold S32_DeserializeBit
    simp only [Width.byte_count] at f1 hw
    rw [f1]
    dsimp only
    rw [if_neg (fun h => h rfl), to_int_of_small 32 v (w - 1) (by norm_num) hv2 (by omega)]
  · exact absurd rfl hk

theorem C7_sign_magnitude_bit_witness :
    (Width.W16 ≠ Width.W64 ∧ 1 ≤ 12 ∧ 12 ≤ Width.W16.bits ∧ 12 ≤ 31 ∧
      (-1789 : Int).natAbs ≤ 2 ^ (12 - 1) - 1 ∧ 12 + 12 ≤ 40 ∧
      40 ≤ 8 * [0x4E, 0x80, 0, 0, 0].length) ∧
    ((∃ s1 s2 s3, S_SerializeBit .W16 (-1789) 12 ⟨[0x4E, 0x80, 0, 0, 0], 40, 12, BIG⟩ =
        some (STATUS_SUCCESS, s1) ∧
      (∀ i, i < 12 →
        (byteAt s1.p_buffer ((12 + i) / 8)).testBit
            (if BIG = BIG then 7 - (12 + i) % 8 else (12 + i) % 8) =
          (if (-1789 : Int) < 0 then (-1789 : Int).natAbs + 2 ^ (12 - 1)
            else (-1789 : Int).natAbs).testBit (if BIG = BIG then 12 - 1 - i else i)) ∧
      Stream_SeekBit s1 12 = (STATUS_SUCCESS, s2) ∧
      S_DeserializeBit .W16 0 12 s2 = some (STATUS_SUCCESS, -1789, s3)) ∧
    S8_SerializeBit (-4) 4 ⟨[0], 8, 0, BIG⟩ = some (STATUS_SUCCESS, ⟨[0xC0], 8, 4, BIG⟩)) :=
  ⟨by decide, C7_sign_magnitude_bit .W16 ⟨[0x4E, 0x80, 0, 0, 0], 40, 12, BIG⟩ (-1789) 0 12
    (by decide) (by decide) (by decide) (by decide) (by decide) (by decide) (by decide)⟩

/-- The value that `SSerialize` hands to `Serialize` for the 8 and 16 bit kinds. -/
theorem SSerialize_eq (v : Int) (bc : Nat) (s : Stream_T) (hbc : 8 * bc - 1 ≤ 30)
    (hv : v.natAbs < 2 ^ 63) :
    SSerialize v bc s =
      Serialize (if v < 0 then v.natAbs ||| 2 ^ (8 * bc - 1) else v.natAbs) bc s := by
  unfold SSerialize BITS_IN_BYTE
  by_cases h : v < 0
  · have e1 : to_uint64 (v * -1) = v.natAbs := by
      unfold to_uint64
      omega
    rw [if_pos h, if_pos h, e1, to_uint64_int_one_shl _ hbc]
  · have e1 : to_uint64 v = v.natAbs := by
      unfold to_uint64
      omega
    rw [if_neg h, if_neg h, e1]

/-- C8: for the byte-aligned sign-and-magnitude codecs `S8` and `S16`, both modes, every
cursor with enough room and every value with `|v| ≤ 2 ^ (N - 1) - 1`: `S*_Serialize(v)`
succeeds and writes, in the byte order of the mode, the `N`-bit pattern `|v| OR 2 ^ (N - 1)`
for a negative value and `v` otherwise; `-100` as `S8` is the byte `0xE4`, `-127` is `0xFF`. -/
theorem C8_sign_magnitude_aligned (k : Width) (s : Stream_T) (v : Int)
    (hk : k = .W8 ∨ k = .W16) (hv : v.natAbs ≤ 2 ^ (k.bits - 1) - 1)
    (hroom : k.byte_count ≤ Stream_GetLeft s) (hl : s.bit_len ≤ 8 * s.p_buffer.length) :
    (∃ s1, S_Serialize k v s = (STATUS_SUCCESS, s1) ∧
      ∀ i, i < k.byte_count →
        byteAt s1.p_buffer ((s.bit_index + 7) / 8 + i) =
          if s.mode = BIG then
            ((if v < 0 then v.natAbs ||| 2 ^ (k.bits - 1) else v.natAbs) >>>
              (8 * (k.byte_count - 1 - i))) &&& 0xFF
          else ((if v < 0 then v.natAbs ||| 2 ^ (k.bits - 1) else v.natAbs) >>> (8 * i)) &&& 0xFF) ∧
    S8_Serialize (-100) ⟨[0], 8, 0, BIG⟩ = (STATUS_SUCCESS, ⟨[0xE4], 8, 8, BIG⟩) ∧
    S8_Serialize (-127) ⟨[0], 8, 0, LITTLE⟩ = (STATUS_SUCCESS, ⟨[0xFF], 8, 8, LITTLE⟩) := by
  refine ⟨?_, by decide, by decide⟩
  have h1 : 1 ≤ k.byte_count := by cases k <;> decide
  have hb : 8 * k.byte_count - 1 ≤ 30 := by
    rcases hk with rfl | rfl <;> decide
  have hv63 : v.natAbs < 2 ^ 63 := by
    have : 2 ^ (k.bits - 1) ≤ 2 ^ 63 :=
      Nat.pow_le_pow_right (by norm_num) (by rcases hk with rfl | rfl <;> decide)
    have := Nat.two_pow_pos (k.bits - 1)
    omega
  have hroom2 := hroom
  unfold Stream_GetLeft BITS_IN_BYTE at hroom2
  obtain ⟨s1, e1, _, _, _, _, e6⟩ := Serialize_spec
    (if v < 0 then v.natAbs ||| 2 ^ (8 * k.byte_count - 1) else v.natAbs) k.byte_count s hroom
    (by omega) hl
  rw [← SSerialize_eq v k.byte_count s hb hv63] at e1
  refine ⟨s1, by cases k <;> exact e1, ?_⟩
  intro i hi
  rw [e6, if_pos (by omega)]
  have c1 : (s.bit_index + 7) / 8 + i - (s.bit_index + 7) / 8 = i := by omega
  have c2 : k.byte_count - i - 1 = k.byte_count - 1 - i := by omega
  rw [c1, c2, GET_BYTE_eq_and, GET_BYTE_eq_and]
  rfl

theorem C8_sign_magnitude_aligned_witness :
    ((Width.W16 = Width.W8 ∨ Width.W16 = Width.W16) ∧
      (-16895 : Int).natAbs ≤ 2 ^ (Width.W16.bits - 1) - 1 ∧
      Width.W16.byte_count ≤ Stream_GetLeft ⟨[0, 0], 16, 0, BIG⟩ ∧ 16 ≤ 8 * [0, 0].length) ∧
    ((∃ s1, S_Serialize .W16 (-16895) ⟨[0, 0], 16, 0, BIG⟩ = (STATUS_SUCCESS, s1) ∧
      ∀ i, i < Width.W16.byte_count →
        byteAt s1.p_buffer ((0 + 7) / 8 + i) =
          if BIG = BIG then
            ((if (-16895 : Int) < 0 then (-16895 : Int).natAbs ||| 2 ^ (Width.W16.bits - 1)
              else (-16895 : Int).natAbs) >>> (8 * (Width.W16.byte_count - 1 - i))) &&& 0xFF
          else ((if (-16895 : Int) < 0 then (-16895 : Int).natAbs ||| 2 ^ (Width.W16.bits - 1)
              else (-16895 : Int).natAbs) >>> (8 * i)) &&& 0xFF) ∧
    S8_Serialize (-100) ⟨[0], 8, 0, BIG⟩ = (STATUS_SUCCESS, ⟨[0xE4], 8, 8, BIG⟩) ∧
    S8_Serialize (-127) ⟨[0], 8, 0, LITTLE⟩ = (STATUS_SUCCESS, ⟨[0xFF], 8, 8, LITTLE⟩)) :=
  ⟨by decide, C8_sign_magnitude_aligned .W16 ⟨[0, 0], 16, 0, BIG⟩ (-16895) (by decide)
    (by decide) (by decide) (by decide)⟩

/-- C9 (failing input): `S8_SerializeBit(-5, 12)` over a zeroed buffer writes the 12-bit field
`0x005` in both modes, not `0x805`: the sign bit that `SSerializeBit` sets at position 11 is
outside the one byte that `SerializeBit` copies from the value; `S8_DeserializeBit(12)` from
the same start position yields `5`. -/
theorem C9_S8_overwidth_sign_lost :
    S8_SerializeBit (-5) 12 ⟨[0, 0], 16, 0, BIG⟩ =
      some (STATUS_SUCCESS, ⟨[0x00, 0x50], 16, 12, BIG⟩) ∧
    S8_DeserializeBit 0 12 ⟨[0x00, 0x50], 16, 0, BIG⟩ =
      some (STATUS_SUCCESS, 5, ⟨[0x00, 0x50], 16, 12, BIG⟩) ∧
    S8_SerializeBit (-5) 12 ⟨[0, 0], 16, 0, LITTLE⟩ =
      some (STATUS_SUCCESS, ⟨[0x05, 0x00], 16, 12, LITTLE⟩) ∧
    S8_DeserializeBit 0 12 ⟨[0x05, 0x00], 16, 0, LITTLE⟩ =
      some (STATUS_SUCCESS, 5, ⟨[0x05, 0x00], 16, 12, LITTLE⟩) := by
  refine ⟨by decide, by decide, by decide, by decide⟩

/-- C10 (failing input): `S64_Serialize(-1)` writes `FF FF FF FF 80 00 00 01` in `BIG` mode,
not `80 00 00 00 00 00 00 01`, and `S64_Deserialize` from the same start position yields
`-9223372034707292161`: the sign mask `1 << 63` is computed in the 32-bit type `int`. -/
theorem C10_S64_sign_mask_wrong :
    S64_Serialize (-1) ⟨[0, 0, 0, 0, 0, 0, 0, 0], 64, 0, BIG⟩ =
      (STATUS_SUCCESS, ⟨[0xFF, 0xFF, 0xFF, 0xFF, 0x80, 0x00, 0x00, 0x01], 64, 64, BIG⟩) ∧
    S64_Deserialize 0 ⟨[0xFF, 0xFF, 0xFF, 0xFF, 0x80, 0x00, 0x00, 0x01], 64, 0, BIG⟩ =
      (STATUS_SUCCESS, -9223372034707292161,
        ⟨[0xFF, 0xFF, 0xFF, 0xFF, 0x80, 0x00, 0x00, 0x01], 64, 64, BIG⟩) := by
  refine ⟨by decide, by decide⟩

/-- Whatever value the `int` expression `1 << 63` takes, converting it to `uint64_t` and
OR-ing it into the magnitude `1` never gives the pattern `2 ^ 63 + 1`. -/
theorem S64_sign_bit_unreachable (r : Int) (h1 : -2 ^ 31 ≤ r) (h2 : r < 2 ^ 31) :
    1 ||| to_uint64 r ≠ 2 ^ 63 + 1 := by
  by_cases h : 0 ≤ r
  · have e : to_uint64 r < 2 ^ 31 := by
      unfold to_uint64
      omega
    have := Nat.or_lt_two_pow (x := 1) (y := to_uint64 r) (n := 31) (by norm_num) e
    omega
  · have e : 2 ^ 64 - 2 ^ 31 ≤ to_uint64 r := by
      unfold to_uint64
      omega
    have e2 : to_uint64 r < 2 ^ 64 := by
      unfold to_uint64
      omega
    have hx : (to_uint64 r).testBit 32 = true := by
      rw [Nat.testBit_to_div_mod]
      have : to_uint64 r / 2 ^ 32 % 2 = 1 := by omega
      rw [this]
      rfl
    intro heq
    have h3 : (1 ||| to_uint64 r).testBit 32 = (2 ^ 63 + 1).testBit 32 := by rw [heq]
    rw [Nat.testBit_or, hx] at h3
    have h4 : (2 ^ 63 + 1).testBit 32 = false := by decide
    rw [h4] at h3
    simp at h3

/-! ## The 32-bit half of the byte-aligned sign-and-magnitude codec -/

theorem Serialize_mod (v bc : Nat) (s : Stream_T) :
    Serialize v bc s = Serialize (v % 2 ^ (8 * bc)) bc s := by
  have h : ∀ i, i < bc → GET_BYTE v i = GET_BYTE (v % 2 ^ (8 * bc)) i := by
    intro i hi
    apply Nat.eq_of_testBit_eq
    intro j
    rw [GET_BYTE_testBit, GET_BYTE_testBit, Nat.testBit_mod_two_pow]
    by_cases c : j < 8
    · have : i * 8 + j < 8 * bc := by omega
      simp [c, this]
    · simp [c]
  have hLE : (List.range bc).map (fun i => GET_BYTE v i) =
      (List.range bc).map (fun i => GET_BYTE (v % 2 ^ (8 * bc)) i) := by
    apply List.map_congr_left
    intro i hi
    exact h i (List.mem_range.mp hi)
  have hBE : (List.range bc).map (fun i => GET_BYTE v (bc - i - 1)) =
      (List.range bc).map (fun i => GET_BYTE (v % 2 ^ (8 * bc)) (bc - i - 1)) := by
    apply List.map_congr_left
    intro i hi
    have := List.mem_range.mp hi
    exact h _ (by omega)
  unfold Serialize SerializeLE SerializeBE
  rw [hLE, hBE]

theorem sm32_pattern (a : Nat) (ha : a < 2 ^ 31) :
    (a ||| to_uint64 (int_one_shl (BITS_IN_BYTE * 4 - 1))) % 2 ^ (8 * 4) = a ||| 2 ^ 31 := by
  have e : to_uint64 (int_one_shl (BITS_IN_BYTE * 4 - 1)) = (2 ^ 33 - 1) <<< 31 := by rfl
  rw [e]
  apply Nat.eq_of_testBit_eq
  intro j
  simp only [Nat.testBit_mod_two_pow, Nat.testBit_or, Nat.testBit_shiftLeft,
    Nat.testBit_two_pow_sub_one, Nat.testBit_two_pow]
  by_cases c : j < 32
  · by_cases d : j = 31
    · subst d
      simp
    · have d1 : ¬ j ≥ 31 := by omega
      have d2 : ¬ 31 = j := by omega
      simp [c, d1, d2]
  · have d2 : ¬ 31 = j := by omega
    simp [c, d2, testBit_of_lt a 31 j ha (by omega)]

/-- The `S32` half of C10 holds when `1 << 31` wraps to `INT_MIN`: `S32_Serialize` writes the
bytes of `|v| OR 2 ^ 31` for a negative value and of `v` otherwise, and `S32_Deserialize` from
the same start position yields `v`. -/
theorem S32_aligned_roundtrip (s : Stream_T) (v old : Int) (hv : v.natAbs ≤ 2 ^ 31 - 1)
    (hroom : 4 ≤ Stream_GetLeft s) (h8 : s.bit_len % 8 = 0)
    (hl : s.bit_len ≤ 8 * s.p_buffer.length) :
    ∃ s1 s2 s3, S32_Serialize v s = (STATUS_SUCCESS, s1) ∧
      (∀ i, i < 4 →
        byteAt s1.p_buffer ((s.bit_index + 7) / 8 + i) =
          if s.mode = BIG then
            ((if v < 0 then v.natAbs ||| 2 ^ 31 else v.natAbs) >>> (8 * (4 - 1 - i))) &&& 0xFF
          else ((if v < 0 then v.natAbs ||| 2 ^ 31 else v.natAbs) >>> (8 * i)) &&& 0xFF) ∧
      Stream_Seek s1 ((s.bit_index + 7) / 8) = (STATUS_SUCCESS, s2) ∧
      S32_Deserialize old s2 = (STATUS_SUCCESS, v, s3) := by
  have ha : v.natAbs < 2 ^ 31 := by omega
  have hroom2 := hroom
  unfold Stream_GetLeft BITS_IN_BYTE at hroom2
  have hser : S32_Serialize v s =
      Serialize (if v < 0 then v.natAbs ||| 2 ^ 31 else v.natAbs) 4 s := by
    unfold S32_Serialize SSerialize
    by_cases h : v < 0
    · have e1 : to_uint64 (v * -1) = v.natAbs := by
        unfold to_uint64
        omega
      rw [if_pos h, if_pos h, e1, Serialize_mod, sm32_pattern _ ha]
    · have e1 : to_uint64 v = v.natAbs := by
        unfold to_uint64
        omega
      rw [if_neg h, if_neg h, e1]
  have hpat : (if v < 0 then v.natAbs ||| 2 ^ 31 else v.natAbs) < 2 ^ (8 * 4) := by
    split_ifs
    · exact Nat.or_lt_two_pow (lt_trans ha (by norm_num)) (by norm_num)
    · exact lt_trans ha (by norm_num)
  obtain ⟨s1, e1, e2, e3⟩ := Serialize_Deserialize
    (if v < 0 then v.natAbs ||| 2 ^ 31 else v.natAbs) 4 s (by norm_num) (by norm_num) hroom h8 hl
  obtain ⟨s0, g1, _, _, _, _, g6⟩ := Serialize_spec
    (if v < 0 then v.natAbs ||| 2 ^ 31 else v.natAbs) 4 s hroom (by omega) hl
  rw [e1] at g1
  obtain rfl : s1 = s0 := (Prod.mk.inj g1).2
  obtain ⟨s3, f1⟩ := e3 0
  rw [Nat.mod_eq_of_lt hpat] at f1
  refine ⟨s1, _, s3, by rw [hser]; exact e1, ?_, e2, ?_⟩
  · intro i hi
    rw [g6, if_pos (by omega)]
    have c1 : (s.bit_index + 7) / 8 + i - (s.bit_index + 7) / 8 = i := by omega
    have c2 : 4 - i - 1 = 4 - 1 - i := by omega
    rw [c1, c2, GET_BYTE_eq_and, GET_BYTE_eq_and]
  · unfold S32_Deserialize SDeserialize
    rw [f1]
    dsimp only
    rw [if_neg (fun h => h rfl), if_neg (fun h => h rfl)]
    have hm : 4 * BITS_IN_BYTE - 1 = 31 := by decide
    rw [hm]
    by_cases h : v < 0
    · have hval : -(v.natAbs : Int) = v := by omega
      simp only [if_pos h]
      rw [sm_or_eq_add _ _ ha, sm_decode_neg _ _ ha (by norm_num), hval,
        to_int_of_small 32 v 31 (by norm_num) ha (by norm_num)]
    · have hval : (v.natAbs : Int) = v := by omega
      simp only [if_neg h]
      rw [sm_decode_pos _ _ ha (by norm_num), hval,
        to_int_of_small 32 v 31 (by norm_num) ha (by norm_num)]

/-! ## Over-width fields -/

/-- C11: for every unsigned kind of native width `N`, every over-width `w > N`, every value
and every position `p` with at least `w` bits remaining, `U*_SerializeBit(v, w)` succeeds and
leaves the cursor at `p + w`; in `LITTLE` mode stream bit `p + i` is bit `i` of the value for
`i < N` (the surplus positions follow), in `BIG` mode stream bit `p + (w - N) + i` is bit
`N - 1 - i` of the value (the surplus positions come first); `0xBB` in 16 bits over a zeroed
buffer is `00 BB` in `BIG` and `BB 00` in `LITTLE`. -/
theorem C11_overwidth_layout (k : Width) (s : Stream_T) (v w : Nat) (hw : k.bits < w)
    (hr : s.bit_index + w ≤ s.bit_len) (hl : s.bit_len ≤ 8 * s.p_buffer.length) :
    (∃ s1, U_SerializeBit k v w s = some (STATUS_SUCCESS, s1) ∧
      Stream_TellBit s1 = s.bit_index + w ∧
      (s.mode = LITTLE → ∀ i, i < k.bits →
        (byteAt s1.p_buffer ((s.bit_index + i) / 8)).testBit ((s.bit_index + i) % 8) =
          v.testBit i) ∧
      (s.mode = BIG → ∀ i, i < k.bits →
        (byteAt s1.p_buffer ((s.bit_index + (w - k.bits) + i) / 8)).testBit
            (7 - (s.bit_index + (w - k.bits) + i) % 8) =
          v.testBit (k.bits - 1 - i))) ∧
    U8_SerializeBit 0xBB 16 ⟨[0, 0], 16, 0, BIG⟩ =
      some (STATUS_SUCCESS, ⟨[0x00, 0xBB], 16, 16, BIG⟩) ∧
    U8_SerializeBit 0xBB 16 ⟨[0, 0], 16, 0, LITTLE⟩ =
      some (STATUS_SUCCESS, ⟨[0xBB, 0x00], 16, 16, LITTLE⟩) := by
  refine ⟨?_, by decide, by decide⟩
  unfold Width.bits at hw ⊢
  obtain ⟨s1, e1, e2, _, _, _, e6, e7⟩ := SerializeBit_spec v k.byte_count w s
    (by cases k <;> decide) hr hl
  have hmin : min w (8 * k.byte_count) = 8 * k.byte_count := by omega
  refine ⟨s1, by cases k <;> exact e1, e2, ?_, ?_⟩
  · intro hm i hi
    have h := e7 hm (s.bit_index + i)
    rw [if_pos (by omega)] at h
    have e : s.bit_index + i - s.bit_index = i := by omega
    rw [e] at h
    simpa [streamBit, bitOf] using h
  · intro hm i hi
    have h := e6 hm (s.bit_index + (w - 8 * k.byte_count) + i)
    rw [if_pos (by omega)] at h
    have e : s.bit_index + w - 1 - (s.bit_index + (w - 8 * k.byte_count) + i) =
        8 * k.byte_count - 1 - i := by omega
    rw [e] at h
    simpa [streamBit, bitOf] using h

theorem C11_overwidth_layout_witness :
    (Width.W16.bits < 32 ∧ 12 + 32 ≤ 64 ∧ 64 ≤ 8 * [0xA1, 0x10, 0, 0, 0, 0, 0, 0].length) ∧
    ((∃ s1, U_SerializeBit .W16 0xBB22 32 ⟨[0xA1, 0x10, 0, 0, 0, 0, 0, 0], 64, 12, BIG⟩ =
        some (STATUS_SUCCESS, s1) ∧
      Stream_TellBit s1 = 12 + 32 ∧
      (BIG = LITTLE → ∀ i, i < Width.W16.bits →
        (byteAt s1.p_buffer ((12 + i) / 8)).testBit ((12 + i) % 8) = (0xBB22).testBit i) ∧
      (BIG = BIG → ∀ i, i < Width.W16.bits →
        (byteAt s1.p_buffer ((12 + (32 - Width.W16.bits) + i) / 8)).testBit
            (7 - (12 + (32 - Width.W16.bits) + i) % 8) =
          (0xBB22).testBit (Width.W16.bits - 1 - i))) ∧
    U8_SerializeBit 0xBB 16 ⟨[0, 0], 16, 0, BIG⟩ =
      some (STATUS_SUCCESS, ⟨[0x00, 0xBB], 16, 16, BIG⟩) ∧
    U8_SerializeBit 0xBB 16 ⟨[0, 0], 16, 0, LITTLE⟩ =
      some (STATUS_SUCCESS, ⟨[0xBB, 0x00], 16, 16, LITTLE⟩)) :=
  ⟨by decide, C11_overwidth_layout .W16 ⟨[0xA1, 0x10, 0, 0, 0, 0, 0, 0], 64, 12, BIG⟩ 0xBB22 32
    (by decide) (by decide) (by decide)⟩

/-- The surplus bits of an over-width field keep the value they had before the write:
`SerializeBit` steps over them with `Stream_SeekBit`. -/
theorem SerializeBit_overwidth_surplus_kept (v bc w : Nat) (s : Stream_T) (hbc : 1 ≤ bc)
    (hw : 8 * bc < w) (hr : s.bit_index + w ≤ s.bit_len)
    (hl : s.bit_len ≤ 8 * s.p_buffer.length) :
    ∃ s1, SerializeBit v bc w s = some (STATUS_SUCCESS, s1) ∧
      (s.mode = LITTLE → ∀ i, 8 * bc ≤ i → i < w →
        streamBit LITTLE s1.p_buffer (s.bit_index + i) =
          streamBit LITTLE s.p_buffer (s.bit_index + i)) ∧
      (s.mode = BIG → ∀ i, i < w - 8 * bc →
        streamBit BIG s1.p_buffer (s.bit_index + i) =
          streamBit BIG s.p_buffer (s.bit_index + i)) := by
  obtain ⟨s1, e1, _, _, _, _, e6, e7⟩ := SerializeBit_spec v bc w s hbc hr hl
  have hmin : min w (8 * bc) = 8 * bc := by omega
  refine ⟨s1, e1, ?_, ?_⟩
  · intro hm i h1 h2
    rw [e7 hm, if_neg (by omega)]
  · intro hm i h1
    rw [e6 hm, if_neg (by omega)]

/-- C12 (failing input): `U8_SerializeBit(0xBB, 16)` over a buffer that holds `FF FF` leaves
`FF BB` in `BIG` mode and `BB FF` in `LITTLE` mode: the eight surplus bits of the field are
ones, not zeros. -/
theorem C12_overwidth_surplus_not_zeroed :
    U8_SerializeBit 0xBB 16 ⟨[0xFF, 0xFF], 16, 0, BIG⟩ =
      some (STATUS_SUCCESS, ⟨[0xFF, 0xBB], 16, 16, BIG⟩) ∧
    U8_SerializeBit 0xBB 16 ⟨[0xFF, 0xFF], 16, 0, LITTLE⟩ =
      some (STATUS_SUCCESS, ⟨[0xBB, 0xFF], 16, 16, LITTLE⟩) := by
  refine ⟨by decide, by decide⟩

/-! ## Status and position of the cursor operations -/

/-- The fragment loop of `Stream_WriteBit` ends within its fuel and advances the position by
the number of bits asked for. -/
theorem WriteBit_loop_pos (fuel : Nat) : ∀ (s : Stream_T) (data : List Nat) (stop fi : Nat),
    stop - fi ≤ fuel → s.bit_index + (stop - fi) ≤ s.bit_len →
    ∃ s1, Stream_WriteBit_loop fuel s data stop fi = some s1 ∧
      s1.bit_index = s.bit_index + (stop - fi) ∧ s1.bit_len = s.bit_len ∧ s1.mode = s.mode ∧
      s1.p_buffer.length = s.p_buffer.length := by
  induction fuel with
  | zero =>
    intro s data stop fi hf _
    have h : ¬ fi < stop := by omega
    exact ⟨s, by simp [Stream_WriteBit_loop, h], by omega, rfl, rfl, rfl⟩
  | succ n ih =>
    intro s data stop fi hf hr
    by_cases h : fi < stop
    · obtain ⟨m1, m2, _, _⟩ := move_size_bounds fi stop s.bit_index s.bit_len h hr
      generalize hmv : MIN (MIN (8 - fi % 8) (stop - fi))
        (MIN (8 - s.bit_index % 8) (s.bit_len - s.bit_index)) = mv at m1 m2
      obtain ⟨s1, e1, e2, e3, e4, e5⟩ := ih
        { s with
          p_buffer := s.p_buffer.set (s.bit_index / 8)
            (Stream_WritePartByte (byteAt s.p_buffer (s.bit_index / 8))
              (Stream_ReadPartByte (byteAt data (fi / 8)) fi mv s.mode) s.bit_index mv s.mode),
          bit_index := s.bit_index + mv }
        data stop (fi + mv) (by omega) (by simp only []; omega)
      refine ⟨s1, ?_, ?_, e3, e4, by simpa using e5⟩
      · rw [Stream_WriteBit_loop]
        simp only [h, if_true, BITS_IN_BYTE, BIT_IN_BYTE, BYTE_INDEX, Stream_TellBitInByte,
          Stream_GetLeftBits, Stream_Tell, hmv]
        exact e1
      · simp only [] at e2
        omega
    · refine ⟨s, ?_, by omega, rfl, rfl, rfl⟩
      rw [Stream_WriteBit_loop]
      simp [h]

/-- The fragment loop of `Stream_ReadBit` ends within its fuel, advances the position by the
number of bits asked for and leaves the buffer of the cursor alone. -/
theorem ReadBit_loop_pos (fuel : Nat) : ∀ (s : Stream_T) (data : List Nat) (stop fi : Nat),
    stop - fi ≤ fuel → s.bit_index + (stop - fi) ≤ s.bit_len →
    ∃ d1 s1, Stream_ReadBit_loop fuel s data stop fi = some (d1, s1) ∧
      s1.bit_index = s.bit_index + (stop - fi) ∧ s1.bit_len = s.bit_len ∧ s1.mode = s.mode ∧
      s1.p_buffer = s.p_buffer ∧ d1.length = data.length := by
  induction fuel with
  | zero =>
    intro s data stop fi hf _
    have h : ¬ fi < stop := by omega
    exact ⟨data, s, by simp [Stream_ReadBit_loop, h], by omega, rfl, rfl, rfl, rfl⟩
  | succ n ih =>
    intro s data stop fi hf hr
    by_cases h : fi < stop
    · obtain ⟨m1, m2, _, _⟩ := move_size_bounds fi stop s.bit_index s.bit_len h hr
      generalize hmv : MIN (MIN (8 - fi % 8) (stop - fi))
        (MIN (8 - s.bit_index % 8) (s.bit_len - s.bit_index)) = mv at m1 m2
      obtain ⟨d1, s1, e1, e2, e3, e4, e5, e6⟩ := ih
        { s with bit_index := s.bit_index + mv }
        (data.set (fi / 8)
          (Stream_WritePartByte (byteAt data (fi / 8))
            (Stream_ReadPartByte (byteAt s.p_buffer (s.bit_index / 8)) s.bit_index mv s.mode)
            fi mv s.mode))
        stop (fi + mv) (by omega) (by simp only []; omega)
      refine ⟨d1, s1, ?_, ?_, e3, e4, e5, by simpa using e6⟩
      · rw [Stream_ReadBit_loop]
        simp only [h, if_true, BITS_IN_BYTE, BIT_IN_BYTE, BYTE_INDEX, Stream_TellBitInByte,
          Stream_GetLeftBits, Stream_Tell, hmv]
        exact e1
      · simp only [] at e2
        omega
    · refine ⟨data, s, ?_, by omega, rfl, rfl, rfl, rfl⟩
      rw [Stream_ReadBit_loop]
      simp [h]

/-- The two outcomes of `Stream_WriteBit`: too short with the cursor as it was, or success
with the position advanced by `n`. -/
theorem Stream_WriteBit_cases (s : Stream_T) (data : List Nat) (n : Nat)
    (hp : s.bit_index ≤ s.bit_len) :
    (Stream_GetLeftBits s < n ∧ Stream_WriteBit s data n = some (ERROR_STREAM_TOO_SHORT, s)) ∨
    (n ≤ Stream_GetLeftBits s ∧ ∃ s1, Stream_WriteBit s data n = some (STATUS_SUCCESS, s1) ∧
      s1.bit_index = s.bit_index + n ∧ s1.bit_len = s.bit_len ∧ s1.mode = s.mode ∧
      s1.p_buffer.length = s.p_buffer.length) := by
  by_cases h : Stream_GetLeftBits s < n
  · left
    exact ⟨h, by simp [Stream_WriteBit, h]⟩
  · right
    refine ⟨by omega, ?_⟩
    have h2 := h
    unfold Stream_GetLeftBits at h2
    obtain ⟨s1, e1, e2, e3, e4, e5⟩ := WriteBit_loop_pos n s data
      (n + bit_offset s.mode n) (bit_offset s.mode n) (by omega) (by omega)
    have hn : n + bit_offset s.mode n - bit_offset s.mode n = n := by omega
    rw [hn] at e2
    refine ⟨s1, ?_, e2, e3, e4, e5⟩
    unfold Stream_WriteBit
    simp only [h, if_false, BITS_IN_BYTE]
    unfold bit_offset at e1
    rw [e1]
    rfl

/-- The two outcomes of `Stream_ReadBit`. -/
theorem Stream_ReadBit_cases (s : Stream_T) (data : List Nat) (n : Nat)
    (hp : s.bit_index ≤ s.bit_len) :
    (Stream_GetLeftBits s < n ∧
      Stream_ReadBit s data n = some (ERROR_STREAM_TOO_SHORT, data, s)) ∨
    (n ≤ Stream_GetLeftBits s ∧ ∃ d1 s1, Stream_ReadBit s data n = some (STATUS_SUCCESS, d1, s1) ∧
      s1.bit_index = s.bit_index + n ∧ s1.bit_len = s.bit_len ∧ s1.mode = s.mode ∧
      s1.p_buffer = s.p_buffer ∧ d1.length = data.length) := by
  by_cases h : Stream_GetLeftBits s < n
  · left
    exact ⟨h, by simp [Stream_ReadBit, h]⟩
  · right
    refine ⟨by omega, ?_⟩
    have h2 := h
    unfold Stream_GetLeftBits at h2
    obtain ⟨d1, s1, e1, e2, e3, e4, e5, e6⟩ := ReadBit_loop_pos n s data
      (n + bit_offset s.mode n) (bit_offset s.mode n) (by omega) (by omega)
    have hn : n + bit_offset s.mode n - bit_offset s.mode n = n := by omega
    rw [hn] at e2
    refine ⟨d1, s1, ?_, e2, e3, e4, e5, e6⟩
    unfold Stream_ReadBit
    simp only [h, if_false, BITS_IN_BYTE]
    unfold bit_offset at e1
    rw [e1]
    rfl

/-- C13: for every cursor with position `p ≤ capacity`, both modes and every bit count `n`,
`Stream_WriteBit` and `Stream_ReadBit` return success if and only if `n ≤ capacity - p`, return
`ERROR_STREAM_TOO_SHORT` otherwise, and on success the position afterwards is `p + n`. -/
theorem C13_bit_transfer_status (s : Stream_T) (data : List Nat) (n : Nat)
    (hp : Stream_TellBit s ≤ Stream_GetSizeBits s) :
    ((∃ s1, Stream_WriteBit s data n = some (STATUS_SUCCESS, s1)) ↔
      n ≤ Stream_GetSizeBits s - Stream_TellBit s) ∧
    ((∃ d1 s1, Stream_ReadBit s data n = some (STATUS_SUCCESS, d1, s1)) ↔
      n ≤ Stream_GetSizeBits s - Stream_TellBit s) ∧
    (¬ n ≤ Stream_GetSizeBits s - Stream_TellBit s →
      Stream_WriteBit s data n = some (ERROR_STREAM_TOO_SHORT, s) ∧
      Stream_ReadBit s data n = some (ERROR_STREAM_TOO_SHORT, data, s)) ∧
    (∀ s1, Stream_WriteBit s data n = some (STATUS_SUCCESS, s1) →
      Stream_TellBit s1 = Stream_TellBit s + n) ∧
    (∀ d1 s1, Stream_ReadBit s data n = some (STATUS_SUCCESS, d1, s1) →
      Stream_TellBit s1 = Stream_TellBit s + n) := by
  unfold Stream_TellBit Stream_GetSizeBits at *
  have hw := Stream_WriteBit_cases s data n hp
  have hrd := Stream_ReadBit_cases s data n hp
  unfold Stream_GetLeftBits at hw hrd
  rcases hw with ⟨w1, w2⟩ | ⟨w1, s1, w2, w3, _⟩ <;>
    rcases hrd with ⟨r1, r2⟩ | ⟨r1, d1, s2, r2, r3, _⟩
  · refine ⟨⟨?_, fun h => absurd h (by omega)⟩, ⟨?_, fun h => absurd h (by omega)⟩,
      fun _ => ⟨w2, r2⟩, ?_, ?_⟩
    · rintro ⟨s1, h⟩
      rw [w2] at h
      simp at h
    · rintro ⟨d1, s1, h⟩
      rw [r2] at h
      simp at h
    · intro s1 h
      rw [w2] at h
      simp at h
    · intro d1 s1 h
      rw [r2] at h
      simp at h
  · omega
  · omega
  · refine ⟨⟨fun _ => w1, fun _ => ⟨s1, w2⟩⟩, ⟨fun _ => r1, fun _ => ⟨d1, s2, r2⟩⟩,
      fun h => absurd w1 h, ?_, ?_⟩
    · intro s3 h
      rw [w2] at h
      obtain rfl : s1 = s3 := (Prod.mk.inj (Option.some.inj h)).2
      exact w3
    · intro d3 s3 h
      rw [r2] at h
      obtain rfl : s2 = s3 := (Prod.mk.inj (Prod.mk.inj (Option.some.inj h)).2).2
      exact r3

theorem C13_bit_transfer_status_witness :
    (Stream_TellBit ⟨[0, 0, 0, 0, 0, 0, 0, 0], 64, 0, LITTLE⟩ ≤
      Stream_GetSizeBits ⟨[0, 0, 0, 0, 0, 0, 0, 0], 64, 0, LITTLE⟩) ∧
    (((∃ s1, Stream_WriteBit ⟨[0, 0, 0, 0, 0, 0, 0, 0], 64, 0, LITTLE⟩ [0x34, 0xF2] 13 =
        some (STATUS_SUCCESS, s1)) ↔
      13 ≤ Stream_GetSizeBits ⟨[0, 0, 0, 0, 0, 0, 0, 0], 64, 0, LITTLE⟩ -
        Stream_TellBit ⟨[0, 0, 0, 0, 0, 0, 0, 0], 64, 0, LITTLE⟩) ∧
    ((∃ d1 s1, Stream_ReadBit ⟨[0, 0, 0, 0, 0, 0, 0, 0], 64, 0, LITTLE⟩ [0x34, 0xF2] 13 =
        some (STATUS_SUCCESS, d1, s1)) ↔
      13 ≤ Stream_GetSizeBits ⟨[0, 0, 0, 0, 0, 0, 0, 0], 64, 0, LITTLE⟩ -
        Stream_TellBit ⟨[0, 0, 0, 0, 0, 0, 0, 0], 64, 0, LITTLE⟩) ∧
    (¬ 13 ≤ Stream_GetSizeBits ⟨[0, 0, 0, 0, 0, 0, 0, 0], 64, 0, LITTLE⟩ -
        Stream_TellBit ⟨[0, 0, 0, 0, 0, 0, 0, 0], 64, 0, LITTLE⟩ →
      Stream_WriteBit ⟨[0, 0, 0, 0, 0, 0, 0, 0], 64, 0, LITTLE⟩ [0x34, 0xF2] 13 =
        some (ERROR_STREAM_TOO_SHORT, ⟨[0, 0, 0, 0, 0, 0, 0, 0], 64, 0, LITTLE⟩) ∧
      Stream_ReadBit ⟨[0, 0, 0, 0, 0, 0, 0, 0], 64, 0, LITTLE⟩ [0x34, 0xF2] 13 =
        some (ERROR_STREAM_TOO_SHORT, [0x34, 0xF2], ⟨[0, 0, 0, 0, 0, 0, 0, 0], 64, 0, LITTLE⟩)) ∧
    (∀ s1, Stream_WriteBit ⟨[0, 0, 0, 0, 0, 0, 0, 0], 64, 0, LITTLE⟩ [0x34, 0xF2] 13 =
        some (STATUS_SUCCESS, s1) →
      Stream_TellBit s1 = Stream_TellBit ⟨[0, 0, 0, 0, 0, 0, 0, 0], 64, 0, LITTLE⟩ + 13) ∧
    (∀ d1 s1, Stream_ReadBit ⟨[0, 0, 0, 0, 0, 0, 0, 0], 64, 0, LITTLE⟩ [0x34, 0xF2] 13 =
        some (STATUS_SUCCESS, d1, s1) →
      Stream_TellBit s1 = Stream_TellBit ⟨[0, 0, 0, 0, 0, 0, 0, 0], 64, 0, LITTLE⟩ + 13)) :=
  ⟨by decide, C13_bit_transfer_status ⟨[0, 0, 0, 0, 0, 0, 0, 0], 64, 0, LITTLE⟩ [0x34, 0xF2] 13
    (by decide)⟩

/-- C14: whenever `Stream_Write`, `Stream_Read`, `Stream_WriteBit`, `Stream_ReadBit`,
`Stream_Seek`, `Stream_SeekBit` or `Stream_SetMode` does not return success, the cursor
(position, mode, capacity and every byte of the buffer) and the caller's array are what they
were before the call, also when `Stream_Write` or `Stream_Read` is called from a position that
is not byte-aligned. -/
theorem C14_failure_leaves_cursor (s : Stream_T) (data : List Nat) (len n index bit_index : Nat)
    (mode : Stream_Mode_T) (hp : Stream_TellBit s ≤ Stream_GetSizeBits s) :
    (Stream_Write s data len = (ERROR_STREAM_TOO_SHORT, s) ∨
      (Stream_Write s data len).1 = STATUS_SUCCESS) ∧
    (Stream_Read s data len = (ERROR_STREAM_TOO_SHORT, data, s) ∨
      (Stream_Read s data len).1 = STATUS_SUCCESS) ∧
    (Stream_WriteBit s data n = some (ERROR_STREAM_TOO_SHORT, s) ∨
      ∃ s1, Stream_WriteBit s data n = some (STATUS_SUCCESS, s1)) ∧
    (Stream_ReadBit s data n = some (ERROR_STREAM_TOO_SHORT, data, s) ∨
      ∃ d1 s1, Stream_ReadBit s data n = some (STATUS_SUCCESS, d1, s1)) ∧
    (Stream_Seek s index = (ERROR_STREAM_TOO_SHORT, s) ∨
      (Stream_Seek s index).1 = STATUS_SUCCESS) ∧
    (Stream_SeekBit s bit_index = (ERROR_STREAM_TOO_SHORT, s) ∨
      (Stream_SeekBit s bit_index).1 = STATUS_SUCCESS) ∧
    (Stream_SetMode s mode = (ERROR_STREAM_NOT_ALIGNED, s) ∨
      (Stream_SetMode s mode).1 = STATUS_SUCCESS) ∧
    Stream_Write ⟨[1, 2], 16, 3, LITTLE⟩ [7, 7] 2 =
      (ERROR_STREAM_TOO_SHORT, ⟨[1, 2], 16, 3, LITTLE⟩) ∧
    Stream_Read ⟨[1, 2], 16, 3, LITTLE⟩ [7, 7] 2 =
      (ERROR_STREAM_TOO_SHORT, [7, 7], ⟨[1, 2], 16, 3, LITTLE⟩) := by
  refine ⟨?_, ?_, ?_, ?_, ?_, ?_, ?_, by decide, by decide⟩
  · unfold Stream_Write
    split_ifs
    · exact Or.inl rfl
    · exact Or.inr rfl
  · unfold Stream_Read
    split_ifs
    · exact Or.inl rfl
    · exact Or.inr rfl
  · rcases Stream_WriteBit_cases s data n hp with ⟨_, h⟩ | ⟨_, s1, h, _⟩
    · exact Or.inl h
    · exact Or.inr ⟨s1, h⟩
  · rcases Stream_ReadBit_cases s data n hp with ⟨_, h⟩ | ⟨_, d1, s1, h, _⟩
    · exact Or.inl h
    · exact Or.inr ⟨d1, s1, h⟩
  · unfold Stream_Seek
    split_ifs
    · exact Or.inl rfl
    · exact Or.inr rfl
  · unfold Stream_SeekBit
    split_ifs
    · exact Or.inl rfl
    · exact Or.inr rfl
  · unfold Stream_SetMode
    split_ifs
    · exact Or.inr rfl
    · exact Or.inl rfl
    · exact Or.inr rfl

theorem C14_failure_leaves_cursor_witness :
    (Stream_TellBit ⟨[1, 2], 16, 3, BIG⟩ ≤ Stream_GetSizeBits ⟨[1, 2], 16, 3, BIG⟩) ∧
    ((Stream_Write ⟨[1, 2], 16, 3, BIG⟩ [7, 7] 2 = (ERROR_STREAM_TOO_SHORT, ⟨[1, 2], 16, 3, BIG⟩) ∨
      (Stream_Write ⟨[1, 2], 16, 3, BIG⟩ [7, 7] 2).1 = STATUS_SUCCESS) ∧
    (Stream_Read ⟨[1, 2], 16, 3, BIG⟩ [7, 7] 2 =
        (ERROR_STREAM_TOO_SHORT, [7, 7], ⟨[1, 2], 16, 3, BIG⟩) ∨
      (Stream_Read ⟨[1, 2], 16, 3, BIG⟩ [7, 7] 2).1 = STATUS_SUCCESS) ∧
    (Stream_WriteBit ⟨[1, 2], 16, 3, BIG⟩ [7, 7] 14 =
        some (ERROR_STREAM_TOO_SHORT, ⟨[1, 2], 16, 3, BIG⟩) ∨
      ∃ s1, Stream_WriteBit ⟨[1, 2], 16, 3, BIG⟩ [7, 7] 14 = some (STATUS_SUCCESS, s1)) ∧
    (Stream_ReadBit ⟨[1, 2], 16, 3, BIG⟩ [7, 7] 14 =
        some (ERROR_STREAM_TOO_SHORT, [7, 7], ⟨[1, 2], 16, 3, BIG⟩) ∨
      ∃ d1 s1, Stream_ReadBit ⟨[1, 2], 16, 3, BIG⟩ [7, 7] 14 = some (STATUS_SUCCESS, d1, s1)) ∧
    (Stream_Seek ⟨[1, 2], 16, 3, BIG⟩ 2 = (ERROR_STREAM_TOO_SHORT, ⟨[1, 2], 16, 3, BIG⟩) ∨
      (Stream_Seek ⟨[1, 2], 16, 3, BIG⟩ 2).1 = STATUS_SUCCESS) ∧
    (Stream_SeekBit ⟨[1, 2], 16, 3, BIG⟩ 17 = (ERROR_STREAM_TOO_SHORT, ⟨[1, 2], 16, 3, BIG⟩) ∨
      (Stream_SeekBit ⟨[1, 2], 16, 3, BIG⟩ 17).1 = STATUS_SUCCESS) ∧
    (Stream_SetMode ⟨[1, 2], 16, 3, BIG⟩ LITTLE =
        (ERROR_STREAM_NOT_ALIGNED, ⟨[1, 2], 16, 3, BIG⟩) ∨
      (Stream_SetMode ⟨[1, 2], 16, 3, BIG⟩ LITTLE).1 = STATUS_SUCCESS) ∧
    Stream_Write ⟨[1, 2], 16, 3, LITTLE⟩ [7, 7] 2 =
      (ERROR_STREAM_TOO_SHORT, ⟨[1, 2], 16, 3, LITTLE⟩) ∧
    Stream_Read ⟨[1, 2], 16, 3, LITTLE⟩ [7, 7] 2 =
      (ERROR_STREAM_TOO_SHORT, [7, 7], ⟨[1, 2], 16, 3, LITTLE⟩)) :=
  ⟨by decide, C14_failure_leaves_cursor ⟨[1, 2], 16, 3, BIG⟩ [7, 7] 2 14 2 17 LITTLE
    (by decide)⟩

/-! ## The capacity law of the codecs -/

theorem Stream_Write_too_short (s : Stream_T) (data : List Nat) (len : Nat)
    (h : Stream_GetLeftBits s < 8 * len) :
    Stream_Write s data len = (ERROR_STREAM_TOO_SHORT, s) := by
  have : Stream_GetLeft s < len := by
    unfold Stream_GetLeftBits at h
    unfold Stream_GetLeft BITS_IN_BYTE
    omega
  simp [Stream_Write, this]

theorem Stream_Read_too_short (s : Stream_T) (data : List Nat) (len : Nat)
    (h : Stream_GetLeftBits s < 8 * len) :
    Stream_Read s data len = (ERROR_STREAM_TOO_SHORT, data, s) := by
  have : Stream_GetLeft s < len := by
    unfold Stream_GetLeftBits at h
    unfold Stream_GetLeft BITS_IN_BYTE
    omega
  simp [Stream_Read, this]

theorem Serialize_too_short (v bc : Nat) (s : Stream_T) (h : Stream_GetLeftBits s < 8 * bc) :
    Serialize v bc s = (ERROR_STREAM_TOO_SHORT, s) := by
  unfold Serialize SerializeLE SerializeBE
  rw [Stream_Write_too_short s _ bc h, Stream_Write_too_short s _ bc h]
  split_ifs <;> rfl

theorem Deserialize_too_short (old bc : Nat) (s : Stream_T)
    (h : Stream_GetLeftBits s < 8 * bc) :
    Deserialize old bc s = (ERROR_STREAM_TOO_SHORT, old, s) := by
  unfold Deserialize DeserializeLE DeserializeBE
  simp only [Stream_Read_too_short s (List.replicate bc 0) bc h]
  split_ifs with h1 h2 h3
  · rfl
  · exact absurd (by decide) h2
  · rfl
  · exact absurd (by decide) h3

theorem SerializeBit_too_short (v bc w : Nat) (s : Stream_T) (h : Stream_GetLeftBits s < w) :
    SerializeBit v bc w s = some (ERROR_STREAM_TOO_SHORT, s) := by
  unfold SerializeBit SerializeBitLE SerializeBitBE
  simp [h]

theorem DeserializeBit_too_short (old bc w : Nat) (s : Stream_T)
    (h : Stream_GetLeftBits s < w) :
    DeserializeBit old bc w s = some (ERROR_STREAM_TOO_SHORT, old, s) := by
  unfold DeserializeBit DeserializeBitLE DeserializeBitBE
  simp [h]

/-- The byte-aligned integer codecs return `ERROR_STREAM_TOO_SHORT` and leave the cursor and
the output alone when fewer bits are left than the native width. -/
theorem aligned_codecs_too_short (k : Width) (s : Stream_T) (u oldu : Nat) (v old data : Int)
    (h : Stream_GetLeftBits s < k.bits) :
    U_Serialize k u s = (ERROR_STREAM_TOO_SHORT, s) ∧
    I_Serialize k v s = (ERROR_STREAM_TOO_SHORT, s) ∧
    S_Serialize k v s = (ERROR_STREAM_TOO_SHORT, s) ∧
    U_Deserialize k oldu s = (ERROR_STREAM_TOO_SHORT, oldu, s) ∧
    (k ≠ .W8 → I_Deserialize k old data s = (ERROR_STREAM_TOO_SHORT, old, s)) ∧
    S_Deserialize k old s = (ERROR_STREAM_TOO_SHORT, old, s) := by
  have hs : ∀ x, Serialize x k.byte_count s = (ERROR_STREAM_TOO_SHORT, s) :=
    fun x => Serialize_too_short x _ s h
  have hd : ∀ x, Deserialize x k.byte_count s = (ERROR_STREAM_TOO_SHORT, x, s) :=
    fun x => Deserialize_too_short x _ s h
  have hr : ∀ d, k = .W8 → Stream_Read s d 1 = (ERROR_STREAM_TOO_SHORT, d, s) := by
    intro d hk
    subst hk
    exact Stream_Read_too_short s d 1 h
  refine ⟨?_, ?_, ?_, ?_, ?_, ?_⟩
  · cases k <;> exact hs _
  · cases k <;> exact hs _
  · cases k <;> exact hs _
  · cases k
    · show U8_Deserialize oldu s = _
      unfold U8_Deserialize
      rw [hr _ rfl]
      rfl
    · show U16_Deserialize oldu s = _
      unfold U16_Deserialize
      rw [show Deserialize 0 2 s = _ from hd 0]
      rfl
    · show U32_Deserialize oldu s = _
      unfold U32_Deserialize
      rw [show Deserialize 0 4 s = _ from hd 0]
      rfl
    · exact hd _
  · intro hk
    cases k
    · exact absurd rfl hk
    · show I16_Deserialize old data s = _
      unfold I16_Deserialize IDeserialize
      rw [show Deserialize 0 2 s = _ from hd 0]
      rfl
    · show I32_Deserialize old data s = _
      unfold I32_Deserialize IDeserialize
      rw [show Deserialize 0 4 s = _ from hd 0]
      rfl
    · show I64_Deserialize old s = _
      unfold I64_Deserialize IDeserialize
      rw [show Deserialize 0 8 s = _ from hd 0]
      rfl
  · cases k
    · show S8_Deserialize old s = _
      unfold S8_Deserialize SDeserialize
      rw [show Deserialize 0 1 s = _ from hd 0]
      rfl
    · show S16_Deserialize old s = _
      unfold S16_Deserialize SDeserialize
      rw [show Deserialize 0 2 s = _ from hd 0]
      rfl
    · show S32_Deserialize old s = _
      unfold S32_Deserialize SDeserialize
      rw [show Deserialize 0 4 s = _ from hd 0]
      rfl
    · show S64_Deserialize old s = _
      unfold S64_Deserialize SDeserialize
      rw [show Deserialize 0 8 s = _ from hd 0]
      rfl

/-- The bit forms of the integer codecs return `ERROR_STREAM_TOO_SHORT` and leave the cursor
and the output alone when fewer than `w` bits are left. -/
theorem bit_codecs_too_short (k : Width) (s : Stream_T) (u oldu w : Nat) (v old value : Int)
    (h : Stream_GetLeftBits s < w) :
    U_SerializeBit k u w s = some (ERROR_STREAM_TOO_SHORT, s) ∧
    I_SerializeBit k v w s = some (ERROR_STREAM_TOO_SHORT, s) ∧
    S_SerializeBit k v w s = some (ERROR_STREAM_TOO_SHORT, s) ∧
    U_DeserializeBit k oldu w s = some (ERROR_STREAM_TOO_SHORT, oldu, s) ∧
    I_DeserializeBit k old value w s = some (ERROR_STREAM_TOO_SHORT, old, s) ∧
    S_DeserializeBit k old w s = some (ERROR_STREAM_TOO_SHORT, old, s) := by
  have hs : ∀ x bc, SerializeBit x bc w s = some (ERROR_STREAM_TOO_SHORT, s) :=
    fun x bc => SerializeBit_too_short x bc w s h
  have hd : ∀ x bc, DeserializeBit x bc w s = some (ERROR_STREAM_TOO_SHORT, x, s) :=
    fun x bc => DeserializeBit_too_short x bc w s h
  refine ⟨?_, ?_, ?_, ?_, ?_, ?_⟩
  · cases k <;> exact hs _ _
  · cases k <;> exact hs _ _
  · cases k <;> exact hs _ _
  · cases k
    · show U8_DeserializeBit oldu w s = _
      unfold U8_DeserializeBit
      rw [hd]
      rfl
    · show U16_DeserializeBit oldu w s = _
      unfold U16_DeserializeBit
      rw [hd]
      rfl
    · show U32_DeserializeBit oldu w s = _
      unfold U32_DeserializeBit
      rw [hd]
      rfl
    · exact hd _ _
  · cases k
    · show I8_DeserializeBit old value w s = _
      unfold I8_DeserializeBit IDeserializeBit
      rw [hd]
      rfl
    · show I16_DeserializeBit old value w s = _
      unfold I16_DeserializeBit IDeserializeBit
      rw [hd]
      rfl
    · show I32_DeserializeBit old value w s = _
      unfold I32_DeserializeBit IDeserializeBit
      rw [hd]
      rfl
    · show I64_DeserializeBit old w s = _
      unfold I64_DeserializeBit IDeserializeBit
      rw [hd]
      rfl
  · cases k
    · show S8_DeserializeBit old w s = _
      unfold S8_DeserializeBit SDeserializeBit
      rw [hd]
      rfl
    · show S16_DeserializeBit old w s = _
      unfold S16_DeserializeBit SDeserializeBit
      rw [hd]
      rfl
    · show S32_DeserializeBit old w s = _
      unfold S32_DeserializeBit SDeserializeBit
      rw [hd]
      rfl
    · show S64_DeserializeBit old w s = _
      unfold S64_DeserializeBit SDeserializeBit
      rw [hd]
      rfl

/-- The capacity law for `I8_Deserialize`, the size, float and double codecs and the array
codecs other than `Array_Serialize`. -/
theorem other_codecs_too_short (s : Stream_T) (x oldx n : Nat) (old : Int)
    (p_data : List Nat) (status_and : Status_T → Status_T → Status_T) :
    (Stream_GetLeftBits s < 8 →
      I8_Deserialize old s = (ERROR_STREAM_TOO_SHORT, to_int 8 (old % 256), s)) ∧
    (Stream_GetLeftBits s < 8 * n →
      Size_Serialize x n s = (ERROR_STREAM_TOO_SHORT, s) ∧
      Size_Deserialize oldx n s = (ERROR_STREAM_TOO_SHORT, oldx, s) ∧
      Array_Deserialize p_data n s = (ERROR_STREAM_TOO_SHORT, p_data, s) ∧
      (8 * n < 2 ^ 64 → Array_SerializeBit p_data n s = some (ERROR_STREAM_TOO_SHORT, s) ∧
        Array_DeserializeBit status_and p_data n s =
          some (ERROR_STREAM_TOO_SHORT, p_data, s))) ∧
    (Stream_GetLeftBits s < n →
      Size_SerializeBit x n s = some (ERROR_STREAM_TOO_SHORT, s) ∧
      Size_DeserializeBit oldx n s = some (ERROR_STREAM_TOO_SHORT, oldx, s)) ∧
    (Stream_GetLeftBits s < 32 →
      Float_Serialize x s = (ERROR_STREAM_TOO_SHORT, s) ∧
      Float_SerializeBit x s = some (ERROR_STREAM_TOO_SHORT, s) ∧
      Float_Deserialize oldx s = (ERROR_STREAM_TOO_SHORT, oldx, s) ∧
      Float_DeserializeBit oldx s = some (ERROR_STREAM_TOO_SHORT, oldx, s)) ∧
    (Stream_GetLeftBits s < 64 →
      Double_Serialize x s = (ERROR_STREAM_TOO_SHORT, s) ∧
      Double_SerializeBit x s = some (ERROR_STREAM_TOO_SHORT, s) ∧
      Double_Deserialize oldx s = (ERROR_STREAM_TOO_SHORT, oldx, s) ∧
      Double_DeserializeBit oldx s = some (ERROR_STREAM_TOO_SHORT, oldx, s)) := by
  refine ⟨?_, ?_, ?_, ?_, ?_⟩
  · intro h
    unfold I8_Deserialize
    rw [Stream_Read_too_short s _ 1 h]
    have e : ((old % 256).toNat : Int) = old % 256 := by omega
    simp [byteAt, e]
  · intro h
    refine ⟨Serialize_too_short x n s h, ?_, Stream_Read_too_short s p_data n h, ?_⟩
    · unfold Size_Deserialize
      rw [Deserialize_too_short 0 n s h]
      rfl
    · intro hn
      have : Stream_GetLeftBits s < (n * BITS_IN_BYTE) % 2 ^ 64 := by
        unfold BITS_IN_BYTE
        omega
      refine ⟨?_, ?_⟩
      · unfold Array_SerializeBit
        rw [if_pos this]
      · unfold Array_DeserializeBit
        rw [if_pos this]
  · intro h
    refine ⟨SerializeBit_too_short x 8 n s h, ?_⟩
    unfold Size_DeserializeBit
    rw [DeserializeBit_too_short 0 8 n s h]
    rfl
  · intro h
    have h1 := aligned_codecs_too_short .W32 s x oldx 0 0 0 h
    have h2 := bit_codecs_too_short .W32 s x oldx 32 0 0 0 h
    exact ⟨h1.1, h2.1, h1.2.2.2.1, h2.2.2.2.1⟩
  · intro h
    have h1 := aligned_codecs_too_short .W64 s x oldx 0 0 0 h
    have h2 := bit_codecs_too_short .W64 s x oldx 64 0 0 0 h
    exact ⟨h1.1, h2.1, h1.2.2.2.1, h2.2.2.2.1⟩

/-- C15 (failing input): `Array_Serialize` of 2 bytes at bit position 3 of a 2-byte buffer,
where 13 bits are left, returns `ERROR_STREAM_TOO_SHORT` with the cursor moved to position 8:
it calls `Stream_Align` before `Stream_Write` makes its bounds check. -/
theorem C15_Array_Serialize_failure_moves_cursor :
    Stream_GetLeftBits ⟨[0, 0], 16, 3, BIG⟩ = 13 ∧
    Array_Serialize [0xAA, 0xBB] 2 ⟨[0, 0], 16, 3, BIG⟩ =
      (ERROR_STREAM_TOO_SHORT, ⟨[0, 0], 16, 8, BIG⟩) := by
  refine ⟨by decide, by decide⟩

/-! ## Byte-aligned transfer, frame of the bit write, mode and alignment -/

/-- C16: for every cursor with position `p ≤ capacity` and every byte count `len`,
`Stream_Write(data, len)` succeeds if and only if `ceil(p/8) + len ≤` the size in bytes (it
returns `ERROR_STREAM_TOO_SHORT` with the cursor as it was otherwise); on success the buffer
bytes `ceil(p/8) .. ceil(p/8)+len-1` equal `data`, every other buffer byte is unchanged, and the
new position is `8 * (ceil(p/8) + len)`.  `Stream_Read` succeeds under the same condition,
copies those buffer bytes out, leaves the buffer alone and ends at the same position. -/
theorem C16_aligned_write_read (s : Stream_T) (data out : List Nat) (len : Nat)
    (hp : Stream_TellBit s ≤ Stream_GetSizeBits s) (hcap : s.bit_len = 8 * s.p_buffer.length)
    (hd : len ≤ data.length) (ho : len ≤ out.length) :
    ((Stream_Write s data len).1 = STATUS_SUCCESS ↔
      (Stream_TellBit s + 7) / 8 + len ≤ Stream_GetSize s) ∧
    ((Stream_TellBit s + 7) / 8 + len ≤ Stream_GetSize s →
      ∃ s1, Stream_Write s data len = (STATUS_SUCCESS, s1) ∧
        (∀ j, j < len → byteAt s1.p_buffer ((Stream_TellBit s + 7) / 8 + j) = byteAt data j) ∧
        (∀ j, j < (Stream_TellBit s + 7) / 8 ∨ (Stream_TellBit s + 7) / 8 + len ≤ j →
          byteAt s1.p_buffer j = byteAt s.p_buffer j) ∧
        s1.p_buffer.length = s.p_buffer.length ∧
        Stream_TellBit s1 = 8 * ((Stream_TellBit s + 7) / 8 + len)) ∧
    (¬ (Stream_TellBit s + 7) / 8 + len ≤ Stream_GetSize s →
      Stream_Write s data len = (ERROR_STREAM_TOO_SHORT, s) ∧
      Stream_Read s out len = (ERROR_STREAM_TOO_SHORT, out, s)) ∧
    ((Stream_Read s out len).1 = STATUS_SUCCESS ↔
      (Stream_TellBit s + 7) / 8 + len ≤ Stream_GetSize s) ∧
    ((Stream_TellBit s + 7) / 8 + len ≤ Stream_GetSize s →
      ∃ d1 s1, Stream_Read s out len = (STATUS_SUCCESS, d1, s1) ∧
        (∀ j, j < len → byteAt d1 j = byteAt s.p_buffer ((Stream_TellBit s + 7) / 8 + j)) ∧
        s1.p_buffer = s.p_buffer ∧
        Stream_TellBit s1 = 8 * ((Stream_TellBit s + 7) / 8 + len)) ∧
    Stream_Write ⟨[0x0F, 0, 0, 0, 0, 0, 0, 0], 64, 4, LITTLE⟩ [0xBB] 1 =
      (STATUS_SUCCESS, ⟨[0x0F, 0xBB, 0, 0, 0, 0, 0, 0], 64, 16, LITTLE⟩) := by
  unfold Stream_TellBit Stream_GetSizeBits at hp
  unfold Stream_TellBit Stream_GetSize BITS_IN_BYTE
  have hok : (s.bit_index + 7) / 8 + len ≤ s.bit_len / 8 →
      (∃ s1, Stream_Write s data len = (STATUS_SUCCESS, s1) ∧
        (∀ j, j < len → byteAt s1.p_buffer ((s.bit_index + 7) / 8 + j) = byteAt data j) ∧
        (∀ j, j < (s.bit_index + 7) / 8 ∨ (s.bit_index + 7) / 8 + len ≤ j →
          byteAt s1.p_buffer j = byteAt s.p_buffer j) ∧
        s1.p_buffer.length = s.p_buffer.length ∧
        s1.bit_index = 8 * ((s.bit_index + 7) / 8 + len)) ∧
      (∃ d1 s1, Stream_Read s out len = (STATUS_SUCCESS, d1, s1) ∧
        (∀ j, j < len → byteAt d1 j = byteAt s.p_buffer ((s.bit_index + 7) / 8 + j)) ∧
        s1.p_buffer = s.p_buffer ∧
        s1.bit_index = 8 * ((s.bit_index + 7) / 8 + len)) := by
    intro h
    have hroom : len ≤ Stream_GetLeft s := by
      unfold Stream_GetLeft BITS_IN_BYTE
      omega
    obtain ⟨s1, e1, e2, _, _, e5, e6⟩ := Stream_Write_spec s data len hroom hp (by omega) hd
    obtain ⟨d1, s2, f1, f2, _, _, f5, f6⟩ := Stream_Read_spec s out len hroom hp (by omega) ho
    refine ⟨⟨s1, e1, ?_, ?_, e5, e2⟩, ⟨d1, s2, f1, ?_, f5, f2⟩⟩
    · intro j hj
      rw [e6, if_pos (by omega)]
      congr 1
      omega
    · intro j hj
      rw [e6, if_neg (by omega)]
    · intro j hj
      rw [f6, if_pos hj]
  have hbad : ¬ (s.bit_index + 7) / 8 + len ≤ s.bit_len / 8 →
      Stream_Write s data len = (ERROR_STREAM_TOO_SHORT, s) ∧
      Stream_Read s out len = (ERROR_STREAM_TOO_SHORT, out, s) := by
    intro h
    have hs : Stream_GetLeftBits s < 8 * len := by
      unfold Stream_GetLeftBits
      omega
    exact ⟨Stream_Write_too_short s data len hs, Stream_Read_too_short s out len hs⟩
  refine ⟨⟨?_, ?_⟩, fun h => (hok h).1, hbad, ⟨?_, ?_⟩, fun h => (hok h).2, by decide⟩
  · intro h
    by_contra hc
    rw [(hbad hc).1] at h
    simp at h
  · intro h
    obtain ⟨s1, e1, _⟩ := (hok h).1
    rw [e1]
  · intro h
    by_contra hc
    rw [(hbad hc).2] at h
    simp at h
  · intro h
    obtain ⟨d1, s1, e1, _⟩ := (hok h).2
    rw [e1]

theorem C16_aligned_write_read_witness :
    (Stream_TellBit ⟨[0x0F, 0, 0, 0], 32, 4, LITTLE⟩ ≤
        Stream_GetSizeBits ⟨[0x0F, 0, 0, 0], 32, 4, LITTLE⟩ ∧
      32 = 8 * [0x0F, 0, 0, 0].length ∧ 2 ≤ [0xAA, 0xBB].length ∧ 2 ≤ [0, 0].length) ∧
    (((Stream_Write ⟨[0x0F, 0, 0, 0], 32, 4, LITTLE⟩ [0xAA, 0xBB] 2).1 = STATUS_SUCCESS ↔
      (Stream_TellBit ⟨[0x0F, 0, 0, 0], 32, 4, LITTLE⟩ + 7) / 8 + 2 ≤
        Stream_GetSize ⟨[0x0F, 0, 0, 0], 32, 4, LITTLE⟩) ∧
    ((Stream_TellBit ⟨[0x0F, 0, 0, 0], 32, 4, LITTLE⟩ + 7) / 8 + 2 ≤
        Stream_GetSize ⟨[0x0F, 0, 0, 0], 32, 4, LITTLE⟩ →
      ∃ s1, Stream_Write ⟨[0x0F, 0, 0, 0], 32, 4, LITTLE⟩ [0xAA, 0xBB] 2 =
          (STATUS_SUCCESS, s1) ∧
        (∀ j, j < 2 →
          byteAt s1.p_buffer ((Stream_TellBit ⟨[0x0F, 0, 0, 0], 32, 4, LITTLE⟩ + 7) / 8 + j) =
            byteAt [0xAA, 0xBB] j) ∧
        (∀ j, j < (Stream_TellBit ⟨[0x0F, 0, 0, 0], 32, 4, LITTLE⟩ + 7) / 8 ∨
            (Stream_TellBit ⟨[0x0F, 0, 0, 0], 32, 4, LITTLE⟩ + 7) / 8 + 2 ≤ j →
          byteAt s1.p_buffer j = byteAt [0x0F, 0, 0, 0] j) ∧
        s1.p_buffer.length = [0x0F, 0, 0, 0].length ∧
        Stream_TellBit s1 =
          8 * ((Stream_TellBit ⟨[0x0F, 0, 0, 0], 32, 4, LITTLE⟩ + 7) / 8 + 2)) ∧
    (¬ (Stream_TellBit ⟨[0x0F, 0, 0, 0], 32, 4, LITTLE⟩ + 7) / 8 + 2 ≤
        Stream_GetSize ⟨[0x0F, 0, 0, 0], 32, 4, LITTLE⟩ →
      Stream_Write ⟨[0x0F, 0, 0, 0], 32, 4, LITTLE⟩ [0xAA, 0xBB] 2 =
        (ERROR_STREAM_TOO_SHORT, ⟨[0x0F, 0, 0, 0], 32, 4, LITTLE⟩) ∧
      Stream_Read ⟨[0x0F, 0, 0, 0], 32, 4, LITTLE⟩ [0, 0] 2 =
        (ERROR_STREAM_TOO_SHORT, [0, 0], ⟨[0x0F, 0, 0, 0], 32, 4, LITTLE⟩)) ∧
    ((Stream_Read ⟨[0x0F, 0, 0, 0], 32, 4, LITTLE⟩ [0, 0] 2).1 = STATUS_SUCCESS ↔
      (Stream_TellBit ⟨[0x0F, 0, 0, 0], 32, 4, LITTLE⟩ + 7) / 8 + 2 ≤
        Stream_GetSize ⟨[0x0F, 0, 0, 0], 32, 4, LITTLE⟩) ∧
    ((Stream_TellBit ⟨[0x0F, 0, 0, 0], 32, 4, LITTLE⟩ + 7) / 8 + 2 ≤
        Stream_GetSize ⟨[0x0F, 0, 0, 0], 32, 4, LITTLE⟩ →
      ∃ d1 s1, Stream_Read ⟨[0x0F, 0, 0, 0], 32, 4, LITTLE⟩ [0, 0] 2 =
          (STATUS_SUCCESS, d1, s1) ∧
        (∀ j, j < 2 → byteAt d1 j =
          byteAt [0x0F, 0, 0, 0] ((Stream_TellBit ⟨[0x0F, 0, 0, 0], 32, 4, LITTLE⟩ + 7) / 8 + j)) ∧
        s1.p_buffer = [0x0F, 0, 0, 0] ∧
        Stream_TellBit s1 =
          8 * ((Stream_TellBit ⟨[0x0F, 0, 0, 0], 32, 4, LITTLE⟩ + 7) / 8 + 2)) ∧
    Stream_Write ⟨[0x0F, 0, 0, 0, 0, 0, 0, 0], 64, 4, LITTLE⟩ [0xBB] 1 =
      (STATUS_SUCCESS, ⟨[0x0F, 0xBB, 0, 0, 0, 0, 0, 0], 64, 16, LITTLE⟩)) :=
  ⟨by decide, C16_aligned_write_read ⟨[0x0F, 0, 0, 0], 32, 4, LITTLE⟩ [0xAA, 0xBB] [0, 0] 2
    (by decide) (by decide) (by decide) (by decide)⟩

/-- C17: for every cursor with position `p ≤ capacity`, both modes and every
`n ≤ capacity - p`, `Stream_WriteBit` of `n` bits succeeds and every stream bit outside
`p .. p+n-1` (bit `k mod 8` of byte `k div 8` in `LITTLE` mode, bit `7 - (k mod 8)` in `BIG`
mode) keeps its value, the other bits of the first and last byte touched included; writing 8
bits of `0xBB` at position 4 over `0F 00` gives `BF 0B`. -/
theorem C17_write_bit_frame (s : Stream_T) (data : List Nat) (n : Nat)
    (hr : s.bit_index + n ≤ s.bit_len) (hl : s.bit_len ≤ 8 * s.p_buffer.length) :
    (∃ s1, Stream_WriteBit s data n = some (STATUS_SUCCESS, s1) ∧
      s1.p_buffer.length = s.p_buffer.length ∧ s1.mode = s.mode ∧
      ∀ k, ¬ (s.bit_index ≤ k ∧ k < s.bit_index + n) →
        (byteAt s1.p_buffer (k / 8)).testBit (if s.mode = BIG then 7 - k % 8 else k % 8) =
          (byteAt s.p_buffer (k / 8)).testBit (if s.mode = BIG then 7 - k % 8 else k % 8)) ∧
    Stream_WriteBit ⟨[0x0F, 0, 0, 0, 0, 0, 0, 0], 64, 4, LITTLE⟩ [0xBB] 8 =
      some (STATUS_SUCCESS, ⟨[0xBF, 0x0B, 0, 0, 0, 0, 0, 0], 64, 12, LITTLE⟩) := by
  refine ⟨?_, by decide⟩
  obtain ⟨s1, e1, _, _, e4, e5, e6⟩ := Stream_WriteBit_spec s data n hr hl
  refine ⟨s1, e1, e5, e4, ?_⟩
  intro k hk
  have h := e6 k
  rw [if_neg hk] at h
  cases hm : s.mode
  · rw [hm] at h
    simpa [streamBit, bitOf] using h
  · rw [hm] at h
    simpa [streamBit, bitOf] using h

theorem C17_write_bit_frame_witness :
    (3 + 7 ≤ 16 ∧ 16 ≤ 8 * [0xFF, 0xFF].length) ∧
    ((∃ s1, Stream_WriteBit ⟨[0xFF, 0xFF], 16, 3, BIG⟩ [0x00] 7 = some (STATUS_SUCCESS, s1) ∧
      s1.p_buffer.length = [0xFF, 0xFF].length ∧ s1.mode = BIG ∧
      ∀ k, ¬ (3 ≤ k ∧ k < 3 + 7) →
        (byteAt s1.p_buffer (k / 8)).testBit (if BIG = BIG then 7 - k % 8 else k % 8) =
          (byteAt [0xFF, 0xFF] (k / 8)).testBit (if BIG = BIG then 7 - k % 8 else k % 8)) ∧
    Stream_WriteBit ⟨[0x0F, 0, 0, 0, 0, 0, 0, 0], 64, 4, LITTLE⟩ [0xBB] 8 =
      some (STATUS_SUCCESS, ⟨[0xBF, 0x0B, 0, 0, 0, 0, 0, 0], 64, 12, LITTLE⟩)) :=
  ⟨by decide, C17_write_bit_frame ⟨[0xFF, 0xFF], 16, 3, BIG⟩ [0x00] 7 (by decide) (by decide)⟩

/-- C18 (failing input): on a cursor over a 1-byte buffer, `Stream_SeekBit(8)` succeeds and
puts the position at the capacity 8; `Stream_SeekBitInByte(3)` then returns success and leaves
the position at 11, beyond the capacity. -/
theorem C18_SeekBitInByte_exceeds_capacity :
    Stream_SeekBit (Stream_Init [0] 1 BIG) 8 = (STATUS_SUCCESS, ⟨[0], 8, 8, BIG⟩) ∧
    Stream_SeekBitInByte ⟨[0], 8, 8, BIG⟩ 3 = (STATUS_SUCCESS, ⟨[0], 8, 11, BIG⟩) ∧
    ¬ Stream_TellBit (Stream_SeekBitInByte ⟨[0], 8, 8, BIG⟩ 3).2 ≤
      Stream_GetSizeBits (Stream_SeekBitInByte ⟨[0], 8, 8, BIG⟩ 3).2 := by
  refine ⟨by decide, by decide, by decide⟩

/-- The cursor operations other than `Stream_SeekBitInByte` keep the position within the
capacity of a cursor whose capacity is a whole number of bytes, and never change the
capacity; `Stream_SeekBitInByte` does so too from a position below the capacity. -/
theorem position_within_capacity (s : Stream_T) (data : List Nat)
    (len n index bit_index offset : Nat) (mode : Stream_Mode_T)
    (hp : s.bit_index ≤ s.bit_len) (h8 : s.bit_len % 8 = 0) :
    ((Stream_SetMode s mode).2.bit_index ≤ s.bit_len ∧
      (Stream_SetMode s mode).2.bit_len = s.bit_len) ∧
    ((Stream_Seek s index).2.bit_index ≤ s.bit_len ∧
      (Stream_Seek s index).2.bit_len = s.bit_len) ∧
    ((Stream_SeekBit s bit_index).2.bit_index ≤ s.bit_len ∧
      (Stream_SeekBit s bit_index).2.bit_len = s.bit_len) ∧
    ((Stream_Align s).bit_index ≤ s.bit_len ∧ (Stream_Align s).bit_len = s.bit_len) ∧
    ((Stream_Write s data len).2.bit_index ≤ s.bit_len ∧
      (Stream_Write s data len).2.bit_len = s.bit_len) ∧
    ((Stream_Read s data len).2.2.bit_index ≤ s.bit_len ∧
      (Stream_Read s data len).2.2.bit_len = s.bit_len) ∧
    (∃ r, Stream_WriteBit s data n = some r ∧ r.2.bit_index ≤ s.bit_len ∧
      r.2.bit_len = s.bit_len) ∧
    (∃ r, Stream_ReadBit s data n = some r ∧ r.2.2.bit_index ≤ s.bit_len ∧
      r.2.2.bit_len = s.bit_len) ∧
    (s.bit_index < s.bit_len → offset < 8 →
      (Stream_SeekBitInByte s offset).2.bit_index ≤ s.bit_len ∧
      (Stream_SeekBitInByte s offset).2.bit_len = s.bit_len) := by
  refine ⟨?_, ?_, ?_, ?_, ?_, ?_, ?_, ?_, ?_⟩
  · unfold Stream_SetMode
    split_ifs <;> exact ⟨hp, rfl⟩
  · unfold Stream_Seek Stream_GetSize BITS_IN_BYTE
    split_ifs
    · exact ⟨hp, rfl⟩
    · refine ⟨?_, rfl⟩
      simp only []
      omega
  · unfold Stream_SeekBit Stream_GetSizeBits
    split_ifs
    · exact ⟨hp, rfl⟩
    · refine ⟨?_, rfl⟩
      simp only []
      omega
  · unfold Stream_Align Stream_TellBitInByte BIT_IN_BYTE BITS_IN_BYTE
    refine ⟨?_, rfl⟩
    simp only []
    split_ifs <;> omega
  · unfold Stream_Write
    by_cases h : Stream_GetLeft s < len
    · rw [if_pos h]
      exact ⟨hp, rfl⟩
    · rw [if_neg h]
      refine ⟨?_, rfl⟩
      unfold Stream_GetLeft at h
      simp only [Stream_Align, Stream_TellBitInByte, BIT_IN_BYTE, BITS_IN_BYTE] at h ⊢
      split_ifs <;> omega
  · unfold Stream_Read
    by_cases h : Stream_GetLeft s < len
    · rw [if_pos h]
      exact ⟨hp, rfl⟩
    · rw [if_neg h]
      refine ⟨?_, rfl⟩
      unfold Stream_GetLeft at h
      simp only [Stream_Align, Stream_TellBitInByte, BIT_IN_BYTE, BITS_IN_BYTE] at h ⊢
      split_ifs <;> omega
  · rcases Stream_WriteBit_cases s data n hp with ⟨_, h⟩ | ⟨h0, s1, h, h1, h2, _⟩
    · exact ⟨_, h, hp, rfl⟩
    · unfold Stream_GetLeftBits at h0
      exact ⟨_, h, by simp only []; omega, h2⟩
  · rcases Stream_ReadBit_cases s data n hp with ⟨_, h⟩ | ⟨h0, d1, s1, h, h1, h2, _⟩
    · exact ⟨_, h, hp, rfl⟩
    · unfold Stream_GetLeftBits at h0
      exact ⟨_, h, by simp only []; omega, h2⟩
  · intro h1 h2
    unfold Stream_SeekBitInByte Stream_Tell BYTE_INDEX BITS_IN_BYTE
    refine ⟨?_, rfl⟩
    simp only []
    omega

/-- C19 (counterexample): at bit position 3 of a `BIG` cursor, `Stream_SetMode(BIG)` returns
success although `Stream_TellBitInByte` is 3. -/
theorem C19_set_mode_same_mode_unaligned :
    (Stream_SetMode ⟨[0], 8, 3, BIG⟩ BIG).1 = STATUS_SUCCESS ∧
    Stream_TellBitInByte ⟨[0], 8, 3, BIG⟩ = 3 ∧
    ¬ ((Stream_SetMode ⟨[0], 8, 3, BIG⟩ BIG).1 = STATUS_SUCCESS ↔
      Stream_TellBitInByte ⟨[0], 8, 3, BIG⟩ = 0) := by
  refine ⟨by decide, by decide, by decide⟩

/-- C19 (amended): `Stream_SetMode` returns success if and only if the requested mode is the
mode the cursor already has or `Stream_TellBitInByte` is 0; when it fails it returns
`ERROR_STREAM_NOT_ALIGNED` and the cursor, its mode included, is unchanged; when it succeeds
`Stream_GetMode` returns the requested mode and position, capacity and buffer are unchanged. -/
theorem C19_set_mode (s : Stream_T) (mode : Stream_Mode_T) :
    ((Stream_SetMode s mode).1 = STATUS_SUCCESS ↔
      (Stream_GetMode s = mode ∨ Stream_TellBitInByte s = 0)) ∧
    (Stream_SetMode s mode = (ERROR_STREAM_NOT_ALIGNED, s) ∨
      ((Stream_SetMode s mode).1 = STATUS_SUCCESS ∧
        Stream_GetMode (Stream_SetMode s mode).2 = mode ∧
        (Stream_SetMode s mode).2.bit_index = s.bit_index ∧
        (Stream_SetMode s mode).2.bit_len = s.bit_len ∧
        (Stream_SetMode s mode).2.p_buffer = s.p_buffer)) := by
  unfold Stream_SetMode Stream_GetMode
  by_cases h1 : s.mode = mode
  · simp [h1]
  · by_cases h2 : Stream_TellBitInByte s = 0
    · simp [h1, h2]
    · simp [h1, h2]

/-- C20: after `Stream_Align` the position is the least multiple of 8 that is at least the
old position `p`, `Stream_TellBitInByte` is 0, the cursor is unchanged when `p` was a multiple
of 8, a second `Stream_Align` changes nothing, and buffer, mode and capacity are untouched. -/
theorem C20_align (s : Stream_T) :
    Stream_TellBit (Stream_Align s) % 8 = 0 ∧
    Stream_TellBit s ≤ Stream_TellBit (Stream_Align s) ∧
    (∀ m, m % 8 = 0 → Stream_TellBit s ≤ m → Stream_TellBit (Stream_Align s) ≤ m) ∧
    Stream_TellBitInByte (Stream_Align s) = 0 ∧
    (Stream_TellBit s % 8 = 0 → Stream_Align s = s) ∧
    Stream_Align (Stream_Align s) = Stream_Align s ∧
    (Stream_Align s).p_buffer = s.p_buffer ∧
    Stream_GetMode (Stream_Align s) = Stream_GetMode s ∧
    Stream_GetSizeBits (Stream_Align s) = Stream_GetSizeBits s := by
  have hidx : (Stream_Align s).bit_index = 8 * ((s.bit_index + 7) / 8) := by
    simp only [Stream_Align, Stream_TellBitInByte, BIT_IN_BYTE, BITS_IN_BYTE]
    split_ifs <;> omega
  have hfix : ∀ t : Stream_T, t.bit_index % 8 = 0 → Stream_Align t = t := by
    intro t ht
    simp [Stream_Align, Stream_TellBitInByte, BIT_IN_BYTE, BITS_IN_BYTE, ht]
  unfold Stream_TellBit Stream_TellBitInByte BIT_IN_BYTE BITS_IN_BYTE
  refine ⟨by omega, by omega, ?_, by omega, hfix s, hfix _ (by omega), rfl, rfl, rfl⟩
  intro m h1 h2
  omega

/-! ## Seeking -/

/-- C21: for every cursor whose capacity is a whole number `S` of bytes, `Stream_Seek(k)`
succeeds if and only if `k < S` and then `Stream_TellBit` is `8 * k`; `Stream_SeekBit(b)`
succeeds if and only if `b ≤ 8 * S` and then `Stream_TellBit` is `b`; a seek that does not
succeed returns `ERROR_STREAM_TOO_SHORT` and leaves the cursor as it was; the end position
`8 * S` is reached by `Stream_SeekBit(8 * S)` while `Stream_Seek(S)` returns
`ERROR_STREAM_TOO_SHORT`. -/
theorem C21_seek_ranges (s : Stream_T) (k b : Nat)
    (hS : Stream_GetSizeBits s = 8 * Stream_GetSize s) :
    ((Stream_Seek s k).1 = STATUS_SUCCESS ↔ k < Stream_GetSize s) ∧
    ((Stream_Seek s k).1 = STATUS_SUCCESS → Stream_TellBit (Stream_Seek s k).2 = 8 * k) ∧
    ((Stream_Seek s k).1 ≠ STATUS_SUCCESS → Stream_Seek s k = (ERROR_STREAM_TOO_SHORT, s)) ∧
    ((Stream_SeekBit s b).1 = STATUS_SUCCESS ↔ b ≤ 8 * Stream_GetSize s) ∧
    ((Stream_SeekBit s b).1 = STATUS_SUCCESS → Stream_TellBit (Stream_SeekBit s b).2 = b) ∧
    ((Stream_SeekBit s b).1 ≠ STATUS_SUCCESS →
      Stream_SeekBit s b = (ERROR_STREAM_TOO_SHORT, s)) ∧
    (Stream_SeekBit s (8 * Stream_GetSize s)).1 = STATUS_SUCCESS ∧
    Stream_TellBit (Stream_SeekBit s (8 * Stream_GetSize s)).2 = 8 * Stream_GetSize s ∧
    Stream_Seek s (Stream_GetSize s) = (ERROR_STREAM_TOO_SHORT, s) := by
  unfold Stream_GetSizeBits at hS
  refine ⟨?_, ?_, ?_, ?_, ?_, ?_, ?_, ?_, ?_⟩
  · unfold Stream_Seek
    by_cases h : k ≥ Stream_GetSize s
    · rw [if_pos h]
      simp only []
      constructor
      · intro h1
        exact Status_T.noConfusion h1
      · intro h1
        omega
    · rw [if_neg h]
      simp only [true_iff]
      omega
  · unfold Stream_Seek
    by_cases h : k ≥ Stream_GetSize s
    · rw [if_pos h]
      intro h1
      exact Status_T.noConfusion h1
    · rw [if_neg h]
      intro _
      simp only [Stream_TellBit, BITS_IN_BYTE]
      omega
  · unfold Stream_Seek
    by_cases h : k ≥ Stream_GetSize s
    · rw [if_pos h]
      intro _
      rfl
    · rw [if_neg h]
      intro h1
      exact absurd rfl h1
  · unfold Stream_SeekBit Stream_GetSizeBits
    by_cases h : b > s.bit_len
    · rw [if_pos h]
      simp only []
      constructor
      · intro h1
        exact Status_T.noConfusion h1
      · intro h1
        omega
    · rw [if_neg h]
      simp only [true_iff]
      omega
  · unfold Stream_SeekBit Stream_GetSizeBits
    by_cases h : b > s.bit_len
    · rw [if_pos h]
      intro h1
      exact Status_T.noConfusion h1
    · rw [if_neg h]
      intro _
      rfl
  · unfold Stream_SeekBit Stream_GetSizeBits
    by_cases h : b > s.bit_len
    · rw [if_pos h]
      intro _
      rfl
    · rw [if_neg h]
      intro h1
      exact absurd rfl h1
  · unfold Stream_SeekBit Stream_GetSizeBits
    rw [if_neg (by omega)]
  · unfold Stream_SeekBit Stream_GetSizeBits
    rw [if_neg (by omega)]
    rfl
  · unfold Stream_Seek
    rw [if_pos (le_refl _)]

theorem C21_seek_ranges_witness :
    Stream_GetSizeBits (Stream_Init [1, 2, 3] 3 LITTLE) =
      8 * Stream_GetSize (Stream_Init [1, 2, 3] 3 LITTLE) ∧
    ((Stream_Seek (Stream_Init [1, 2, 3] 3 LITTLE) 1).1 = STATUS_SUCCESS ↔
      1 < Stream_GetSize (Stream_Init [1, 2, 3] 3 LITTLE)) ∧
    ((Stream_Seek (Stream_Init [1, 2, 3] 3 LITTLE) 1).1 = STATUS_SUCCESS →
      Stream_TellBit (Stream_Seek (Stream_Init [1, 2, 3] 3 LITTLE) 1).2 = 8 * 1) ∧
    ((Stream_Seek (Stream_Init [1, 2, 3] 3 LITTLE) 1).1 ≠ STATUS_SUCCESS →
      Stream_Seek (Stream_Init [1, 2, 3] 3 LITTLE) 1 =
        (ERROR_STREAM_TOO_SHORT, Stream_Init [1, 2, 3] 3 LITTLE)) ∧
    ((Stream_SeekBit (Stream_Init [1, 2, 3] 3 LITTLE) 24).1 = STATUS_SUCCESS ↔
      24 ≤ 8 * Stream_GetSize (Stream_Init [1, 2, 3] 3 LITTLE)) ∧
    ((Stream_SeekBit (Stream_Init [1, 2, 3] 3 LITTLE) 24).1 = STATUS_SUCCESS →
      Stream_TellBit (Stream_SeekBit (Stream_Init [1, 2, 3] 3 LITTLE) 24).2 = 24) ∧
    ((Stream_SeekBit (Stream_Init [1, 2, 3] 3 LITTLE) 24).1 ≠ STATUS_SUCCESS →
      Stream_SeekBit (Stream_Init [1, 2, 3] 3 LITTLE) 24 =
        (ERROR_STREAM_TOO_SHORT, Stream_Init [1, 2, 3] 3 LITTLE)) ∧
    (Stream_SeekBit (Stream_Init [1, 2, 3] 3 LITTLE)
      (8 * Stream_GetSize (Stream_Init [1, 2, 3] 3 LITTLE))).1 = STATUS_SUCCESS ∧
    Stream_TellBit (Stream_SeekBit (Stream_Init [1, 2, 3] 3 LITTLE)
      (8 * Stream_GetSize (Stream_Init [1, 2, 3] 3 LITTLE))).2 =
        8 * Stream_GetSize (Stream_Init [1, 2, 3] 3 LITTLE) ∧
    Stream_Seek (Stream_Init [1, 2, 3] 3 LITTLE) (Stream_GetSize (Stream_Init [1, 2, 3] 3 LITTLE)) =
      (ERROR_STREAM_TOO_SHORT, Stream_Init [1, 2, 3] 3 LITTLE) :=
  ⟨by decide, C21_seek_ranges (Stream_Init [1, 2, 3] 3 LITTLE) 1 24 (by decide)⟩

/-! ## The length functions of the record codec -/

/-- C24 (failing input): a record with one `FLOAT` field (the value 1.0, bytes `00 00 80 3F`)
serialized to a fresh cursor over 4 bytes succeeds and leaves the cursor at position 32, in both
modes, while `BitParser_GetLengthBit` returns 4; for one `DOUBLE` field the position is 64 and
the returned length 8; for the single descriptor `ALIGN` the position is 0 and the returned
length 8. -/
theorem C24_GetLengthBit_is_not_the_position :
    BitParser_Serialize [.FLOAT 0] 1 0 [0x00, 0x00, 0x80, 0x3F] (Stream_Init [0, 0, 0, 0] 4 BIG) =
      some (STATUS_SUCCESS, ⟨[0x3F, 0x80, 0x00, 0x00], 32, 32, BIG⟩) ∧
    BitParser_Serialize [.FLOAT 0] 1 0 [0x00, 0x00, 0x80, 0x3F]
        (Stream_Init [0, 0, 0, 0] 4 LITTLE) =
      some (STATUS_SUCCESS, ⟨[0x00, 0x00, 0x80, 0x3F], 32, 32, LITTLE⟩) ∧
    BitParser_GetLengthBit [.FLOAT 0] 1 0 [0x00, 0x00, 0x80, 0x3F] = 4 ∧
    BitParser_Serialize [.DOUBLE 0] 1 0 [0, 0, 0, 0, 0, 0, 0xF0, 0x3F]
        (Stream_Init [0, 0, 0, 0, 0, 0, 0, 0] 8 BIG) =
      some (STATUS_SUCCESS, ⟨[0x3F, 0xF0, 0, 0, 0, 0, 0, 0], 64, 64, BIG⟩) ∧
    BitParser_GetLengthBit [.DOUBLE 0] 1 0 [0, 0, 0, 0, 0, 0, 0xF0, 0x3F] = 8 ∧
    BitParser_Serialize [.ALIGN] 1 0 [] (Stream_Init [0] 1 BIG) =
      some (STATUS_SUCCESS, ⟨[0], 8, 0, BIG⟩) ∧
    BitParser_GetLengthBit [.ALIGN] 1 0 [] = 8 := by
  refine ⟨by decide, by decide, by decide, by decide, by decide, by decide, by decide⟩

/-- C25 (failing input): for a record with one `FLOAT` field `BitParser_GetLength` returns 1,
and `BitParser_Serialize` into a fresh cursor over a buffer of 1 byte returns
`ERROR_STREAM_TOO_SHORT`, in both modes; for a record with one array of 2 bytes described by
`ARRAY_FIXED` the returned length is 1 and the serialization into 1 byte fails too. -/
theorem C25_GetLength_bytes_do_not_suffice :
    BitParser_GetLength [.FLOAT 0] 1 0 [0x00, 0x00, 0x80, 0x3F] = 1 ∧
    BitParser_Serialize [.FLOAT 0] 1 0 [0x00, 0x00, 0x80, 0x3F] (Stream_Init [0] 1 BIG) =
      some (ERROR_STREAM_TOO_SHORT, ⟨[0], 8, 0, BIG⟩) ∧
    BitParser_Serialize [.FLOAT 0] 1 0 [0x00, 0x00, 0x80, 0x3F] (Stream_Init [0] 1 LITTLE) =
      some (ERROR_STREAM_TOO_SHORT, ⟨[0], 8, 0, LITTLE⟩) ∧
    BitParser_GetLength [.ARRAY_FIXED 0 2] 1 0 [8, 0, 0, 0, 0, 0, 0, 0, 0xAA, 0xBB] = 1 ∧
    BitParser_Serialize [.ARRAY_FIXED 0 2] 1 0 [8, 0, 0, 0, 0, 0, 0, 0, 0xAA, 0xBB]
        (Stream_Init [0] 1 BIG) =
      some (ERROR_STREAM_TOO_SHORT, ⟨[0], 8, 0, BIG⟩) := by
  refine ⟨by decide, by decide, by decide, by decide, by decide⟩

/-- C30 (failing input): for a record with a one-byte field and an array of 2 bytes,
`BitParser_GetLengthBit` returns 8 without the `ARRAY_FIXED(2)` descriptor and 10 with it, an
increase of 2, while serializing the array advances the cursor by 16 bits, from 8 to 24. -/
theorem C30_ARRAY_FIXED_counted_in_bytes :
    BitParser_GetLengthBit [.U8 16 8] 1 0
      [8, 0, 0, 0, 0, 0, 0, 0, 0xAA, 0xBB, 0, 0, 0, 0, 0, 0, 0x11] = 8 ∧
    BitParser_GetLengthBit [.U8 16 8, .ARRAY_FIXED 0 2] 2 0
      [8, 0, 0, 0, 0, 0, 0, 0, 0xAA, 0xBB, 0, 0, 0, 0, 0, 0, 0x11] = 10 ∧
    BitParser_Serialize [.U8 16 8] 1 0
        [8, 0, 0, 0, 0, 0, 0, 0, 0xAA, 0xBB, 0, 0, 0, 0, 0, 0, 0x11]
        (Stream_Init [0, 0, 0] 3 BIG) =
      some (STATUS_SUCCESS, ⟨[0x11, 0, 0], 24, 8, BIG⟩) ∧
    BitParser_Serialize [.U8 16 8, .ARRAY_FIXED 0 2] 2 0
        [8, 0, 0, 0, 0, 0, 0, 0, 0xAA, 0xBB, 0, 0, 0, 0, 0, 0, 0x11]
        (Stream_Init [0, 0, 0] 3 BIG) =
      some (STATUS_SUCCESS, ⟨[0x11, 0xAA, 0xBB], 24, 24, BIG⟩) := by
  refine ⟨by decide, by decide, by decide, by decide⟩

/-! ## The walk over the descriptor list -/

theorem Serialize_loop_append (data : Nat) (mem : List Nat) (D1 D2 : List BitField_T) :
    ∀ s : Stream_T, BitParser_Serialize_loop data mem (D1 ++ D2) STATUS_SUCCESS s =
      (match BitParser_Serialize_loop data mem D1 STATUS_SUCCESS s with
       | none => none
       | some (result, s1) =>
         if result = STATUS_SUCCESS then BitParser_Serialize_loop data mem D2 STATUS_SUCCESS s1
         else some (result, s1)) := by
  induction D1 with
  | nil =>
    intro s
    simp [BitParser_Serialize_loop]
  | cons f rest ih =>
    intro s
    rw [List.cons_append, BitParser_Serialize_loop, BitParser_Serialize_loop]
    cases h : BitParser_Serialize_switch data mem STATUS_SUCCESS s f with
    | none => rfl
    | some r =>
      obtain ⟨result, s1⟩ := r
      by_cases hr : result = STATUS_SUCCESS
      · subst hr
        simp only [ne_eq, not_true_eq_false, if_false]
        exact ih s1
      · simp only [ne_eq, hr, not_false_eq_true, if_true, if_false]

theorem Deserialize_loop_append (status_and : Status_T → Status_T → Status_T) (value : Int)
    (data : Nat) (D1 D2 : List BitField_T) :
    ∀ (mem : List Nat) (s : Stream_T),
    BitParser_Deserialize_loop status_and value data (D1 ++ D2) STATUS_SUCCESS mem s =
      (match BitParser_Deserialize_loop status_and value data D1 STATUS_SUCCESS mem s with
       | none => none
       | some (result, mem1, s1) =>
         if result = STATUS_SUCCESS then
           BitParser_Deserialize_loop status_and value data D2 STATUS_SUCCESS mem1 s1
         else some (result, mem1, s1)) := by
  induction D1 with
  | nil =>
    intro mem s
    simp [BitParser_Deserialize_loop]
  | cons f rest ih =>
    intro mem s
    rw [List.cons_append, BitParser_Deserialize_loop, BitParser_Deserialize_loop]
    cases h : BitParser_Deserialize_switch status_and value data mem STATUS_SUCCESS s f with
    | none => rfl
    | some r =>
      obtain ⟨result, mem1, s1⟩ := r
      by_cases hr : result = STATUS_SUCCESS
      · subst hr
        simp only [ne_eq, not_true_eq_false, if_false]
        exact ih mem1 s1
      · simp only [ne_eq, hr, not_false_eq_true, if_true, if_false]

/-- C26: `BitParser_Serialize` and `BitParser_Deserialize` on the descriptor list `D1 ++ D2`
give what the codec gives on `D1` followed, only if that returned `STATUS_SUCCESS`, by the codec
on `D2` from the cursor (and record memory) that `D1` left; if `D1` does not succeed its status,
cursor, buffer and record are the result; and the codec restricted to the first `D1.length`
descriptors of `D1 ++ D2` is the codec on `D1`. -/
theorem C26_list_order_short_circuit (status_and : Status_T → Status_T → Status_T)
    (value : Int) (D1 D2 : List BitField_T) (data : Nat) (mem : List Nat) (s : Stream_T) :
    BitParser_Serialize (D1 ++ D2) (D1 ++ D2).length data mem s =
      (match BitParser_Serialize D1 D1.length data mem s with
       | none => none
       | some (result, s1) =>
         if result = STATUS_SUCCESS then BitParser_Serialize D2 D2.length data mem s1
         else some (result, s1)) ∧
    BitParser_Deserialize status_and value (D1 ++ D2) (D1 ++ D2).length data mem s =
      (match BitParser_Deserialize status_and value D1 D1.length data mem s with
       | none => none
       | some (result, mem1, s1) =>
         if result = STATUS_SUCCESS then
           BitParser_Deserialize status_and value D2 D2.length data mem1 s1
         else some (result, mem1, s1)) ∧
    BitParser_Serialize (D1 ++ D2) D1.length data mem s =
      BitParser_Serialize D1 D1.length data mem s ∧
    BitParser_Deserialize status_and value (D1 ++ D2) D1.length data mem s =
      BitParser_Deserialize status_and value D1 D1.length data mem s := by
  unfold BitParser_Serialize BitParser_Deserialize
  simp only [List.take_length, List.take_left']
  exact ⟨Serialize_loop_append data mem D1 D2 s,
    Deserialize_loop_append status_and value data D1 D2 mem s, trivial, trivial⟩

/-! ## PAD -/

/-- What a `PAD(n)` descriptor does when the sum of the position and `n` is below `2 ^ 64`: it
fails with the cursor as it was if fewer than `n` bits remain, and otherwise moves the position
by `n`; the buffer and the record memory are as before in both cases. -/
theorem PAD_in_range (status_and : Status_T → Status_T → Status_T) (value : Int)
    (data : Nat) (mem : List Nat) (result : Status_T) (s : Stream_T) (n : Nat)
    (hp : s.bit_index ≤ s.bit_len) (hn : s.bit_index + n < 2 ^ 64) :
    (Stream_GetLeftBits s < n →
      BitParser_Serialize_switch data mem result s (.PAD n) =
        some (ERROR_STREAM_TOO_SHORT, s) ∧
      BitParser_Deserialize_switch status_and value data mem result s (.PAD n) =
        some (ERROR_STREAM_TOO_SHORT, mem, s)) ∧
    (n ≤ Stream_GetLeftBits s →
      BitParser_Serialize_switch data mem result s (.PAD n) =
        some (STATUS_SUCCESS, { s with bit_index := s.bit_index + n }) ∧
      BitParser_Deserialize_switch status_and value data mem result s (.PAD n) =
        some (STATUS_SUCCESS, mem, { s with bit_index := s.bit_index + n })) := by
  have e : (Stream_TellBit s + n) % 2 ^ 64 = s.bit_index + n := by
    unfold Stream_TellBit
    exact Nat.mod_eq_of_lt hn
  unfold Stream_GetLeftBits
  constructor
  · intro h
    have h1 : s.bit_index + n > Stream_GetSizeBits s := by
      unfold Stream_GetSizeBits
      omega
    simp only [BitParser_Serialize_switch, BitParser_Deserialize_switch, e, Stream_SeekBit,
      if_pos h1]
    constructor <;> trivial
  · intro h
    have h1 : ¬ (s.bit_index + n > Stream_GetSizeBits s) := by
      unfold Stream_GetSizeBits
      omega
    simp only [BitParser_Serialize_switch, BitParser_Deserialize_switch, e, Stream_SeekBit,
      if_neg h1]
    constructor <;> trivial

/-- C29 (failing input): at position 8 of a cursor over a 1-byte buffer no bit remains, and the
descriptor `PAD(2 ^ 64 - 8)` returns `STATUS_SUCCESS` and moves the cursor back to position 0,
in `BitParser_Serialize` and in `BitParser_Deserialize`: the sum of the position and the bit
count wraps to 0 in `size_t`.  From a fresh cursor the descriptors `U8(8)`, `PAD(2 ^ 64 - 8)`
succeed with the final position 0. -/
theorem C29_PAD_sum_wraps :
    Stream_GetLeftBits ⟨[0xAB], 8, 8, BIG⟩ = 0 ∧
    BitParser_Serialize [.PAD (2 ^ 64 - 8)] 1 0 [0xAB] ⟨[0xAB], 8, 8, BIG⟩ =
      some (STATUS_SUCCESS, ⟨[0xAB], 8, 0, BIG⟩) ∧
    BitParser_Deserialize (fun a _ => a) 0 [.PAD (2 ^ 64 - 8)] 1 0 [0xAB] ⟨[0xAB], 8, 8, BIG⟩ =
      some (STATUS_SUCCESS, [0xAB], ⟨[0xAB], 8, 0, BIG⟩) ∧
    BitParser_Serialize [.U8 0 8, .PAD (2 ^ 64 - 8)] 2 0 [0xAB] (Stream_Init [0] 1 BIG) =
      some (STATUS_SUCCESS, ⟨[0xAB], 8, 0, BIG⟩) := by
  refine ⟨by decide, by decide, by decide, by decide⟩

/-! ## Arrays through the bit path -/

/-- A byte is determined by its eight bits in the numbering of a mode. -/
theorem byte_eq_of_bitOf (m : Stream_Mode_T) (x y : Nat) (hx : x < 256) (hy : y < 256)
    (h : ∀ j, j < 8 → bitOf m x j = bitOf m y j) : x = y := by
  apply Nat.eq_of_testBit_eq
  intro i
  by_cases hi : i < 8
  · cases m
    · have := h (7 - i) (by omega)
      simp only [bitOf] at this
      have e : 7 - (7 - i) = i := by omega
      simpa [e] using this
    · have := h i hi
      simpa [bitOf] using this
  · rw [testBit_byte_high x i hx (by omega), testBit_byte_high y i hy (by omega)]

/-- One byte written with `U8_SerializeBit` in 8 bits: the eight stream bits from the position
on are the bits of the byte in the numbering of the mode. -/
theorem U8_SerializeBit_byte (v : Nat) (s : Stream_T) (hr : s.bit_index + 8 ≤ s.bit_len)
    (hl : s.bit_len ≤ 8 * s.p_buffer.length) :
    ∃ s1, U8_SerializeBit v 8 s = some (STATUS_SUCCESS, s1) ∧
      s1.bit_index = s.bit_index + 8 ∧ s1.bit_len = s.bit_len ∧ s1.mode = s.mode ∧
      s1.p_buffer.length = s.p_buffer.length ∧
      ∀ k, streamBit s.mode s1.p_buffer k =
        if s.bit_index ≤ k ∧ k < s.bit_index + 8 then bitOf s.mode v (k - s.bit_index)
        else streamBit s.mode s.p_buffer k := by
  obtain ⟨s1, e1, e2, e3, e4, e5, e6, e7⟩ := SerializeBit_spec v 1 8 s (le_refl 1) hr hl
  refine ⟨s1, e1, e2, e3, e4, e5, ?_⟩
  intro k
  cases hm : s.mode
  · rw [e6 hm k]
    by_cases a : s.bit_index ≤ k ∧ k < s.bit_index + 8
    · have a2 : s.bit_index + (8 - min 8 (8 * 1)) ≤ k ∧ k < s.bit_index + 8 := by omega
      have e : s.bit_index + 8 - 1 - k = 7 - (k - s.bit_index) := by omega
      rw [if_pos a, if_pos a2, e]
      simp [bitOf]
    · have a2 : ¬ (s.bit_index + (8 - min 8 (8 * 1)) ≤ k ∧ k < s.bit_index + 8) := by omega
      rw [if_neg a, if_neg a2]
  · rw [e7 hm k]
    by_cases a : s.bit_index ≤ k ∧ k < s.bit_index + 8
    · have a2 : s.bit_index ≤ k ∧ k < s.bit_index + min 8 (8 * 1) := by omega
      rw [if_pos a, if_pos a2]
      simp [bitOf]
    · have a2 : ¬ (s.bit_index ≤ k ∧ k < s.bit_index + min 8 (8 * 1)) := by omega
      rw [if_neg a, if_neg a2]

/-- One byte read with `U8_DeserializeBit` in 8 bits: its bits in the numbering of the mode are
the eight stream bits from the position on. -/
theorem U8_DeserializeBit_byte (old : Nat) (s : Stream_T) (hr : s.bit_index + 8 ≤ s.bit_len) :
    ∃ x s1, U8_DeserializeBit old 8 s = some (STATUS_SUCCESS, x, s1) ∧
      s1.bit_index = s.bit_index + 8 ∧ s1.bit_len = s.bit_len ∧ s1.mode = s.mode ∧
      s1.p_buffer = s.p_buffer ∧ x < 256 ∧
      ∀ j, j < 8 → bitOf s.mode x j = streamBit s.mode s.p_buffer (s.bit_index + j) := by
  obtain ⟨x, s1, e1, e2, e3, e4, e5, e6, e7⟩ := DeserializeBit_spec 0 1 8 s (le_refl 1)
    (by decide) hr
  refine ⟨x % 2 ^ 8, s1, ?_, e2, e3, e4, e5, Nat.mod_lt _ (by decide), ?_⟩
  · unfold U8_DeserializeBit
    rw [e1]
    simp
  · intro j hj
    cases hm : s.mode
    · simp only [bitOf]
      rw [Nat.testBit_mod_two_pow, e6 hm]
      have a1 : 7 - j < 8 := by omega
      have a2 : 7 - j < min 8 (8 * 1) := by omega
      have e : s.bit_index + 7 - (7 - j) = s.bit_index + j := by omega
      simp [a1, a2, e]
    · simp only [bitOf]
      rw [Nat.testBit_mod_two_pow, e7 hm]
      have a2 : j < min 8 (8 * 1) := by omega
      simp [hj, a2]

/-- The loop of `Array_SerializeBit` over the indices `a .. a + m - 1` copies the bits of these
bytes to the stream from the position on and leaves the other stream bits as they were. -/
theorem Array_SerializeBit_loop_spec (p_data : List Nat) : ∀ (m a : Nat) (s : Stream_T),
    s.bit_index + 8 * m ≤ s.bit_len → s.bit_len ≤ 8 * s.p_buffer.length →
    ∃ s1, Array_SerializeBit_loop p_data (List.range' a m) s = some (STATUS_SUCCESS, s1) ∧
      s1.bit_index = s.bit_index + 8 * m ∧ s1.bit_len = s.bit_len ∧ s1.mode = s.mode ∧
      s1.p_buffer.length = s.p_buffer.length ∧
      ∀ k, streamBit s.mode s1.p_buffer k =
        if s.bit_index ≤ k ∧ k < s.bit_index + 8 * m
        then streamBit s.mode p_data (8 * a + (k - s.bit_index))
        else streamBit s.mode s.p_buffer k := by
  intro m
  induction m with
  | zero =>
    intro a s _ _
    refine ⟨s, rfl, rfl, rfl, rfl, rfl, ?_⟩
    intro k
    rw [if_neg (by omega)]
  | succ m ih =>
    intro a s hr hl
    obtain ⟨s1, e1, e2, e3, e4, e5, e6⟩ := U8_SerializeBit_byte (byteAt p_data a) s
      (by omega) hl
    obtain ⟨s2, f1, f2, f3, f4, f5, f6⟩ := ih (a + 1) s1 (by omega) (by rw [e3, e5]; exact hl)
    refine ⟨s2, ?_, by omega, by omega, by rw [f4, e4], by rw [f5, e5], ?_⟩
    · rw [List.range'_succ, Array_SerializeBit_loop]
      simp only [BITS_IN_BYTE, e1, ne_eq, not_true_eq_false, if_false]
      exact f1
    · intro k
      have h1 := f6 k
      rw [e4, e2] at h1
      rw [h1, e6 k]
      by_cases a1 : s.bit_index + 8 ≤ k ∧ k < s.bit_index + 8 + 8 * m
      · have a2 : s.bit_index ≤ k ∧ k < s.bit_index + 8 * (m + 1) := by omega
        rw [if_pos a1, if_pos a2]
        congr 1
        omega
      · rw [if_neg a1]
        by_cases a3 : s.bit_index ≤ k ∧ k < s.bit_index + 8
        · have a2 : s.bit_index ≤ k ∧ k < s.bit_index + 8 * (m + 1) := by omega
          rw [if_pos a3, if_pos a2]
          unfold streamBit
          congr 1
          · congr 1
            omega
          · omega
        · have a2 : ¬ (s.bit_index ≤ k ∧ k < s.bit_index + 8 * (m + 1)) := by omega
          rw [if_neg a3, if_neg a2]

/-- `Array_SerializeBit` with room for the array: success, the cursor moved by `8 * n`, the bits
of the `n` bytes copied to the stream from the position on, the other stream bits as before. -/
theorem Array_SerializeBit_spec (p_data : List Nat) (n : Nat) (s : Stream_T)
    (hr : s.bit_index + 8 * n ≤ s.bit_len) (hl : s.bit_len ≤ 8 * s.p_buffer.length)
    (h64 : s.bit_len < 2 ^ 64) :
    ∃ s1, Array_SerializeBit p_data n s = some (STATUS_SUCCESS, s1) ∧
      s1.bit_index = s.bit_index + 8 * n ∧ s1.bit_len = s.bit_len ∧ s1.mode = s.mode ∧
      s1.p_buffer.length = s.p_buffer.length ∧
      ∀ k, streamBit s.mode s1.p_buffer k =
        if s.bit_index ≤ k ∧ k < s.bit_index + 8 * n
        then streamBit s.mode p_data (k - s.bit_index)
        else streamBit s.mode s.p_buffer k := by
  obtain ⟨s1, e1, e2, e3, e4, e5, e6⟩ := Array_SerializeBit_loop_spec p_data n 0 s hr hl
  refine ⟨s1, ?_, e2, e3, e4, e5, ?_⟩
  · unfold Array_SerializeBit
    have h : ¬ (Stream_GetLeftBits s < (n * BITS_IN_BYTE) % 2 ^ 64) := by
      unfold Stream_GetLeftBits BITS_IN_BYTE
      omega
    rw [if_neg h, List.range_eq_range']
    exact e1
  · intro k
    rw [e6 k]
    simp

/-- The two outcomes of `Array_SerializeBit` for an array of fewer than `2 ^ 61` bytes. -/
theorem Array_SerializeBit_cases (p_data : List Nat) (n : Nat) (s : Stream_T)
    (hp : s.bit_index ≤ s.bit_len) (hl : s.bit_len ≤ 8 * s.p_buffer.length)
    (h64 : s.bit_len < 2 ^ 64) (hn : 8 * n < 2 ^ 64) :
    (Stream_GetLeftBits s < 8 * n ∧
      Array_SerializeBit p_data n s = some (ERROR_STREAM_TOO_SHORT, s)) ∨
    (8 * n ≤ Stream_GetLeftBits s ∧
      ∃ s1, Array_SerializeBit p_data n s = some (STATUS_SUCCESS, s1) ∧
        s1.bit_index = s.bit_index + 8 * n ∧ s1.bit_len = s.bit_len ∧ s1.mode = s.mode ∧
        s1.p_buffer.length = s.p_buffer.length) := by
  by_cases h : Stream_GetLeftBits s < 8 * n
  · left
    refine ⟨h, ?_⟩
    unfold Array_SerializeBit
    have h2 : Stream_GetLeftBits s < (n * BITS_IN_BYTE) % 2 ^ 64 := by
      unfold BITS_IN_BYTE
      omega
    rw [if_pos h2]
  · right
    refine ⟨by omega, ?_⟩
    unfold Stream_GetLeftBits at h
    obtain ⟨s1, e1, e2, e3, e4, e5, _⟩ := Array_SerializeBit_spec p_data n s (by omega) hl h64
    exact ⟨s1, e1, e2, e3, e4, e5⟩

/-- The loop of `Array_DeserializeBit` over the indices `a .. a + m - 1`: these bytes of the
array receive the stream bits from the position on, the other bytes stay. -/
theorem Array_DeserializeBit_loop_spec (status_and : Status_T → Status_T → Status_T)
    (hand : status_and STATUS_SUCCESS STATUS_SUCCESS = STATUS_SUCCESS) :
    ∀ (m a : Nat) (d : List Nat) (s : Stream_T),
    s.bit_index + 8 * m ≤ s.bit_len → a + m ≤ d.length →
    ∃ d1 s1, Array_DeserializeBit_loop status_and (List.range' a m) STATUS_SUCCESS d s =
        some (STATUS_SUCCESS, d1, s1) ∧
      s1.bit_index = s.bit_index + 8 * m ∧ s1.bit_len = s.bit_len ∧ s1.mode = s.mode ∧
      s1.p_buffer = s.p_buffer ∧ d1.length = d.length ∧
      ∀ i, (a ≤ i ∧ i < a + m → byteAt d1 i < 256 ∧ ∀ j, j < 8 →
          bitOf s.mode (byteAt d1 i) j =
            streamBit s.mode s.p_buffer (s.bit_index + 8 * (i - a) + j)) ∧
        (¬ (a ≤ i ∧ i < a + m) → byteAt d1 i = byteAt d i) := by
  intro m
  induction m with
  | zero =>
    intro a d s _ _
    refine ⟨d, s, rfl, rfl, rfl, rfl, rfl, rfl, ?_⟩
    intro i
    exact ⟨fun h => by omega, fun _ => rfl⟩
  | succ m ih =>
    intro a d s hr hd
    obtain ⟨x, s1, e1, e2, e3, e4, e5, e6, e7⟩ := U8_DeserializeBit_byte (byteAt d a) s
      (by omega)
    obtain ⟨d2, s2, f1, f2, f3, f4, f5, f6, f7⟩ := ih (a + 1) (d.set a x) s1 (by omega)
      (by rw [List.length_set]; omega)
    refine ⟨d2, s2, ?_, by omega, by omega, by rw [f4, e4], by rw [f5, e5],
      by rw [f6, List.length_set], ?_⟩
    · rw [List.range'_succ, Array_DeserializeBit_loop]
      simp only [BITS_IN_BYTE, e1, hand]
      exact f1
    · intro i
      have g := f7 i
      rw [e4, e5, e2] at g
      constructor
      · intro hi
        by_cases hia : i = a
        · subst hia
          rw [g.2 (by omega), byteAt_set _ _ _ _ (by omega), if_pos rfl]
          refine ⟨e6, ?_⟩
          intro j hj
          rw [e7 j hj]
          congr 1
          omega
        · obtain ⟨g1, g2⟩ := g.1 (by omega)
          refine ⟨g1, ?_⟩
          intro j hj
          rw [g2 j hj]
          congr 1
          omega
      · intro hi
        rw [g.2 (by omega), byteAt_set _ _ _ _ (by omega), if_neg (by omega)]

/-- `Array_DeserializeBit` with room for the array in the stream. -/
theorem Array_DeserializeBit_spec (status_and : Status_T → Status_T → Status_T)
    (hand : status_and STATUS_SUCCESS STATUS_SUCCESS = STATUS_SUCCESS)
    (d : List Nat) (n : Nat) (s : Stream_T)
    (hr : s.bit_index + 8 * n ≤ s.bit_len) (h64 : s.bit_len < 2 ^ 64) (hd : n ≤ d.length) :
    ∃ d1 s1, Array_DeserializeBit status_and d n s = some (STATUS_SUCCESS, d1, s1) ∧
      s1.bit_index = s.bit_index + 8 * n ∧ s1.bit_len = s.bit_len ∧ s1.mode = s.mode ∧
      s1.p_buffer = s.p_buffer ∧ d1.length = d.length ∧
      ∀ i, (i < n → byteAt d1 i < 256 ∧ ∀ j, j < 8 →
          bitOf s.mode (byteAt d1 i) j =
            streamBit s.mode s.p_buffer (s.bit_index + 8 * i + j)) ∧
        (¬ i < n → byteAt d1 i = byteAt d i) := by
  obtain ⟨d1, s1, e1, e2, e3, e4, e5, e6, e7⟩ :=
    Array_DeserializeBit_loop_spec status_and hand n 0 d s hr (by omega)
  refine ⟨d1, s1, ?_, e2, e3, e4, e5, e6, ?_⟩
  · unfold Array_DeserializeBit
    have h : ¬ (Stream_GetLeftBits s < (n * BITS_IN_BYTE) % 2 ^ 64) := by
      unfold Stream_GetLeftBits BITS_IN_BYTE
      omega
    rw [if_neg h, List.range_eq_range']
    exact e1
  · intro i
    have g := e7 i
    simp only [zero_le, true_and, zero_add, Nat.sub_zero] at g
    exact g

theorem byteAt_lt_of_mem (l : List Nat) (h : ∀ x ∈ l, x < 256) (i : Nat) : byteAt l i < 256 := by
  unfold byteAt
  by_cases hi : i < l.length
  · rw [List.getD_eq_getElem _ _ hi]
    exact h _ (List.getElem_mem _)
  · rw [List.getD_eq_default _ _ (by omega)]
    decide

theorem list_eq_of_byteAt (l1 l2 : List Nat) (hlen : l1.length = l2.length)
    (h : ∀ i, i < l1.length → byteAt l1 i = byteAt l2 i) : l1 = l2 := by
  apply List.ext_getElem hlen
  intro i h1 h2
  have := h i h1
  unfold byteAt at this
  rwa [List.getD_eq_getElem _ _ h1, List.getD_eq_getElem _ _ h2] at this

/-- C22: for every sequence `b` of `n` bytes, both modes and every position `p`, byte-aligned
or not, with at least `8 * n` bits remaining, `Array_SerializeBit(b, n)` succeeds and advances
the cursor by exactly `8 * n` bits; byte `i` occupies the eight stream bits from `p + 8 * i` on,
in the bit order of the mode, whatever byte boundaries they cross, and the other stream bits
are as before; the seek back to `p` succeeds and `Array_DeserializeBit(n)` then succeeds and
returns exactly `b`, with the cursor again at `p + 8 * n`. -/
theorem C22_array_bit_roundtrip (status_and : Status_T → Status_T → Status_T)
    (b out : List Nat) (s : Stream_T)
    (hand : status_and STATUS_SUCCESS STATUS_SUCCESS = STATUS_SUCCESS)
    (hb : ∀ x ∈ b, x < 256) (ho : out.length = b.length)
    (hr : Stream_TellBit s + 8 * b.length ≤ Stream_GetSizeBits s)
    (hl : Stream_GetSizeBits s ≤ 8 * s.p_buffer.length)
    (h64 : Stream_GetSizeBits s < 2 ^ 64) :
    ∃ s1 s2 s3, Array_SerializeBit b b.length s = some (STATUS_SUCCESS, s1) ∧
      Stream_TellBit s1 = Stream_TellBit s + 8 * b.length ∧
      (∀ i, i < b.length → ∀ j, j < 8 →
        streamBit s.mode s1.p_buffer (Stream_TellBit s + 8 * i + j) =
          bitOf s.mode (byteAt b i) j) ∧
      (∀ k, k < Stream_TellBit s ∨ Stream_TellBit s + 8 * b.length ≤ k →
        streamBit s.mode s1.p_buffer k = streamBit s.mode s.p_buffer k) ∧
      Stream_SeekBit s1 (Stream_TellBit s) = (STATUS_SUCCESS, s2) ∧
      Array_DeserializeBit status_and out b.length s2 = some (STATUS_SUCCESS, b, s3) ∧
      Stream_TellBit s3 = Stream_TellBit s + 8 * b.length := by
  unfold Stream_TellBit Stream_GetSizeBits at *
  obtain ⟨s1, e1, e2, e3, e4, e5, e6⟩ := Array_SerializeBit_spec b b.length s hr hl h64
  have hlay : ∀ i, i < b.length → ∀ j, j < 8 →
      streamBit s.mode s1.p_buffer (s.bit_index + 8 * i + j) = bitOf s.mode (byteAt b i) j := by
    intro i hi j hj
    rw [e6, if_pos (by omega)]
    unfold streamBit
    congr 1
    · congr 1
      omega
    · omega
  obtain ⟨d1, s3, f1, f2, f3, f4, f5, f6, f7⟩ := Array_DeserializeBit_spec status_and hand out
    b.length { s1 with bit_index := s.bit_index } (by simp only []; omega)
    (by simp only []; omega) (by omega)
  have hd : d1 = b := by
    apply list_eq_of_byteAt _ _ (by omega)
    intro i hi
    obtain ⟨g1, g2⟩ := (f7 i).1 (by omega)
    apply byte_eq_of_bitOf s.mode _ _ g1 (byteAt_lt_of_mem b hb i)
    intro j hj
    have := g2 j hj
    simp only [] at this
    rw [e4] at this
    rw [this, hlay i (by omega) j hj]
  subst hd
  refine ⟨s1, { s1 with bit_index := s.bit_index }, s3, e1, e2, hlay, ?_, ?_, f1, ?_⟩
  · intro k hk
    rw [e6, if_neg (by omega)]
  · have : ¬ (s.bit_index > s1.bit_len) := by omega
    simp [Stream_SeekBit, Stream_GetSizeBits, this]
  · simpa using f2

theorem C22_array_bit_roundtrip_witness :
    ((fun (a b : Status_T) => if a = b then a else STATUS_SUCCESS) STATUS_SUCCESS
        STATUS_SUCCESS = STATUS_SUCCESS ∧
      (∀ x ∈ [0xAB, 0xCD, 0xEF], x < 256) ∧ [0, 0, 0].length = [0xAB, 0xCD, 0xEF].length ∧
      Stream_TellBit ⟨[0x20, 0, 0, 0], 32, 4, BIG⟩ + 8 * [0xAB, 0xCD, 0xEF].length ≤
        Stream_GetSizeBits ⟨[0x20, 0, 0, 0], 32, 4, BIG⟩ ∧
      Stream_GetSizeBits ⟨[0x20, 0, 0, 0], 32, 4, BIG⟩ ≤ 8 * [0x20, 0, 0, 0].length ∧
      Stream_GetSizeBits ⟨[0x20, 0, 0, 0], 32, 4, BIG⟩ < 2 ^ 64) ∧
    (∃ s1 s2 s3, Array_SerializeBit [0xAB, 0xCD, 0xEF] [0xAB, 0xCD, 0xEF].length
        ⟨[0x20, 0, 0, 0], 32, 4, BIG⟩ = some (STATUS_SUCCESS, s1) ∧
      Stream_TellBit s1 =
        Stream_TellBit ⟨[0x20, 0, 0, 0], 32, 4, BIG⟩ + 8 * [0xAB, 0xCD, 0xEF].length ∧
      (∀ i, i < [0xAB, 0xCD, 0xEF].length → ∀ j, j < 8 →
        streamBit BIG s1.p_buffer (Stream_TellBit ⟨[0x20, 0, 0, 0], 32, 4, BIG⟩ + 8 * i + j) =
          bitOf BIG (byteAt [0xAB, 0xCD, 0xEF] i) j) ∧
      (∀ k, k < Stream_TellBit ⟨[0x20, 0, 0, 0], 32, 4, BIG⟩ ∨
          Stream_TellBit ⟨[0x20, 0, 0, 0], 32, 4, BIG⟩ + 8 * [0xAB, 0xCD, 0xEF].length ≤ k →
        streamBit BIG s1.p_buffer k = streamBit BIG [0x20, 0, 0, 0] k) ∧
      Stream_SeekBit s1 (Stream_TellBit ⟨[0x20, 0, 0, 0], 32, 4, BIG⟩) = (STATUS_SUCCESS, s2) ∧
      Array_DeserializeBit (fun (a b : Status_T) => if a = b then a else STATUS_SUCCESS)
        [0, 0, 0] [0xAB, 0xCD, 0xEF].length s2 = some (STATUS_SUCCESS, [0xAB, 0xCD, 0xEF], s3) ∧
      Stream_TellBit s3 =
        Stream_TellBit ⟨[0x20, 0, 0, 0], 32, 4, BIG⟩ + 8 * [0xAB, 0xCD, 0xEF].length) ∧
    Array_SerializeBit [0xAB, 0xCD, 0xEF] 3 ⟨[0x20, 0, 0, 0], 32, 4, BIG⟩ =
      some (STATUS_SUCCESS, ⟨[0x2A, 0xBC, 0xDE, 0xF0], 32, 28, BIG⟩) :=
  ⟨⟨by decide, by decide, by decide, by decide, by decide, by decide⟩,
    C22_array_bit_roundtrip (fun (a b : Status_T) => if a = b then a else STATUS_SUCCESS)
      [0xAB, 0xCD, 0xEF] [0, 0, 0] ⟨[0x20, 0, 0, 0], 32, 4, BIG⟩
      (by decide) (by decide) (by decide) (by decide) (by decide) (by decide),
    by decide⟩

/-! ## Failure of the record serializer -/

/-- The two outcomes of `SerializeBit`: too short with the cursor as it was, or success with the
position advanced by the bit width. -/
theorem SerializeBit_status (v bc w : Nat) (s : Stream_T) (hbc : 1 ≤ bc)
    (hp : s.bit_index ≤ s.bit_len) (hl : s.bit_len ≤ 8 * s.p_buffer.length) :
    (Stream_GetLeftBits s < w ∧ SerializeBit v bc w s = some (ERROR_STREAM_TOO_SHORT, s)) ∨
    (w ≤ Stream_GetLeftBits s ∧ ∃ s1, SerializeBit v bc w s = some (STATUS_SUCCESS, s1) ∧
      s1.bit_index = s.bit_index + w ∧ s1.bit_len = s.bit_len ∧ s1.mode = s.mode ∧
      s1.p_buffer.length = s.p_buffer.length) := by
  by_cases h : Stream_GetLeftBits s < w
  · exact Or.inl ⟨h, SerializeBit_too_short v bc w s h⟩
  · right
    refine ⟨by omega, ?_⟩
    unfold Stream_GetLeftBits at h
    obtain ⟨s1, e1, e2, e3, e4, e5, _⟩ := SerializeBit_spec v bc w s hbc (by omega) hl
    exact ⟨s1, e1, e2, e3, e4, e5⟩

/-- One descriptor of `BitParser_Serialize`, on a cursor within its capacity: either the codec
returns `ERROR_STREAM_TOO_SHORT` and the cursor and the buffer are as before, or it succeeds and
the cursor is again within the capacity. -/
theorem Serialize_switch_cases (data : Nat) (mem : List Nat) (s : Stream_T) (f : BitField_T)
    (hp : s.bit_index ≤ s.bit_len) (h8 : s.bit_len % 8 = 0)
    (hl : s.bit_len ≤ 8 * s.p_buffer.length) (h64 : s.bit_len < 2 ^ 64)
    (ha : array_bits_fit data mem f = true) :
    BitParser_Serialize_switch data mem STATUS_SUCCESS s f = some (ERROR_STREAM_TOO_SHORT, s) ∨
    ∃ s1, BitParser_Serialize_switch data mem STATUS_SUCCESS s f = some (STATUS_SUCCESS, s1) ∧
      s1.bit_index ≤ s1.bit_len ∧ s1.bit_len = s.bit_len ∧ s1.mode = s.mode ∧
      s1.p_buffer.length = s.p_buffer.length := by
  have scalar : ∀ v bc w, 1 ≤ bc →
      (SerializeBit v bc w s = some (ERROR_STREAM_TOO_SHORT, s) ∨
      ∃ s1, SerializeBit v bc w s = some (STATUS_SUCCESS, s1) ∧
        s1.bit_index ≤ s1.bit_len ∧ s1.bit_len = s.bit_len ∧ s1.mode = s.mode ∧
        s1.p_buffer.length = s.p_buffer.length) := by
    intro v bc w hbc
    rcases SerializeBit_status v bc w s hbc hp hl with ⟨_, h⟩ | ⟨h0, s1, h, e2, e3, e4, e5⟩
    · exact Or.inl h
    · unfold Stream_GetLeftBits at h0
      exact Or.inr ⟨s1, h, by omega, e3, e4, e5⟩
  have array : ∀ p_data n, 8 * n < 2 ^ 64 →
      (Array_SerializeBit p_data n s = some (ERROR_STREAM_TOO_SHORT, s) ∨
      ∃ s1, Array_SerializeBit p_data n s = some (STATUS_SUCCESS, s1) ∧
        s1.bit_index ≤ s1.bit_len ∧ s1.bit_len = s.bit_len ∧ s1.mode = s.mode ∧
        s1.p_buffer.length = s.p_buffer.length) := by
    intro p_data n hn
    rcases Array_SerializeBit_cases p_data n s hp hl h64 hn with
      ⟨_, h⟩ | ⟨h0, s1, h, e2, e3, e4, e5⟩
    · exact Or.inl h
    · unfold Stream_GetLeftBits at h0
      exact Or.inr ⟨s1, h, by omega, e3, e4, e5⟩
  cases f with
  | U8 offset bit => exact scalar _ 1 bit (by decide)
  | I8 offset bit => exact scalar _ 1 bit (by decide)
  | S8 offset bit => exact scalar _ 1 bit (by decide)
  | U16 offset bit => exact scalar _ 2 bit (by decide)
  | I16 offset bit => exact scalar _ 2 bit (by decide)
  | S16 offset bit => exact scalar _ 2 bit (by decide)
  | U32 offset bit => exact scalar _ 4 bit (by decide)
  | I32 offset bit => exact scalar _ 4 bit (by decide)
  | S32 offset bit => exact scalar _ 4 bit (by decide)
  | U64 offset bit => exact scalar _ 8 bit (by decide)
  | I64 offset bit => exact scalar _ 8 bit (by decide)
  | S64 offset bit => exact scalar _ 8 bit (by decide)
  | FLOAT offset => exact scalar _ 4 32 (by decide)
  | DOUBLE offset => exact scalar _ 8 64 (by decide)
  | LEN offset bit => exact scalar _ 8 bit (by decide)
  | ARRAY_FIXED offset len =>
    exact array _ len (by simpa [array_bits_fit] using ha)
  | ARRAY_VARIABLE offset len_offset =>
    exact array _ _ (by simpa [array_bits_fit] using ha)
  | ALIGN =>
    right
    refine ⟨Stream_Align s, rfl, ?_, rfl, rfl, rfl⟩
    unfold Stream_Align Stream_TellBitInByte BIT_IN_BYTE BITS_IN_BYTE
    simp only []
    split_ifs <;> omega
  | PAD bit =>
    simp only [BitParser_Serialize_switch, Stream_SeekBit, Stream_GetSizeBits, Stream_TellBit]
    by_cases h : (s.bit_index + bit) % 2 ^ 64 > s.bit_len
    · left
      rw [if_pos h]
    · right
      rw [if_neg h]
      refine ⟨_, rfl, ?_, rfl, rfl, rfl⟩
      simp only []
      omega

/-- The walk of `BitParser_Serialize` over a descriptor list from a cursor within its capacity
returns; it returns either success, or `ERROR_STREAM_TOO_SHORT` with the cursor and buffer that
the descriptors before the failing one produced. -/
theorem Serialize_loop_outcome (data : Nat) (mem : List Nat) :
    ∀ (D : List BitField_T) (s : Stream_T), s.bit_index ≤ s.bit_len → s.bit_len % 8 = 0 →
    s.bit_len ≤ 8 * s.p_buffer.length → s.bit_len < 2 ^ 64 →
    (∀ f ∈ D, array_bits_fit data mem f = true) →
    ∃ result s1, BitParser_Serialize_loop data mem D STATUS_SUCCESS s = some (result, s1) ∧
      (result = STATUS_SUCCESS ∨
        (result = ERROR_STREAM_TOO_SHORT ∧ ∃ i f, D[i]? = some f ∧
          BitParser_Serialize_loop data mem (D.take i) STATUS_SUCCESS s =
            some (STATUS_SUCCESS, s1) ∧
          BitParser_Serialize_switch data mem STATUS_SUCCESS s1 f =
            some (ERROR_STREAM_TOO_SHORT, s1))) := by
  intro D
  induction D with
  | nil =>
    intro s _ _ _ _ _
    exact ⟨STATUS_SUCCESS, s, rfl, Or.inl rfl⟩
  | cons f rest ih =>
    intro s hp h8 hl h64 ha
    rcases Serialize_switch_cases data mem s f hp h8 hl h64 (ha f (List.mem_cons_self _ _)) with
      h | ⟨s1, h, e1, e2, e3, e4⟩
    · refine ⟨ERROR_STREAM_TOO_SHORT, s, ?_, Or.inr ⟨rfl, 0, f, by simp, rfl, h⟩⟩
      rw [BitParser_Serialize_loop, h]
      rfl
    · obtain ⟨result, s2, g1, g2⟩ := ih s1 e1 (by rw [e2]; exact h8) (by rw [e2, e4]; exact hl)
        (by rw [e2]; exact h64) (fun f hf => ha f (List.mem_cons_of_mem _ hf))
      refine ⟨result, s2, ?_, ?_⟩
      · rw [BitParser_Serialize_loop, h]
        simp only [ne_eq, not_true_eq_false, if_false]
        exact g1
      · rcases g2 with g2 | ⟨g2, i, f2, g3, g4, g5⟩
        · exact Or.inl g2
        · refine Or.inr ⟨g2, i + 1, f2, by simpa using g3, ?_, g5⟩
          rw [List.take_succ_cons, BitParser_Serialize_loop, h]
          simp only [ne_eq, not_true_eq_false, if_false]
          exact g4

/-- C27: `BitParser_Serialize` on a cursor within its capacity returns, and if it does not
return success then the status is `ERROR_STREAM_TOO_SHORT` and there is an index `i` such that
the descriptors `0 .. i - 1` serialize with success and leave exactly the cursor and buffer that
the failed call leaves, and the codec of descriptor `i` on that cursor returns
`ERROR_STREAM_TOO_SHORT` with the cursor and the buffer as they were: the bytes of the earlier
fields remain and the failing field has written nothing and moved nothing. -/
theorem C27_failure_keeps_earlier_fields (D : List BitField_T) (data : Nat) (mem : List Nat)
    (s : Stream_T) (hp : Stream_TellBit s ≤ Stream_GetSizeBits s)
    (h8 : Stream_GetSizeBits s % 8 = 0) (hl : Stream_GetSizeBits s ≤ 8 * s.p_buffer.length)
    (h64 : Stream_GetSizeBits s < 2 ^ 64) (ha : ∀ f ∈ D, array_bits_fit data mem f = true) :
    ∃ result s1, BitParser_Serialize D D.length data mem s = some (result, s1) ∧
      (result ≠ STATUS_SUCCESS →
        result = ERROR_STREAM_TOO_SHORT ∧ ∃ i f, D[i]? = some f ∧
          BitParser_Serialize D i data mem s = some (STATUS_SUCCESS, s1) ∧
          BitParser_Serialize_switch data mem STATUS_SUCCESS s1 f =
            some (ERROR_STREAM_TOO_SHORT, s1)) := by
  obtain ⟨result, s1, e1, e2⟩ := Serialize_loop_outcome data mem D s hp h8 hl h64 ha
  refine ⟨result, s1, ?_, ?_⟩
  · unfold BitParser_Serialize
    rw [List.take_length]
    exact e1
  · intro hne
    rcases e2 with e2 | ⟨e2, i, f, e3, e4, e5⟩
    · exact absurd e2 hne
    · exact ⟨e2, i, f, e3, e4, e5⟩

theorem C27_failure_keeps_earlier_fields_witness :
    (Stream_TellBit (Stream_Init [0, 0] 2 BIG) ≤ Stream_GetSizeBits (Stream_Init [0, 0] 2 BIG) ∧
      Stream_GetSizeBits (Stream_Init [0, 0] 2 BIG) % 8 = 0 ∧
      Stream_GetSizeBits (Stream_Init [0, 0] 2 BIG) ≤ 8 * (Stream_Init [0, 0] 2 BIG).p_buffer.length ∧
      Stream_GetSizeBits (Stream_Init [0, 0] 2 BIG) < 2 ^ 64 ∧
      ∀ f ∈ [BitField_T.U8 0 4, .U16 2 12, .U8 1 4], array_bits_fit 0 [0x0A, 0x0B, 0xBC, 0x0A] f = true) ∧
    (∃ result s1, BitParser_Serialize [.U8 0 4, .U16 2 12, .U8 1 4]
        [BitField_T.U8 0 4, .U16 2 12, .U8 1 4].length 0 [0x0A, 0x0B, 0xBC, 0x0A]
        (Stream_Init [0, 0] 2 BIG) = some (result, s1) ∧
      (result ≠ STATUS_SUCCESS →
        result = ERROR_STREAM_TOO_SHORT ∧ ∃ i f,
          [BitField_T.U8 0 4, .U16 2 12, .U8 1 4][i]? = some f ∧
          BitParser_Serialize [.U8 0 4, .U16 2 12, .U8 1 4] i 0 [0x0A, 0x0B, 0xBC, 0x0A]
            (Stream_Init [0, 0] 2 BIG) = some (STATUS_SUCCESS, s1) ∧
          BitParser_Serialize_switch 0 [0x0A, 0x0B, 0xBC, 0x0A] STATUS_SUCCESS s1 f =
            some (ERROR_STREAM_TOO_SHORT, s1))) ∧
    BitParser_Serialize [.U8 0 4, .U16 2 12, .U8 1 4] 3 0 [0x0A, 0x0B, 0xBC, 0x0A]
      (Stream_Init [0, 0] 2 BIG) = some (ERROR_STREAM_TOO_SHORT, ⟨[0xAA, 0xBC], 16, 16, BIG⟩) ∧
    BitParser_Serialize [.U8 0 4, .U16 2 12, .U8 1 4] 2 0 [0x0A, 0x0B, 0xBC, 0x0A]
      (Stream_Init [0, 0] 2 BIG) = some (STATUS_SUCCESS, ⟨[0xAA, 0xBC], 16, 16, BIG⟩) :=
  ⟨⟨by decide, by decide, by decide, by decide, by decide⟩,
    C27_failure_keeps_earlier_fields [.U8 0 4, .U16 2 12, .U8 1 4] 0 [0x0A, 0x0B, 0xBC, 0x0A]
      (Stream_Init [0, 0] 2 BIG) (by decide) (by decide) (by decide) (by decide) (by decide),
    by decide, by decide⟩

/-! ## Record memory -/

theorem store_length (bc : Nat) : ∀ (mem : List Nat) (a v : Nat),
    (store mem a bc v).length = mem.length := by
  induction bc with
  | zero =>
    intro mem a v
    rfl
  | succ bc ih =>
    intro mem a v
    rw [store, ih, List.length_set]

/-- The bytes of the memory after a store. -/
theorem byteAt_store (bc : Nat) : ∀ (mem : List Nat) (a v j : Nat), a + bc ≤ mem.length →
    byteAt (store mem a bc v) j =
      if a ≤ j ∧ j < a + bc then v / 256 ^ (j - a) % 256 else byteAt mem j := by
  induction bc with
  | zero =>
    intro mem a v j _
    rw [store, if_neg (by omega)]
  | succ bc ih =>
    intro mem a v j h
    rw [store, ih _ _ _ _ (by rw [List.length_set]; omega), byteAt_set _ _ _ _ (by omega)]
    by_cases h1 : a + 1 ≤ j ∧ j < a + 1 + bc
    · have h2 : a ≤ j ∧ j < a + (bc + 1) := by omega
      have e : j - a = (j - (a + 1)) + 1 := by omega
      rw [if_pos h1, if_pos h2, e, pow_succ, Nat.mul_comm, Nat.div_div_eq_div_mul]
    · rw [if_neg h1]
      by_cases h3 : j = a
      · subst h3
        rw [if_pos rfl, if_pos (by omega)]
        simp
      · rw [if_neg h3, if_neg (by omega)]

/-- A load depends on the bytes of the field only. -/
theorem load_congr (bc : Nat) : ∀ (m1 m2 : List Nat) (a : Nat),
    (∀ j, a ≤ j → j < a + bc → byteAt m1 j = byteAt m2 j) → load m1 a bc = load m2 a bc := by
  induction bc with
  | zero =>
    intro m1 m2 a _
    rfl
  | succ bc ih =>
    intro m1 m2 a h
    rw [load, load, h a (le_refl _) (by omega),
      ih m1 m2 (a + 1) (fun j h1 h2 => h j (by omega) (by omega))]

/-- A load after a store to the same field gives the stored value. -/
theorem load_store (bc : Nat) : ∀ (mem : List Nat) (a v : Nat), a + bc ≤ mem.length →
    load (store mem a bc v) a bc = v % 256 ^ bc := by
  induction bc with
  | zero =>
    intro mem a v _
    simp [load, Nat.mod_one]
  | succ bc ih =>
    intro mem a v h
    rw [load, byteAt_store _ _ _ _ _ h, if_pos (by omega)]
    rw [store, ih _ _ _ (by rw [List.length_set]; omega)]
    rw [Nat.sub_self, pow_zero, Nat.div_one, pow_succ, Nat.mul_comm (256 ^ bc) 256, Nat.mod_mul]

/-- The bytes of a loaded value are the bytes of the field. -/
theorem load_byte (bc : Nat) : ∀ (mem : List Nat) (a i : Nat), (∀ j, byteAt mem j < 256) →
    i < bc → load mem a bc / 256 ^ i % 256 = byteAt mem (a + i) := by
  induction bc with
  | zero =>
    intro mem a i _ hi
    omega
  | succ bc ih =>
    intro mem a i hb hi
    rw [load]
    cases i with
    | zero =>
      have := hb a
      simp only [pow_zero, Nat.div_one, Nat.add_zero]
      omega
    | succ i =>
      have e : a + (i + 1) = a + 1 + i := by omega
      rw [e, ← ih mem (a + 1) i hb (by omega), pow_succ, Nat.mul_comm (256 ^ i) 256,
        ← Nat.div_div_eq_div_mul]
      congr 2
      have := hb a
      omega

theorem load_lt (bc : Nat) : ∀ (mem : List Nat) (a : Nat), (∀ j, byteAt mem j < 256) →
    load mem a bc < 256 ^ bc := by
  induction bc with
  | zero =>
    intro mem a _
    simp [load]
  | succ bc ih =>
    intro mem a hb
    have h1 := hb a
    have h2 := ih mem (a + 1) hb
    rw [load, pow_succ]
    omega

/-! ## Variable arrays -/

theorem byteAt_take_append (mem d : List Nat) (ptr i : Nat) (h : ptr ≤ mem.length) :
    byteAt (mem.take ptr ++ d) (ptr + i) = byteAt d i := by
  unfold byteAt
  have e : (mem.take ptr).length = ptr := by
    rw [List.length_take]
    omega
  simp only [List.getD_eq_getElem?_getD]
  rw [List.getElem?_append_right (by omega), e]
  congr 2
  omega

/-- The `LEN` descriptor of `BitParser_Deserialize`: the decoded length is stored in the length
field of the record. -/
theorem Deserialize_LEN (status_and : Status_T → Status_T → Status_T) (value : Int)
    (data : Nat) (mem2 : List Nat) (t : Stream_T) (len_offset w : Nat)
    (htr : t.bit_index + w ≤ t.bit_len) (hin : data + len_offset + 8 ≤ mem2.length) :
    ∃ mem3 t1,
      BitParser_Deserialize_switch status_and value data mem2 STATUS_SUCCESS t
        (.LEN len_offset w) = some (STATUS_SUCCESS, mem3, t1) ∧
      t1.bit_index = t.bit_index + w ∧ t1.bit_len = t.bit_len ∧ t1.mode = t.mode ∧
      t1.p_buffer = t.p_buffer ∧
      Size_DeserializeBit (load mem2 (data + len_offset) 8) w t =
        some (STATUS_SUCCESS, load mem3 (data + len_offset) 8, t1) := by
  obtain ⟨x, t1, e1, e2, e3, e4, e5, _, _⟩ := DeserializeBit_spec 0 8 w t (by decide)
    (by decide) htr
  generalize hv : x % 2 ^ 64 = v
  have hvlt : v < 256 ^ 8 := by
    rw [← hv]
    exact Nat.mod_lt _ (by decide)
  have hsz : Size_DeserializeBit (load mem2 (data + len_offset) 8) w t =
      some (STATUS_SUCCESS, v, t1) := by
    unfold Size_DeserializeBit
    rw [e1]
    simp only [ne_eq, not_true_eq_false, if_false, hv]
  refine ⟨store mem2 (data + len_offset) 8 v, t1, ?_, e2, e3, e4, e5, ?_⟩
  · show store_result mem2 (data + len_offset) 8
      (Size_DeserializeBit (load mem2 (data + len_offset) 8) w t) = _
    rw [hsz]
    rfl
  · rw [load_store 8 _ _ _ hin, Nat.mod_eq_of_lt hvlt]
    exact hsz

/-- The `ARRAY_VARIABLE` descriptor of `BitParser_Deserialize` with room in the stream and in
the array: it reads as many bytes as the length field of the record says. -/
theorem Deserialize_ARRAY_VARIABLE (status_and : Status_T → Status_T → Status_T) (value : Int)
    (hand : status_and STATUS_SUCCESS STATUS_SUCCESS = STATUS_SUCCESS)
    (data : Nat) (mem3 : List Nat) (t1 : Stream_T) (offset len_offset : Nat)
    (hroom : t1.bit_index + 8 * load mem3 (data + len_offset) 8 ≤ t1.bit_len)
    (ht64 : t1.bit_len < 2 ^ 64)
    (harr : load mem3 (data + offset) 8 + load mem3 (data + len_offset) 8 ≤ mem3.length) :
    ∃ mem4 t2,
      BitParser_Deserialize_switch status_and value data mem3 STATUS_SUCCESS t1
        (.ARRAY_VARIABLE offset len_offset) = some (STATUS_SUCCESS, mem4, t2) ∧
      t2.bit_index = t1.bit_index + 8 * load mem3 (data + len_offset) 8 ∧
      ∀ i, i < load mem3 (data + len_offset) 8 → ∀ j, j < 8 →
        bitOf t1.mode (byteAt mem4 (load mem3 (data + offset) 8 + i)) j =
          streamBit t1.mode t1.p_buffer (t1.bit_index + 8 * i + j) := by
  generalize hptr : load mem3 (data + offset) 8 = ptr at *
  generalize hn : load mem3 (data + len_offset) 8 = n at *
  obtain ⟨d1, t2, f1, f2, f3, f4, f5, f6, f7⟩ := Array_DeserializeBit_spec status_and hand
    (mem3.drop ptr) n t1 hroom ht64 (by rw [List.length_drop]; omega)
  refine ⟨mem3.take ptr ++ d1, t2, ?_, f2, ?_⟩
  · show store_array_result mem3 (load mem3 (data + offset) 8)
      (Array_DeserializeBit status_and (mem3.drop (load mem3 (data + offset) 8))
        (load mem3 (data + len_offset) 8) t1) = _
    rw [hptr, hn, f1]
    rfl
  · intro i hi j hj
    rw [byteAt_take_append _ _ _ _ (by omega)]
    exact ((f7 i).1 hi).2 j hj

theorem Serialize_loop_cons_success (data : Nat) (mem : List Nat) (f : BitField_T)
    (rest : List BitField_T) (s s1 : Stream_T)
    (h : BitParser_Serialize_switch data mem STATUS_SUCCESS s f = some (STATUS_SUCCESS, s1)) :
    BitParser_Serialize_loop data mem (f :: rest) STATUS_SUCCESS s =
      BitParser_Serialize_loop data mem rest STATUS_SUCCESS s1 := by
  rw [BitParser_Serialize_loop, h]
  simp only [ne_eq, not_true_eq_false, if_false]

theorem Deserialize_loop_cons_success (status_and : Status_T → Status_T → Status_T)
    (value : Int) (data : Nat) (mem mem1 : List Nat) (f : BitField_T)
    (rest : List BitField_T) (s s1 : Stream_T)
    (h : BitParser_Deserialize_switch status_and value data mem STATUS_SUCCESS s f =
      some (STATUS_SUCCESS, mem1, s1)) :
    BitParser_Deserialize_loop status_and value data (f :: rest) STATUS_SUCCESS mem s =
      BitParser_Deserialize_loop status_and value data rest STATUS_SUCCESS mem1 s1 := by
  rw [BitParser_Deserialize_loop, h]
  simp only [ne_eq, not_true_eq_false, if_false]

/-- The descriptors `LEN`, `ARRAY_VARIABLE` of `BitParser_Serialize` with room in the stream. -/
theorem Serialize_LEN_ARRAY_VARIABLE (data : Nat) (mem : List Nat) (s : Stream_T)
    (offset len_offset w : Nat)
    (hr : s.bit_index + w + 8 * load mem (data + len_offset) 8 ≤ s.bit_len)
    (hl : s.bit_len ≤ 8 * s.p_buffer.length) (h64 : s.bit_len < 2 ^ 64) :
    ∃ s1 s2,
      BitParser_Serialize [.LEN len_offset w, .ARRAY_VARIABLE offset len_offset] 1 data mem s =
        some (STATUS_SUCCESS, s1) ∧
      s1.bit_index = s.bit_index + w ∧
      BitParser_Serialize [.LEN len_offset w, .ARRAY_VARIABLE offset len_offset] 2 data mem s =
        some (STATUS_SUCCESS, s2) ∧
      s2.bit_index = s.bit_index + w + 8 * load mem (data + len_offset) 8 ∧
      (∀ i, i < load mem (data + len_offset) 8 → ∀ j, j < 8 →
        streamBit s.mode s2.p_buffer (s.bit_index + w + 8 * i + j) =
          bitOf s.mode (byteAt mem (load mem (data + offset) 8 + i)) j) ∧
      (∀ k, k < s.bit_index + w ∨ s.bit_index + w + 8 * load mem (data + len_offset) 8 ≤ k →
        streamBit s.mode s2.p_buffer k = streamBit s.mode s1.p_buffer k) ∧
      (∀ k, k < s.bit_index ∨ s.bit_index + w ≤ k →
        streamBit s.mode s1.p_buffer k = streamBit s.mode s.p_buffer k) := by
  obtain ⟨s1, e1, e2, e3, e4, e5, e6, e7⟩ := SerializeBit_spec (load mem (data + len_offset) 8)
    8 w s (by decide) (by omega) hl
  obtain ⟨s2, f1, f2, f3, f4, f5, f6⟩ := Array_SerializeBit_spec
    (mem.drop (load mem (data + offset) 8)) (load mem (data + len_offset) 8) s1
    (by omega) (by rw [e3, e5]; exact hl) (by rw [e3]; exact h64)
  have hs1 : BitParser_Serialize_switch data mem STATUS_SUCCESS s (.LEN len_offset w) =
      some (STATUS_SUCCESS, s1) := e1
  have hs2 : BitParser_Serialize_switch data mem STATUS_SUCCESS s1
      (.ARRAY_VARIABLE offset len_offset) = some (STATUS_SUCCESS, s2) := f1
  refine ⟨s1, s2, ?_, e2, ?_, by omega, ?_, ?_, ?_⟩
  · show BitParser_Serialize_loop data mem [.LEN len_offset w] STATUS_SUCCESS s = _
    rw [Serialize_loop_cons_success data mem _ _ s s1 hs1]
    rfl
  · show BitParser_Serialize_loop data mem
      [.LEN len_offset w, .ARRAY_VARIABLE offset len_offset] STATUS_SUCCESS s = _
    rw [Serialize_loop_cons_success data mem _ _ s s1 hs1,
      Serialize_loop_cons_success data mem _ _ s1 s2 hs2]
    rfl
  · intro i hi j hj
    have := f6 (s.bit_index + w + 8 * i + j)
    rw [e4, e2] at this
    rw [this, if_pos (by omega), streamBit_drop]
    have a1 : 8 * load mem (data + offset) 8 +
        (s.bit_index + w + 8 * i + j - (s.bit_index + w)) =
        8 * (load mem (data + offset) 8 + i) + j := by omega
    have a2 : (8 * (load mem (data + offset) 8 + i) + j) / 8 =
        load mem (data + offset) 8 + i := by omega
    have a3 : (8 * (load mem (data + offset) 8 + i) + j) % 8 = j := by omega
    rw [a1]
    unfold streamBit
    rw [a2, a3]
  · intro k hk
    have := f6 k
    rw [e4, e2] at this
    rw [this, if_neg (by omega)]
  · intro k hk
    cases hm : s.mode
    · rw [e6 hm, if_neg (by omega)]
    · rw [e7 hm, if_neg (by omega)]

/-- The descriptors `LEN`, `ARRAY_VARIABLE` of `BitParser_Deserialize`. -/
theorem Deserialize_LEN_ARRAY_VARIABLE (status_and : Status_T → Status_T → Status_T)
    (value : Int) (data : Nat) (mem2 : List Nat) (t : Stream_T) (offset len_offset w : Nat)
    (hand : status_and STATUS_SUCCESS STATUS_SUCCESS = STATUS_SUCCESS)
    (htr : t.bit_index + w ≤ t.bit_len) (ht64 : t.bit_len < 2 ^ 64)
    (hin : data + len_offset + 8 ≤ mem2.length) :
    ∃ mem3 t1,
      BitParser_Deserialize status_and value
          [.LEN len_offset w, .ARRAY_VARIABLE offset len_offset] 1 data mem2 t =
        some (STATUS_SUCCESS, mem3, t1) ∧
      t1.bit_index = t.bit_index + w ∧
      Size_DeserializeBit (load mem2 (data + len_offset) 8) w t =
        some (STATUS_SUCCESS, load mem3 (data + len_offset) 8, t1) ∧
      (t.bit_index + w + 8 * load mem3 (data + len_offset) 8 ≤ t.bit_len →
        load mem3 (data + offset) 8 + load mem3 (data + len_offset) 8 ≤ mem3.length →
        ∃ mem4 t2,
          BitParser_Deserialize status_and value
              [.LEN len_offset w, .ARRAY_VARIABLE offset len_offset] 2 data mem2 t =
            some (STATUS_SUCCESS, mem4, t2) ∧
          t2.bit_index = t.bit_index + w + 8 * load mem3 (data + len_offset) 8 ∧
          ∀ i, i < load mem3 (data + len_offset) 8 → ∀ j, j < 8 →
            bitOf t.mode (byteAt mem4 (load mem3 (data + offset) 8 + i)) j =
              streamBit t.mode t.p_buffer (t.bit_index + w + 8 * i + j)) := by
  obtain ⟨mem3, t1, e1, e2, e3, e4, e5, e6⟩ := Deserialize_LEN status_and value data mem2 t
    len_offset w htr hin
  refine ⟨mem3, t1, ?_, e2, e6, ?_⟩
  · show BitParser_Deserialize_loop status_and value data [.LEN len_offset w]
      STATUS_SUCCESS mem2 t = _
    rw [Deserialize_loop_cons_success status_and value data mem2 mem3 _ _ t t1 e1]
    rfl
  · intro hroom harr
    obtain ⟨mem4, t2, f1, f2, f3⟩ := Deserialize_ARRAY_VARIABLE status_and value hand data mem3
      t1 offset len_offset (by omega) (by rw [e3]; exact ht64) harr
    refine ⟨mem4, t2, ?_, by omega, ?_⟩
    · show BitParser_Deserialize_loop status_and value data
        [.LEN len_offset w, .ARRAY_VARIABLE offset len_offset] STATUS_SUCCESS mem2 t = _
      rw [Deserialize_loop_cons_success status_and value data mem2 mem3 _ _ t t1 e1,
        Deserialize_loop_cons_success status_and value data mem3 mem4 _ _ t1 t2 f1]
      rfl
    · intro i hi j hj
      have := f3 i hi j hj
      rw [e4, e5, e2] at this
      rw [this]

theorem position_after_ge (data : Nat) (mem : List Nat) (p : Nat) (f : BitField_T) :
    p ≤ position_after data mem p f := by
  cases f <;> simp only [position_after] <;> omega

theorem wire_end_ge (data : Nat) (mem : List Nat) : ∀ (D : List BitField_T) (p : Nat),
    p ≤ wire_end data mem D p := by
  intro D
  induction D with
  | nil =>
    intro p
    exact le_refl p
  | cons f rest ih =>
    intro p
    exact le_trans (position_after_ge data mem p f) (ih _)

/-- Reading a field of `w ≤ 8 * bc` bits whose stream bits are the low `w` bits of `v` in the
order of the mode gives `v % 2 ^ w`. -/
theorem DeserializeBit_of_bits (old bc w v : Nat) (t : Stream_T) (hbc1 : 1 ≤ bc) (hbc : bc ≤ 8)
    (hw : w ≤ 8 * bc) (hr : t.bit_index + w ≤ t.bit_len)
    (hB : t.mode = BIG → ∀ k, k < w →
      streamBit BIG t.p_buffer (t.bit_index + w - 1 - k) = v.testBit k)
    (hL : t.mode = LITTLE → ∀ k, k < w →
      streamBit LITTLE t.p_buffer (t.bit_index + k) = v.testBit k) :
    ∃ t1, DeserializeBit old bc w t = some (STATUS_SUCCESS, v % 2 ^ w, t1) ∧
      t1.bit_index = t.bit_index + w ∧ t1.bit_len = t.bit_len ∧ t1.mode = t.mode ∧
      t1.p_buffer = t.p_buffer := by
  obtain ⟨x, t1, e1, e2, e3, e4, e5, e6, e7⟩ := DeserializeBit_spec old bc w t hbc1 hbc hr
  have hmin : min w (8 * bc) = w := by omega
  have hx : x = v % 2 ^ w := by
    apply eq_mod_two_pow_of_testBit
    intro k
    cases hm : t.mode
    · rw [e6 hm k, hmin]
      by_cases a : k < w
      · rw [hB hm k a]
      · simp [a]
    · rw [e7 hm k, hmin]
      by_cases a : k < w
      · rw [hL hm k a]
      · simp [a]
  subst hx
  exact ⟨t1, e1, e2, e3, e4, e5⟩

/-- One unsigned field of the record round trip; the hypotheses `hser`, `hdes` say what the
two `switch` statements do for the descriptor `f`. -/
theorem roundtrip_step_scalar (status_and : Status_T → Status_T → Status_T) (value : Int)
    (data : Nat) (mem : List Nat) (f : BitField_T) (offset bc w : Nat) (s : Stream_T)
    (hser : BitParser_Serialize_switch data mem STATUS_SUCCESS s f =
      SerializeBit (load mem (data + offset) bc) bc w s)
    (hdes : ∀ (m : List Nat) (t t1 : Stream_T) (x : Nat),
      DeserializeBit 0 bc w t = some (STATUS_SUCCESS, x, t1) →
      BitParser_Deserialize_switch status_and value data m STATUS_SUCCESS t f =
        some (STATUS_SUCCESS, store m (data + offset) bc (x % 2 ^ (8 * bc)), t1))
    (hbc1 : 1 ≤ bc) (hbc : bc ≤ 8) (hw : w ≤ 8 * bc) (hv : load mem (data + offset) bc < 2 ^ w)
    (hb : ∀ j, byteAt mem j < 256)
    (hr : s.bit_index + w ≤ s.bit_len) (hl : s.bit_len ≤ 8 * s.p_buffer.length) :
    ∃ s1, BitParser_Serialize_switch data mem STATUS_SUCCESS s f = some (STATUS_SUCCESS, s1) ∧
      s1.bit_index = s.bit_index + w ∧ s1.bit_len = s.bit_len ∧ s1.mode = s.mode ∧
      s1.p_buffer.length = s.p_buffer.length ∧
      (∀ k, k < s.bit_index → streamBit s.mode s1.p_buffer k = streamBit s.mode s.p_buffer k) ∧
      ∀ (t : Stream_T) (m : List Nat), t.bit_index = s.bit_index → t.bit_len = s.bit_len →
        t.mode = s.mode →
        (∀ k, s.bit_index ≤ k → k < s1.bit_index →
          streamBit s.mode t.p_buffer k = streamBit s.mode s1.p_buffer k) →
        data + offset + bc ≤ m.length →
        ∃ m1 t1, BitParser_Deserialize_switch status_and value data m STATUS_SUCCESS t f =
            some (STATUS_SUCCESS, m1, t1) ∧
          t1.bit_index = s1.bit_index ∧ t1.bit_len = t.bit_len ∧ t1.mode = t.mode ∧
          t1.p_buffer = t.p_buffer ∧ m1.length = m.length ∧
          ∀ a, byteAt m1 a =
            if data + offset ≤ a ∧ a < data + offset + bc then byteAt mem a else byteAt m a := by
  obtain ⟨s1, e1, e2, e3, e4, e5, e6, e7⟩ := SerializeBit_spec (load mem (data + offset) bc)
    bc w s hbc1 hr hl
  have hmin : min w (8 * bc) = w := by omega
  refine ⟨s1, by rw [hser, e1], e2, e3, e4, e5, ?_, ?_⟩
  · intro k hk
    cases hm : s.mode
    · rw [e6 hm, if_neg (by omega)]
    · rw [e7 hm, if_neg (by omega)]
  · intro t m h1 h2 h3 h4 h5
    obtain ⟨t1, f1, f2, f3, f4, f5⟩ := DeserializeBit_of_bits 0 bc w
      (load mem (data + offset) bc) t hbc1 hbc hw (by omega)
      (by
        intro hm k hk
        rw [h3] at hm
        have := h4 (t.bit_index + w - 1 - k) (by omega) (by omega)
        rw [hm] at this
        rw [this, e6 hm, if_pos (by omega)]
        congr 1
        omega)
      (by
        intro hm k hk
        rw [h3] at hm
        have := h4 (t.bit_index + k) (by omega) (by omega)
        rw [hm] at this
        rw [this, e7 hm, if_pos (by omega)]
        congr 1
        omega)
    have hvw : load mem (data + offset) bc % 2 ^ w = load mem (data + offset) bc :=
      Nat.mod_eq_of_lt hv
    have hvb : load mem (data + offset) bc % 2 ^ (8 * bc) = load mem (data + offset) bc := by
      apply Nat.mod_eq_of_lt
      exact lt_of_lt_of_le hv (Nat.pow_le_pow_right (by decide) hw)
    rw [hvw] at f1
    refine ⟨_, t1, hdes m t t1 _ f1, by omega, f3, f4, f5, ?_, ?_⟩
    · rw [store_length]
    · intro a
      rw [hvb, byteAt_store _ _ _ _ _ h5]
      by_cases ha : data + offset ≤ a ∧ a < data + offset + bc
      · rw [if_pos ha, if_pos ha, load_byte bc mem (data + offset) (a - (data + offset)) hb
          (by omega)]
        congr 1
        omega
      · rw [if_neg ha, if_neg ha]

/-- One descriptor of the record round trip: the serializer succeeds, moves the cursor to
`position_after` and changes no stream bit before the old position; the deserializer, on any
cursor at the same position whose buffer has the same stream bits in the field, succeeds,
moves to the same position and stores in the field of the record the bytes that the serialized
record has there. -/
theorem roundtrip_step (status_and : Status_T → Status_T → Status_T) (value : Int)
    (data : Nat) (mem : List Nat) (f : BitField_T) (s : Stream_T)
    (hf : unsigned_field_fits data mem f = true) (hb : ∀ j, byteAt mem j < 256)
    (hl : s.bit_len ≤ 8 * s.p_buffer.length) (h64 : s.bit_len < 2 ^ 64)
    (hr : position_after data mem s.bit_index f ≤ s.bit_len) :
    ∃ s1, BitParser_Serialize_switch data mem STATUS_SUCCESS s f = some (STATUS_SUCCESS, s1) ∧
      s1.bit_index = position_after data mem s.bit_index f ∧ s1.bit_len = s.bit_len ∧
      s1.mode = s.mode ∧ s1.p_buffer.length = s.p_buffer.length ∧
      (∀ k, k < s.bit_index → streamBit s.mode s1.p_buffer k = streamBit s.mode s.p_buffer k) ∧
      ∀ (t : Stream_T) (m : List Nat), t.bit_index = s.bit_index → t.bit_len = s.bit_len →
        t.mode = s.mode →
        (∀ k, s.bit_index ≤ k → k < s1.bit_index →
          streamBit s.mode t.p_buffer k = streamBit s.mode s1.p_buffer k) →
        data + f.field_offset + f.field_size ≤ m.length →
        ∃ m1 t1, BitParser_Deserialize_switch status_and value data m STATUS_SUCCESS t f =
            some (STATUS_SUCCESS, m1, t1) ∧
          t1.bit_index = s1.bit_index ∧ t1.bit_len = t.bit_len ∧ t1.mode = t.mode ∧
          t1.p_buffer = t.p_buffer ∧ m1.length = m.length ∧
          ∀ a, byteAt m1 a =
            if data + f.field_offset ≤ a ∧ a < data + f.field_offset + f.field_size
            then byteAt mem a else byteAt m a := by
  cases f with
  | U8 offset bit =>
    simp only [unsigned_field_fits, decide_eq_true_eq] at hf
    refine roundtrip_step_scalar status_and value data mem _ offset 1 bit s rfl ?_ (by decide)
      (by decide) (by omega) hf.2.2 hb hr hl
    intro m t t1 x hx
    show store_result m (data + offset) 1 (U8_DeserializeBit (load m (data + offset) 1) bit t) = _
    unfold U8_DeserializeBit
    rw [hx]
    rfl
  | U16 offset bit =>
    simp only [unsigned_field_fits, decide_eq_true_eq] at hf
    refine roundtrip_step_scalar status_and value data mem _ offset 2 bit s rfl ?_ (by decide)
      (by decide) (by omega) hf.2.2 hb hr hl
    intro m t t1 x hx
    show store_result m (data + offset) 2
      (U16_DeserializeBit (load m (data + offset) 2) bit t) = _
    unfold U16_DeserializeBit
    rw [hx]
    rfl
  | U32 offset bit =>
    simp only [unsigned_field_fits, decide_eq_true_eq] at hf
    refine roundtrip_step_scalar status_and value data mem _ offset 4 bit s rfl ?_ (by decide)
      (by decide) (by omega) hf.2.2 hb hr hl
    intro m t t1 x hx
    show store_result m (data + offset) 4
      (U32_DeserializeBit (load m (data + offset) 4) bit t) = _
    unfold U32_DeserializeBit
    rw [hx]
    rfl
  | ALIGN =>
    refine ⟨Stream_Align s, rfl, ?_, rfl, rfl, rfl, fun _ _ => rfl, ?_⟩
    · simp only [Stream_Align, Stream_TellBitInByte, BIT_IN_BYTE, BITS_IN_BYTE, position_after]
    · intro t m h1 h2 h3 _ _
      refine ⟨m, Stream_Align t, rfl, ?_, rfl, rfl, rfl, rfl, ?_⟩
      · simp only [Stream_Align, Stream_TellBitInByte, BIT_IN_BYTE, BITS_IN_BYTE, h1]
      · intro a
        rw [if_neg]
        simp only [BitField_T.field_offset, BitField_T.field_size]
        omega
  | PAD bit =>
    simp only [position_after] at hr
    have e : (s.bit_index + bit) % 2 ^ 64 = s.bit_index + bit := Nat.mod_eq_of_lt (by omega)
    have hn : ¬ (s.bit_index + bit > Stream_GetSizeBits s) := by
      unfold Stream_GetSizeBits
      omega
    refine ⟨{ s with bit_index := s.bit_index + bit }, ?_, rfl, rfl, rfl, rfl, fun _ _ => rfl,
      ?_⟩
    · simp only [BitParser_Serialize_switch, Stream_TellBit, e, Stream_SeekBit, if_neg hn]
    · intro t m h1 h2 h3 _ _
      have hn2 : ¬ (s.bit_index + bit > Stream_GetSizeBits t) := by
        unfold Stream_GetSizeBits
        omega
      refine ⟨m, { t with bit_index := s.bit_index + bit }, ?_, rfl, rfl, rfl, rfl, rfl, ?_⟩
      · simp only [BitParser_Deserialize_switch, Stream_TellBit, h1, e, Stream_SeekBit,
          if_neg hn2]
      · intro a
        rw [if_neg]
        simp only [BitField_T.field_offset, BitField_T.field_size]
        omega
  | _ => simp [unsigned_field_fits] at hf

/-- The record round trip from any cursor position: the induction over the descriptor list. -/
theorem roundtrip_loop (status_and : Status_T → Status_T → Status_T) (value : Int)
    (data : Nat) (mem : List Nat) (hb : ∀ j, byteAt mem j < 256) :
    ∀ (D : List BitField_T) (s : Stream_T),
    (∀ f ∈ D, unsigned_field_fits data mem f = true) →
    s.bit_len ≤ 8 * s.p_buffer.length → s.bit_len < 2 ^ 64 →
    wire_end data mem D s.bit_index ≤ s.bit_len →
    ∃ s1, BitParser_Serialize_loop data mem D STATUS_SUCCESS s = some (STATUS_SUCCESS, s1) ∧
      s1.bit_index = wire_end data mem D s.bit_index ∧ s1.bit_len = s.bit_len ∧
      s1.mode = s.mode ∧ s1.p_buffer.length = s.p_buffer.length ∧
      (∀ k, k < s.bit_index → streamBit s.mode s1.p_buffer k = streamBit s.mode s.p_buffer k) ∧
      ∀ (t : Stream_T) (m : List Nat), t.bit_index = s.bit_index → t.bit_len = s.bit_len →
        t.mode = s.mode →
        (∀ k, s.bit_index ≤ k → k < s1.bit_index →
          streamBit s.mode t.p_buffer k = streamBit s.mode s1.p_buffer k) →
        (∀ f ∈ D, data + f.field_offset + f.field_size ≤ m.length) →
        ∃ m1 t1, BitParser_Deserialize_loop status_and value data D STATUS_SUCCESS m t =
            some (STATUS_SUCCESS, m1, t1) ∧
          t1.bit_index = s1.bit_index ∧ t1.p_buffer = t.p_buffer ∧ m1.length = m.length ∧
          (∀ a, (∃ f ∈ D, data + f.field_offset ≤ a ∧
              a < data + f.field_offset + f.field_size) → byteAt m1 a = byteAt mem a) ∧
          (∀ a, (¬ ∃ f ∈ D, data + f.field_offset ≤ a ∧
              a < data + f.field_offset + f.field_size) → byteAt m1 a = byteAt m a) := by
  intro D
  induction D with
  | nil =>
    intro s _ _ _ _
    refine ⟨s, rfl, rfl, rfl, rfl, rfl, fun _ _ => rfl, ?_⟩
    intro t m h1 _ _ _ _
    refine ⟨m, t, rfl, h1, rfl, rfl, ?_, fun _ _ => rfl⟩
    intro a ha
    obtain ⟨f, hf, _⟩ := ha
    exact absurd hf (List.not_mem_nil f)
  | cons f rest ih =>
    intro s hD hl h64 hcap
    have hcap2 : wire_end data mem rest (position_after data mem s.bit_index f) ≤ s.bit_len :=
      hcap
    have hpos := wire_end_ge data mem rest (position_after data mem s.bit_index f)
    obtain ⟨s1, e1, e2, e3, e4, e5, e6, e7⟩ := roundtrip_step status_and value data mem f s
      (hD f (List.mem_cons_self _ _)) hb hl h64 (by omega)
    obtain ⟨s2, g1, g2, g3, g4, g5, g6, g7⟩ := ih s1
      (fun f hf => hD f (List.mem_cons_of_mem _ hf)) (by rw [e3, e5]; exact hl)
      (by rw [e3]; exact h64) (by rw [e2, e3]; exact hcap2)
    have hge := position_after_ge data mem s.bit_index f
    have hpos2 := wire_end_ge data mem rest s1.bit_index
    refine ⟨s2, ?_, by rw [g2, e2]; rfl, by rw [g3, e3], by rw [g4, e4], by rw [g5, e5], ?_, ?_⟩
    · rw [Serialize_loop_cons_success data mem f rest s s1 e1]
      exact g1
    · intro k hk
      have := g6 k (by omega)
      rw [e4] at this
      rw [this, e6 k hk]
    · intro t m h1 h2 h3 h4 h5
      obtain ⟨m1, t1, f1, f2, f3, f4, f5, f6, f7⟩ := e7 t m h1 h2 h3
        (by
          intro k hk1 hk2
          rw [h4 k hk1 (by omega)]
          have := g6 k (by omega)
          rw [e4] at this
          exact this)
        (h5 f (List.mem_cons_self _ _))
      obtain ⟨m2, t2, q1, q2, q3, q4, q5, q6⟩ := g7 t1 m1 f2 (by rw [f3, h2, e3])
        (by rw [f4, h3, e4])
        (by
          intro k hk1 hk2
          rw [f5, e4]
          exact h4 k (by omega) hk2)
        (by
          intro f0 hf0
          rw [f6]
          exact h5 f0 (List.mem_cons_of_mem _ hf0))
      refine ⟨m2, t2, ?_, q2, by rw [q3, f5], by rw [q4, f6], ?_, ?_⟩
      · rw [Deserialize_loop_cons_success status_and value data m m1 f rest t t1 f1]
        exact q1
      · intro a ha
        by_cases hrest : ∃ f0 ∈ rest, data + f0.field_offset ≤ a ∧
            a < data + f0.field_offset + f0.field_size
        · exact q5 a hrest
        · rw [q6 a hrest, f7 a]
          obtain ⟨f0, hf0, hr0⟩ := ha
          rcases List.mem_cons.mp hf0 with h0 | h0
          · subst h0
            rw [if_pos hr0]
          · exact absurd ⟨f0, h0, hr0⟩ hrest
      · intro a ha
        have hrest : ¬ ∃ f0 ∈ rest, data + f0.field_offset ≤ a ∧
            a < data + f0.field_offset + f0.field_size := by
          rintro ⟨f0, hf0, hr0⟩
          exact ha ⟨f0, List.mem_cons_of_mem _ hf0, hr0⟩
        have hfirst : ¬ (data + f.field_offset ≤ a ∧ a < data + f.field_offset + f.field_size) :=
          fun h => ha ⟨f, List.mem_cons_self _ _, h⟩
        rw [q6 a hrest, f7 a, if_neg hfirst]

/-- C23: for every descriptor list made only of `U8`, `U16` and `U32` fields with a bit width
`w` between 1 and the width of the type, `ALIGN` and `PAD`, every record whose field values are
below `2 ^ w`, both modes and a fresh cursor over `len` bytes with room for the record,
`BitParser_Serialize` succeeds and leaves the cursor at the number of bits the record needs;
after the seek back to 0, `BitParser_Deserialize` into any record memory that holds the fields
succeeds, leaves the cursor at the same position, and every field named by the list has in the
new record the value it has in the serialized one (the fields may even overlap). -/
theorem C23_record_roundtrip (status_and : Status_T → Status_T → Status_T) (value : Int)
    (D : List BitField_T) (data : Nat) (mem mem2 buf : List Nat) (len : Nat)
    (mode : Stream_Mode_T)
    (hD : ∀ f ∈ D, unsigned_field_fits data mem f = true) (hb : ∀ x ∈ mem, x < 256)
    (hin : ∀ f ∈ D, data + f.field_offset + f.field_size ≤ mem2.length)
    (hlen : 1 ≤ len) (hbuf : len ≤ buf.length) (h64 : 8 * len < 2 ^ 64)
    (hcap : wire_end data mem D 0 ≤ 8 * len) :
    ∃ s1 s2 mem3 s3,
      BitParser_Serialize D D.length data mem (Stream_Init buf len mode) =
        some (STATUS_SUCCESS, s1) ∧
      Stream_TellBit s1 = wire_end data mem D 0 ∧
      Stream_Seek s1 0 = (STATUS_SUCCESS, s2) ∧
      BitParser_Deserialize status_and value D D.length data mem2 s2 =
        some (STATUS_SUCCESS, mem3, s3) ∧
      (∀ f ∈ D, field_value data mem3 f = field_value data mem f) ∧
      Stream_TellBit s3 = Stream_TellBit s1 := by
  obtain ⟨s1, e1, e2, e3, e4, e5, _, e7⟩ := roundtrip_loop status_and value data mem
    (byteAt_lt_of_mem mem hb) D (Stream_Init buf len mode) hD
    (by simp only [Stream_Init, BITS_IN_BYTE]; omega)
    (by simp only [Stream_Init, BITS_IN_BYTE]; omega)
    (by simp only [Stream_Init, BITS_IN_BYTE]; omega)
  have hs1len : s1.bit_len = len * 8 := e3
  obtain ⟨m1, t1, f1, f2, _, _, f5, _⟩ := e7 { s1 with bit_index := 0 } mem2 rfl e3 e4
    (fun _ _ _ => rfl) hin
  refine ⟨s1, { s1 with bit_index := 0 }, m1, t1, ?_, e2, ?_, ?_, ?_, f2⟩
  · unfold BitParser_Serialize
    rw [List.take_length]
    exact e1
  · have h : ¬ (0 ≥ Stream_GetSize s1) := by
      unfold Stream_GetSize BITS_IN_BYTE
      omega
    unfold Stream_Seek
    rw [if_neg h, Nat.zero_mul]
  · unfold BitParser_Deserialize
    rw [List.take_length]
    exact f1
  · intro f hf
    unfold field_value
    apply load_congr
    intro j h1 h2
    exact f5 j ⟨f, hf, h1, h2⟩

theorem C23_record_roundtrip_witness :
    ((∀ f ∈ test_modbus_desc, unsigned_field_fits 0 test_modbus_msg f = true) ∧
      (∀ x ∈ test_modbus_msg, x < 256) ∧
      (∀ f ∈ test_modbus_desc, 0 + f.field_offset + f.field_size ≤ (List.replicate 8 0).length) ∧
      1 ≤ 8 ∧ 8 ≤ (List.replicate 8 0).length ∧ 8 * 8 < 2 ^ 64 ∧
      wire_end 0 test_modbus_msg test_modbus_desc 0 ≤ 8 * 8) ∧
    (∃ s1 s2 mem3 s3,
      BitParser_Serialize test_modbus_desc test_modbus_desc.length 0 test_modbus_msg
          (Stream_Init (List.replicate 8 0) 8 BIG) = some (STATUS_SUCCESS, s1) ∧
      Stream_TellBit s1 = wire_end 0 test_modbus_msg test_modbus_desc 0 ∧
      Stream_Seek s1 0 = (STATUS_SUCCESS, s2) ∧
      BitParser_Deserialize (fun (a b : Status_T) => if a = b then a else STATUS_SUCCESS) 0
          test_modbus_desc test_modbus_desc.length 0 (List.replicate 8 0) s2 =
        some (STATUS_SUCCESS, mem3, s3) ∧
      (∀ f ∈ test_modbus_desc, field_value 0 mem3 f = field_value 0 test_modbus_msg f) ∧
      Stream_TellBit s3 = Stream_TellBit s1) ∧
    BitParser_Serialize test_modbus_desc 5 0 test_modbus_msg
        (Stream_Init (List.replicate 8 0) 8 BIG) =
      some (STATUS_SUCCESS, ⟨[0x01, 0x04, 0x00, 0x00, 0x00, 0x02, 0xCB, 0x71], 64, 64, BIG⟩) ∧
    BitParser_Deserialize (fun (a b : Status_T) => if a = b then a else STATUS_SUCCESS) 0
        test_modbus_desc 5 0 (List.replicate 8 0)
        (Stream_Init [0x01, 0x04, 0x00, 0x00, 0x00, 0x02, 0xCB, 0x71] 8 BIG) =
      some (STATUS_SUCCESS, test_modbus_msg,
        ⟨[0x01, 0x04, 0x00, 0x00, 0x00, 0x02, 0xCB, 0x71], 64, 64, BIG⟩) ∧
    BitParser_Deserialize (fun (a b : Status_T) => if a = b then a else STATUS_SUCCESS) 0
        test_misc_dsc 19 0 (List.replicate 26 0) (Stream_Init test_misc_input 14 BIG) =
      some (STATUS_SUCCESS,
        [0x88, 0xEE, 0x7A, 0x5C, 0xD1, 0x07, 0x23, 0x00, 0x78, 0x03, 0xFA, 0x02, 0, 1, 1, 2, 3,
          0, 1, 0, 7, 2, 3, 5, 0, 3],
        ⟨test_misc_input, 112, 109, BIG⟩) :=
  ⟨⟨by decide, by decide, by decide, by decide, by decide, by decide, by decide⟩,
    C23_record_roundtrip (fun (a b : Status_T) => if a = b then a else STATUS_SUCCESS) 0
      test_modbus_desc 0 test_modbus_msg (List.replicate 8 0) (List.replicate 8 0) 8 BIG
      (by decide) (by decide) (by decide) (by decide) (by decide) (by decide) (by decide),
    by decide, by decide, by decide⟩

/-! ## The number of bits a record needs -/

/-- One descriptor of `BitParser_Serialize` with room in the buffer: success, with the cursor at
`position_after`. -/
theorem Serialize_switch_room (data : Nat) (mem : List Nat) (s : Stream_T) (f : BitField_T)
    (hl : s.bit_len ≤ 8 * s.p_buffer.length) (h64 : s.bit_len < 2 ^ 64)
    (hr : position_after data mem s.bit_index f ≤ s.bit_len) :
    ∃ s1, BitParser_Serialize_switch data mem STATUS_SUCCESS s f = some (STATUS_SUCCESS, s1) ∧
      s1.bit_index = position_after data mem s.bit_index f ∧ s1.bit_len = s.bit_len ∧
      s1.mode = s.mode ∧ s1.p_buffer.length = s.p_buffer.length := by
  have scalar : ∀ v bc w, 1 ≤ bc → s.bit_index + w ≤ s.bit_len →
      ∃ s1, SerializeBit v bc w s = some (STATUS_SUCCESS, s1) ∧
        s1.bit_index = s.bit_index + w ∧ s1.bit_len = s.bit_len ∧ s1.mode = s.mode ∧
        s1.p_buffer.length = s.p_buffer.length := by
    intro v bc w hbc h
    obtain ⟨s1, e1, e2, e3, e4, e5, _⟩ := SerializeBit_spec v bc w s hbc h hl
    exact ⟨s1, e1, e2, e3, e4, e5⟩
  have array : ∀ p_data n, s.bit_index + 8 * n ≤ s.bit_len →
      ∃ s1, Array_SerializeBit p_data n s = some (STATUS_SUCCESS, s1) ∧
        s1.bit_index = s.bit_index + 8 * n ∧ s1.bit_len = s.bit_len ∧ s1.mode = s.mode ∧
        s1.p_buffer.length = s.p_buffer.length := by
    intro p_data n h
    obtain ⟨s1, e1, e2, e3, e4, e5, _⟩ := Array_SerializeBit_spec p_data n s h hl h64
    exact ⟨s1, e1, e2, e3, e4, e5⟩
  cases f with
  | U8 offset bit => exact scalar _ 1 bit (by decide) hr
  | I8 offset bit => exact scalar _ 1 bit (by decide) hr
  | S8 offset bit => exact scalar _ 1 bit (by decide) hr
  | U16 offset bit => exact scalar _ 2 bit (by decide) hr
  | I16 offset bit => exact scalar _ 2 bit (by decide) hr
  | S16 offset bit => exact scalar _ 2 bit (by decide) hr
  | U32 offset bit => exact scalar _ 4 bit (by decide) hr
  | I32 offset bit => exact scalar _ 4 bit (by decide) hr
  | S32 offset bit => exact scalar _ 4 bit (by decide) hr
  | U64 offset bit => exact scalar _ 8 bit (by decide) hr
  | I64 offset bit => exact scalar _ 8 bit (by decide) hr
  | S64 offset bit => exact scalar _ 8 bit (by decide) hr
  | FLOAT offset => exact scalar _ 4 32 (by decide) hr
  | DOUBLE offset => exact scalar _ 8 64 (by decide) hr
  | LEN offset bit => exact scalar _ 8 bit (by decide) hr
  | ARRAY_FIXED offset len => exact array _ len hr
  | ARRAY_VARIABLE offset len_offset => exact array _ _ hr
  | ALIGN =>
    refine ⟨Stream_Align s, rfl, ?_, rfl, rfl, rfl⟩
    simp only [Stream_Align, Stream_TellBitInByte, BIT_IN_BYTE, BITS_IN_BYTE, position_after]
  | PAD bit =>
    simp only [position_after] at hr
    have e : (s.bit_index + bit) % 2 ^ 64 = s.bit_index + bit := Nat.mod_eq_of_lt (by omega)
    have hn : ¬ (s.bit_index + bit > Stream_GetSizeBits s) := by
      unfold Stream_GetSizeBits
      omega
    refine ⟨{ s with bit_index := s.bit_index + bit }, ?_, rfl, rfl, rfl, rfl⟩
    simp only [BitParser_Serialize_switch, Stream_TellBit, e, Stream_SeekBit, if_neg hn]

/-- One descriptor of `BitParser_Serialize` without room in the buffer, where the position the
descriptor asks for is below `2 ^ 64`: `ERROR_STREAM_TOO_SHORT`, the cursor as it was. -/
theorem Serialize_switch_no_room (data : Nat) (mem : List Nat) (s : Stream_T) (f : BitField_T)
    (hp : s.bit_index ≤ s.bit_len) (h8 : s.bit_len % 8 = 0)
    (hr : s.bit_len < position_after data mem s.bit_index f)
    (hW : position_after data mem s.bit_index f < 2 ^ 64) :
    BitParser_Serialize_switch data mem STATUS_SUCCESS s f =
      some (ERROR_STREAM_TOO_SHORT, s) := by
  have scalar : ∀ v bc w, s.bit_len < s.bit_index + w →
      SerializeBit v bc w s = some (ERROR_STREAM_TOO_SHORT, s) := by
    intro v bc w h
    apply SerializeBit_too_short
    unfold Stream_GetLeftBits
    omega
  have array : ∀ p_data n, s.bit_len < s.bit_index + 8 * n → s.bit_index + 8 * n < 2 ^ 64 →
      Array_SerializeBit p_data n s = some (ERROR_STREAM_TOO_SHORT, s) := by
    intro p_data n h1 h2
    unfold Array_SerializeBit
    have h : Stream_GetLeftBits s < (n * BITS_IN_BYTE) % 2 ^ 64 := by
      unfold Stream_GetLeftBits BITS_IN_BYTE
      omega
    rw [if_pos h]
  cases f with
  | U8 offset bit => exact scalar _ 1 bit hr
  | I8 offset bit => exact scalar _ 1 bit hr
  | S8 offset bit => exact scalar _ 1 bit hr
  | U16 offset bit => exact scalar _ 2 bit hr
  | I16 offset bit => exact scalar _ 2 bit hr
  | S16 offset bit => exact scalar _ 2 bit hr
  | U32 offset bit => exact scalar _ 4 bit hr
  | I32 offset bit => exact scalar _ 4 bit hr
  | S32 offset bit => exact scalar _ 4 bit hr
  | U64 offset bit => exact scalar _ 8 bit hr
  | I64 offset bit => exact scalar _ 8 bit hr
  | S64 offset bit => exact scalar _ 8 bit hr
  | FLOAT offset => exact scalar _ 4 32 hr
  | DOUBLE offset => exact scalar _ 8 64 hr
  | LEN offset bit => exact scalar _ 8 bit hr
  | ARRAY_FIXED offset len => exact array _ len hr hW
  | ARRAY_VARIABLE offset len_offset => exact array _ _ hr hW
  | ALIGN =>
    simp only [position_after] at hr
    split_ifs at hr <;> omega
  | PAD bit =>
    simp only [position_after] at hr hW
    have e : (s.bit_index + bit) % 2 ^ 64 = s.bit_index + bit := Nat.mod_eq_of_lt hW
    have hn : s.bit_index + bit > Stream_GetSizeBits s := hr
    simp only [BitParser_Serialize_switch, Stream_TellBit, e, Stream_SeekBit, if_pos hn]

/-- `BitParser_Serialize` succeeds exactly when the buffer has room for the bits the record
needs (`wire_end`, below `2 ^ 64`), and then leaves the cursor at that position; without room
it returns `ERROR_STREAM_TOO_SHORT`. -/
theorem Serialize_loop_room (data : Nat) (mem : List Nat) :
    ∀ (D : List BitField_T) (s : Stream_T), s.bit_index ≤ s.bit_len → s.bit_len % 8 = 0 →
    s.bit_len ≤ 8 * s.p_buffer.length → s.bit_len < 2 ^ 64 →
    wire_end data mem D s.bit_index < 2 ^ 64 →
    (wire_end data mem D s.bit_index ≤ s.bit_len →
      ∃ s1, BitParser_Serialize_loop data mem D STATUS_SUCCESS s = some (STATUS_SUCCESS, s1) ∧
        s1.bit_index = wire_end data mem D s.bit_index) ∧
    (s.bit_len < wire_end data mem D s.bit_index →
      ∃ s1, BitParser_Serialize_loop data mem D STATUS_SUCCESS s =
        some (ERROR_STREAM_TOO_SHORT, s1)) := by
  intro D
  induction D with
  | nil =>
    intro s hp _ _ _ _
    refine ⟨fun _ => ⟨s, rfl, rfl⟩, fun h => ?_⟩
    simp only [wire_end] at h
    omega
  | cons f rest ih =>
    intro s hp h8 hl h64 hW
    have hpos := wire_end_ge data mem rest (position_after data mem s.bit_index f)
    have hW2 : wire_end data mem rest (position_after data mem s.bit_index f) < 2 ^ 64 := hW
    by_cases hroom : position_after data mem s.bit_index f ≤ s.bit_len
    · obtain ⟨s1, e1, e2, e3, e4, e5⟩ := Serialize_switch_room data mem s f hl h64 hroom
      obtain ⟨g1, g2⟩ := ih s1 (by omega) (by rw [e3]; exact h8) (by rw [e3, e5]; exact hl)
        (by rw [e3]; exact h64) (by rw [e2]; exact hW2)
      rw [Serialize_loop_cons_success data mem f rest s s1 e1]
      constructor
      · intro h
        obtain ⟨s2, q1, q2⟩ := g1 (by rw [e2, e3]; exact h)
        exact ⟨s2, q1, by rw [q2, e2]; rfl⟩
      · intro h
        exact g2 (by rw [e2, e3]; exact h)
    · have hfail := Serialize_switch_no_room data mem s f hp h8 (by omega) (by omega)
      constructor
      · intro h
        have : wire_end data mem rest (position_after data mem s.bit_index f) ≤ s.bit_len := h
        omega
      · intro _
        refine ⟨s, ?_⟩
        rw [BitParser_Serialize_loop, hfail]
        rfl

/-- For a descriptor list without `FLOAT`, `DOUBLE`, `ARRAY_FIXED` and `ALIGN` whose record
needs fewer than `2 ^ 64` bits, `BitParser_GetLengthBit` is the number of bits the record
needs. -/
theorem GetLengthBit_loop_eq_wire_end (data : Nat) (mem : List Nat) :
    ∀ (D : List BitField_T) (p : Nat), (∀ f ∈ D, counted_in_bits f = true) →
    wire_end data mem D p < 2 ^ 64 →
    BitParser_GetLengthBit_loop data mem D p = wire_end data mem D p := by
  intro D
  induction D with
  | nil =>
    intro p _ _
    rfl
  | cons f rest ih =>
    intro p hD hW
    have hpos := wire_end_ge data mem rest (position_after data mem p f)
    have hW2 : wire_end data mem rest (position_after data mem p f) < 2 ^ 64 := hW
    have hstep : BitParser_GetLengthBit_switch data mem p f = position_after data mem p f := by
      have hf := hD f (List.mem_cons_self _ _)
      cases f <;> first
        | exact Bool.noConfusion hf
        | (simp only [BitParser_GetLengthBit_switch, position_after, BITS_IN_BYTE] at hpos hW2 ⊢
           omega)
    rw [BitParser_GetLengthBit_loop, hstep]
    exact ih _ (fun f hf => hD f (List.mem_cons_of_mem _ hf)) hW2

/-- Where the length functions are right: for a descriptor list without `FLOAT`, `DOUBLE`,
`ARRAY_FIXED` and `ALIGN` whose record needs fewer than `2 ^ 64` bits, a serialization that
succeeds on a fresh cursor leaves the cursor at `BitParser_GetLengthBit`, and the serialization
into a fresh cursor over `BitParser_GetLength` bytes succeeds. -/
theorem length_functions_without_float_fixed_align (D : List BitField_T) (data : Nat)
    (mem buf : List Nat) (len : Nat) (mode : Stream_Mode_T)
    (hD : ∀ f ∈ D, counted_in_bits f = true) (hW : wire_end data mem D 0 < 2 ^ 64)
    (hbuf : len ≤ buf.length) (h64 : 8 * len < 2 ^ 64) :
    (∀ s1, BitParser_Serialize D D.length data mem (Stream_Init buf len mode) =
        some (STATUS_SUCCESS, s1) →
      Stream_TellBit s1 = BitParser_GetLengthBit D D.length data mem) ∧
    (len = BitParser_GetLength D D.length data mem →
      ∃ s1, BitParser_Serialize D D.length data mem (Stream_Init buf len mode) =
        some (STATUS_SUCCESS, s1)) := by
  have hG : BitParser_GetLengthBit D D.length data mem = wire_end data mem D 0 := by
    unfold BitParser_GetLengthBit
    rw [List.take_length]
    exact GetLengthBit_loop_eq_wire_end data mem D 0 hD hW
  obtain ⟨g1, g2⟩ := Serialize_loop_room data mem D (Stream_Init buf len mode)
    (by simp only [Stream_Init]; omega) (by simp only [Stream_Init, BITS_IN_BYTE]; omega)
    (by simp only [Stream_Init, BITS_IN_BYTE]; omega)
    (by simp only [Stream_Init, BITS_IN_BYTE]; omega) hW
  simp only [Stream_Init, BITS_IN_BYTE] at g1 g2
  unfold BitParser_Serialize
  rw [List.take_length]
  simp only [Stream_Init, BITS_IN_BYTE]
  constructor
  · intro s1 hs
    rw [hG]
    by_cases h : wire_end data mem D 0 ≤ len * 8
    · obtain ⟨s2, q1, q2⟩ := g1 h
      rw [q1] at hs
      cases hs
      exact q2
    · obtain ⟨s2, q1⟩ := g2 (by omega)
      rw [q1] at hs
      cases hs
  · intro hlen
    obtain ⟨s1, q1, _⟩ := g1 (by
      rw [hlen]
      unfold BitParser_GetLength
      rw [hG]
      simp only [BITS_IN_BYTE]
      split_ifs <;> omega)
    exact ⟨s1, q1⟩

/-! ## ALIGN, FLOAT and DOUBLE in the length functions -/

theorem GetLengthBit_loop_append (data : Nat) (mem : List Nat) (D1 D2 : List BitField_T) :
    ∀ t, BitParser_GetLengthBit_loop data mem (D1 ++ D2) t =
      BitParser_GetLengthBit_loop data mem D2 (BitParser_GetLengthBit_loop data mem D1 t) := by
  induction D1 with
  | nil =>
    intro t
    rfl
  | cons f rest ih =>
    intro t
    exact ih _

/-- Every total that `BitParser_GetLengthBit` returns is a `size_t`. -/
theorem GetLengthBit_loop_lt (data : Nat) (mem : List Nat) :
    ∀ (D : List BitField_T) (t : Nat), t < 2 ^ 64 →
      BitParser_GetLengthBit_loop data mem D t < 2 ^ 64 := by
  intro D
  induction D with
  | nil =>
    intro t ht
    exact ht
  | cons f rest ih =>
    intro t _
    apply ih
    cases f <;> exact Nat.mod_lt _ (by decide)

/-- The `ALIGN` case of `BitParser_GetLengthBit` at a running total that is not a multiple of
8: the new total is the least multiple of 8 above it, the position that `Stream_Align` moves a
cursor at that position to. -/
theorem GetLengthBit_ALIGN_unaligned (data : Nat) (mem : List Nat) (t : Nat) (s : Stream_T)
    (ht : t % 8 ≠ 0) (h64 : t + 8 < 2 ^ 64) (hs : Stream_TellBit s = t) :
    BitParser_GetLengthBit_switch data mem t .ALIGN = 8 * ((t + 7) / 8) ∧
    BitParser_GetLengthBit_switch data mem t .ALIGN = Stream_TellBit (Stream_Align s) := by
  unfold Stream_TellBit at hs
  simp only [BitParser_GetLengthBit_switch, Stream_Align, Stream_TellBit, Stream_TellBitInByte,
    BIT_IN_BYTE, BITS_IN_BYTE, hs]
  rw [if_pos ht]
  constructor <;> omega

/-- C31 (failing input): for the descriptors `U8(8), ALIGN` the running total before `ALIGN`
is 8, a multiple of 8, and `BitParser_GetLengthBit` returns 16, not 8, while the serialization
leaves the cursor at position 8: `Stream_Align` skips no bit there.  `BitParser_GetLength`
accordingly returns 2 where the record takes 1 byte; for `ALIGN` alone the total is 8 and the
position 0. -/
theorem C31_ALIGN_adds_8_at_a_byte_boundary :
    BitParser_GetLengthBit [.U8 0 8] 1 0 [0xAB] = 8 ∧
    BitParser_GetLengthBit [.U8 0 8, .ALIGN] 2 0 [0xAB] = 16 ∧
    BitParser_GetLengthBit_switch 0 [0xAB] 8 .ALIGN = 16 ∧
    Stream_TellBit (Stream_Align ⟨[0xAB, 0], 16, 8, BIG⟩) = 8 ∧
    BitParser_Serialize [.U8 0 8, .ALIGN] 2 0 [0xAB] (Stream_Init [0, 0] 2 BIG) =
      some (STATUS_SUCCESS, ⟨[0xAB, 0], 16, 8, BIG⟩) ∧
    BitParser_GetLength [.U8 0 8, .ALIGN] 2 0 [0xAB] = 2 ∧
    BitParser_GetLengthBit [.ALIGN] 1 0 [] = 8 ∧
    Stream_TellBit (Stream_Align (Stream_Init [0] 1 BIG)) = 0 := by
  refine ⟨by decide, by decide, by decide, by decide, by decide, by decide, by decide,
    by decide⟩

/-- C32: `BitParser_GetLength` is the bit length of `BitParser_GetLengthBit` divided by 8 and
rounded up: its bit count is at least the bit length, no smaller number of bytes has that
property, and it is 0 exactly when the bit length is 0; the sum the function forms stays
below `2 ^ 64`. -/
theorem C32_GetLength_is_ceiling (D : List BitField_T) (n data : Nat) (mem : List Nat) :
    BitParser_GetLength D n data mem = (BitParser_GetLengthBit D n data mem + 7) / 8 ∧
    BitParser_GetLengthBit D n data mem ≤ 8 * BitParser_GetLength D n data mem ∧
    (∀ m, BitParser_GetLengthBit D n data mem ≤ 8 * m → BitParser_GetLength D n data mem ≤ m) ∧
    (BitParser_GetLength D n data mem = 0 ↔ BitParser_GetLengthBit D n data mem = 0) ∧
    BitParser_GetLength D n data mem < 2 ^ 64 := by
  have hlt : BitParser_GetLengthBit D n data mem < 2 ^ 64 :=
    GetLengthBit_loop_lt data mem (D.take n) 0 (by decide)
  have h : BitParser_GetLength D n data mem =
      BitParser_GetLengthBit D n data mem / 8 +
        (if BitParser_GetLengthBit D n data mem % 8 ≠ 0 then 1 else 0) := rfl
  obtain ⟨c, hc, hc1, hc0⟩ : ∃ c : Nat,
      (if BitParser_GetLengthBit D n data mem % 8 ≠ 0 then 1 else 0) = c ∧
      (BitParser_GetLengthBit D n data mem % 8 ≠ 0 → c = 1) ∧
      (BitParser_GetLengthBit D n data mem % 8 = 0 → c = 0) := by
    by_cases hb : BitParser_GetLengthBit D n data mem % 8 = 0
    · exact ⟨0, by rw [if_neg (fun hne => hne hb)], fun hne => absurd hb hne, fun _ => rfl⟩
    · exact ⟨1, by rw [if_pos hb], fun _ => rfl, fun h0 => absurd h0 hb⟩
  rw [h, hc]
  refine ⟨by omega, by omega, ?_, by omega, by omega⟩
  intro m hm
  omega

/-- C33: `BitParser_GetLengthBit` adds 4 to its total for a `FLOAT` descriptor and 8 for a
`DOUBLE` descriptor, wherever the descriptor stands in the list, while `BitParser_Serialize`
of a `FLOAT` or `DOUBLE` descriptor at a cursor with room advances the position by 32 or 64
bits; without room it fails and the position stays. -/
theorem C33_float_double_counted_in_bytes (D1 D2 : List BitField_T) (offset data : Nat)
    (mem : List Nat) (s : Stream_T)
    (hp : s.bit_index ≤ s.bit_len) (hl : s.bit_len ≤ 8 * s.p_buffer.length) :
    BitParser_GetLengthBit (D1 ++ .FLOAT offset :: D2) (D1.length + 1 + D2.length) data mem =
      BitParser_GetLengthBit_loop data mem D2
        ((BitParser_GetLengthBit D1 D1.length data mem + 4) % 2 ^ 64) ∧
    BitParser_GetLengthBit (D1 ++ .DOUBLE offset :: D2) (D1.length + 1 + D2.length) data mem =
      BitParser_GetLengthBit_loop data mem D2
        ((BitParser_GetLengthBit D1 D1.length data mem + 8) % 2 ^ 64) ∧
    BitParser_GetLengthBit (D1 ++ [.FLOAT offset]) (D1.length + 1) data mem =
      (BitParser_GetLengthBit D1 D1.length data mem + 4) % 2 ^ 64 ∧
    BitParser_GetLengthBit (D1 ++ [.DOUBLE offset]) (D1.length + 1) data mem =
      (BitParser_GetLengthBit D1 D1.length data mem + 8) % 2 ^ 64 ∧
    (32 ≤ Stream_GetLeftBits s →
      ∃ s1, BitParser_Serialize [.FLOAT offset] 1 data mem s = some (STATUS_SUCCESS, s1) ∧
        Stream_TellBit s1 = Stream_TellBit s + 32) ∧
    (Stream_GetLeftBits s < 32 →
      BitParser_Serialize [.FLOAT offset] 1 data mem s = some (ERROR_STREAM_TOO_SHORT, s)) ∧
    (64 ≤ Stream_GetLeftBits s →
      ∃ s1, BitParser_Serialize [.DOUBLE offset] 1 data mem s = some (STATUS_SUCCESS, s1) ∧
        Stream_TellBit s1 = Stream_TellBit s + 64) ∧
    (Stream_GetLeftBits s < 64 →
      BitParser_Serialize [.DOUBLE offset] 1 data mem s = some (ERROR_STREAM_TOO_SHORT, s)) := by
  have take1 : ∀ f : BitField_T, (D1 ++ f :: D2).take (D1.length + 1 + D2.length) =
      D1 ++ f :: D2 := by
    intro f
    apply List.take_of_length_le
    simp only [List.length_append, List.length_cons]
    omega
  have take2 : ∀ f : BitField_T, (D1 ++ [f]).take (D1.length + 1) = D1 ++ [f] := by
    intro f
    apply List.take_of_length_le
    simp only [List.length_append, List.length_cons, List.length_nil]
    omega
  have one : ∀ (v bc w : Nat), 1 ≤ bc → (w ≤ Stream_GetLeftBits s →
      ∃ s1, SerializeBit v bc w s = some (STATUS_SUCCESS, s1) ∧
        s1.bit_index = s.bit_index + w) ∧
      (Stream_GetLeftBits s < w → SerializeBit v bc w s = some (ERROR_STREAM_TOO_SHORT, s)) := by
    intro v bc w hbc
    rcases SerializeBit_status v bc w s hbc hp hl with ⟨h1, h2⟩ | ⟨h1, s1, h2, h3, _⟩
    · exact ⟨fun h => absurd h (by omega), fun _ => h2⟩
    · exact ⟨fun _ => ⟨s1, h2, h3⟩, fun h => absurd h (by omega)⟩
  unfold BitParser_GetLengthBit
  rw [take1, take1, take2, take2, List.take_length]
  simp only [GetLengthBit_loop_append]
  refine ⟨rfl, rfl, rfl, rfl, ?_, ?_, ?_, ?_⟩
  · intro h
    obtain ⟨s1, e1, e2⟩ := (one (load mem (data + offset) 4) 4 32 (by decide)).1 h
    have e3 : BitParser_Serialize_switch data mem STATUS_SUCCESS s (.FLOAT offset) =
        some (STATUS_SUCCESS, s1) := e1
    refine ⟨s1, ?_, e2⟩
    show BitParser_Serialize_loop data mem [.FLOAT offset] STATUS_SUCCESS s = _
    rw [Serialize_loop_cons_success data mem (.FLOAT offset) [] s s1 e3]
    rfl
  · intro h
    have e1 := (one (load mem (data + offset) 4) 4 32 (by decide)).2 h
    show BitParser_Serialize_loop data mem [.FLOAT offset] STATUS_SUCCESS s = _
    have e2 : BitParser_Serialize_switch data mem STATUS_SUCCESS s (.FLOAT offset) =
        some (ERROR_STREAM_TOO_SHORT, s) := e1
    rw [BitParser_Serialize_loop, e2]
    rfl
  · intro h
    obtain ⟨s1, e1, e2⟩ := (one (load mem (data + offset) 8) 8 64 (by decide)).1 h
    have e3 : BitParser_Serialize_switch data mem STATUS_SUCCESS s (.DOUBLE offset) =
        some (STATUS_SUCCESS, s1) := e1
    refine ⟨s1, ?_, e2⟩
    show BitParser_Serialize_loop data mem [.DOUBLE offset] STATUS_SUCCESS s = _
    rw [Serialize_loop_cons_success data mem (.DOUBLE offset) [] s s1 e3]
    rfl
  · intro h
    have e1 := (one (load mem (data + offset) 8) 8 64 (by decide)).2 h
    show BitParser_Serialize_loop data mem [.DOUBLE offset] STATUS_SUCCESS s = _
    have e2 : BitParser_Serialize_switch data mem STATUS_SUCCESS s (.DOUBLE offset) =
        some (ERROR_STREAM_TOO_SHORT, s) := e1
    rw [BitParser_Serialize_loop, e2]
    rfl

theorem C33_float_double_counted_in_bytes_witness :
    ((⟨[0, 0, 0, 0, 0, 0, 0, 0], 64, 8, BIG⟩ : Stream_T).bit_index ≤ 64 ∧ 64 ≤ 8 * 8) ∧
    BitParser_GetLengthBit ([.U8 4 8] ++ .FLOAT 0 :: [.U8 5 8]) (1 + 1 + 1) 0
        [0x00, 0x00, 0x80, 0x3F, 1, 2] =
      BitParser_GetLengthBit_loop 0 [0x00, 0x00, 0x80, 0x3F, 1, 2] [.U8 5 8]
        ((BitParser_GetLengthBit [.U8 4 8] 1 0 [0x00, 0x00, 0x80, 0x3F, 1, 2] + 4) % 2 ^ 64) ∧
    (∃ s1, BitParser_Serialize [.FLOAT 0] 1 0 [0x00, 0x00, 0x80, 0x3F, 1, 2]
        ⟨[0, 0, 0, 0, 0, 0, 0, 0], 64, 8, BIG⟩ = some (STATUS_SUCCESS, s1) ∧
      Stream_TellBit s1 = Stream_TellBit ⟨[0, 0, 0, 0, 0, 0, 0, 0], 64, 8, BIG⟩ + 32) :=
  ⟨⟨by decide, by decide⟩,
    (C33_float_double_counted_in_bytes [.U8 4 8] [.U8 5 8] 0 0 [0x00, 0x00, 0x80, 0x3F, 1, 2]
      ⟨[0, 0, 0, 0, 0, 0, 0, 0], 64, 8, BIG⟩ (by decide) (by decide)).1,
    (C33_float_double_counted_in_bytes [.U8 4 8] [.U8 5 8] 0 0 [0x00, 0x00, 0x80, 0x3F, 1, 2]
      ⟨[0, 0, 0, 0, 0, 0, 0, 0], 64, 8, BIG⟩ (by decide) (by decide)).2.2.2.2.1 (by decide)⟩

/-! ## Bits left in the current byte -/

/-- C34: for a cursor whose capacity is a whole number of bytes and whose position `p` is
within the capacity, `Stream_GetLeftBitsInByte` returns `(8 - p % 8) % 8`, the number of bits
from `p` to the next byte boundary: `8 - p % 8` when `p` is not a multiple of 8 and 0 when it
is; so `Stream_TellBitInByte + Stream_GetLeftBitsInByte` is 0 or 8. -/
theorem C34_left_bits_in_byte (s : Stream_T)
    (hp : Stream_TellBit s ≤ Stream_GetSizeBits s)
    (h8 : Stream_GetSizeBits s = 8 * Stream_GetSize s) :
    Stream_GetLeftBitsInByte s = (8 - Stream_TellBit s % 8) % 8 ∧
    (Stream_TellBit s % 8 ≠ 0 → Stream_GetLeftBitsInByte s = 8 - Stream_TellBit s % 8) ∧
    (Stream_TellBit s % 8 = 0 → Stream_GetLeftBitsInByte s = 0) ∧
    (Stream_TellBit s + Stream_GetLeftBitsInByte s) % 8 = 0 ∧
    Stream_TellBit s + Stream_GetLeftBitsInByte s ≤ Stream_GetSizeBits s ∧
    (Stream_TellBitInByte s + Stream_GetLeftBitsInByte s = 0 ∨
      Stream_TellBitInByte s + Stream_GetLeftBitsInByte s = 8) := by
  unfold Stream_GetLeftBitsInByte Stream_GetLeftBits Stream_TellBitInByte BIT_IN_BYTE
    BITS_IN_BYTE
  unfold Stream_TellBit Stream_GetSizeBits at *
  unfold Stream_GetSize BITS_IN_BYTE at h8
  refine ⟨by omega, fun h => by omega, fun h => by omega, by omega, by omega, by omega⟩

theorem C34_left_bits_in_byte_witness :
    (Stream_TellBit ⟨[0x34, 0xF2, 0, 0, 0, 0, 0, 0], 64, 13, LITTLE⟩ ≤
        Stream_GetSizeBits ⟨[0x34, 0xF2, 0, 0, 0, 0, 0, 0], 64, 13, LITTLE⟩ ∧
      Stream_GetSizeBits ⟨[0x34, 0xF2, 0, 0, 0, 0, 0, 0], 64, 13, LITTLE⟩ =
        8 * Stream_GetSize ⟨[0x34, 0xF2, 0, 0, 0, 0, 0, 0], 64, 13, LITTLE⟩) ∧
    Stream_GetLeftBitsInByte ⟨[0x34, 0xF2, 0, 0, 0, 0, 0, 0], 64, 13, LITTLE⟩ =
      (8 - Stream_TellBit ⟨[0x34, 0xF2, 0, 0, 0, 0, 0, 0], 64, 13, LITTLE⟩ % 8) % 8 ∧
    Stream_GetLeftBitsInByte ⟨[0x34, 0xF2, 0, 0, 0, 0, 0, 0], 64, 13, LITTLE⟩ = 3 ∧
    Stream_GetLeftBitsInByte ⟨[0x12, 0x34, 0x56, 0, 0, 0, 0, 0], 64, 4, LITTLE⟩ = 4 ∧
    Stream_GetLeftBitsInByte ⟨[0x12, 0x34, 0x56, 0, 0, 0, 0, 0], 64, 20, LITTLE⟩ = 4 ∧
    Stream_GetLeftBitsInByte ⟨[0x12, 0x34, 0x56, 0, 0, 0, 0, 0], 64, 16, LITTLE⟩ = 0 :=
  ⟨⟨by decide, by decide⟩,
    (C34_left_bits_in_byte ⟨[0x34, 0xF2, 0, 0, 0, 0, 0, 0], 64, 13, LITTLE⟩ (by decide)
      (by decide)).1,
    by decide, by decide, by decide, by decide⟩

/-! ## The mask of a byte fragment -/

/-- C40 (failing input): `Stream_GetMask(0, 7)` is `0x7F`, not `0xFF`: bit 7, the bit `stop`,
is clear although the doc comment of the function says that the bits from `start` to `stop`
included are set; likewise `Stream_GetMask(3, 3)` is 0, not `0x08`, and `Stream_GetMask(2, 5)`
is `0x1C`, the bits 2, 3 and 4, not `0x3C`. -/
theorem C40_GetMask_stop_bit_is_clear :
    Stream_GetMask 0 7 = 0x7F ∧ (Stream_GetMask 0 7).testBit 7 = false ∧
    Stream_GetMask 3 3 = 0 ∧ (Stream_GetMask 3 3).testBit 3 = false ∧
    Stream_GetMask 2 5 = 0x1C ∧ (Stream_GetMask 2 5).testBit 5 = false := by
  refine ⟨by decide, by decide, by decide, by decide, by decide, by decide⟩

/-- What `Stream_GetMask` returns for `start ≤ stop ≤ 8`, the arguments its callers pass: the
byte in which exactly the bits from `start`, included, to `stop`, excluded, are set; it is 0
exactly when `start = stop`. -/
theorem GetMask_half_open (start stop : Nat) (h1 : start ≤ stop) (h2 : stop ≤ 8) :
    Stream_GetMask start stop < 256 ∧
    (∀ j, (Stream_GetMask start stop).testBit j = true ↔ (start ≤ j ∧ j < stop)) ∧
    (Stream_GetMask start stop = 0 ↔ start = stop) := by
  have hbit : ∀ j, (Stream_GetMask start stop).testBit j = true ↔ (start ≤ j ∧ j < stop) := by
    intro j
    rw [GetMask_testBit start stop j h2]
    simp only [Bool.and_eq_true, decide_eq_true_eq]
  refine ⟨?_, hbit, ?_, ?_⟩
  · show Stream_GetMask start stop < 2 ^ 8
    apply Nat.lt_pow_two_of_testBit
    intro j hj
    cases hb : (Stream_GetMask start stop).testBit j with
    | false => rfl
    | true =>
      have := (hbit j).1 hb
      omega
  · intro h0
    by_contra hne
    have hb := (hbit start).2 ⟨le_refl _, by omega⟩
    rw [h0, Nat.zero_testBit] at hb
    cases hb
  · intro hs
    apply Nat.eq_of_testBit_eq
    intro j
    rw [Nat.zero_testBit]
    cases hb : (Stream_GetMask start stop).testBit j with
    | false => rfl
    | true =>
      have := (hbit j).1 hb
      omega

/-! ## The position stays within the capacity -/

/-- C37: `Stream_Init` makes a cursor at position 0 whose capacity is a multiple of 8, and on a
cursor whose capacity is a multiple of 8 and whose position is within the capacity,
`Stream_SetMode`, `Stream_Seek`, `Stream_SeekBit`, `Stream_Align`, `Stream_Write`,
`Stream_Read`, `Stream_WriteBit` and `Stream_ReadBit` return, with whatever status, a cursor
whose position is within the capacity and whose capacity is the one it had. -/
theorem C37_position_stays_within_capacity (s : Stream_T) (buf data : List Nat)
    (len n index bit_index : Nat) (mode : Stream_Mode_T)
    (hp : Stream_TellBit s ≤ Stream_GetSizeBits s) (h8 : Stream_GetSizeBits s % 8 = 0) :
    (Stream_TellBit (Stream_Init buf len mode) ≤ Stream_GetSizeBits (Stream_Init buf len mode) ∧
      Stream_GetSizeBits (Stream_Init buf len mode) % 8 = 0) ∧
    (Stream_TellBit (Stream_SetMode s mode).2 ≤ Stream_GetSizeBits (Stream_SetMode s mode).2 ∧
      Stream_GetSizeBits (Stream_SetMode s mode).2 = Stream_GetSizeBits s) ∧
    (Stream_TellBit (Stream_Seek s index).2 ≤ Stream_GetSizeBits (Stream_Seek s index).2 ∧
      Stream_GetSizeBits (Stream_Seek s index).2 = Stream_GetSizeBits s) ∧
    (Stream_TellBit (Stream_SeekBit s bit_index).2 ≤
        Stream_GetSizeBits (Stream_SeekBit s bit_index).2 ∧
      Stream_GetSizeBits (Stream_SeekBit s bit_index).2 = Stream_GetSizeBits s) ∧
    (Stream_TellBit (Stream_Align s) ≤ Stream_GetSizeBits (Stream_Align s) ∧
      Stream_GetSizeBits (Stream_Align s) = Stream_GetSizeBits s) ∧
    (Stream_TellBit (Stream_Write s data len).2 ≤
        Stream_GetSizeBits (Stream_Write s data len).2 ∧
      Stream_GetSizeBits (Stream_Write s data len).2 = Stream_GetSizeBits s) ∧
    (Stream_TellBit (Stream_Read s data len).2.2 ≤
        Stream_GetSizeBits (Stream_Read s data len).2.2 ∧
      Stream_GetSizeBits (Stream_Read s data len).2.2 = Stream_GetSizeBits s) ∧
    (∃ r, Stream_WriteBit s data n = some r ∧ Stream_TellBit r.2 ≤ Stream_GetSizeBits r.2 ∧
      Stream_GetSizeBits r.2 = Stream_GetSizeBits s) ∧
    (∃ r, Stream_ReadBit s data n = some r ∧ Stream_TellBit r.2.2 ≤ Stream_GetSizeBits r.2.2 ∧
      Stream_GetSizeBits r.2.2 = Stream_GetSizeBits s) := by
  obtain ⟨⟨a1, a2⟩, ⟨b1, b2⟩, ⟨c1, c2⟩, ⟨d1, d2⟩, ⟨e1, e2⟩, ⟨f1, f2⟩, ⟨r, g0, g1, g2⟩,
    ⟨q, k0, k1, k2⟩, _⟩ :=
    position_within_capacity s data len n index bit_index 0 mode hp h8
  unfold Stream_TellBit Stream_GetSizeBits at *
  refine ⟨⟨Nat.zero_le _, ?_⟩, ⟨by omega, a2⟩, ⟨by omega, b2⟩, ⟨by omega, c2⟩, ⟨by omega, d2⟩,
    ⟨by omega, e2⟩, ⟨by omega, f2⟩, ⟨r, g0, by omega, g2⟩, ⟨q, k0, by omega, k2⟩⟩
  show len * 8 % 8 = 0
  omega

theorem C37_position_stays_within_capacity_witness :
    (Stream_TellBit ⟨[0x12, 0x34], 16, 13, BIG⟩ ≤ Stream_GetSizeBits ⟨[0x12, 0x34], 16, 13, BIG⟩ ∧
      Stream_GetSizeBits ⟨[0x12, 0x34], 16, 13, BIG⟩ % 8 = 0) ∧
    (Stream_TellBit (Stream_Align ⟨[0x12, 0x34], 16, 13, BIG⟩) ≤
        Stream_GetSizeBits (Stream_Align ⟨[0x12, 0x34], 16, 13, BIG⟩) ∧
      Stream_GetSizeBits (Stream_Align ⟨[0x12, 0x34], 16, 13, BIG⟩) =
        Stream_GetSizeBits ⟨[0x12, 0x34], 16, 13, BIG⟩) ∧
    Stream_TellBit (Stream_Align ⟨[0x12, 0x34], 16, 13, BIG⟩) = 16 :=
  ⟨⟨by decide, by decide⟩,
    (C37_position_stays_within_capacity ⟨[0x12, 0x34], 16, 13, BIG⟩ [0, 0] [0xFF] 1 5 1 9 LITTLE
      (by decide) (by decide)).2.2.2.2.1,
    by decide⟩

/-! ## The status of `Array_DeserializeBit` -/

/-- Without the record of the iterations, `Stream_WriteBit_loop_trace` is
`Stream_WriteBit_loop`. -/
theorem WriteBit_loop_trace_erase (fuel : Nat) :
    ∀ (s : Stream_T) (data : List Nat) (stop fi : Nat),
    (Stream_WriteBit_loop_trace fuel s data stop fi).map Prod.snd =
      Stream_WriteBit_loop fuel s data stop fi := by
  induction fuel with
  | zero =>
    intro s data stop fi
    unfold Stream_WriteBit_loop_trace Stream_WriteBit_loop
    split_ifs <;> rfl
  | succ n ih =>
    intro s data stop fi
    rw [Stream_WriteBit_loop_trace, Stream_WriteBit_loop]
    by_cases h : fi < stop
    · simp only [h, if_true]
      rw [← ih]
      cases Stream_WriteBit_loop_trace n _ data stop _ with
      | none => rfl
      | some r => rfl
    · simp only [h, if_false]
      rfl

/-- Without the record of the iterations, `Stream_ReadBit_loop_trace` is
`Stream_ReadBit_loop`. -/
theorem ReadBit_loop_trace_erase (fuel : Nat) :
    ∀ (s : Stream_T) (data : List Nat) (stop fi : Nat),
    (Stream_ReadBit_loop_trace fuel s data stop fi).map Prod.snd =
      Stream_ReadBit_loop fuel s data stop fi := by
  induction fuel with
  | zero =>
    intro s data stop fi
    unfold Stream_ReadBit_loop_trace Stream_ReadBit_loop
    split_ifs <;> rfl
  | succ n ih =>
    intro s data stop fi
    rw [Stream_ReadBit_loop_trace, Stream_ReadBit_loop]
    by_cases h : fi < stop
    · simp only [h, if_true]
      rw [← ih]
      cases Stream_ReadBit_loop_trace n _ _ stop _ with
      | none => rfl
      | some r => rfl
    · simp only [h, if_false]
      rfl

/-- Without the record of the iterations, `Stream_WriteBit_trace` is `Stream_WriteBit`. -/
theorem WriteBit_trace_erase (s : Stream_T) (data : List Nat) (n : Nat) :
    (Stream_WriteBit_trace s data n).map Prod.snd = Stream_WriteBit s data n := by
  unfold Stream_WriteBit_trace Stream_WriteBit
  by_cases h : Stream_GetLeftBits s < n
  · simp only [h, if_true]
    rfl
  · simp only [h, if_false]
    rw [← WriteBit_loop_trace_erase]
    cases Stream_WriteBit_loop_trace n s data _ _ with
    | none => rfl
    | some r => rfl

/-- Without the record of the iterations, `Stream_ReadBit_trace` is `Stream_ReadBit`. -/
theorem ReadBit_trace_erase (s : Stream_T) (data : List Nat) (n : Nat) :
    (Stream_ReadBit_trace s data n).map Prod.snd = Stream_ReadBit s data n := by
  unfold Stream_ReadBit_trace Stream_ReadBit
  by_cases h : Stream_GetLeftBits s < n
  · simp only [h, if_true]
    rfl
  · simp only [h, if_false]
    rw [← ReadBit_loop_trace_erase]
    cases Stream_ReadBit_loop_trace n s data _ _ with
    | none => rfl
    | some r => rfl

/-- The move size of an iteration when the bits still to move fit into the cursor: the least
of the bits left in the current byte of the data, the bits left in the current byte of the
cursor and the bits still to move. -/
theorem move_size_eq (fi stop bi bl : Nat) (hr : bi + (stop - fi) ≤ bl) :
    MIN (MIN (8 - fi % 8) (stop - fi)) (MIN (8 - bi % 8) (bl - bi)) =
      min (8 - fi % 8) (min (8 - bi % 8) (stop - fi)) := by
  unfold MIN
  split_ifs <;> omega

/-- The iterations of the loop of `Stream_WriteBit` when the bits to move fit into the cursor:
the loop ends within its fuel, the move sizes add up to the number of bits to move, and in each
iteration the move size is the least of the three bit counts, between 1 and 8, the data index
and the position advance in step and stay below their ends. -/
theorem WriteBit_loop_trace_spec (fuel : Nat) :
    ∀ (s : Stream_T) (data : List Nat) (stop fi : Nat),
    stop - fi ≤ fuel → s.bit_index + (stop - fi) ≤ s.bit_len →
    ∃ fr s1, Stream_WriteBit_loop_trace fuel s data stop fi = some (fr, s1) ∧
      (fr.map Fragment.move_size).sum = stop - fi ∧ fr.length ≤ stop - fi ∧
      ∀ x ∈ fr,
        x.move_size = min (8 - x.foreign_index % 8)
          (min (8 - x.bit_index % 8) (stop - x.foreign_index)) ∧
        1 ≤ x.move_size ∧ x.move_size ≤ 8 ∧
        fi ≤ x.foreign_index ∧ x.foreign_index < stop ∧
        x.bit_index + fi = x.foreign_index + s.bit_index ∧ x.bit_index < s.bit_len := by
  induction fuel with
  | zero =>
    intro s data stop fi hf _
    have h : ¬ fi < stop := by omega
    refine ⟨[], s, by simp [Stream_WriteBit_loop_trace, h], ?_, ?_, ?_⟩
    · simp only [List.map_nil, List.sum_nil]
      omega
    · simp only [List.length_nil]
      omega
    · intro x hx
      cases hx
  | succ n ih =>
    intro s data stop fi hf hr
    by_cases h : fi < stop
    · obtain ⟨m1, m2, _, _⟩ := move_size_bounds fi stop s.bit_index s.bit_len h hr
      have m3 := move_size_eq fi stop s.bit_index s.bit_len hr
      generalize hmv : MIN (MIN (8 - fi % 8) (stop - fi))
        (MIN (8 - s.bit_index % 8) (s.bit_len - s.bit_index)) = mv at m1 m2 m3
      obtain ⟨fr, s1, e1, e2, e3, e4⟩ := ih
        { s with
          p_buffer := s.p_buffer.set (s.bit_index / 8)
            (Stream_WritePartByte (byteAt s.p_buffer (s.bit_index / 8))
              (Stream_ReadPartByte (byteAt data (fi / 8)) fi mv s.mode) s.bit_index mv s.mode),
          bit_index := s.bit_index + mv }
        data stop (fi + mv) (by omega) (by simp only []; omega)
      refine ⟨⟨fi, s.bit_index, mv⟩ :: fr, s1, ?_, ?_, ?_, ?_⟩
      · rw [Stream_WriteBit_loop_trace]
        simp only [h, if_true, BITS_IN_BYTE, BIT_IN_BYTE, BYTE_INDEX, Stream_TellBitInByte,
          Stream_GetLeftBits, Stream_Tell, hmv]
        rw [e1]
      · simp only [List.map_cons, List.sum_cons]
        omega
      · simp only [List.length_cons]
        omega
      · intro x hx
        rcases List.mem_cons.1 hx with rfl | hx
        · refine ⟨m3, m1, ?_, le_refl _, h, Nat.add_comm _ _, ?_⟩
          · simp only []
            omega
          · simp only []
            omega
        · obtain ⟨a1, a2, a3, a4, a5, a6, a7⟩ := e4 x hx
          simp only [] at a6 a7
          exact ⟨a1, a2, a3, by omega, a5, by omega, a7⟩
    · refine ⟨[], s, ?_, ?_, ?_, ?_⟩
      · rw [Stream_WriteBit_loop_trace]
        simp [h]
      · simp only [List.map_nil, List.sum_nil]
        omega
      · simp only [List.length_nil]
        omega
      · intro x hx
        cases hx

/-- The iterations of the loop of `Stream_ReadBit` when the bits to move fit into the cursor,
as for `Stream_WriteBit`. -/
theorem ReadBit_loop_trace_spec (fuel : Nat) :
    ∀ (s : Stream_T) (data : List Nat) (stop fi : Nat),
    stop - fi ≤ fuel → s.bit_index + (stop - fi) ≤ s.bit_len →
    ∃ fr d1 s1, Stream_ReadBit_loop_trace fuel s data stop fi = some (fr, d1, s1) ∧
      (fr.map Fragment.move_size).sum = stop - fi ∧ fr.length ≤ stop - fi ∧
      ∀ x ∈ fr,
        x.move_size = min (8 - x.foreign_index % 8)
          (min (8 - x.bit_index % 8) (stop - x.foreign_index)) ∧
        1 ≤ x.move_size ∧ x.move_size ≤ 8 ∧
        fi ≤ x.foreign_index ∧ x.foreign_index < stop ∧
        x.bit_index + fi = x.foreign_index + s.bit_index ∧ x.bit_index < s.bit_len := by
  induction fuel with
  | zero =>
    intro s data stop fi hf _
    have h : ¬ fi < stop := by omega
    refine ⟨[], data, s, by simp [Stream_ReadBit_loop_trace, h], ?_, ?_, ?_⟩
    · simp only [List.map_nil, List.sum_nil]
      omega
    · simp only [List.length_nil]
      omega
    · intro x hx
      cases hx
  | succ n ih =>
    intro s data stop fi hf hr
    by_cases h : fi < stop
    · obtain ⟨m1, m2, _, _⟩ := move_size_bounds fi stop s.bit_index s.bit_len h hr
      have m3 := move_size_eq fi stop s.bit_index s.bit_len hr
      generalize hmv : MIN (MIN (8 - fi % 8) (stop - fi))
        (MIN (8 - s.bit_index % 8) (s.bit_len - s.bit_index)) = mv at m1 m2 m3
      obtain ⟨fr, d1, s1, e1, e2, e3, e4⟩ := ih
        { s with bit_index := s.bit_index + mv }
        (data.set (fi / 8)
          (Stream_WritePartByte (byteAt data (fi / 8))
            (Stream_ReadPartByte (byteAt s.p_buffer (s.bit_index / 8)) s.bit_index mv s.mode)
            fi mv s.mode))
        stop (fi + mv) (by omega) (by simp only []; omega)
      refine ⟨⟨fi, s.bit_index, mv⟩ :: fr, d1, s1, ?_, ?_, ?_, ?_⟩
      · rw [Stream_ReadBit_loop_trace]
        simp only [h, if_true, BITS_IN_BYTE, BIT_IN_BYTE, BYTE_INDEX, Stream_TellBitInByte,
          Stream_GetLeftBits, Stream_Tell, hmv]
        rw [e1]
      · simp only [List.map_cons, List.sum_cons]
        omega
      · simp only [List.length_cons]
        omega
      · intro x hx
        rcases List.mem_cons.1 hx with rfl | hx
        · refine ⟨m3, m1, ?_, le_refl _, h, Nat.add_comm _ _, ?_⟩
          · simp only []
            omega
          · simp only []
            omega
        · obtain ⟨a1, a2, a3, a4, a5, a6, a7⟩ := e4 x hx
          simp only [] at a6 a7
          exact ⟨a1, a2, a3, by omega, a5, by omega, a7⟩
    · refine ⟨[], data, s, ?_, ?_, ?_, ?_⟩
      · rw [Stream_ReadBit_loop_trace]
        simp [h]
      · simp only [List.map_nil, List.sum_nil]
        omega
      · simp only [List.length_nil]
        omega
      · intro x hx
        cases hx

/-- The iterations of `Stream_WriteBit` for a bit count that fits into the cursor. -/
theorem WriteBit_trace_spec (s : Stream_T) (data : List Nat) (n : Nat)
    (hr : s.bit_index + n ≤ s.bit_len) :
    ∃ fr s1, Stream_WriteBit_trace s data n = some (fr, STATUS_SUCCESS, s1) ∧
      Stream_WriteBit s data n = some (STATUS_SUCCESS, s1) ∧
      (fr.map Fragment.move_size).sum = n ∧ fr.length ≤ n ∧
      ∀ x ∈ fr,
        x.move_size = min (8 - x.foreign_index % 8)
          (min (8 - x.bit_index % 8) (n + bit_offset s.mode n - x.foreign_index)) ∧
        1 ≤ x.move_size ∧ x.move_size ≤ 8 ∧
        x.foreign_index < n + bit_offset s.mode n ∧ x.bit_index < s.bit_len := by
  obtain ⟨fr, s1, e1, e2, e3, e4⟩ := WriteBit_loop_trace_spec n s data
    (n + bit_offset s.mode n) (bit_offset s.mode n) (by omega) (by omega)
  have hn : n + bit_offset s.mode n - bit_offset s.mode n = n := by omega
  rw [hn] at e2 e3
  have h : ¬ Stream_GetLeftBits s < n := by
    unfold Stream_GetLeftBits
    omega
  have ht : Stream_WriteBit_trace s data n = some (fr, STATUS_SUCCESS, s1) := by
    unfold Stream_WriteBit_trace
    simp only [h, if_false, BITS_IN_BYTE]
    unfold bit_offset at e1
    rw [e1]
    rfl
  refine ⟨fr, s1, ht, ?_, e2, e3, ?_⟩
  · rw [← WriteBit_trace_erase, ht]
    rfl
  · intro x hx
    obtain ⟨a1, a2, a3, _, a5, _, a7⟩ := e4 x hx
    exact ⟨a1, a2, a3, a5, a7⟩

/-- The iterations of `Stream_ReadBit` for a bit count that fits into the cursor. -/
theorem ReadBit_trace_spec (s : Stream_T) (data : List Nat) (n : Nat)
    (hr : s.bit_index + n ≤ s.bit_len) :
    ∃ fr d1 s1, Stream_ReadBit_trace s data n = some (fr, STATUS_SUCCESS, d1, s1) ∧
      Stream_ReadBit s data n = some (STATUS_SUCCESS, d1, s1) ∧
      (fr.map Fragment.move_size).sum = n ∧ fr.length ≤ n ∧
      ∀ x ∈ fr,
        x.move_size = min (8 - x.foreign_index % 8)
          (min (8 - x.bit_index % 8) (n + bit_offset s.mode n - x.foreign_index)) ∧
        1 ≤ x.move_size ∧ x.move_size ≤ 8 ∧
        x.foreign_index < n + bit_offset s.mode n ∧ x.bit_index < s.bit_len := by
  obtain ⟨fr, d1, s1, e1, e2, e3, e4⟩ := ReadBit_loop_trace_spec n s data
    (n + bit_offset s.mode n) (bit_offset s.mode n) (by omega) (by omega)
  have hn : n + bit_offset s.mode n - bit_offset s.mode n = n := by omega
  rw [hn] at e2 e3
  have h : ¬ Stream_GetLeftBits s < n := by
    unfold Stream_GetLeftBits
    omega
  have ht : Stream_ReadBit_trace s data n = some (fr, STATUS_SUCCESS, d1, s1) := by
    unfold Stream_ReadBit_trace
    simp only [h, if_false, BITS_IN_BYTE]
    unfold bit_offset at e1
    rw [e1]
    rfl
  refine ⟨fr, d1, s1, ht, ?_, e2, e3, ?_⟩
  · rw [← ReadBit_trace_erase, ht]
    rfl
  · intro x hx
    obtain ⟨a1, a2, a3, _, a5, _, a7⟩ := e4 x hx
    exact ⟨a1, a2, a3, a5, a7⟩

/-- The data index of an iteration is below the number of bytes that hold the bits to move. -/
theorem fragment_byte_lt (m : Stream_Mode_T) (n fi : Nat) (h : fi < n + bit_offset m n) :
    fi / 8 < (n + 7) / 8 := by
  unfold bit_offset at h
  split_ifs at h <;> omega

/-- C36: on a cursor within its capacity and for a bit count `n` that is at most the bits
left, the fragment loops of `Stream_WriteBit` and `Stream_ReadBit` end, after at most `n`
iterations; in each iteration the move size is the least of the bits left in the current byte
of the data, the bits left in the current byte of the cursor and the bits still to move, it is
between 1 and 8, and the move sizes of all iterations add up to `n`. -/
theorem C36_fragment_loop_terminates (s : Stream_T) (data : List Nat) (n : Nat)
    (hp : Stream_TellBit s ≤ Stream_GetSizeBits s)
    (hn : n ≤ Stream_GetSizeBits s - Stream_TellBit s) :
    (∃ fr s1, Stream_WriteBit_trace s data n = some (fr, STATUS_SUCCESS, s1) ∧
      Stream_WriteBit s data n = some (STATUS_SUCCESS, s1) ∧
      (fr.map Fragment.move_size).sum = n ∧ fr.length ≤ n ∧
      ∀ x ∈ fr,
        x.move_size = min (8 - x.foreign_index % 8)
          (min (8 - x.bit_index % 8) (n + bit_offset s.mode n - x.foreign_index)) ∧
        1 ≤ x.move_size ∧ x.move_size ≤ 8) ∧
    (∃ fr d1 s1, Stream_ReadBit_trace s data n = some (fr, STATUS_SUCCESS, d1, s1) ∧
      Stream_ReadBit s data n = some (STATUS_SUCCESS, d1, s1) ∧
      (fr.map Fragment.move_size).sum = n ∧ fr.length ≤ n ∧
      ∀ x ∈ fr,
        x.move_size = min (8 - x.foreign_index % 8)
          (min (8 - x.bit_index % 8) (n + bit_offset s.mode n - x.foreign_index)) ∧
        1 ≤ x.move_size ∧ x.move_size ≤ 8) := by
  unfold Stream_TellBit Stream_GetSizeBits at hp hn
  obtain ⟨fr, s1, e1, e2, e3, e4, e5⟩ := WriteBit_trace_spec s data n (by omega)
  obtain ⟨gr, d1, t1, g1, g2, g3, g4, g5⟩ := ReadBit_trace_spec s data n (by omega)
  refine ⟨⟨fr, s1, e1, e2, e3, e4, ?_⟩, ⟨gr, d1, t1, g1, g2, g3, g4, ?_⟩⟩
  · intro x hx
    obtain ⟨a1, a2, a3, _⟩ := e5 x hx
    exact ⟨a1, a2, a3⟩
  · intro x hx
    obtain ⟨a1, a2, a3, _⟩ := g5 x hx
    exact ⟨a1, a2, a3⟩

theorem C36_fragment_loop_terminates_witness :
    (Stream_TellBit ⟨[0x12, 0x34, 0x56], 24, 4, BIG⟩ ≤
        Stream_GetSizeBits ⟨[0x12, 0x34, 0x56], 24, 4, BIG⟩ ∧
      13 ≤ Stream_GetSizeBits ⟨[0x12, 0x34, 0x56], 24, 4, BIG⟩ -
        Stream_TellBit ⟨[0x12, 0x34, 0x56], 24, 4, BIG⟩) ∧
    (∃ fr s1, Stream_WriteBit_trace ⟨[0x12, 0x34, 0x56], 24, 4, BIG⟩ [0x1A, 0xBC] 13 =
        some (fr, STATUS_SUCCESS, s1) ∧
      Stream_WriteBit ⟨[0x12, 0x34, 0x56], 24, 4, BIG⟩ [0x1A, 0xBC] 13 =
        some (STATUS_SUCCESS, s1) ∧
      (fr.map Fragment.move_size).sum = 13 ∧ fr.length ≤ 13 ∧
      ∀ x ∈ fr,
        x.move_size = min (8 - x.foreign_index % 8)
          (min (8 - x.bit_index % 8) (13 + bit_offset BIG 13 - x.foreign_index)) ∧
        1 ≤ x.move_size ∧ x.move_size ≤ 8) ∧
    Stream_WriteBit_trace ⟨[0x12, 0x34, 0x56], 24, 4, BIG⟩ [0x1A, 0xBC] 13 =
      some ([⟨3, 4, 4⟩, ⟨7, 8, 1⟩, ⟨8, 9, 7⟩, ⟨15, 16, 1⟩], STATUS_SUCCESS,
        ⟨[0x1D, 0x5E, 0x56], 24, 17, BIG⟩) :=
  ⟨⟨by decide, by decide⟩,
    (C36_fragment_loop_terminates ⟨[0x12, 0x34, 0x56], 24, 4, BIG⟩ [0x1A, 0xBC] 13 (by decide)
      (by decide)).1,
    by decide⟩

/-! ## The accesses of the bit codecs to their local array -/

/-- Without the record of the accesses, `SerializeBitLE_trace` is `SerializeBitLE`. -/
theorem SerializeBitLE_trace_erase (value byte_count bit_width : Nat) (s : Stream_T) :
    (SerializeBitLE_trace value byte_count bit_width s).map Prod.snd =
      SerializeBitLE value byte_count bit_width s := by
  unfold SerializeBitLE_trace SerializeBitLE
  by_cases h : Stream_GetLeftBits s < bit_width
  · simp only [h, if_true]
    rfl
  · simp only [h, if_false]
    rw [← WriteBit_trace_erase]
    cases Stream_WriteBit_trace s _ _ with
    | none => rfl
    | some r =>
      obtain ⟨fr, result, s1⟩ := r
      simp only [Option.map_some']
      split_ifs <;> rfl

/-- Without the record of the accesses, `SerializeBitBE_trace` is `SerializeBitBE`. -/
theorem SerializeBitBE_trace_erase (value byte_count bit_width : Nat) (s : Stream_T) :
    (SerializeBitBE_trace value byte_count bit_width s).map Prod.snd =
      SerializeBitBE value byte_count bit_width s := by
  unfold SerializeBitBE_trace SerializeBitBE
  by_cases h : Stream_GetLeftBits s < bit_width
  · simp only [h, if_true]
    rfl
  · simp only [h, if_false]
    generalize (if bit_width > BITS_IN_BYTE * byte_count then
        Stream_SeekBit s (Stream_TellBit s + bit_width - BITS_IN_BYTE * byte_count)
      else (STATUS_SUCCESS, s)) = q
    obtain ⟨result, s1⟩ := q
    by_cases h2 : result ≠ STATUS_SUCCESS
    · rw [if_pos h2, if_pos h2]
      rfl
    · rw [if_neg h2, if_neg h2]
      rw [← WriteBit_trace_erase]
      cases Stream_WriteBit_trace s1 _ _ with
      | none => rfl
      | some r => rfl

/-- Without the record of the accesses, `DeserializeBitLE_trace` is `DeserializeBitLE`. -/
theorem DeserializeBitLE_trace_erase (p_data byte_count bit_width : Nat) (s : Stream_T) :
    (DeserializeBitLE_trace p_data byte_count bit_width s).map Prod.snd =
      DeserializeBitLE p_data byte_count bit_width s := by
  unfold DeserializeBitLE_trace DeserializeBitLE
  by_cases h : Stream_GetLeftBits s < bit_width
  · simp only [h, if_true]
    rfl
  · simp only [h, if_false]
    rw [← ReadBit_trace_erase]
    cases Stream_ReadBit_trace s _ _ with
    | none => rfl
    | some r =>
      obtain ⟨fr, result, d1, s1⟩ := r
      simp only [Option.map_some']
      by_cases h2 : result ≠ STATUS_SUCCESS
      · rw [if_pos h2, if_pos h2]
        rfl
      · rw [if_neg h2, if_neg h2]
        generalize (if bit_width > BITS_IN_BYTE * byte_count then
            Stream_SeekBit s1 (Stream_TellBit s1 + bit_width - BITS_IN_BYTE * byte_count)
          else (result, s1)) = q
        obtain ⟨r2, s2⟩ := q
        split_ifs <;> rfl

/-- Without the record of the accesses, `DeserializeBitBE_trace` is `DeserializeBitBE`. -/
theorem DeserializeBitBE_trace_erase (p_data byte_count bit_width : Nat) (s : Stream_T) :
    (DeserializeBitBE_trace p_data byte_count bit_width s).map Prod.snd =
      DeserializeBitBE p_data byte_count bit_width s := by
  unfold DeserializeBitBE_trace DeserializeBitBE
  by_cases h : Stream_GetLeftBits s < bit_width
  · simp only [h, if_true]
    rfl
  · simp only [h, if_false]
    generalize (if bit_width > BITS_IN_BYTE * byte_count then
        Stream_SeekBit s (Stream_TellBit s + bit_width - BITS_IN_BYTE * byte_count)
      else (STATUS_SUCCESS, s)) = q
    obtain ⟨result, s1⟩ := q
    by_cases h2 : result ≠ STATUS_SUCCESS
    · rw [if_pos h2, if_pos h2]
      rfl
    · rw [if_neg h2, if_neg h2]
      rw [← ReadBit_trace_erase]
      cases Stream_ReadBit_trace s1 _ _ with
      | none => rfl
      | some r =>
        obtain ⟨fr, r2, d1, s2⟩ := r
        simp only [Option.map_some']
        split_ifs <;> rfl

/-- `SerializeBitLE` on a cursor within its capacity returns, and accesses its array `data`
below `byte_count` only. -/
theorem SerializeBitLE_trace_indices (value byte_count bit_width : Nat) (s : Stream_T)
    (hp : s.bit_index ≤ s.bit_len) :
    ∃ idx r, SerializeBitLE_trace value byte_count bit_width s = some (idx, r) ∧
      ∀ i ∈ idx, i < byte_count := by
  unfold SerializeBitLE_trace
  by_cases h : Stream_GetLeftBits s < bit_width
  · rw [if_pos h]
    refine ⟨_, _, rfl, ?_⟩
    intro i hi
    exact List.mem_range.1 hi
  · simp only [h, if_false]
    unfold Stream_GetLeftBits at h
    have hn : MIN bit_width (BITS_IN_BYTE * byte_count) ≤ bit_width ∧
        MIN bit_width (BITS_IN_BYTE * byte_count) ≤ 8 * byte_count := by
      unfold MIN BITS_IN_BYTE
      split_ifs <;> omega
    generalize MIN bit_width (BITS_IN_BYTE * byte_count) = n at hn
    obtain ⟨fr, s1, e1, _, _, _, e5⟩ := WriteBit_trace_spec s
      ((List.range byte_count).map (fun i => GET_BYTE value i)) n (by omega)
    rw [e1]
    have hidx : ∀ i ∈ List.range byte_count ++ fr.map (fun x => BYTE_INDEX x.foreign_index),
        i < byte_count := by
      intro i hi
      rcases List.mem_append.1 hi with hi | hi
      · exact List.mem_range.1 hi
      · obtain ⟨x, hx, rfl⟩ := List.mem_map.1 hi
        have := fragment_byte_lt s.mode n x.foreign_index (e5 x hx).2.2.2.1
        unfold BYTE_INDEX BITS_IN_BYTE
        omega
    simp only [ne_eq, not_true_eq_false, if_false]
    split_ifs
    · exact ⟨_, _, rfl, hidx⟩
    · exact ⟨_, _, rfl, hidx⟩

/-- `SerializeBitBE` on a cursor within its capacity returns, and accesses its array `data`
below `byte_count` only. -/
theorem SerializeBitBE_trace_indices (value byte_count bit_width : Nat) (s : Stream_T)
    (hp : s.bit_index ≤ s.bit_len) :
    ∃ idx r, SerializeBitBE_trace value byte_count bit_width s = some (idx, r) ∧
      ∀ i ∈ idx, i < byte_count := by
  unfold SerializeBitBE_trace
  by_cases h : Stream_GetLeftBits s < bit_width
  · rw [if_pos h]
    refine ⟨_, _, rfl, ?_⟩
    intro i hi
    exact List.mem_range.1 hi
  · simp only [h, if_false]
    unfold Stream_GetLeftBits at h
    have hn : MIN bit_width (BITS_IN_BYTE * byte_count) ≤ bit_width ∧
        MIN bit_width (BITS_IN_BYTE * byte_count) ≤ 8 * byte_count ∧
        (bit_width ≤ 8 * byte_count → MIN bit_width (BITS_IN_BYTE * byte_count) = bit_width) ∧
        (8 * byte_count < bit_width →
          MIN bit_width (BITS_IN_BYTE * byte_count) = 8 * byte_count) := by
      unfold MIN BITS_IN_BYTE
      split_ifs <;> omega
    generalize MIN bit_width (BITS_IN_BYTE * byte_count) = n at hn
    obtain ⟨s0, hs0, hs1, hs2, hs3⟩ : ∃ s0 : Stream_T,
        (if bit_width > BITS_IN_BYTE * byte_count then
          Stream_SeekBit s (Stream_TellBit s + bit_width - BITS_IN_BYTE * byte_count)
        else (STATUS_SUCCESS, s)) = (STATUS_SUCCESS, s0) ∧
        s0.bit_index + n ≤ s0.bit_len ∧ s0.mode = s.mode ∧ s0.bit_len = s.bit_len := by
      by_cases hw : bit_width > BITS_IN_BYTE * byte_count
      · rw [if_pos hw]
        unfold BITS_IN_BYTE at hw
        have hk : ¬ (Stream_TellBit s + bit_width - BITS_IN_BYTE * byte_count >
            Stream_GetSizeBits s) := by
          unfold Stream_TellBit Stream_GetSizeBits BITS_IN_BYTE
          omega
        refine ⟨⟨s.p_buffer, s.bit_len,
          Stream_TellBit s + bit_width - BITS_IN_BYTE * byte_count, s.mode⟩, ?_, ?_, rfl, rfl⟩
        · unfold Stream_SeekBit
          rw [if_neg hk]
        · show Stream_TellBit s + bit_width - BITS_IN_BYTE * byte_count + n ≤ s.bit_len
          unfold Stream_TellBit BITS_IN_BYTE
          omega
      · rw [if_neg hw]
        unfold BITS_IN_BYTE at hw
        exact ⟨s, rfl, by omega, rfl, rfl⟩
    rw [hs0]
    simp only [ne_eq, not_true_eq_false, if_false]
    generalize hoff : (if bit_width ≤ (byte_count - 1) * BITS_IN_BYTE then
        byte_count - bit_width / BITS_IN_BYTE - (if bit_width % BITS_IN_BYTE ≠ 0 then 1 else 0)
      else 0) = offset
    have hoff2 : offset + (n + 7) / 8 ≤ byte_count := by
      rw [← hoff]
      unfold BITS_IN_BYTE
      split_ifs <;> omega
    obtain ⟨fr, s1, e1, _, _, _, e5⟩ := WriteBit_trace_spec s0
      (((List.range byte_count).map (fun i => GET_BYTE value (byte_count - i - 1))).drop offset)
      n hs1
    rw [e1]
    refine ⟨_, _, rfl, ?_⟩
    intro i hi
    rcases List.mem_append.1 hi with hi | hi
    · exact List.mem_range.1 hi
    · obtain ⟨x, hx, rfl⟩ := List.mem_map.1 hi
      have := fragment_byte_lt s0.mode n x.foreign_index (e5 x hx).2.2.2.1
      unfold BYTE_INDEX BITS_IN_BYTE
      omega

/-- `DeserializeBitLE` on a cursor within its capacity returns, and accesses its array `data`
below `byte_count` only. -/
theorem DeserializeBitLE_trace_indices (p_data byte_count bit_width : Nat) (s : Stream_T)
    (hp : s.bit_index ≤ s.bit_len) :
    ∃ idx r, DeserializeBitLE_trace p_data byte_count bit_width s = some (idx, r) ∧
      ∀ i ∈ idx, i < byte_count := by
  unfold DeserializeBitLE_trace
  by_cases h : Stream_GetLeftBits s < bit_width
  · rw [if_pos h]
    refine ⟨_, _, rfl, ?_⟩
    intro i hi
    exact List.mem_range.1 hi
  · simp only [h, if_false]
    unfold Stream_GetLeftBits at h
    have hn : MIN bit_width (BITS_IN_BYTE * byte_count) ≤ bit_width ∧
        MIN bit_width (BITS_IN_BYTE * byte_count) ≤ 8 * byte_count := by
      unfold MIN BITS_IN_BYTE
      split_ifs <;> omega
    generalize MIN bit_width (BITS_IN_BYTE * byte_count) = n at hn
    obtain ⟨fr, d1, s1, e1, _, _, _, e5⟩ := ReadBit_trace_spec s
      (List.replicate byte_count 0) n (by omega)
    rw [e1]
    have hidx : ∀ i ∈ List.range byte_count ++ fr.map (fun x => BYTE_INDEX x.foreign_index),
        i < byte_count := by
      intro i hi
      rcases List.mem_append.1 hi with hi | hi
      · exact List.mem_range.1 hi
      · obtain ⟨x, hx, rfl⟩ := List.mem_map.1 hi
        have := fragment_byte_lt s.mode n x.foreign_index (e5 x hx).2.2.2.1
        unfold BYTE_INDEX BITS_IN_BYTE
        omega
    have hidx2 : ∀ i ∈ (List.range byte_count ++
        fr.map (fun x => BYTE_INDEX x.foreign_index)) ++ List.range byte_count,
        i < byte_count := by
      intro i hi
      rcases List.mem_append.1 hi with hi | hi
      · exact hidx i hi
      · exact List.mem_range.1 hi
    simp only [ne_eq, not_true_eq_false, if_false]
    generalize (if bit_width > BITS_IN_BYTE * byte_count then
        Stream_SeekBit s1 (Stream_TellBit s1 + bit_width - BITS_IN_BYTE * byte_count)
      else (STATUS_SUCCESS, s1)) = q
    obtain ⟨r2, s2⟩ := q
    by_cases h2 : r2 = STATUS_SUCCESS
    · simp only [h2, ne_eq, not_true_eq_false, if_false]
      exact ⟨_, _, rfl, hidx2⟩
    · simp only [h2, ne_eq, not_false_eq_true, if_true]
      exact ⟨_, _, rfl, hidx⟩

/-- `DeserializeBitBE` on a cursor within its capacity returns, and accesses its array `data`
below `byte_count` only. -/
theorem DeserializeBitBE_trace_indices (p_data byte_count bit_width : Nat) (s : Stream_T)
    (hp : s.bit_index ≤ s.bit_len) :
    ∃ idx r, DeserializeBitBE_trace p_data byte_count bit_width s = some (idx, r) ∧
      ∀ i ∈ idx, i < byte_count := by
  unfold DeserializeBitBE_trace
  by_cases h : Stream_GetLeftBits s < bit_width
  · rw [if_pos h]
    refine ⟨_, _, rfl, ?_⟩
    intro i hi
    exact List.mem_range.1 hi
  · simp only [h, if_false]
    unfold Stream_GetLeftBits at h
    have hn : MIN bit_width (BITS_IN_BYTE * byte_count) ≤ bit_width ∧
        MIN bit_width (BITS_IN_BYTE * byte_count) ≤ 8 * byte_count ∧
        (bit_width ≤ 8 * byte_count → MIN bit_width (BITS_IN_BYTE * byte_count) = bit_width) ∧
        (8 * byte_count < bit_width →
          MIN bit_width (BITS_IN_BYTE * byte_count) = 8 * byte_count) := by
      unfold MIN BITS_IN_BYTE
      split_ifs <;> omega
    generalize MIN bit_width (BITS_IN_BYTE * byte_count) = n at hn
    obtain ⟨s0, hs0, hs1, hs2, hs3⟩ : ∃ s0 : Stream_T,
        (if bit_width > BITS_IN_BYTE * byte_count then
          Stream_SeekBit s (Stream_TellBit s + bit_width - BITS_IN_BYTE * byte_count)
        else (STATUS_SUCCESS, s)) = (STATUS_SUCCESS, s0) ∧
        s0.bit_index + n ≤ s0.bit_len ∧ s0.mode = s.mode ∧ s0.bit_len = s.bit_len := by
      by_cases hw : bit_width > BITS_IN_BYTE * byte_count
      · rw [if_pos hw]
        unfold BITS_IN_BYTE at hw
        have hk : ¬ (Stream_TellBit s + bit_width - BITS_IN_BYTE * byte_count >
            Stream_GetSizeBits s) := by
          unfold Stream_TellBit Stream_GetSizeBits BITS_IN_BYTE
          omega
        refine ⟨⟨s.p_buffer, s.bit_len,
          Stream_TellBit s + bit_width - BITS_IN_BYTE * byte_count, s.mode⟩, ?_, ?_, rfl, rfl⟩
        · unfold Stream_SeekBit
          rw [if_neg hk]
        · show Stream_TellBit s + bit_width - BITS_IN_BYTE * byte_count + n ≤ s.bit_len
          unfold Stream_TellBit BITS_IN_BYTE
          omega
      · rw [if_neg hw]
        unfold BITS_IN_BYTE at hw
        exact ⟨s, rfl, by omega, rfl, rfl⟩
    rw [hs0]
    simp only [ne_eq, not_true_eq_false, if_false]
    obtain ⟨fr, d1, s1, e1, _, _, _, e5⟩ := ReadBit_trace_spec s0
      (List.replicate byte_count 0) n hs1
    rw [e1]
    simp only [ne_eq, not_true_eq_false, if_false]
    refine ⟨_, _, rfl, ?_⟩
    intro i hi
    rcases List.mem_append.1 hi with hi | hi
    · rcases List.mem_append.1 hi with hi | hi
      · exact List.mem_range.1 hi
      · obtain ⟨x, hx, rfl⟩ := List.mem_map.1 hi
        have := fragment_byte_lt s0.mode n x.foreign_index (e5 x hx).2.2.2.1
        unfold BYTE_INDEX BITS_IN_BYTE
        omega
    · obtain ⟨k, hk, rfl⟩ := List.mem_map.1 hi
      have := List.mem_range.1 hk
      omega

/-- C38: on a cursor whose capacity is a whole number of bytes, within its capacity, and for a
bit count `n` that is at most the bits left, every iteration of `Stream_WriteBit` and of
`Stream_ReadBit` accesses the buffer of the cursor at a byte index below `Stream_GetSize` and
the array of the caller at a byte index below `n / 8` rounded up; and the four bit codecs,
for every width, access their local array `data` of `byte_count` bytes below `byte_count`
only, `SerializeBitBE` with its start `offset` included. -/
theorem C38_accesses_in_bounds (s : Stream_T) (data : List Nat)
    (n value p_data byte_count bit_width : Nat)
    (hp : Stream_TellBit s ≤ Stream_GetSizeBits s)
    (h8 : Stream_GetSizeBits s = 8 * Stream_GetSize s)
    (hn : n ≤ Stream_GetSizeBits s - Stream_TellBit s) :
    (∃ fr s1, Stream_WriteBit_trace s data n = some (fr, STATUS_SUCCESS, s1) ∧
      Stream_WriteBit s data n = some (STATUS_SUCCESS, s1) ∧
      ∀ x ∈ fr, BYTE_INDEX x.bit_index < Stream_GetSize s ∧
        BYTE_INDEX x.foreign_index < (n + 7) / 8) ∧
    (∃ fr d1 s1, Stream_ReadBit_trace s data n = some (fr, STATUS_SUCCESS, d1, s1) ∧
      Stream_ReadBit s data n = some (STATUS_SUCCESS, d1, s1) ∧
      ∀ x ∈ fr, BYTE_INDEX x.bit_index < Stream_GetSize s ∧
        BYTE_INDEX x.foreign_index < (n + 7) / 8) ∧
    (∃ idx r, SerializeBitLE_trace value byte_count bit_width s = some (idx, r) ∧
      SerializeBitLE value byte_count bit_width s = some r ∧ ∀ i ∈ idx, i < byte_count) ∧
    (∃ idx r, SerializeBitBE_trace value byte_count bit_width s = some (idx, r) ∧
      SerializeBitBE value byte_count bit_width s = some r ∧ ∀ i ∈ idx, i < byte_count) ∧
    (∃ idx r, DeserializeBitLE_trace p_data byte_count bit_width s = some (idx, r) ∧
      DeserializeBitLE p_data byte_count bit_width s = some r ∧ ∀ i ∈ idx, i < byte_count) ∧
    (∃ idx r, DeserializeBitBE_trace p_data byte_count bit_width s = some (idx, r) ∧
      DeserializeBitBE p_data byte_count bit_width s = some r ∧ ∀ i ∈ idx, i < byte_count) := by
  unfold Stream_TellBit Stream_GetSizeBits at hp hn
  unfold Stream_GetSizeBits at h8
  obtain ⟨fr, s1, e1, e2, _, _, e5⟩ := WriteBit_trace_spec s data n (by omega)
  obtain ⟨gr, d1, t1, g1, g2, _, _, g5⟩ := ReadBit_trace_spec s data n (by omega)
  have hbuf : ∀ b, b < s.bit_len → BYTE_INDEX b < Stream_GetSize s := by
    intro b hb
    unfold Stream_GetSize BITS_IN_BYTE at h8
    unfold BYTE_INDEX Stream_GetSize BITS_IN_BYTE
    omega
  obtain ⟨i1, r1, a1, b1⟩ := SerializeBitLE_trace_indices value byte_count bit_width s hp
  obtain ⟨i2, r2, a2, b2⟩ := SerializeBitBE_trace_indices value byte_count bit_width s hp
  obtain ⟨i3, r3, a3, b3⟩ := DeserializeBitLE_trace_indices p_data byte_count bit_width s hp
  obtain ⟨i4, r4, a4, b4⟩ := DeserializeBitBE_trace_indices p_data byte_count bit_width s hp
  have c1 := SerializeBitLE_trace_erase value byte_count bit_width s
  have c2 := SerializeBitBE_trace_erase value byte_count bit_width s
  have c3 := DeserializeBitLE_trace_erase p_data byte_count bit_width s
  have c4 := DeserializeBitBE_trace_erase p_data byte_count bit_width s
  rw [a1] at c1
  rw [a2] at c2
  rw [a3] at c3
  rw [a4] at c4
  refine ⟨⟨fr, s1, e1, e2, ?_⟩, ⟨gr, d1, t1, g1, g2, ?_⟩, ⟨i1, r1, a1, c1.symm, b1⟩,
    ⟨i2, r2, a2, c2.symm, b2⟩, ⟨i3, r3, a3, c3.symm, b3⟩, ⟨i4, r4, a4, c4.symm, b4⟩⟩
  · intro x hx
    obtain ⟨_, _, _, a4, a5⟩ := e5 x hx
    exact ⟨hbuf _ a5, fragment_byte_lt s.mode n x.foreign_index a4⟩
  · intro x hx
    obtain ⟨_, _, _, a4, a5⟩ := g5 x hx
    exact ⟨hbuf _ a5, fragment_byte_lt s.mode n x.foreign_index a4⟩

theorem C38_accesses_in_bounds_witness :
    (Stream_TellBit ⟨[0x12, 0x34, 0x56], 24, 4, BIG⟩ ≤
        Stream_GetSizeBits ⟨[0x12, 0x34, 0x56], 24, 4, BIG⟩ ∧
      Stream_GetSizeBits ⟨[0x12, 0x34, 0x56], 24, 4, BIG⟩ =
        8 * Stream_GetSize ⟨[0x12, 0x34, 0x56], 24, 4, BIG⟩ ∧
      13 ≤ Stream_GetSizeBits ⟨[0x12, 0x34, 0x56], 24, 4, BIG⟩ -
        Stream_TellBit ⟨[0x12, 0x34, 0x56], 24, 4, BIG⟩) ∧
    (∃ idx r, SerializeBitBE_trace 0x1ABC 4 13 ⟨[0x12, 0x34, 0x56], 24, 4, BIG⟩ =
        some (idx, r) ∧
      SerializeBitBE 0x1ABC 4 13 ⟨[0x12, 0x34, 0x56], 24, 4, BIG⟩ = some r ∧
      ∀ i ∈ idx, i < 4) ∧
    SerializeBitBE_trace 0x1ABC 4 13 ⟨[0x12, 0x34, 0x56], 24, 4, BIG⟩ =
      some ([0, 1, 2, 3, 2, 2, 3, 3], STATUS_SUCCESS, ⟨[0x1D, 0x5E, 0x56], 24, 17, BIG⟩) ∧
    DeserializeBitBE_trace 0 4 13 ⟨[0x1D, 0x5E, 0x56], 24, 4, BIG⟩ =
      some ([0, 1, 2, 3, 0, 0, 1, 1, 1, 0], STATUS_SUCCESS, 0x1ABC,
        ⟨[0x1D, 0x5E, 0x56], 24, 17, BIG⟩) :=
  ⟨⟨by decide, by decide, by decide⟩,
    (C38_accesses_in_bounds ⟨[0x12, 0x34, 0x56], 24, 4, BIG⟩ [0x1A, 0xBC] 13 0x1ABC 0 4 13
      (by decide) (by decide) (by decide)).2.2.2.1,
    by decide, by decide⟩

/-! ## Position and bit length for lists without FLOAT, DOUBLE, ARRAY_FIXED and ALIGN -/

/-- A descriptor without `FLOAT`, `DOUBLE`, `ARRAY_FIXED` and `ALIGN` that `BitParser_Serialize`
serializes with success moves the cursor to the total that `BitParser_GetLengthBit` forms from
the old position. -/
theorem Serialize_switch_position (data : Nat) (mem : List Nat) (s : Stream_T) (f : BitField_T)
    (hD : counted_in_bits f = true) (hp : s.bit_index ≤ s.bit_len)
    (hl : s.bit_len ≤ 8 * s.p_buffer.length) (h64 : s.bit_len < 2 ^ 64)
    (ha : array_bits_fit data mem f = true) :
    ∀ s1, BitParser_Serialize_switch data mem STATUS_SUCCESS s f = some (STATUS_SUCCESS, s1) →
      s1.bit_index = BitParser_GetLengthBit_switch data mem s.bit_index f ∧
      s1.bit_index ≤ s1.bit_len ∧ s1.bit_len = s.bit_len ∧
      s1.p_buffer.length = s.p_buffer.length := by
  have scalar : ∀ v bc w, 1 ≤ bc → ∀ s1,
      SerializeBit v bc w s = some (STATUS_SUCCESS, s1) →
      s1.bit_index = (s.bit_index + w) % 2 ^ 64 ∧
      s1.bit_index ≤ s1.bit_len ∧ s1.bit_len = s.bit_len ∧
      s1.p_buffer.length = s.p_buffer.length := by
    intro v bc w hbc s1 h
    rcases SerializeBit_status v bc w s hbc hp hl with ⟨_, h2⟩ | ⟨h1, s2, h2, h3, h4, _, h6⟩
    · rw [h2] at h
      cases h
    · rw [h2] at h
      cases h
      unfold Stream_GetLeftBits at h1
      refine ⟨?_, ?_, h4, h6⟩ <;> omega
  cases f with
  | U8 offset bit =>
    intro s1 h
    simp only [BitParser_GetLengthBit_switch]
    exact scalar _ 1 bit (by decide) s1 h
  | I8 offset bit =>
    intro s1 h
    simp only [BitParser_GetLengthBit_switch]
    exact scalar _ 1 bit (by decide) s1 h
  | S8 offset bit =>
    intro s1 h
    simp only [BitParser_GetLengthBit_switch]
    exact scalar _ 1 bit (by decide) s1 h
  | U16 offset bit =>
    intro s1 h
    simp only [BitParser_GetLengthBit_switch]
    exact scalar _ 2 bit (by decide) s1 h
  | I16 offset bit =>
    intro s1 h
    simp only [BitParser_GetLengthBit_switch]
    exact scalar _ 2 bit (by decide) s1 h
  | S16 offset bit =>
    intro s1 h
    simp only [BitParser_GetLengthBit_switch]
    exact scalar _ 2 bit (by decide) s1 h
  | U32 offset bit =>
    intro s1 h
    simp only [BitParser_GetLengthBit_switch]
    exact scalar _ 4 bit (by decide) s1 h
  | I32 offset bit =>
    intro s1 h
    simp only [BitParser_GetLengthBit_switch]
    exact scalar _ 4 bit (by decide) s1 h
  | S32 offset bit =>
    intro s1 h
    simp only [BitParser_GetLengthBit_switch]
    exact scalar _ 4 bit (by decide) s1 h
  | U64 offset bit =>
    intro s1 h
    simp only [BitParser_GetLengthBit_switch]
    exact scalar _ 8 bit (by decide) s1 h
  | I64 offset bit =>
    intro s1 h
    simp only [BitParser_GetLengthBit_switch]
    exact scalar _ 8 bit (by decide) s1 h
  | S64 offset bit =>
    intro s1 h
    simp only [BitParser_GetLengthBit_switch]
    exact scalar _ 8 bit (by decide) s1 h
  | FLOAT offset => exact Bool.noConfusion hD
  | DOUBLE offset => exact Bool.noConfusion hD
  | LEN offset bit =>
    intro s1 h
    simp only [BitParser_GetLengthBit_switch]
    exact scalar _ 8 bit (by decide) s1 h
  | ARRAY_FIXED offset len => exact Bool.noConfusion hD
  | ARRAY_VARIABLE offset len_offset =>
    intro s1 h
    have hn : 8 * load mem (data + len_offset) 8 < 2 ^ 64 := by
      simp only [array_bits_fit, decide_eq_true_eq] at ha
      exact ha
    have h0 : Array_SerializeBit (mem.drop (load mem (data + offset) 8))
        (load mem (data + len_offset) 8) s = some (STATUS_SUCCESS, s1) := h
    rcases Array_SerializeBit_cases (mem.drop (load mem (data + offset) 8))
      (load mem (data + len_offset) 8) s hp hl h64 hn with ⟨_, h2⟩ | ⟨h1, s2, h2, h3, h4, _, h6⟩
    · rw [h2] at h0
      cases h0
    · rw [h2] at h0
      cases h0
      unfold Stream_GetLeftBits at h1
      simp only [BitParser_GetLengthBit_switch, BITS_IN_BYTE]
      refine ⟨?_, ?_, h4, h6⟩ <;> omega
  | ALIGN => exact Bool.noConfusion hD
  | PAD bit =>
    intro s1 h
    simp only [BitParser_Serialize_switch, Stream_SeekBit, Stream_TellBit,
      Stream_GetSizeBits] at h
    by_cases hk : (s.bit_index + bit) % 2 ^ 64 > s.bit_len
    · rw [if_pos hk] at h
      cases h
    · rw [if_neg hk] at h
      cases h
      exact ⟨rfl, by simp only []; omega, rfl, rfl⟩

/-- The walk of `BitParser_Serialize` over descriptors without `FLOAT`, `DOUBLE`,
`ARRAY_FIXED` and `ALIGN`: when it succeeds, the position it ends at is the total that the
walk of `BitParser_GetLengthBit` forms from the position it started at. -/
theorem Serialize_loop_position (data : Nat) (mem : List Nat) :
    ∀ (D : List BitField_T) (s : Stream_T), (∀ f ∈ D, counted_in_bits f = true) →
    (∀ f ∈ D, array_bits_fit data mem f = true) →
    s.bit_index ≤ s.bit_len → s.bit_len ≤ 8 * s.p_buffer.length → s.bit_len < 2 ^ 64 →
    ∀ s1, BitParser_Serialize_loop data mem D STATUS_SUCCESS s = some (STATUS_SUCCESS, s1) →
      s1.bit_index = BitParser_GetLengthBit_loop data mem D s.bit_index := by
  intro D
  induction D with
  | nil =>
    intro s _ _ _ _ _ s1 h
    cases h
    rfl
  | cons f rest ih =>
    intro s hD ha hp hl h64 s1 h
    rw [BitParser_Serialize_loop] at h
    rcases hsw : BitParser_Serialize_switch data mem STATUS_SUCCESS s f with _ | ⟨st, s2⟩
    · rw [hsw] at h
      cases h
    · rw [hsw] at h
      by_cases hst : st = STATUS_SUCCESS
      · subst hst
        simp only [ne_eq, not_true_eq_false, if_false] at h
        obtain ⟨e1, e2, e3, e4⟩ := Serialize_switch_position data mem s f
          (hD f (List.mem_cons_self _ _)) hp hl h64 (ha f (List.mem_cons_self _ _)) s2 hsw
        have := ih s2 (fun g hg => hD g (List.mem_cons_of_mem _ hg))
          (fun g hg => ha g (List.mem_cons_of_mem _ hg)) e2 (by rw [e3, e4]; exact hl)
          (by rw [e3]; exact h64) s1 h
        rw [this, e1]
        rfl
      · simp only [ne_eq, hst, not_false_eq_true, if_true] at h
        cases h
        exact absurd rfl hst

/-- What `DeserializeBit` does to the cursor when it succeeds. -/
theorem DeserializeBit_success (old bc w : Nat) (s : Stream_T) (hbc1 : 1 ≤ bc) (hbc : bc ≤ 8)
    (hp : s.bit_index ≤ s.bit_len) (h64 : s.bit_len < 2 ^ 64) :
    ∀ v s1, DeserializeBit old bc w s = some (STATUS_SUCCESS, v, s1) →
      s1.bit_index = (s.bit_index + w) % 2 ^ 64 ∧ s1.bit_index ≤ s1.bit_len ∧
      s1.bit_len = s.bit_len := by
  intro v s1 h
  by_cases hs : Stream_GetLeftBits s < w
  · rw [DeserializeBit_too_short old bc w s hs] at h
    cases h
  · unfold Stream_GetLeftBits at hs
    obtain ⟨x, s2, e1, e2, e3, _⟩ := DeserializeBit_spec old bc w s hbc1 hbc (by omega)
    rw [e1] at h
    cases h
    refine ⟨?_, ?_, e3⟩ <;> omega

/-- The bit deserializers of the integer and size types return the status and the cursor of
the call of `DeserializeBit` they make. -/
theorem deserialize_codecs_cursor (old bc w : Nat) (oldi value : Int) (s : Stream_T) :
    status_and_cursor (IDeserializeBit oldi bc w s) =
      status_and_cursor (DeserializeBit 0 bc w s) ∧
    status_and_cursor (SDeserializeBit oldi bc w s) =
      status_and_cursor (DeserializeBit 0 bc w s) ∧
    status_and_cursor (U8_DeserializeBit old w s) =
      status_and_cursor (DeserializeBit 0 1 w s) ∧
    status_and_cursor (U16_DeserializeBit old w s) =
      status_and_cursor (DeserializeBit 0 2 w s) ∧
    status_and_cursor (U32_DeserializeBit old w s) =
      status_and_cursor (DeserializeBit 0 4 w s) ∧
    status_and_cursor (Size_DeserializeBit old w s) =
      status_and_cursor (DeserializeBit 0 8 w s) ∧
    status_and_cursor (I8_DeserializeBit oldi value w s) =
      status_and_cursor (IDeserializeBit value 1 w s) ∧
    status_and_cursor (I16_DeserializeBit oldi value w s) =
      status_and_cursor (IDeserializeBit value 2 w s) ∧
    status_and_cursor (I32_DeserializeBit oldi value w s) =
      status_and_cursor (IDeserializeBit value 4 w s) ∧
    status_and_cursor (S8_DeserializeBit oldi w s) =
      status_and_cursor (SDeserializeBit 0 1 w s) ∧
    status_and_cursor (S16_DeserializeBit oldi w s) =
      status_and_cursor (SDeserializeBit 0 2 w s) ∧
    status_and_cursor (S32_DeserializeBit oldi w s) =
      status_and_cursor (SDeserializeBit 0 4 w s) := by
  refine ⟨?_, ?_, ?_, ?_, ?_, ?_, ?_, ?_, ?_, ?_, ?_, ?_⟩ <;>
  · simp only [U8_DeserializeBit, U16_DeserializeBit, U32_DeserializeBit, Size_DeserializeBit,
      I8_DeserializeBit, I16_DeserializeBit, I32_DeserializeBit, S8_DeserializeBit,
      S16_DeserializeBit, S32_DeserializeBit, IDeserializeBit, SDeserializeBit]
    split
    · simp_all [status_and_cursor]
    · split_ifs <;> simp_all [status_and_cursor]

/-- Storing the value that a codec returns keeps its status and cursor. -/
theorem store_result_cursor (mem : List Nat) (addr bc : Nat)
    (r : Option (Status_T × Nat × Stream_T)) (ri : Option (Status_T × Int × Stream_T))
    (ra : Option (Status_T × List Nat × Stream_T)) :
    status_and_cursor (store_result mem addr bc r) = status_and_cursor r ∧
    status_and_cursor (store_int_result mem addr bc ri) = status_and_cursor ri ∧
    status_and_cursor (store_array_result mem addr ra) = status_and_cursor ra := by
  refine ⟨?_, ?_, ?_⟩
  · rcases r with _ | ⟨st, x, p⟩ <;> rfl
  · rcases ri with _ | ⟨st, x, p⟩ <;> rfl
  · rcases ra with _ | ⟨st, x, p⟩ <;> rfl

/-- The loop of `Array_DeserializeBit` over `m` indices with room for `m` bytes in the stream
returns, with the cursor `8 * m` bits further, whatever the status values are. -/
theorem Array_DeserializeBit_loop_pos (status_and : Status_T → Status_T → Status_T) :
    ∀ (m a : Nat) (r0 : Status_T) (d : List Nat) (s : Stream_T),
    s.bit_index + 8 * m ≤ s.bit_len →
    ∃ r d1 s1, Array_DeserializeBit_loop status_and (List.range' a m) r0 d s =
        some (r, d1, s1) ∧
      s1.bit_index = s.bit_index + 8 * m ∧ s1.bit_len = s.bit_len := by
  intro m
  induction m with
  | zero =>
    intro a r0 d s _
    exact ⟨r0, d, s, rfl, rfl, rfl⟩
  | succ m ih =>
    intro a r0 d s hr
    obtain ⟨x, s1, e1, e2, e3, _⟩ := U8_DeserializeBit_byte (byteAt d a) s (by omega)
    obtain ⟨r, d2, s2, f1, f2, f3⟩ := ih (a + 1) (status_and r0 STATUS_SUCCESS) (d.set a x) s1
      (by omega)
    refine ⟨r, d2, s2, ?_, by omega, by omega⟩
    rw [List.range'_succ, Array_DeserializeBit_loop]
    simp only [BITS_IN_BYTE, e1]
    exact f1

/-- What `Array_DeserializeBit` does to the cursor when it succeeds, for an array of fewer
than `2 ^ 61` bytes. -/
theorem Array_DeserializeBit_success (status_and : Status_T → Status_T → Status_T)
    (d : List Nat) (n : Nat) (s : Stream_T) (hp : s.bit_index ≤ s.bit_len)
    (h64 : s.bit_len < 2 ^ 64) (hn : 8 * n < 2 ^ 64) :
    ∀ d1 s1, Array_DeserializeBit status_and d n s = some (STATUS_SUCCESS, d1, s1) →
      s1.bit_index = s.bit_index + 8 * n ∧ s1.bit_index ≤ s1.bit_len ∧
      s1.bit_len = s.bit_len := by
  intro d1 s1 h
  by_cases hs : Stream_GetLeftBits s < 8 * n
  · rw [((other_codecs_too_short s 0 0 n 0 d status_and).2.1 hs).2.2.2 hn |>.2] at h
    cases h
  · unfold Stream_GetLeftBits at hs
    obtain ⟨r, d2, s2, e1, e2, e3⟩ :=
      Array_DeserializeBit_loop_pos status_and n 0 STATUS_SUCCESS d s (by omega)
    unfold Array_DeserializeBit at h
    have hk : ¬ (Stream_GetLeftBits s < (n * BITS_IN_BYTE) % 2 ^ 64) := by
      unfold Stream_GetLeftBits BITS_IN_BYTE
      omega
    rw [if_neg hk, List.range_eq_range', e1] at h
    cases h
    refine ⟨e2, ?_, e3⟩
    omega

/-- A descriptor without `FLOAT`, `DOUBLE`, `ARRAY_FIXED` and `ALIGN` that
`BitParser_Deserialize` deserializes with success moves the cursor to the total that
`BitParser_GetLengthBit` forms from the old position and the record being filled. -/
theorem Deserialize_switch_position (status_and : Status_T → Status_T → Status_T)
    (value : Int) (data : Nat) (mem : List Nat) (s : Stream_T) (f : BitField_T)
    (hD : counted_in_bits f = true) (hp : s.bit_index ≤ s.bit_len) (h64 : s.bit_len < 2 ^ 64)
    (ha : array_bits_fit data mem f = true) :
    ∀ mem1 s1, BitParser_Deserialize_switch status_and value data mem STATUS_SUCCESS s f =
        some (STATUS_SUCCESS, mem1, s1) →
      s1.bit_index = BitParser_GetLengthBit_switch data mem s.bit_index f ∧
      s1.bit_index ≤ s1.bit_len ∧ s1.bit_len = s.bit_len := by
  have scalar : ∀ (W : Option (Status_T × List Nat × Stream_T)) (old bc w : Nat),
      1 ≤ bc → bc ≤ 8 →
      status_and_cursor W = status_and_cursor (DeserializeBit old bc w s) →
      ∀ mem1 s1, W = some (STATUS_SUCCESS, mem1, s1) →
        s1.bit_index = (s.bit_index + w) % 2 ^ 64 ∧ s1.bit_index ≤ s1.bit_len ∧
        s1.bit_len = s.bit_len := by
    intro W old bc w hbc1 hbc hW mem1 s1 h
    rw [h] at hW
    rcases hR : DeserializeBit old bc w s with _ | ⟨st, x, p⟩
    · rw [hR] at hW
      cases hW
    · rw [hR] at hW
      simp only [status_and_cursor, Option.map_some', Option.some.injEq, Prod.mk.injEq] at hW
      obtain ⟨h1, h2⟩ := hW
      subst h1
      subst h2
      exact DeserializeBit_success old bc w s hbc1 hbc hp h64 x s1 hR
  have c := fun (old w : Nat) (oldi : Int) (bc : Nat) =>
    deserialize_codecs_cursor old bc w oldi value s
  have ci := fun (oldi : Int) (bc w : Nat) =>
    (deserialize_codecs_cursor 0 bc w oldi value s).1
  have cs := fun (oldi : Int) (bc w : Nat) =>
    (deserialize_codecs_cursor 0 bc w oldi value s).2.1
  have st := fun (addr bc : Nat) (r : Option (Status_T × Nat × Stream_T)) =>
    (store_result_cursor mem addr bc r none none).1
  have sti := fun (addr bc : Nat) (r : Option (Status_T × Int × Stream_T)) =>
    (store_result_cursor mem addr bc none r none).2.1
  cases f with
  | U8 offset bit =>
    intro mem1 s1 h
    simp only [BitParser_GetLengthBit_switch]
    exact scalar _ 0 1 bit (by decide) (by decide)
      ((st _ 1 _).trans (c (load mem (data + offset) 1) bit 0 1).2.2.1) mem1 s1 h
  | I8 offset bit =>
    intro mem1 s1 h
    simp only [BitParser_GetLengthBit_switch]
    exact scalar _ 0 1 bit (by decide) (by decide)
      (((sti _ 1 _).trans (c 0 bit (load_int mem (data + offset) 1) 1).2.2.2.2.2.2.1).trans
        (ci value 1 bit)) mem1 s1 h
  | S8 offset bit =>
    intro mem1 s1 h
    simp only [BitParser_GetLengthBit_switch]
    exact scalar _ 0 1 bit (by decide) (by decide)
      (((sti _ 1 _).trans
        (c 0 bit (load_int mem (data + offset) 1) 1).2.2.2.2.2.2.2.2.2.1).trans
        (cs 0 1 bit)) mem1 s1 h
  | U16 offset bit =>
    intro mem1 s1 h
    simp only [BitParser_GetLengthBit_switch]
    exact scalar _ 0 2 bit (by decide) (by decide)
      ((st _ 2 _).trans (c (load mem (data + offset) 2) bit 0 2).2.2.2.1) mem1 s1 h
  | I16 offset bit =>
    intro mem1 s1 h
    simp only [BitParser_GetLengthBit_switch]
    exact scalar _ 0 2 bit (by decide) (by decide)
      (((sti _ 2 _).trans (c 0 bit (load_int mem (data + offset) 2) 2).2.2.2.2.2.2.2.1).trans
        (ci value 2 bit)) mem1 s1 h
  | S16 offset bit =>
    intro mem1 s1 h
    simp only [BitParser_GetLengthBit_switch]
    exact scalar _ 0 2 bit (by decide) (by decide)
      (((sti _ 2 _).trans
        (c 0 bit (load_int mem (data + offset) 2) 2).2.2.2.2.2.2.2.2.2.2.1).trans
        (cs 0 2 bit)) mem1 s1 h
  | U32 offset bit =>
    intro mem1 s1 h
    simp only [BitParser_GetLengthBit_switch]
    exact scalar _ 0 4 bit (by decide) (by decide)
      ((st _ 4 _).trans (c (load mem (data + offset) 4) bit 0 4).2.2.2.2.1) mem1 s1 h
  | I32 offset bit =>
    intro mem1 s1 h
    simp only [BitParser_GetLengthBit_switch]
    exact scalar _ 0 4 bit (by decide) (by decide)
      (((sti _ 4 _).trans (c 0 bit (load_int mem (data + offset) 4) 4).2.2.2.2.2.2.2.2.1).trans
        (ci value 4 bit)) mem1 s1 h
  | S32 offset bit =>
    intro mem1 s1 h
    simp only [BitParser_GetLengthBit_switch]
    exact scalar _ 0 4 bit (by decide) (by decide)
      (((sti _ 4 _).trans
        (c 0 bit (load_int mem (data + offset) 4) 4).2.2.2.2.2.2.2.2.2.2.2).trans
        (cs 0 4 bit)) mem1 s1 h
  | U64 offset bit =>
    intro mem1 s1 h
    simp only [BitParser_GetLengthBit_switch]
    exact scalar _ (load mem (data + offset) 8) 8 bit (by decide) (by decide)
      (st _ 8 _) mem1 s1 h
  | I64 offset bit =>
    intro mem1 s1 h
    simp only [BitParser_GetLengthBit_switch]
    exact scalar _ 0 8 bit (by decide) (by decide)
      ((sti _ 8 _).trans (ci (load_int mem (data + offset) 8) 8 bit)) mem1 s1 h
  | S64 offset bit =>
    intro mem1 s1 h
    simp only [BitParser_GetLengthBit_switch]
    exact scalar _ 0 8 bit (by decide) (by decide)
      ((sti _ 8 _).trans (cs (load_int mem (data + offset) 8) 8 bit)) mem1 s1 h
  | FLOAT offset => exact Bool.noConfusion hD
  | DOUBLE offset => exact Bool.noConfusion hD
  | LEN offset bit =>
    intro mem1 s1 h
    simp only [BitParser_GetLengthBit_switch]
    exact scalar _ 0 8 bit (by decide) (by decide)
      ((st _ 8 _).trans (c (load mem (data + offset) 8) bit 0 8).2.2.2.2.2.1) mem1 s1 h
  | ARRAY_FIXED offset len => exact Bool.noConfusion hD
  | ARRAY_VARIABLE offset len_offset =>
    intro mem1 s1 h
    have hn : 8 * load mem (data + len_offset) 8 < 2 ^ 64 := by
      simp only [array_bits_fit, decide_eq_true_eq] at ha
      exact ha
    have h0 : store_array_result mem (load mem (data + offset) 8)
        (Array_DeserializeBit status_and (mem.drop (load mem (data + offset) 8))
          (load mem (data + len_offset) 8) s) = some (STATUS_SUCCESS, mem1, s1) := h
    rcases hR : Array_DeserializeBit status_and (mem.drop (load mem (data + offset) 8))
      (load mem (data + len_offset) 8) s with _ | ⟨st2, d1, p⟩
    · rw [hR] at h0
      cases h0
    · rw [hR] at h0
      simp only [store_array_result, Option.some.injEq, Prod.mk.injEq] at h0
      obtain ⟨h1, _, h3⟩ := h0
      subst h1
      subst h3
      obtain ⟨e1, e2, e3⟩ := Array_DeserializeBit_success status_and _ _ s hp h64 hn d1 p hR
      simp only [BitParser_GetLengthBit_switch, BITS_IN_BYTE]
      refine ⟨?_, e2, e3⟩
      omega
  | ALIGN => exact Bool.noConfusion hD
  | PAD bit =>
    intro mem1 s1 h
    simp only [BitParser_Deserialize_switch, Stream_SeekBit, Stream_TellBit,
      Stream_GetSizeBits] at h
    by_cases hk : (s.bit_index + bit) % 2 ^ 64 > s.bit_len
    · rw [if_pos hk] at h
      cases h
    · rw [if_neg hk] at h
      cases h
      exact ⟨rfl, by simp only []; omega, rfl⟩

/-- For a descriptor whose length agrees in two memories, `BitParser_GetLengthBit` adds the
same number of bits in both. -/
theorem length_agrees_switch (data : Nat) (mem memr : List Nat) (t : Nat) (f : BitField_T)
    (h : length_agrees data mem memr f = true) :
    BitParser_GetLengthBit_switch data mem t f = BitParser_GetLengthBit_switch data memr t f ∧
    array_bits_fit data mem f = array_bits_fit data memr f := by
  cases f with
  | ARRAY_VARIABLE offset len_offset =>
    simp only [length_agrees, decide_eq_true_eq] at h
    simp only [BitParser_GetLengthBit_switch, array_bits_fit, h, and_self]
  | _ => exact ⟨rfl, rfl⟩

/-- The walk of `BitParser_Deserialize` over descriptors without `FLOAT`, `DOUBLE`,
`ARRAY_FIXED` and `ALIGN`, where the lengths that the `ARRAY_VARIABLE` descriptors find are
those of the record in `memr`: when it succeeds, the position it ends at is the total that the
walk of `BitParser_GetLengthBit` forms for that record from the position it started at. -/
theorem Deserialize_loop_position (status_and : Status_T → Status_T → Status_T)
    (value : Int) (data : Nat) (memr : List Nat) :
    ∀ (D : List BitField_T) (mem : List Nat) (s : Stream_T),
    (∀ f ∈ D, counted_in_bits f = true) → (∀ f ∈ D, array_bits_fit data memr f = true) →
    decoded_lengths_agree status_and value data memr D mem s = true →
    s.bit_index ≤ s.bit_len → s.bit_len < 2 ^ 64 →
    ∀ mem1 s1, BitParser_Deserialize_loop status_and value data D STATUS_SUCCESS mem s =
        some (STATUS_SUCCESS, mem1, s1) →
      s1.bit_index = BitParser_GetLengthBit_loop data memr D s.bit_index := by
  intro D
  induction D with
  | nil =>
    intro mem s _ _ _ _ _ mem1 s1 h
    cases h
    rfl
  | cons f rest ih =>
    intro mem s hD ha hg hp h64 mem1 s1 h
    rw [BitParser_Deserialize_loop] at h
    rw [decoded_lengths_agree, Bool.and_eq_true] at hg
    obtain ⟨hg1, hg2⟩ := hg
    obtain ⟨k1, k2⟩ := length_agrees_switch data mem memr s.bit_index f hg1
    rcases hsw : BitParser_Deserialize_switch status_and value data mem STATUS_SUCCESS s f
      with _ | ⟨st, mem2, s2⟩
    · rw [hsw] at h
      cases h
    · rw [hsw] at h hg2
      by_cases hst : st = STATUS_SUCCESS
      · subst hst
        simp only [ne_eq, not_true_eq_false, if_false] at h
        simp only [] at hg2
        obtain ⟨e1, e2, e3⟩ := Deserialize_switch_position status_and value data mem s f
          (hD f (List.mem_cons_self _ _)) hp h64
          (by rw [k2]; exact ha f (List.mem_cons_self _ _)) mem2 s2 hsw
        have := ih mem2 s2 (fun g hg => hD g (List.mem_cons_of_mem _ hg))
          (fun g hg => ha g (List.mem_cons_of_mem _ hg)) hg2 e2 (by rw [e3]; exact h64) mem1 s1 h
        rw [this, e1, k1]
        rfl
      · simp only [ne_eq, hst, not_false_eq_true, if_true] at h
        cases h
        exact absurd rfl hst

/-- C39 (counterexample): the descriptors `ARRAY_VARIABLE, LEN` of the record of
`test_simple_array`, in this order, deserialized from the bytes `08 01 .. 08` into the record
with length 0: the array descriptor finds the length 0 and reads nothing, then `LEN` decodes
the length 8, which is the length of the serialized record; the deserialization succeeds and
the cursor is at position 8, while `BitParser_GetLengthBit` of the record is 72. -/
theorem C39_length_decoded_after_the_array :
    BitParser_Deserialize (fun (a b : Status_T) => if a = b then a else STATUS_SUCCESS) 0
        [.ARRAY_VARIABLE 8 0, .LEN 0 8] 2 0 test_simple_array_blank
        (Stream_Init test_simple_array_expected 9 BIG) =
      some (STATUS_SUCCESS,
        [8, 0, 0, 0, 0, 0, 0, 0, 16, 0, 0, 0, 0, 0, 0, 0, 0, 0, 0, 0, 0, 0, 0, 0],
        ⟨test_simple_array_expected, 72, 8, BIG⟩) ∧
    load [8, 0, 0, 0, 0, 0, 0, 0, 16, 0, 0, 0, 0, 0, 0, 0, 0, 0, 0, 0, 0, 0, 0, 0] (0 + 0) 8 =
      load test_simple_array_msg (0 + 0) 8 ∧
    BitParser_GetLengthBit [.ARRAY_VARIABLE 8 0, .LEN 0 8] 2 0 test_simple_array_msg = 72 ∧
    decoded_lengths_agree (fun (a b : Status_T) => if a = b then a else STATUS_SUCCESS) 0 0
        test_simple_array_msg [.ARRAY_VARIABLE 8 0, .LEN 0 8] test_simple_array_blank
        (Stream_Init test_simple_array_expected 9 BIG) = false := by
  refine ⟨by decide, by decide, by decide, by decide⟩

/-- C39 (amended): for a descriptor list made of integer descriptors of any bit width, `LEN`,
`PAD` and `ARRAY_VARIABLE` descriptors, and a record whose variable arrays have fewer than
`2 ^ 61` bytes: when `BitParser_Serialize` succeeds on a fresh cursor, `Stream_TellBit` is
`BitParser_GetLengthBit` of the record; and when `BitParser_Deserialize` succeeds on a fresh
cursor and every `ARRAY_VARIABLE` descriptor, when the walk reaches it, finds in the record
being filled the length that the record holds, `Stream_TellBit` is `BitParser_GetLengthBit`
of the record too. -/
theorem C39_position_is_bit_length (status_and : Status_T → Status_T → Status_T)
    (value : Int) (D : List BitField_T) (data : Nat) (mem mem0 buf : List Nat) (len : Nat)
    (mode : Stream_Mode_T)
    (hD : ∀ f ∈ D, counted_in_bits f = true)
    (ha : ∀ f ∈ D, array_bits_fit data mem f = true)
    (hbuf : len ≤ buf.length) (h64 : 8 * len < 2 ^ 64) :
    (∀ s1, BitParser_Serialize D D.length data mem (Stream_Init buf len mode) =
        some (STATUS_SUCCESS, s1) →
      Stream_TellBit s1 = BitParser_GetLengthBit D D.length data mem) ∧
    (∀ mem1 s1, BitParser_Deserialize status_and value D D.length data mem0
        (Stream_Init buf len mode) = some (STATUS_SUCCESS, mem1, s1) →
      decoded_lengths_agree status_and value data mem D mem0 (Stream_Init buf len mode) = true →
      Stream_TellBit s1 = BitParser_GetLengthBit D D.length data mem) := by
  have i1 : (Stream_Init buf len mode).bit_index ≤ (Stream_Init buf len mode).bit_len :=
    Nat.zero_le _
  have i2 : (Stream_Init buf len mode).bit_len ≤ 8 * (Stream_Init buf len mode).p_buffer.length := by
    show len * 8 ≤ 8 * buf.length
    omega
  have i3 : (Stream_Init buf len mode).bit_len < 2 ^ 64 := by
    show len * 8 < 2 ^ 64
    omega
  unfold BitParser_Serialize BitParser_Deserialize BitParser_GetLengthBit Stream_TellBit
  rw [List.take_length]
  constructor
  · intro s1 h
    exact Serialize_loop_position data mem D _ hD ha i1 i2 i3 s1 h
  · intro mem1 s1 h hg
    exact Deserialize_loop_position status_and value data mem D mem0 _ hD ha hg i1 i3 mem1 s1 h

theorem C39_position_is_bit_length_witness :
    ((∀ f ∈ [BitField_T.LEN 0 8, .ARRAY_VARIABLE 8 0, .PAD 4, .S16 0 20],
        counted_in_bits f = true) ∧
      (∀ f ∈ [BitField_T.LEN 0 8, .ARRAY_VARIABLE 8 0, .PAD 4, .S16 0 20],
        array_bits_fit 0 test_simple_array_msg f = true) ∧
      12 ≤ [8, 1, 2, 3, 4, 5, 6, 7, 8, 0, 0, 8].length ∧ 8 * 12 < 2 ^ 64) ∧
    ((∀ s1, BitParser_Serialize [.LEN 0 8, .ARRAY_VARIABLE 8 0, .PAD 4, .S16 0 20]
        [BitField_T.LEN 0 8, .ARRAY_VARIABLE 8 0, .PAD 4, .S16 0 20].length 0
        test_simple_array_msg (Stream_Init [8, 1, 2, 3, 4, 5, 6, 7, 8, 0, 0, 8] 12 BIG) =
        some (STATUS_SUCCESS, s1) →
      Stream_TellBit s1 = BitParser_GetLengthBit [.LEN 0 8, .ARRAY_VARIABLE 8 0, .PAD 4, .S16 0 20]
        [BitField_T.LEN 0 8, .ARRAY_VARIABLE 8 0, .PAD 4, .S16 0 20].length 0
        test_simple_array_msg) ∧
    (∀ mem1 s1, BitParser_Deserialize (fun (a b : Status_T) => if a = b then a else STATUS_SUCCESS)
        0 [.LEN 0 8, .ARRAY_VARIABLE 8 0, .PAD 4, .S16 0 20]
        [BitField_T.LEN 0 8, .ARRAY_VARIABLE 8 0, .PAD 4, .S16 0 20].length 0
        test_simple_array_blank (Stream_Init [8, 1, 2, 3, 4, 5, 6, 7, 8, 0, 0, 8] 12 BIG) =
        some (STATUS_SUCCESS, mem1, s1) →
      decoded_lengths_agree (fun (a b : Status_T) => if a = b then a else STATUS_SUCCESS) 0 0
        test_simple_array_msg [.LEN 0 8, .ARRAY_VARIABLE 8 0, .PAD 4, .S16 0 20]
        test_simple_array_blank (Stream_Init [8, 1, 2, 3, 4, 5, 6, 7, 8, 0, 0, 8] 12 BIG) = true →
      Stream_TellBit s1 = BitParser_GetLengthBit [.LEN 0 8, .ARRAY_VARIABLE 8 0, .PAD 4, .S16 0 20]
        [BitField_T.LEN 0 8, .ARRAY_VARIABLE 8 0, .PAD 4, .S16 0 20].length 0
        test_simple_array_msg)) ∧
    BitParser_Serialize [.LEN 0 8, .ARRAY_VARIABLE 8 0, .PAD 4, .S16 0 20] 4 0
        test_simple_array_msg (Stream_Init (List.replicate 12 0) 12 BIG) =
      some (STATUS_SUCCESS, ⟨[8, 1, 2, 3, 4, 5, 6, 7, 8, 0, 0, 8], 96, 96, BIG⟩) ∧
    BitParser_Deserialize (fun (a b : Status_T) => if a = b then a else STATUS_SUCCESS) 0
        [.LEN 0 8, .ARRAY_VARIABLE 8 0, .PAD 4, .S16 0 20] 4 0 test_simple_array_blank
        (Stream_Init [8, 1, 2, 3, 4, 5, 6, 7, 8, 0, 0, 8] 12 BIG) =
      some (STATUS_SUCCESS, test_simple_array_msg,
        ⟨[8, 1, 2, 3, 4, 5, 6, 7, 8, 0, 0, 8], 96, 96, BIG⟩) ∧
    decoded_lengths_agree (fun (a b : Status_T) => if a = b then a else STATUS_SUCCESS) 0 0
        test_simple_array_msg [.LEN 0 8, .ARRAY_VARIABLE 8 0, .PAD 4, .S16 0 20]
        test_simple_array_blank (Stream_Init [8, 1, 2, 3, 4, 5, 6, 7, 8, 0, 0, 8] 12 BIG) = true ∧
    BitParser_GetLengthBit [.LEN 0 8, .ARRAY_VARIABLE 8 0, .PAD 4, .S16 0 20] 4 0
      test_simple_array_msg = 96 :=
  ⟨⟨by decide, by decide, by decide, by decide⟩,
    C39_position_is_bit_length (fun (a b : Status_T) => if a = b then a else STATUS_SUCCESS) 0
      [.LEN 0 8, .ARRAY_VARIABLE 8 0, .PAD 4, .S16 0 20] 0 test_simple_array_msg
      test_simple_array_blank [8, 1, 2, 3, 4, 5, 6, 7, 8, 0, 0, 8] 12 BIG (by decide) (by decide)
      (by decide) (by decide),
    by decide, by decide, by decide, by decide⟩

end BitParser
